import Mathlib

/-!
# Chat server (Final Project/server/chatserver.c): shallow embedding

The server keeps three global tables: `clients` (50 session slots), `rooms`
(20 room slots of 15 member entries each) and `upload_queue` (a ring buffer of
15 transfer requests).  They are embedded as lists; a C string is the list of
the characters that precede its terminating NUL.  Every call of `send(2)` made
by the code is recorded, in order, in the field `sent` of the state, together
with the outcome the network gave it.
-/

namespace ChatServer

/-! ## Constants of common.h -/

def MAX_MSG_LEN : Nat := 1024
def MAX_USERNAME_LEN : Nat := 16
def MAX_CLIENTS_GLOBAL : Nat := 50
def MAX_ROOM_NAME_LEN : Nat := 32
def MAX_ROOM_USERS : Nat := 15
def MAX_ROOMS : Nat := 20
def MAX_FILENAME_LEN : Nat := 256
def MAX_FILE_SIZE : Nat := 3 * 1024 * 1024
def MAX_UPLOAD_QUEUE : Nat := 5

/-- A C string: the characters before the terminating NUL, one `Char` per byte. -/
abbrev CStr := List Char

def FILE_NOTIFICATION : CStr := "FILE_NOTIFY:".toList
def SERVER_RESPONSE_OK : CStr := "OK:".toList
def SERVER_RESPONSE_ERROR : CStr := "ERROR:".toList

/-! ## libc helpers -/

/-- Function `isalnum` in the "C" locale (the server never calls `setlocale`). -/
def isalnum (c : Char) : Bool := c.isAlpha || c.isDigit

/-- Call `snprintf(buf, size, ...)`: the formatted text, cut to `size - 1` characters. -/
def snprintf (size : Nat) (text : CStr) : CStr := text.take (size - 1)

/-- Conversion `%d` of a number. -/
def fmt_d (n : Int) : CStr := (toString n).toList

/-- The C string held by a buffer filled with `data`: it ends at the first NUL. -/
def c_str (data : List Char) : CStr := data.takeWhile (fun c => c != Char.ofNat 0)

/-- Statement `buffer[strcspn(buffer, "\r\n")] = 0`: the string is cut at its first CR or LF. -/
def cut_crlf (buffer : CStr) : CStr :=
  buffer.takeWhile (fun c => c != Char.ofNat 13 && c != Char.ofNat 10)

/-! ## Data model of server_utils.h -/

/-- Session slot `client_t` (the thread id is not modelled). -/
structure client_t where
  sockfd : Int
  username : CStr
  ip_addr : CStr
  active : Bool
  current_room_name : CStr
deriving DecidableEq, Repr

/-- Room slot `room_t` (the mutex is not modelled). -/
structure room_t where
  name : CStr
  member_client_indices : List Int
  num_users : Int
  active : Bool
deriving DecidableEq, Repr

inductive transfer_status_t where
  | TRANSFER_PENDING
  | TRANSFER_PROCESSING
  | TRANSFER_COMPLETED
  | TRANSFER_FAILED
deriving DecidableEq, Repr

structure file_transfer_t where
  filename : CStr
  sender_username : CStr
  receiver_username : CStr
  server_filepath : CStr
  sender_idx : Int
  receiver_idx : Int
  file_size : Nat
  request_time : Int
  start_time : Int
  completion_time : Int
  status : transfer_status_t
  processor_thread_id : Int
  error_message : CStr
deriving DecidableEq, Repr

/-- Queue `file_queue_t`; `queue_semaphore` is the value of the counting semaphore
(mutex and condition variables are not modelled). -/
structure file_queue_t where
  transfers : List file_transfer_t
  front : Int
  rear : Int
  count : Int
  total_processed : Int
  total_failed : Int
  queue_semaphore : Int
deriving DecidableEq, Repr

/-- One call of `send(2)`: the slot whose connection is written to (`none` for a
socket that has no slot), the descriptor used, the text and whether the network
accepted it. -/
structure Sent where
  to_idx : Option Nat
  sockfd : Int
  text : CStr
  ok : Bool
deriving DecidableEq, Repr

/-- The global variables of the server, the log of its `send` calls and the
outcomes the network will give to the next calls (`net`, success once exhausted). -/
structure Server where
  clients : List client_t
  rooms : List room_t
  upload_queue : file_queue_t
  server_running : Bool
  sent : List Sent
  net : List Bool
deriving DecidableEq, Repr

/-- A zero-filled `client_t`. -/
def zero_client : client_t :=
  { sockfd := 0, username := [], ip_addr := [], active := false, current_room_name := [] }

/-- A zero-filled `room_t`. -/
def zero_room : room_t :=
  { name := [], member_client_indices := List.replicate MAX_ROOM_USERS 0, num_users := 0,
    active := false }

/-- A zero-filled `file_transfer_t` (`memset(&transfer, 0, sizeof(transfer))`). -/
def zero_transfer : file_transfer_t :=
  { filename := [], sender_username := [], receiver_username := [], server_filepath := [],
    sender_idx := 0, receiver_idx := 0, file_size := 0, request_time := 0, start_time := 0,
    completion_time := 0, status := transfer_status_t.TRANSFER_PENDING,
    processor_thread_id := 0, error_message := [] }

/-- Read of `clients[i]`. -/
def client_at (clients : List client_t) (i : Nat) : client_t := (clients[i]?).getD zero_client

/-- Read of `rooms[i]`. -/
def room_at (rooms : List room_t) (i : Nat) : room_t := (rooms[i]?).getD zero_room

/-- The call `send(sockfd, text, strlen(text), flags)` on the connection of slot `to_idx`:
returns the number of bytes written, or -1 when the network refuses. -/
def send (s : Server) (to_idx : Option Nat) (sockfd : Int) (text : CStr) : Server × Int :=
  let ok := s.net.headD true
  ({ s with sent := s.sent ++ [{ to_idx := to_idx, sockfd := sockfd, text := text, ok := ok }],
            net := s.net.tail },
   if ok then (text.length : Int) else -1)

/-! ## Session registry -/

/-- Table after `initialize_clients`. -/
def initialize_clients : List client_t :=
  List.replicate MAX_CLIENTS_GLOBAL
    { sockfd := -1, username := [], ip_addr := [], active := false, current_room_name := [] }

/-- First index `i` with `p xs[i]`, the result of a scan `for (i = 0; ...) if (p) break`. -/
def firstIdx {α : Type} (p : α → Bool) : List α → Option Nat
  | [] => none
  | x :: xs => if p x then some 0 else (firstIdx p xs).map (· + 1)

/-- Search `find_free_client_slot`: `none` stands for the result -1. -/
def find_free_client_slot (clients : List client_t) : Option Nat :=
  firstIdx (fun c => c.active == false) clients

/-- Check `is_username_valid_and_unique`, called with `clients_mutex` held. -/
def is_username_valid_and_unique (clients : List client_t) (username : CStr) : Int :=
  if username.length = 0 ∨ username.length > MAX_USERNAME_LEN then 0
  else if username.any (fun c => !isalnum c) then 0
  else if clients.any (fun c => c.active && c.username != [] && c.username == username) then 0
  else 1

/-! ## Room directory -/

/-- Table after `initialize_rooms`. -/
def initialize_rooms : List room_t :=
  List.replicate MAX_ROOMS
    { name := [], member_client_indices := List.replicate MAX_ROOM_USERS (-1), num_users := 0,
      active := false }

/-- Search `find_room_idx_by_name`: `none` stands for the result -1. -/
def find_room_idx_by_name (rooms : List room_t) (room_name : CStr) : Option Nat :=
  firstIdx (fun r => r.active && r.name == room_name) rooms

/-- Check `is_room_name_valid`. -/
def is_room_name_valid (room_name : CStr) : Int :=
  if room_name.length = 0 ∨ room_name.length > MAX_ROOM_NAME_LEN then 0
  else if room_name.any (fun c => !isalnum c) then 0
  else 1

/-- Write of `clients[i].current_room_name` (`strncpy` of at most 32 characters, or
`memset` to zero for the empty name). -/
def set_current_room_name (clients : List client_t) (i : Nat) (name : CStr) : List client_t :=
  clients.set i { client_at clients i with current_room_name := name.take MAX_ROOM_NAME_LEN }

/-- The notification loops over `member_client_indices`: each entry selected by `sel`
whose session is active is sent `text`; the result counts the sends that returned
a positive value. -/
def fan_out (sel : Int → Bool) (text : CStr) : Server → List Int → Server × Int
  | s, [] => (s, 0)
  | s, member_idx :: rest =>
    if sel member_idx then
      let recipient_sockfd : Int :=
        if (client_at s.clients member_idx.toNat).active then
          (client_at s.clients member_idx.toNat).sockfd
        else -1
      if recipient_sockfd ≠ -1 then
        let r := send s (some member_idx.toNat) recipient_sockfd text
        let k := fan_out sel text r.1 rest
        (k.1, if r.2 > 0 then k.2 + 1 else k.2)
      else fan_out sel text s rest
    else fan_out sel text s rest

/-- The removal loop of `handle_leave_room` (lines 1001-1008): the first entry equal to
`client_idx` is set to -1 and `num_users` is decremented. -/
def room_remove_member (room : room_t) (client_idx : Nat) : room_t × Bool :=
  match firstIdx (fun m => m == (client_idx : Int)) room.member_client_indices with
  | some i =>
    ({ room with member_client_indices := room.member_client_indices.set i (-1),
                 num_users := room.num_users - 1 }, true)
  | none => (room, false)

/-- Deactivation of a room slot: `active = 0` and `memset` of the name. -/
def room_deactivate (room : room_t) : room_t := { room with active := false, name := [] }

/-- Function `handle_leave_room`. -/
def handle_leave_room (s : Server) (client_idx : Nat) (notify_client_about_leave : Bool) :
    Server :=
  let client := client_at s.clients client_idx
  if client.current_room_name = [] then
    if notify_client_about_leave then
      (send s (some client_idx) client.sockfd
        (snprintf MAX_MSG_LEN
          (SERVER_RESPONSE_ERROR ++ "You are not currently in any room.".toList))).1
    else s
  else
    let room_to_leave_name := client.current_room_name.take MAX_ROOM_NAME_LEN
    match find_room_idx_by_name s.rooms room_to_leave_name with
    | none =>
      let s1 := { s with clients := set_current_room_name s.clients client_idx [] }
      if notify_client_about_leave then
        (send s1 (some client_idx) (client_at s1.clients client_idx).sockfd
          (snprintf MAX_MSG_LEN
            (SERVER_RESPONSE_ERROR ++ "Error leaving room '".toList ++ room_to_leave_name ++
              "': room no longer exists.".toList))).1
      else s1
    | some room_idx =>
      let rm := room_remove_member (room_at s.rooms room_idx) client_idx
      let removed_from_list := rm.2
      let s1 := { s with rooms := s.rooms.set room_idx rm.1 }
      let notification := snprintf MAX_MSG_LEN
        ("[".toList ++ rm.1.name ++ "][SERVER] User '".toList ++ client.username ++
          "' has left the room.".toList)
      let s2 :=
        if removed_from_list then
          (fan_out (fun m => m != -1) notification s1 rm.1.member_client_indices).1
        else s1
      let current_users_in_room := (room_at s2.rooms room_idx).num_users
      let s3 := { s2 with clients := set_current_room_name s2.clients client_idx [] }
      let s4 :=
        if notify_client_about_leave then
          (send s3 (some client_idx) (client_at s3.clients client_idx).sockfd
            (snprintf MAX_MSG_LEN
              (SERVER_RESPONSE_OK ++ "You have left room '".toList ++ room_to_leave_name ++
                "'.".toList))).1
        else s3
      if current_users_in_room = 0 ∧ removed_from_list = true then
        let r := room_at s4.rooms room_idx
        if r.active = true ∧ r.name = room_to_leave_name ∧ r.num_users = 0 then
          { s4 with rooms := s4.rooms.set room_idx (room_deactivate r) }
        else s4
      else s4

/-- Lines 880-905 of `handle_join_room`: the room called `room_name_arg` is looked up
and, when absent, created in the first inactive slot.  The result is the new table,
the room index and `new_room_created`; `none` when no slot is free. -/
def join_locate (rooms : List room_t) (room_name_arg : CStr) :
    Option (List room_t × Nat × Bool) :=
  match find_room_idx_by_name rooms room_name_arg with
  | some room_idx => some (rooms, room_idx, false)
  | none =>
    match firstIdx (fun r => r.active == false) rooms with
    | none => none
    | some free_room_slot =>
      some (rooms.set free_room_slot
              { name := room_name_arg.take MAX_ROOM_NAME_LEN,
                member_client_indices := List.replicate MAX_ROOM_USERS (-1),
                num_users := 0, active := true },
            free_room_slot, true)

/-- Lines 907-966 of `handle_join_room`: the member is added to the located room. -/
def join_enter (s : Server) (client_idx : Nat) (room_name_arg : CStr) (room_idx : Nat)
    (new_room_created : Bool) : Server :=
  let target_room := room_at s.rooms room_idx
  if target_room.num_users ≥ (MAX_ROOM_USERS : Int) then
    let s1 := (send s (some client_idx) (client_at s.clients client_idx).sockfd
      (snprintf MAX_MSG_LEN
        (SERVER_RESPONSE_ERROR ++ "Room '".toList ++ room_name_arg ++ "' is full (max ".toList ++
          fmt_d MAX_ROOM_USERS ++ " users).".toList))).1
    if new_room_created then
      let r := room_at s1.rooms room_idx
      if r.active = true ∧ r.num_users = 0 then
        { s1 with rooms := s1.rooms.set room_idx (room_deactivate r) }
      else s1
    else s1
  else
    match firstIdx (fun m => m == -1) target_room.member_client_indices with
    | none =>
      (send s (some client_idx) (client_at s.clients client_idx).sockfd
        (snprintf MAX_MSG_LEN
          (SERVER_RESPONSE_ERROR ++ "Internal server error joining room '".toList ++
            room_name_arg ++ "'.".toList))).1
    | some added_to_slot =>
      let room1 : room_t :=
        { target_room with
            member_client_indices := target_room.member_client_indices.set added_to_slot client_idx,
            num_users := target_room.num_users + 1 }
      let s1 := { s with rooms := s.rooms.set room_idx room1,
                         clients := set_current_room_name s.clients client_idx room1.name }
      let notification := snprintf MAX_MSG_LEN
        ("[".toList ++ room1.name ++ "][SERVER] User '".toList ++
          (client_at s1.clients client_idx).username ++ "' has joined the room.".toList)
      let s2 := (fan_out (fun m => m != -1 && m != (client_idx : Int)) notification s1
        room1.member_client_indices).1
      (send s2 (some client_idx) (client_at s2.clients client_idx).sockfd
        (snprintf MAX_MSG_LEN
          (SERVER_RESPONSE_OK ++ "You joined room '".toList ++ room1.name ++ "'.".toList ++
            (if new_room_created then " (New room created)".toList else [])))).1

/-- Function `handle_join_room`. -/
def handle_join_room (s : Server) (client_idx : Nat) (room_name_arg : CStr) : Server :=
  let client := client_at s.clients client_idx
  if is_room_name_valid room_name_arg = 0 then
    (send s (some client_idx) client.sockfd
      (snprintf MAX_MSG_LEN
        (SERVER_RESPONSE_ERROR ++ "Invalid room name. Max ".toList ++ fmt_d MAX_ROOM_NAME_LEN ++
          " chars, alphanumeric only.".toList))).1
  else if client.current_room_name ≠ [] ∧ client.current_room_name = room_name_arg then
    (send s (some client_idx) client.sockfd
      (snprintf MAX_MSG_LEN
        (SERVER_RESPONSE_ERROR ++ "You are already in room '".toList ++ room_name_arg ++
          "'.".toList))).1
  else
    let s0 := if client.current_room_name ≠ [] then handle_leave_room s client_idx false else s
    match join_locate s0.rooms room_name_arg with
    | none =>
      (send s0 (some client_idx) (client_at s0.clients client_idx).sockfd
        (snprintf MAX_MSG_LEN
          (SERVER_RESPONSE_ERROR ++ "Server has reached maximum room capacity (".toList ++
            fmt_d MAX_ROOMS ++ "). Cannot create '".toList ++ room_name_arg ++ "'.".toList))).1
    | some (rooms1, room_idx, new_room_created) =>
      join_enter { s0 with rooms := rooms1 } client_idx room_name_arg room_idx new_room_created

/-- Function `cleanup_client` (closing the socket is the write `sockfd = -1`). -/
def cleanup_client (s : Server) (client_idx : Nat) : Server :=
  if client_idx ≥ MAX_CLIENTS_GLOBAL then s
  else
    let needs_room_leave :=
      (client_at s.clients client_idx).active &&
        (client_at s.clients client_idx).current_room_name != []
    let s1 := if needs_room_leave then handle_leave_room s client_idx false else s
    if (client_at s1.clients client_idx).active then
      let client := client_at s1.clients client_idx
      let closed : client_t :=
        { client with sockfd := -1, active := false, username := [], current_room_name := [] }
      { s1 with clients := s1.clients.set client_idx closed }
    else s1

/-! ## Messaging engine -/

/-- The reply of `handle_broadcast_message` to the sender (lines 1101-1105). -/
def broadcast_response_msg (room_name : CStr) (current_users_in_room sent_count : Int) : CStr :=
  if current_users_in_room ≤ 1 ∧ sent_count = 0 then
    snprintf MAX_MSG_LEN
      (SERVER_RESPONSE_OK ++ "Message sent in '".toList ++ room_name ++
        "' (you are the only one here).".toList)
  else
    snprintf MAX_MSG_LEN
      (SERVER_RESPONSE_OK ++ "Message broadcast to ".toList ++ fmt_d sent_count ++
        " other user(s) in '".toList ++ room_name ++ "'.".toList)

/-- Function `handle_broadcast_message`. -/
def handle_broadcast_message (s : Server) (client_idx : Nat) (message : CStr) : Server :=
  let sender := client_at s.clients client_idx
  if sender.current_room_name = [] then
    (send s (some client_idx) sender.sockfd
      (snprintf MAX_MSG_LEN
        (SERVER_RESPONSE_ERROR ++
          "You are not in a room. Join a room first to broadcast.".toList))).1
  else if message.length = 0 then
    (send s (some client_idx) sender.sockfd
      (snprintf MAX_MSG_LEN
        (SERVER_RESPONSE_ERROR ++ "Cannot broadcast an empty message.".toList))).1
  else
    match find_room_idx_by_name s.rooms sender.current_room_name with
    | none =>
      let s1 := (send s (some client_idx) sender.sockfd
        (snprintf MAX_MSG_LEN
          (SERVER_RESPONSE_ERROR ++ "Error broadcasting: your current room '".toList ++
            sender.current_room_name ++ "' seems to no longer exist.".toList))).1
      { s1 with clients := set_current_room_name s1.clients client_idx [] }
    | some room_idx =>
      let target_room := room_at s.rooms room_idx
      let broadcast_content :=
        snprintf (MAX_MSG_LEN + MAX_USERNAME_LEN + MAX_ROOM_NAME_LEN + 50)
          ("[".toList ++ target_room.name ++ "] ".toList ++ sender.username ++ ": ".toList ++
            message)
      let r := fan_out (fun m => m != -1 && m != (client_idx : Int)) broadcast_content s
        target_room.member_client_indices
      let sent_count := r.2
      let current_users_in_room := (room_at r.1.rooms room_idx).num_users
      let response_msg :=
        broadcast_response_msg (room_at r.1.rooms room_idx).name current_users_in_room sent_count
      (send r.1 (some client_idx) (client_at r.1.clients client_idx).sockfd response_msg).1

/-- The lookup loop of the whisper and sendfile handlers: the first active slot whose
username equals `target_username` (`none` for -1). -/
def find_target_idx (clients : List client_t) (target_username : CStr) : Option Nat :=
  firstIdx (fun c => c.active && c.username == target_username) clients

/-- Function `handle_whisper_message`. -/
def handle_whisper_message (s : Server) (sender_idx : Nat) (target_username : CStr)
    (message : CStr) : Server :=
  let sender := client_at s.clients sender_idx
  if target_username.length = 0 then
    (send s (some sender_idx) sender.sockfd
      (snprintf MAX_MSG_LEN
        (SERVER_RESPONSE_ERROR ++ "Invalid target username for whisper.".toList))).1
  else if message.length = 0 then
    (send s (some sender_idx) sender.sockfd
      (snprintf MAX_MSG_LEN
        (SERVER_RESPONSE_ERROR ++ "Cannot send empty whisper message.".toList))).1
  else
    match find_target_idx s.clients target_username with
    | none =>
      (send s (some sender_idx) sender.sockfd
        (snprintf MAX_MSG_LEN
          (SERVER_RESPONSE_ERROR ++ "User '".toList ++ target_username ++
            "' not found or offline.".toList))).1
    | some target_idx =>
      if target_idx = sender_idx then
        (send s (some sender_idx) sender.sockfd
          (snprintf MAX_MSG_LEN
            (SERVER_RESPONSE_ERROR ++ "Cannot whisper to yourself.".toList))).1
      else
        let whisper_msg := snprintf (MAX_MSG_LEN + MAX_USERNAME_LEN + 20)
          ("[WHISPER from ".toList ++ sender.username ++ "]: ".toList ++ message)
        let target_sockfd : Int :=
          if (client_at s.clients target_idx).active then (client_at s.clients target_idx).sockfd
          else -1
        if target_sockfd ≠ -1 then
          let r := send s (some target_idx) target_sockfd whisper_msg
          if r.2 > 0 then
            (send r.1 (some sender_idx) (client_at r.1.clients sender_idx).sockfd
              (snprintf MAX_MSG_LEN
                (SERVER_RESPONSE_OK ++ "Whisper sent to '".toList ++ target_username ++
                  "'.".toList))).1
          else
            (send r.1 (some sender_idx) (client_at r.1.clients sender_idx).sockfd
              (snprintf MAX_MSG_LEN
                (SERVER_RESPONSE_ERROR ++ "Failed to deliver whisper to '".toList ++
                  target_username ++ "'.".toList))).1
        else
          (send s (some sender_idx) sender.sockfd
            (snprintf MAX_MSG_LEN
              (SERVER_RESPONSE_ERROR ++ "User '".toList ++ target_username ++
                "' is no longer connected.".toList))).1

/-! ## Upload queue -/

/-- State after the field initialisations of `init_file_transfer_system`; the array is a
zero-initialised global. -/
def init_file_transfer_system : file_queue_t :=
  { transfers := List.replicate (MAX_UPLOAD_QUEUE * 3) zero_transfer,
    front := 0, rear := 0, count := 0, total_processed := 0, total_failed := 0,
    queue_semaphore := MAX_UPLOAD_QUEUE }

/-- Function `enqueue_file_transfer` on the queue, given the value of `server_running`.
The result `none` is the wait on `queue_not_full`: the queue is full and the server
runs, so the call does not return while the queue stays as it is. -/
def enqueue_file_transfer (q : file_queue_t) (server_running : Bool)
    (transfer : file_transfer_t) : Option (file_queue_t × Int) :=
  if q.count ≥ ((MAX_UPLOAD_QUEUE * 3 : Nat) : Int) ∧ server_running = true then none
  else if server_running = false then some (q, 0)
  else
    some ({ q with transfers := q.transfers.set q.rear.toNat transfer,
                   rear := Int.tmod (q.rear + 1) ((MAX_UPLOAD_QUEUE * 3 : Nat) : Int),
                   count := q.count + 1 }, 1)

/-- The dequeue of `file_processor_thread` (lines 468-481), given `server_running`: the
new queue and the transfer taken (`has_transfer`).  The result `none` is the wait on
`queue_cond` (empty queue, server running). -/
def file_processor_dequeue (q : file_queue_t) (server_running : Bool) :
    Option (file_queue_t × Option file_transfer_t) :=
  if q.count = 0 ∧ server_running = true then none
  else if q.count > 0 ∧ server_running = true then
    some ({ q with front := Int.tmod (q.front + 1) ((MAX_UPLOAD_QUEUE * 3 : Nat) : Int),
                   count := q.count - 1 },
          some ((q.transfers[q.front.toNat]?).getD zero_transfer))
  else some (q, none)

/-- The statistics update of `file_processor_thread` (lines 541-547). -/
def file_processor_update_stats (q : file_queue_t) (status : transfer_status_t) :
    file_queue_t :=
  if status = transfer_status_t.TRANSFER_COMPLETED then
    { q with total_processed := q.total_processed + 1 }
  else { q with total_failed := q.total_failed + 1 }

/-- Function `get_file_transfer_stats`: `(active, queued, total_processed, total_failed)`. -/
def get_file_transfer_stats (q : file_queue_t) : Int × Int × Int × Int :=
  ((MAX_UPLOAD_QUEUE : Int) - q.queue_semaphore, q.count, q.total_processed, q.total_failed)

/-- The text `sender_msg` of `notify_transfer_completion`.  The two times are whole
seconds, so the conversion `%.1f` of their difference is the difference followed by
".0". -/
def completion_sender_msg (transfer : file_transfer_t) : CStr :=
  if transfer.status = transfer_status_t.TRANSFER_COMPLETED then
    snprintf MAX_MSG_LEN
      (SERVER_RESPONSE_OK ++ "File '".toList ++ transfer.filename ++
        "' sent successfully to '".toList ++ transfer.receiver_username ++
        "' (processed in ".toList ++ fmt_d (transfer.completion_time - transfer.start_time) ++
        ".0 seconds).".toList)
  else
    snprintf MAX_MSG_LEN
      (SERVER_RESPONSE_ERROR ++ "File transfer failed: ".toList ++ transfer.error_message)

/-- The text `receiver_msg` of `notify_transfer_completion`. -/
def completion_receiver_msg (transfer : file_transfer_t) : CStr :=
  if transfer.status = transfer_status_t.TRANSFER_COMPLETED then
    snprintf MAX_MSG_LEN
      (FILE_NOTIFICATION ++ "You received file '".toList ++ transfer.filename ++
        "' from '".toList ++ transfer.sender_username ++ "' (size: ".toList ++
        fmt_d transfer.file_size ++ " bytes)".toList)
  else []

/-- Function `notify_transfer_completion`. -/
def notify_transfer_completion (s : Server) (transfer : file_transfer_t) : Server :=
  let sender_msg := completion_sender_msg transfer
  let receiver_msg := completion_receiver_msg transfer
  let s1 :=
    if transfer.sender_idx ≥ 0 ∧ transfer.sender_idx < (MAX_CLIENTS_GLOBAL : Int) ∧
        (client_at s.clients transfer.sender_idx.toNat).active = true then
      (send s (some transfer.sender_idx.toNat)
        (client_at s.clients transfer.sender_idx.toNat).sockfd sender_msg).1
    else s
  if receiver_msg ≠ [] ∧ transfer.receiver_idx ≥ 0 ∧
      transfer.receiver_idx < (MAX_CLIENTS_GLOBAL : Int) ∧
      (client_at s1.clients transfer.receiver_idx.toNat).active = true then
    (send s1 (some transfer.receiver_idx.toNat)
      (client_at s1.clients transfer.receiver_idx.toNat).sockfd receiver_msg).1
  else s1

/-! ## File transfer requests -/

/-- Call `strrchr(s, c)`: the suffix of `s` that starts at the last `c`, when there is one. -/
def strrchr (s : CStr) (c : Char) : Option CStr :=
  match s with
  | [] => none
  | x :: xs =>
    match strrchr xs c with
    | some t => some t
    | none => if x = c then some (x :: xs) else none

/-- Call `strcasecmp(a, b)` in the "C" locale; 0 stands for equality. -/
def strcasecmp (a b : CStr) : Int :=
  if a.map Char.toLower = b.map Char.toLower then 0 else 1

/-- Function `isspace` in the "C" locale. -/
def isspace (c : Char) : Bool :=
  c == Char.ofNat 32 || (9 ≤ c.toNat && c.toNat ≤ 13)

/-- Call `strtoul(s, NULL, 10)` with a 64-bit `unsigned long`: white space, an optional
sign, then decimal digits; saturates at `ULONG_MAX`, negates modulo 2^64. -/
def strtoul (s : CStr) : Nat :=
  let s1 := s.dropWhile isspace
  let neg : Bool := s1.head? = some (Char.ofNat 45)
  let s2 := if s1.head? = some (Char.ofNat 45) ∨ s1.head? = some (Char.ofNat 43) then s1.tail
            else s1
  let v := (s2.takeWhile Char.isDigit).foldl (fun acc c => acc * 10 + (c.toNat - 48)) 0
  if v > 2 ^ 64 - 1 then 2 ^ 64 - 1
  else if neg then (2 ^ 64 - v) % 2 ^ 64
  else v

/-- Function `is_valid_file_type`. -/
def is_valid_file_type (filename : CStr) : Int :=
  if filename.length = 0 then 0
  else
    match strrchr filename (Char.ofNat 46) with
    | none => 0
    | some dot =>
      if [".txt".toList, ".pdf".toList, ".jpg".toList, ".png".toList].any
          (fun ext => strcasecmp dot ext == 0) then 1
      else 0

/-- Function `validate_file_metadata`. -/
def validate_file_metadata (filename : CStr) (file_size : Nat) : Int :=
  if is_valid_file_type filename = 0 then 0
  else if file_size > MAX_FILE_SIZE then 0
  else if file_size = 0 then 0
  else 1

/-- Function `parse_sendfile_args`: `(filename, username, file_size)`. -/
def parse_sendfile_args (args : CStr) : CStr × CStr × Nat :=
  let args := args.dropWhile (fun c => c == Char.ofNat 32)
  match args.dropWhile (fun c => c != Char.ofNat 32) with
  | [] => ([], [], 0)
  | _ :: after1 =>
    let filename_len := min (args.takeWhile (fun c => c != Char.ofNat 32)).length
      (MAX_FILENAME_LEN - 1)
    let filename := args.take filename_len
    let space1 := after1.dropWhile (fun c => c == Char.ofNat 32)
    match space1.dropWhile (fun c => c != Char.ofNat 32) with
    | [] =>
      let username := space1.take MAX_USERNAME_LEN
      (filename, (username.reverse.dropWhile (fun c => c == Char.ofNat 32)).reverse, 0)
    | _ :: after2 =>
      let username_len := min (space1.takeWhile (fun c => c != Char.ofNat 32)).length
        MAX_USERNAME_LEN
      let username := space1.take username_len
      let space2 := after2.dropWhile (fun c => c == Char.ofNat 32)
      (filename, username, strtoul space2)

/-- Function `calculate_estimated_wait_time`, in tenths of a second: the double
`(queue_position / 5) * 3.5` is the exact number `0.7 * queue_position`. -/
def calculate_estimated_wait_time (q : file_queue_t) (queue_position : Int) : Int :=
  if q.queue_semaphore > 0 then 0 else 7 * queue_position

/-- Conversion `%.1f` of a non-negative number given in tenths. -/
def fmt_tenths (t : Int) : CStr := fmt_d (t / 10) ++ ".".toList ++ fmt_d (t % 10)

/-- Function `notify_queue_status`; `estimated_wait_time` is in tenths of a second (the
minutes are rounded to the nearest tenth). -/
def notify_queue_status (s : Server) (sender_idx : Nat) (filename : CStr)
    (queue_position : Int) (estimated_wait_time : Int) : Server :=
  let wait_msg : CStr :=
    if estimated_wait_time ≤ 1 then
      snprintf (MAX_MSG_LEN / 2) "Processing will begin immediately.".toList
    else if estimated_wait_time < 600 then
      snprintf (MAX_MSG_LEN / 2)
        ("Estimated wait time: ".toList ++ fmt_tenths estimated_wait_time ++ " seconds.".toList)
    else
      snprintf (MAX_MSG_LEN / 2)
        ("Estimated wait time: ".toList ++ fmt_tenths ((estimated_wait_time + 30) / 60) ++
          " minutes.".toList)
  let status_msg := snprintf MAX_MSG_LEN
    (SERVER_RESPONSE_OK ++ "File '".toList ++ filename ++
      "' queued for transfer (position ".toList ++ fmt_d queue_position ++
      " in queue). ".toList ++ wait_msg)
  if sender_idx < MAX_CLIENTS_GLOBAL ∧ (client_at s.clients sender_idx).active = true then
    (send s (some sender_idx) (client_at s.clients sender_idx).sockfd status_msg).1
  else s

/-- Function `handle_sendfile_command`; `now` is the value of `time(NULL)`.  The result
is `none` when `enqueue_file_transfer` waits for a free queue slot. -/
def handle_sendfile_command (s : Server) (sender_idx : Nat) (args : CStr) (now : Int) :
    Option Server :=
  let sender := client_at s.clients sender_idx
  let parsed := parse_sendfile_args args
  let filename := parsed.1
  let target_username := parsed.2.1
  let file_size := parsed.2.2
  if filename.length = 0 ∨ target_username.length = 0 then
    some (send s (some sender_idx) sender.sockfd
      (snprintf MAX_MSG_LEN
        (SERVER_RESPONSE_ERROR ++ "Usage: /sendfile <filename> <username>".toList))).1
  else if file_size = 0 then
    some (send s (some sender_idx) sender.sockfd
      (snprintf MAX_MSG_LEN
        (SERVER_RESPONSE_ERROR ++
          "File size information required. Please use updated client.".toList))).1
  else
    match find_target_idx s.clients target_username with
    | none =>
      some (send s (some sender_idx) sender.sockfd
        (snprintf MAX_MSG_LEN
          (SERVER_RESPONSE_ERROR ++ "User '".toList ++ target_username ++
            "' not found or offline.".toList))).1
    | some target_idx =>
      if target_idx = sender_idx then
        some (send s (some sender_idx) sender.sockfd
          (snprintf MAX_MSG_LEN
            (SERVER_RESPONSE_ERROR ++ "Cannot send file to yourself.".toList))).1
      else if is_valid_file_type filename = 0 then
        some (send s (some sender_idx) sender.sockfd
          (snprintf MAX_MSG_LEN
            (SERVER_RESPONSE_ERROR ++
              "File type not allowed. Supported: .txt, .pdf, .jpg, .png".toList))).1
      else if file_size > MAX_FILE_SIZE then
        some (send s (some sender_idx) sender.sockfd
          (snprintf MAX_MSG_LEN
            (SERVER_RESPONSE_ERROR ++ "File too large. Maximum size: 3.0 MB".toList))).1
      else if file_size = 0 then
        some (send s (some sender_idx) sender.sockfd
          (snprintf MAX_MSG_LEN
            (SERVER_RESPONSE_ERROR ++ "Empty files are not allowed.".toList))).1
      else
        let transfer : file_transfer_t :=
          { zero_transfer with
              filename := filename.take (MAX_FILENAME_LEN - 1),
              sender_username := sender.username.take MAX_USERNAME_LEN,
              receiver_username := target_username.take MAX_USERNAME_LEN,
              sender_idx := sender_idx,
              receiver_idx := target_idx,
              file_size := file_size,
              request_time := now,
              status := transfer_status_t.TRANSFER_PENDING,
              processor_thread_id := -1 }
        match enqueue_file_transfer s.upload_queue s.server_running transfer with
        | none => none
        | some (q1, accepted) =>
          let s1 := { s with upload_queue := q1 }
          if accepted ≠ 0 then
            let queued := (get_file_transfer_stats s1.upload_queue).2.1
            let estimated_wait_time := calculate_estimated_wait_time s1.upload_queue queued
            some (notify_queue_status s1 sender_idx filename queued estimated_wait_time)
          else
            some (send s1 (some sender_idx) (client_at s1.clients sender_idx).sockfd
              (snprintf MAX_MSG_LEN
                (SERVER_RESPONSE_ERROR ++
                  "File transfer queue is full or server shutting down. Try again later.".toList))).1

/-! ## Connection acceptor and session driver -/

/-- The body of the accept loop of `main` (lines 1321-1346) for a connection accepted
on descriptor `new_client_sockfd`; `thread_created` tells whether `pthread_create`
succeeded. -/
def accept_connection (s : Server) (new_client_sockfd : Int) (client_ip_str : CStr)
    (thread_created : Bool) : Server :=
  match find_free_client_slot s.clients with
  | none =>
    (send s none new_client_sockfd
      (snprintf 100
        (SERVER_RESPONSE_ERROR ++ "Server is full (max ".toList ++ fmt_d MAX_CLIENTS_GLOBAL ++
          " clients). Try again later.".toList))).1
  | some client_idx =>
    let client := client_at s.clients client_idx
    let opened : client_t :=
      { client with sockfd := new_client_sockfd, ip_addr := client_ip_str, active := true }
    let failed : client_t := { opened with active := false, sockfd := -1 }
    if thread_created then { s with clients := s.clients.set client_idx opened }
    else { s with clients := s.clients.set client_idx failed }

/-- One round of the login loop of `client_handler_thread` (lines 1132-1160); `data` is
what `recv` returned.  The result carries `login_successful`. -/
def login_attempt (s : Server) (client_idx : Nat) (data : List Char) : Server × Bool :=
  let username_buffer := cut_crlf (c_str data)
  if is_username_valid_and_unique s.clients username_buffer ≠ 0 then
    let client := client_at s.clients client_idx
    let named : client_t := { client with username := username_buffer }
    let s1 := { s with clients := s.clients.set client_idx named }
    ((send s1 (some client_idx) (client_at s1.clients client_idx).sockfd
      (snprintf MAX_MSG_LEN
        (SERVER_RESPONSE_OK ++ "Welcome, ".toList ++
          (client_at s1.clients client_idx).username ++ "!".toList))).1, true)
  else
    ((send s (some client_idx) (client_at s.clients client_idx).sockfd
      (snprintf MAX_MSG_LEN
        (SERVER_RESPONSE_ERROR ++ "Username invalid (max ".toList ++ fmt_d MAX_USERNAME_LEN ++
          " chars, alphanumeric) or already taken.".toList))).1, false)

/-- The `/status` branch of the command loop (lines 1202-1217). -/
def handle_status (s : Server) (client_idx : Nat) : Server :=
  let active_clients : Int := (s.clients.countP (fun c => c.active) : Nat)
  let stats := get_file_transfer_stats s.upload_queue
  (send s (some client_idx) (client_at s.clients client_idx).sockfd
    (snprintf MAX_MSG_LEN
      (SERVER_RESPONSE_OK ++ "Server Status: ".toList ++ fmt_d active_clients ++
        " clients online, File transfers: ".toList ++ fmt_d stats.1 ++ " active, ".toList ++
        fmt_d stats.2.1 ++ " queued, ".toList ++ fmt_d stats.2.2.1 ++ " completed, ".toList ++
        fmt_d stats.2.2.2 ++ " failed".toList))).1

/-- The `/whisper` branch of the command loop (lines 1181-1196); `args` is the text
after the command word. -/
def dispatch_whisper (s : Server) (client_idx : Nat) (args : CStr) : Server :=
  let args := args.dropWhile (fun c => c == Char.ofNat 32)
  match args.dropWhile (fun c => c != Char.ofNat 32) with
  | [] =>
    (send s (some client_idx) (client_at s.clients client_idx).sockfd
      (snprintf MAX_MSG_LEN
        (SERVER_RESPONSE_ERROR ++ "Usage: /whisper <username> <message>".toList))).1
  | _ :: after =>
    let target_username := args.takeWhile (fun c => c != Char.ofNat 32)
    let message := after.dropWhile (fun c => c == Char.ofNat 32)
    handle_whisper_message s client_idx target_username message

/-- The body of the command loop of `client_handler_thread` (lines 1170-1231) for the
non-empty line `buffer`.  The flag of the result tells that the loop is left
(`/exit`); the result is `none` when the sendfile handler waits for a queue slot. -/
def dispatch (s : Server) (client_idx : Nat) (buffer : CStr) (now : Int) :
    Option (Server × Bool) :=
  if buffer.take 6 = "/join ".toList then
    some (handle_join_room s client_idx
      ((buffer.drop 6).dropWhile (fun c => c == Char.ofNat 32)), false)
  else if buffer = "/leave".toList then
    some (handle_leave_room s client_idx true, false)
  else if buffer.take 11 = "/broadcast ".toList then
    some (handle_broadcast_message s client_idx
      ((buffer.drop 11).dropWhile (fun c => c == Char.ofNat 32)), false)
  else if buffer.take 9 = "/whisper ".toList then
    some (dispatch_whisper s client_idx (buffer.drop 9), false)
  else if buffer.take 10 = "/sendfile ".toList then
    (handle_sendfile_command s client_idx
      ((buffer.drop 10).dropWhile (fun c => c == Char.ofNat 32)) now).map (fun t => (t, false))
  else if buffer = "/status".toList then
    some (handle_status s client_idx, false)
  else if buffer = "/exit".toList then
    some ((send s (some client_idx) (client_at s.clients client_idx).sockfd
      (snprintf MAX_MSG_LEN
        (SERVER_RESPONSE_OK ++ "Goodbye, ".toList ++
          (client_at s.clients client_idx).username ++ "!".toList))).1, true)
  else if buffer.head? = some (Char.ofNat 47) then
    some ((send s (some client_idx) (client_at s.clients client_idx).sockfd
      (snprintf MAX_MSG_LEN
        (SERVER_RESPONSE_ERROR ++
          "Unknown command. Available: /join <room>, /leave, /broadcast <msg>, /whisper <user> <msg>, /sendfile <file> <user>, /status, /exit.".toList))).1,
      false)
  else
    some ((send s (some client_idx) (client_at s.clients client_idx).sockfd
      (snprintf MAX_MSG_LEN
        (SERVER_RESPONSE_ERROR ++
          "Invalid command format. Commands start with /. Try /sendfile <filename> <username>.".toList))).1,
      false)

/-- The end of `client_handler_thread` (lines 1234-1238): the shutdown notice when the
server stops, then `cleanup_client`. -/
def session_exit (s : Server) (client_idx : Nat) : Server :=
  let s1 :=
    if s.server_running = false then
      (send s (some client_idx) (client_at s.clients client_idx).sockfd
        "SERVER_DOWN:Server is shutting down gracefully.\n".toList).1
    else s
  cleanup_client s1 client_idx

/-- State after `initialize_clients`, `initialize_rooms` and `init_file_transfer_system`;
`net` fixes the outcomes of the sends to come. -/
def initial_server (net : List Bool) : Server :=
  { clients := initialize_clients, rooms := initialize_rooms,
    upload_queue := init_file_transfer_system, server_running := true, sent := [], net := net }

/-- Atomic steps of the acceptor and of the session threads: a connection is accepted
(on the descriptor `fd`, which `accept` returns non-negative), a connected session
sends a login name, a logged-in session has one command line executed (leaving
through `session_exit` after `/exit`), a session thread ends after a disconnection
(`session_exit`, that is `cleanup_client`), or `server_running` is cleared by the
signal handler.  The turns of the loop of `main` that closes every socket once the
server has stopped (lines 1364-1373) are steps of `ServerStep`, not of this relation. -/
inductive SessionStep : Server → Server → Prop
  | accept (s : Server) (fd : Int) (ip : CStr) (created : Bool) :
      0 ≤ fd → SessionStep s (accept_connection s fd ip created)
  | login (s : Server) (i : Nat) (data : List Char) :
      i < MAX_CLIENTS_GLOBAL → (client_at s.clients i).active = true →
      SessionStep s (login_attempt s i data).1
  | command (s : Server) (i : Nat) (buffer : CStr) (now : Int) (t : Server) :
      i < MAX_CLIENTS_GLOBAL → (client_at s.clients i).active = true →
      (client_at s.clients i).username ≠ [] →
      dispatch s i buffer now = some (t, false) → SessionStep s t
  | exit (s : Server) (i : Nat) (buffer : CStr) (now : Int) (t : Server) :
      i < MAX_CLIENTS_GLOBAL → (client_at s.clients i).active = true →
      (client_at s.clients i).username ≠ [] →
      dispatch s i buffer now = some (t, true) → SessionStep s (session_exit t i)
  | cleanup (s : Server) (i : Nat) : SessionStep s (session_exit s i)
  | shutdown (s : Server) : SessionStep s { s with server_running := false }

/-- States reachable from the initial state by session steps. -/
inductive Reachable : Server → Prop
  | init (net : List Bool) : Reachable (initial_server net)
  | step (s t : Server) : Reachable s → SessionStep s t → Reachable t

/-! ## Reachability and specification predicates -/

/-- Queue states reachable from `init_file_transfer_system` by calls of
`enqueue_file_transfer`, dequeues of the workers and their statistics updates. -/
inductive QueueReachable : file_queue_t → Prop
  | init : QueueReachable init_file_transfer_system
  | enqueue (q : file_queue_t) (running : Bool) (t : file_transfer_t) (q1 : file_queue_t)
      (r : Int) : QueueReachable q → enqueue_file_transfer q running t = some (q1, r) →
      QueueReachable q1
  | dequeue (q : file_queue_t) (running : Bool) (q1 : file_queue_t)
      (t : Option file_transfer_t) : QueueReachable q →
      file_processor_dequeue q running = some (q1, t) → QueueReachable q1
  | stats (q : file_queue_t) (status : transfer_status_t) : QueueReachable q →
      QueueReachable (file_processor_update_stats q status)

/-- The initial queue after the enqueue of a zero-filled request. -/
def queue_with_one_request : file_queue_t :=
  { init_file_transfer_system with
      transfers := init_file_transfer_system.transfers.set 0 zero_transfer,
      rear := 1, count := 1 }

/-- The text begins with `pre`. -/
def begins_with (pre text : CStr) : Prop := text.take pre.length = pre

instance (pre text : CStr) : Decidable (begins_with pre text) := by
  unfold begins_with; infer_instance

/-- Index `idx` names a slot of the table that holds an active session. -/
def slot_active (s : Server) (idx : Int) : Prop :=
  0 ≤ idx ∧ idx < (MAX_CLIENTS_GLOBAL : Int) ∧ (client_at s.clients idx.toNat).active = true

instance (s : Server) (idx : Int) : Decidable (slot_active s idx) := by
  unfold slot_active; infer_instance

/-- The sends made between state `s` and a later state `t`: target slot and text. -/
def new_sends (s t : Server) : List (Option Nat × CStr) :=
  (t.sent.drop s.sent.length).map (fun m => (m.to_idx, m.text))

/-- Well-formedness of one room slot: 15 member entries, `num_users` counts the
occupied ones, the slot is active exactly when it has a member, an active slot has a
valid name and an inactive one an empty name, no session index occurs twice, and the
occupied entries are indices of the session table. -/
structure room_ok (r : room_t) : Prop where
  mlen : r.member_client_indices.length = MAX_ROOM_USERS
  count : r.num_users = (r.member_client_indices.countP (fun m => m != -1) : Nat)
  act : r.active = true ↔ 0 < r.num_users
  name_valid : r.active = true → is_room_name_valid r.name = 1
  name_clear : r.active = false → r.name = []
  nodup : ∀ (j k : Nat) (m : Int), r.member_client_indices[j]? = some m →
    r.member_client_indices[k]? = some m → m ≠ -1 → j = k
  range : ∀ m ∈ r.member_client_indices, m ≠ -1 → 0 ≤ m ∧ m < (MAX_CLIENTS_GLOBAL : Int)

/-- Consistency of the session table with the room table. -/
structure tables_ok (clients : List client_t) (rooms : List room_t) : Prop where
  clen : clients.length = MAX_CLIENTS_GLOBAL
  rlen : rooms.length = MAX_ROOMS
  room : ∀ (a : Nat) (ra : room_t), rooms[a]? = some ra → room_ok ra
  uniq : ∀ (a b : Nat) (ra rb : room_t), rooms[a]? = some ra → rooms[b]? = some rb → ra.active = true →
    rb.active = true → ra.name = rb.name → a = b
  member : ∀ (a : Nat) (ra : room_t), rooms[a]? = some ra → ∀ m ∈ ra.member_client_indices, m ≠ -1 →
    (client_at clients m.toNat).current_room_name = ra.name ∧
      (client_at clients m.toNat).active = true
  in_room : ∀ i : Nat, i < MAX_CLIENTS_GLOBAL → (client_at clients i).current_room_name ≠ [] →
    ∃ (a : Nat) (ra : room_t), rooms[a]? = some ra ∧ ra.active = true ∧
      ra.name = (client_at clients i).current_room_name ∧
      (i : Int) ∈ ra.member_client_indices
  names : ∀ i j : Nat, i < MAX_CLIENTS_GLOBAL → j < MAX_CLIENTS_GLOBAL →
    (client_at clients i).active = true → (client_at clients j).active = true →
    (client_at clients i).username ≠ [] →
    (client_at clients i).username = (client_at clients j).username → i = j
  idle : ∀ i : Nat, i < MAX_CLIENTS_GLOBAL → (client_at clients i).active = false →
    (client_at clients i).username = [] ∧ (client_at clients i).current_room_name = []
  ulen : ∀ i : Nat, i < MAX_CLIENTS_GLOBAL → (client_at clients i).username.length ≤ MAX_USERNAME_LEN
  sock : ∀ i : Nat, i < MAX_CLIENTS_GLOBAL → (client_at clients i).active = true →
    0 ≤ (client_at clients i).sockfd

/-- The path of `handle_join_room` that ends in the branch "Internal server error
joining room" (lines 932-937): true when the call `handle_join_room s client_idx
room_name_arg` takes that branch. -/
def join_internal_error (s : Server) (client_idx : Nat) (room_name_arg : CStr) : Bool :=
  let client := client_at s.clients client_idx
  if is_room_name_valid room_name_arg = 0 then false
  else if client.current_room_name ≠ [] ∧ client.current_room_name = room_name_arg then false
  else
    let s0 := if client.current_room_name ≠ [] then handle_leave_room s client_idx false else s
    match join_locate s0.rooms room_name_arg with
    | none => false
    | some (rooms1, room_idx, _) =>
      if (room_at rooms1 room_idx).num_users ≥ (MAX_ROOM_USERS : Int) then false
      else
        match firstIdx (fun m => m == -1) (room_at rooms1 room_idx).member_client_indices with
        | none => true
        | some _ => false

/-- Two connections accepted on descriptors 4 and 5 and logged in as "A" and "B". -/
def demo_two_sessions : Server :=
  (login_attempt
    (login_attempt
      (accept_connection (accept_connection (initial_server []) 4 "10.0.0.1".toList true)
        5 "10.0.0.2".toList true)
      0 "A\n".toList).1
    1 "B\n".toList).1

/-- The state `demo_two_sessions` after "A" has joined the room "lobby". -/
def demo_lobby : Server := handle_join_room demo_two_sessions 0 "lobby".toList

/-- The sends recorded in `t` are those recorded in `s` followed by sends with the
target slots and texts `l`. -/
def sends_after (s t : Server) (l : List (Option Nat × CStr)) : Prop :=
  t.sent.map (fun m => (m.to_idx, m.text)) = s.sent.map (fun m => (m.to_idx, m.text)) ++ l

/-- The state `demo_lobby` after "B" has joined the room "lobby" too. -/
def demo_lobby_two : Server := handle_join_room demo_lobby 1 "lobby".toList

/-- The texts sent to slot `i` between the states `s` and `t`, in order. -/
def replies_to (i : Nat) (s t : Server) : List CStr :=
  ((new_sends s t).filter (fun x => x.1 == some i)).map Prod.snd

/-- Between `s` and `t` the reply `reply` to slot `i` is the last send and the only one
to that slot. -/
def reply_last (s t : Server) (i : Nat) (reply : CStr) : Prop :=
  ∃ l1, sends_after s t (l1 ++ [(some i, reply)]) ∧ ∀ x ∈ l1, x.1 ≠ some i

/-- Between `s` and `t` a send to a slot other than `i` was accepted by the network. -/
def delivered_to_other (s t : Server) (i : Nat) : Prop :=
  ∃ m ∈ t.sent.drop s.sent.length, m.to_idx ≠ some i ∧ m.ok = true

/-- The command line `buffer` of session `i`, executed from state `s` to state `t`, was
accepted: a `/join` moved the session into the room it names, a `/leave` was issued
from inside a room, a `/broadcast` carried a text and came from inside a room, a
`/whisper` was delivered to its target, a `/sendfile` added a request to the upload
queue, and `/status` and `/exit` always are; any other line is rejected. -/
def command_accepted (s t : Server) (i : Nat) (buffer : CStr) : Prop :=
  if buffer.take 6 = "/join ".toList then
    (client_at s.clients i).current_room_name ≠
        (buffer.drop 6).dropWhile (fun c => c == Char.ofNat 32) ∧
      (client_at t.clients i).current_room_name =
        (buffer.drop 6).dropWhile (fun c => c == Char.ofNat 32)
  else if buffer = "/leave".toList then (client_at s.clients i).current_room_name ≠ []
  else if buffer.take 11 = "/broadcast ".toList then
    (client_at s.clients i).current_room_name ≠ [] ∧
      (buffer.drop 11).dropWhile (fun c => c == Char.ofNat 32) ≠ []
  else if buffer.take 9 = "/whisper ".toList then delivered_to_other s t i
  else if buffer.take 10 = "/sendfile ".toList then
    t.upload_queue.count = s.upload_queue.count + 1
  else buffer = "/status".toList ∨ buffer = "/exit".toList

/-- An ASCII letter or digit, by character code. -/
def ascii_letter_or_digit (c : Char) : Prop :=
  (48 ≤ c.toNat ∧ c.toNat ≤ 57) ∨ (65 ≤ c.toNat ∧ c.toNat ≤ 90) ∨ (97 ≤ c.toNat ∧ c.toNat ≤ 122)

instance (c : Char) : Decidable (ascii_letter_or_digit c) := by
  unfold ascii_letter_or_digit; infer_instance

/-- Slot `j` holds an active session that is logged in under the name `name`; a session
that has not logged in has an empty `username`, which is no name. -/
def has_name (clients : List client_t) (j : Nat) (name : CStr) : Prop :=
  j < MAX_CLIENTS_GLOBAL ∧ (client_at clients j).active = true ∧ name ≠ [] ∧
    (client_at clients j).username = name

instance (clients : List client_t) (j : Nat) (name : CStr) : Decidable (has_name clients j name) := by
  unfold has_name; infer_instance

/-- The part of `filename` that starts at its last '.' is, letter case ignored, one of
the four allowed extensions. -/
def allowed_extension (filename : CStr) : Prop :=
  ∃ stem rest, filename = stem ++ '.' :: rest ∧ '.' ∉ rest ∧
    ∃ ext ∈ [".txt".toList, ".pdf".toList, ".jpg".toList, ".png".toList],
      ('.' :: rest).map Char.toLower = ext.map Char.toLower

/-- The request `args` of session `i` passes every check of the specification: file
name and target name parsed from it are not empty, the size lies in (0, 3145728], the
extension is allowed, and the target name is that of an active session other than `i`. -/
def sendfile_request_valid (clients : List client_t) (i : Nat) (args : CStr) : Prop :=
  (parse_sendfile_args args).1 ≠ [] ∧ (parse_sendfile_args args).2.1 ≠ [] ∧
    0 < (parse_sendfile_args args).2.2 ∧ (parse_sendfile_args args).2.2 ≤ 3145728 ∧
    allowed_extension (parse_sendfile_args args).1 ∧
    ∃ j, j ≠ i ∧ has_name clients j (parse_sendfile_args args).2.1

/-- The request record that `handle_sendfile_command` builds (lines 627-642). -/
def sendfile_request (s : Server) (i : Nat) (args : CStr) (now : Int) (target_idx : Nat) :
    file_transfer_t :=
  { zero_transfer with
      filename := (parse_sendfile_args args).1.take (MAX_FILENAME_LEN - 1),
      sender_username := (client_at s.clients i).username.take MAX_USERNAME_LEN,
      receiver_username := (parse_sendfile_args args).2.1.take MAX_USERNAME_LEN,
      sender_idx := i,
      receiver_idx := target_idx,
      file_size := (parse_sendfile_args args).2.2,
      request_time := now,
      status := transfer_status_t.TRANSFER_PENDING,
      processor_thread_id := -1 }

/-- The state `demo_two_sessions` at a moment when the five workers hold the five
permits of the semaphore. -/
def demo_busy : Server :=
  { demo_two_sessions with
      upload_queue := { init_file_transfer_system with queue_semaphore := 0 } }

/-! ## Receipt artifacts -/

/-- The directory of the receipt artifacts. -/
def UPLOADS_DIR : CStr := "uploads".toList

/-- One round of the renaming loop of `generate_unique_filepath` (lines 245-256): the
content of `filepath` for the value `counter`. -/
def unique_candidate (receiver_username base_without_ext extension : CStr) (counter : Nat) :
    CStr :=
  if extension.length > 0 then
    let needed_size :=
      (base_without_ext ++ "_".toList ++ fmt_d counter ++ extension).length
    if needed_size < 2048 then
      snprintf 2048 (base_without_ext ++ "_".toList ++ fmt_d counter ++ extension)
    else
      snprintf 2048 (UPLOADS_DIR ++ "/".toList ++ receiver_username ++ "_".toList ++
        fmt_d counter)
  else snprintf 2048 (base_without_ext ++ "_".toList ++ fmt_d counter)

/-- The `do ... while (stat(filepath, &st) == 0 && counter < 1000)` loop of
`generate_unique_filepath`, entered with `counter`; `stat_ok path` tells that `stat`
returns 0 on `path`.  The first argument bounds the number of rounds; the 999 rounds
given by `generate_unique_filepath` are never used up, since the loop entered with
counter 1 leaves at counter 1000. -/
def unique_loop (stat_ok : CStr → Bool) (receiver_username base_without_ext extension : CStr) :
    Nat → Nat → CStr
  | 0, counter => unique_candidate receiver_username base_without_ext extension counter
  | rounds + 1, counter =>
    let filepath := unique_candidate receiver_username base_without_ext extension counter
    if stat_ok filepath = true ∧ counter + 1 < 1000 then
      unique_loop stat_ok receiver_username base_without_ext extension rounds (counter + 1)
    else filepath

/-- Function `generate_unique_filepath`; `stat_ok path` tells that `stat` returns 0 on
`path`, that is, that the path exists. -/
def generate_unique_filepath (stat_ok : CStr → Bool) (receiver_username filename : CStr) :
    CStr :=
  let filepath := snprintf 2048
    (UPLOADS_DIR ++ "/".toList ++ receiver_username ++ "_".toList ++ filename)
  if stat_ok filepath = true then
    let base_path := snprintf 2048
      (UPLOADS_DIR ++ "/".toList ++ receiver_username ++ "_".toList ++ filename)
    match strrchr base_path (Char.ofNat 46) with
    | some dot =>
      let extension := dot.take 255
      let base_len := min (base_path.length - dot.length) 1791
      let base_without_ext := base_path.take base_len
      unique_loop stat_ok receiver_username base_without_ext extension 999 1
    | none =>
      let base_without_ext := base_path.take 1791
      unique_loop stat_ok receiver_username base_without_ext [] 999 1
  else filepath

/-- Specification queue, from the words of the specification: a list of at most 15
requests; `none` when the queue is full. -/
def fifo_enqueue (l : List file_transfer_t) (t : file_transfer_t) :
    Option (List file_transfer_t) :=
  if l.length < 15 then some (l ++ [t]) else none

/-- Specification queue: the oldest request is taken; `none` when the queue is empty. -/
def fifo_dequeue (l : List file_transfer_t) : Option (List file_transfer_t × file_transfer_t) :=
  match l with
  | [] => none
  | x :: xs => some (xs, x)

/-- One operation on the upload queue. -/
inductive queue_op where
  | enq (t : file_transfer_t)
  | deq
  deriving DecidableEq, Repr

/-- The requests enqueued by a sequence of operations, in order. -/
def enqueued : List queue_op → List file_transfer_t
  | [] => []
  | queue_op.enq t :: ops => t :: enqueued ops
  | queue_op.deq :: ops => enqueued ops

/-- A sequence of operations on the ring buffer while the server runs, through
`enqueue_file_transfer` and `file_processor_dequeue`: the final queue and the requests
dequeued, in order; `none` when an operation has to wait (enqueue on a full queue,
dequeue on an empty one). -/
def run_ring : file_queue_t → List queue_op → Option (file_queue_t × List file_transfer_t)
  | q, [] => some (q, [])
  | q, queue_op.enq t :: ops =>
    match enqueue_file_transfer q true t with
    | some (q1, _) => run_ring q1 ops
    | none => none
  | q, queue_op.deq :: ops =>
    match file_processor_dequeue q true with
    | some (q1, some x) => (run_ring q1 ops).map (fun r => (r.1, x :: r.2))
    | _ => none

/-- The same sequence of operations on the specification queue. -/
def run_fifo : List file_transfer_t → List queue_op →
    Option (List file_transfer_t × List file_transfer_t)
  | l, [] => some (l, [])
  | l, queue_op.enq t :: ops =>
    match fifo_enqueue l t with
    | some l1 => run_fifo l1 ops
    | none => none
  | l, queue_op.deq :: ops =>
    match fifo_dequeue l with
    | some (l1, x) => (run_fifo l1 ops).map (fun r => (r.1, x :: r.2))
    | none => none

/-- The ring buffer `q` holds the requests `l`, oldest first. -/
structure ring_holds (q : file_queue_t) (l : List file_transfer_t) : Prop where
  tlen : q.transfers.length = 15
  front_lo : 0 ≤ q.front
  front_hi : q.front < 15
  count : q.count = (l.length : Int)
  cap : l.length ≤ 15
  rear : q.rear = (q.front + q.count) % 15
  slots : ∀ k : Nat, k < l.length → q.transfers[((q.front + k) % 15).toNat]? = l[k]?

/-! ## The client's parser of file notifications (`client/chatclient.c`) -/

/-- Call `strstr(hay, needle)`: the suffix of `hay` that starts at the first occurrence
of `needle`, when there is one. -/
def strstr : CStr → CStr → Option CStr
  | [], needle => if needle = [] then some [] else none
  | x :: xs, needle =>
    if needle.isPrefixOf (x :: xs) then some (x :: xs) else strstr xs needle

/-- Call `strchr(s, c)`: the suffix of `s` that starts at the first `c`. -/
def strchr (s : CStr) (c : Char) : Option CStr :=
  match s.dropWhile (fun x => x != c) with
  | [] => none
  | t => some t

/-- Call `atol(s)` with a 64-bit `long`: white space, an optional sign, then decimal
digits, saturated as by `strtol`. -/
def atol (s : CStr) : Int :=
  let s1 := s.dropWhile isspace
  let neg : Bool := s1.head? = some (Char.ofNat 45)
  let s2 := if s1.head? = some (Char.ofNat 45) ∨ s1.head? = some (Char.ofNat 43) then s1.tail
            else s1
  let v : Nat := (s2.takeWhile Char.isDigit).foldl (fun acc c => acc * 10 + (c.toNat - 48)) 0
  if neg then max (-(v : Int)) (-(2 ^ 63)) else min (v : Int) (2 ^ 63 - 1)

/-- Function `parse_file_notification` of the client: `(filename, sender, file_size)`,
`none` for the result 0.  The pointer difference `from_start - file_start` is taken as
a `size_t`, so a negative one exceeds every bound. -/
def parse_file_notification (message : CStr) : Option (CStr × CStr × Nat) :=
  match strstr message "file '".toList, strstr message "' from '".toList,
      strstr message "(size: ".toList with
  | some file_start, some from_start, some size_start =>
    let file_start := file_start.drop 6
    let diff : Int := (file_start.length : Int) - (from_start.length : Int)
    let filename_len : Nat :=
      if diff < 0 ∨ diff ≥ (MAX_FILENAME_LEN : Int) then MAX_FILENAME_LEN - 1 else diff.toNat
    let filename := file_start.take filename_len
    let from_start := from_start.drop 8
    match strchr from_start (Char.ofNat 39) with
    | none => none
    | some sender_end =>
      let sender_len := from_start.length - sender_end.length
      let sender_len := if sender_len ≥ MAX_USERNAME_LEN then MAX_USERNAME_LEN - 1 else sender_len
      let sender := from_start.take sender_len
      let size_start := size_start.drop 7
      some (filename, sender, (atol size_start % 2 ^ 64).toNat)
  | _, _, _ => none

/-- Some two adjacent characters of the text are `c1` followed by `c2`. -/
def has_pair (c1 c2 : Char) : CStr → Bool
  | x :: y :: rest => (x == c1 && y == c2) || has_pair c1 c2 (y :: rest)
  | _ => false

/-! ## The transfer worker pool -/

/-- The place of a worker thread in the loop of `file_processor_thread`. -/
inductive worker_pc where
  /-- At the test of `while (server_running)` (line 455). -/
  | at_loop
  /-- Before `sem_wait` (line 457). -/
  | at_sem_wait
  /-- A permit is held; before the test of line 462. -/
  | after_sem_wait
  /-- A permit is held; before the critical section of lines 468-481. -/
  | at_dequeue
  /-- The critical section is left with `has_transfer`; before the test of line 483. -/
  | after_dequeue (has_transfer : Option file_transfer_t)
  /-- The status is `TRANSFER_PROCESSING` and the sender has been told; in the simulated
  delay (lines 489-499). -/
  | processing (transfer : file_transfer_t)
  /-- The final status is set; before the statistics update (lines 541-547). -/
  | at_stats (transfer : file_transfer_t)
  /-- Before `notify_transfer_completion` (line 550). -/
  | at_notify (transfer : file_transfer_t)
  /-- Before `sem_post` (line 552). -/
  | at_post
  /-- The thread has returned; `holds_permit` when it left through line 462. -/
  | exited (holds_permit : Bool)
  deriving DecidableEq, Repr

/-- The server together with its five worker threads.  The two last fields are history
variables: the number of requests taken out of the queue so far, and the number of
those given up at the test of line 483. -/
structure Pool where
  server : Server
  workers : List worker_pc
  removed : Nat
  dropped : Nat
  deriving DecidableEq, Repr

/-- The pool after `init_file_transfer_system`: five threads at the head of the loop. -/
def initial_pool (net : List Bool) : Pool :=
  { server := initial_server net, workers := List.replicate MAX_UPLOAD_QUEUE worker_pc.at_loop,
    removed := 0, dropped := 0 }

/-- Write of the semaphore value. -/
def set_semaphore (s : Server) (v : Int) : Server :=
  { s with upload_queue := { s.upload_queue with queue_semaphore := v } }

/-- The final state of a transfer after the simulated delay (lines 501-536):
`fopen_ok` tells whether `fopen` of the artifact succeeded, `err` is the text of
`strerror(errno)`, `now` the value of `time(NULL)`.  The buffer that
`generate_unique_filepath` returns is static and shared by the workers; the value kept
in `server_filepath` is the one computed when no other worker writes the buffer between
the call and the copy.  Status and error text do not depend on it. -/
def finish_transfer (server_running : Bool) (stat_ok : CStr → Bool) (fopen_ok : Bool)
    (err : CStr) (now : Int) (transfer : file_transfer_t) : file_transfer_t :=
  let t1 : file_transfer_t :=
    if server_running = false then
      { transfer with status := transfer_status_t.TRANSFER_FAILED,
                      error_message := snprintf 256 "Server shutdown during transfer".toList }
    else
      let filepath := generate_unique_filepath stat_ok transfer.receiver_username
        transfer.filename
      if fopen_ok then
        { transfer with status := transfer_status_t.TRANSFER_COMPLETED,
                        server_filepath := filepath.take 511 }
      else
        { transfer with status := transfer_status_t.TRANSFER_FAILED,
                        error_message := snprintf 256 ("Failed to create file: ".toList ++ err) }
  { t1 with completion_time := now }

/-- Function `log_file_wait_duration`: the notice to the sender that processing starts.
The times are whole seconds, so `%.0f` of their difference is the difference. -/
def log_file_wait_duration (s : Server) (transfer : file_transfer_t) : Server :=
  let wait_duration : Int := transfer.start_time - transfer.request_time
  let wait_notification : CStr :=
    if wait_duration < 1 then
      snprintf MAX_MSG_LEN
        (SERVER_RESPONSE_OK ++ "File '".toList ++ transfer.filename ++
          "' processing started immediately.".toList)
    else
      snprintf MAX_MSG_LEN
        (SERVER_RESPONSE_OK ++ "File '".toList ++ transfer.filename ++
          "' processing started after ".toList ++ fmt_d wait_duration ++
          " seconds in queue.".toList)
  if 0 ≤ transfer.sender_idx ∧ transfer.sender_idx < (MAX_CLIENTS_GLOBAL : Int) ∧
      (client_at s.clients transfer.sender_idx.toNat).active = true then
    (send s (some transfer.sender_idx.toNat)
      (client_at s.clients transfer.sender_idx.toNat).sockfd wait_notification).1
  else s

/-- The transfer as a worker marks it when it starts to process it (lines 489-491). -/
def start_transfer (k : Nat) (now : Int) (transfer : file_transfer_t) : file_transfer_t :=
  { transfer with status := transfer_status_t.TRANSFER_PROCESSING,
                  start_time := now, processor_thread_id := k }

/-- Worker `k` moves to the place `pc`. -/
def set_pc (c : Pool) (k : Nat) (pc : worker_pc) : Pool :=
  { c with workers := c.workers.set k pc }

/-- One atomic step of worker `k` of `file_processor_thread`; `none` when the worker is
blocked (in `sem_wait` with no permit, in `pthread_cond_wait` on the empty queue) or
has returned.  `sem_fail` is `some eintr` when `sem_wait` returns an error. -/
def worker_step (c : Pool) (k : Nat) (now : Int) (stat_ok : CStr → Bool) (fopen_ok : Bool)
    (err : CStr) (sem_fail : Option Bool) : Option Pool :=
  let s := c.server
  match c.workers[k]? with
  | none => none
  | some worker_pc.at_loop =>
    some (set_pc c k (if s.server_running then worker_pc.at_sem_wait else worker_pc.exited false))
  | some worker_pc.at_sem_wait =>
    match sem_fail with
    | some eintr =>
      some (set_pc c k
        (if eintr = true ∧ s.server_running = false then worker_pc.exited false
         else worker_pc.at_loop))
    | none =>
      if s.upload_queue.queue_semaphore > 0 then
        some (set_pc { c with server := set_semaphore s (s.upload_queue.queue_semaphore - 1) } k
          worker_pc.after_sem_wait)
      else none
  | some worker_pc.after_sem_wait =>
    some (set_pc c k
      (if s.server_running = false then worker_pc.exited true else worker_pc.at_dequeue))
  | some worker_pc.at_dequeue =>
    match file_processor_dequeue s.upload_queue s.server_running with
    | none => none
    | some (q1, has_transfer) =>
      some (set_pc
        { c with server := { s with upload_queue := q1 },
                 removed := if has_transfer.isSome then c.removed + 1 else c.removed }
        k (worker_pc.after_dequeue has_transfer))
  | some (worker_pc.after_dequeue has_transfer) =>
    match has_transfer with
    | some transfer =>
      if s.server_running = false then
        some (set_pc
          { c with server := set_semaphore s (s.upload_queue.queue_semaphore + 1),
                   dropped := c.dropped + 1 }
          k worker_pc.at_loop)
      else
        some (set_pc
          { c with server := log_file_wait_duration s (start_transfer k now transfer) }
          k (worker_pc.processing (start_transfer k now transfer)))
    | none =>
      some (set_pc { c with server := set_semaphore s (s.upload_queue.queue_semaphore + 1) } k
        worker_pc.at_loop)
  | some (worker_pc.processing transfer) =>
    some (set_pc c k
      (worker_pc.at_stats (finish_transfer s.server_running stat_ok fopen_ok err now transfer)))
  | some (worker_pc.at_stats transfer) =>
    some (set_pc
      { c with server :=
          { s with upload_queue := file_processor_update_stats s.upload_queue transfer.status } }
      k (worker_pc.at_notify transfer))
  | some (worker_pc.at_notify transfer) =>
    some (set_pc { c with server := notify_transfer_completion s transfer } k worker_pc.at_post)
  | some worker_pc.at_post =>
    some (set_pc { c with server := set_semaphore s (s.upload_queue.queue_semaphore + 1) } k
      worker_pc.at_loop)
  | some (worker_pc.exited _) => none

/-- Steps of the whole server: a step of a worker thread, or a step of the acceptor or
of a session thread. -/
inductive PoolStep : Pool → Pool → Prop
  | worker (c : Pool) (k : Nat) (now : Int) (stat_ok : CStr → Bool) (fopen_ok : Bool)
      (err : CStr) (sem_fail : Option Bool) (c1 : Pool) :
      worker_step c k now stat_ok fopen_ok err sem_fail = some c1 → PoolStep c c1
  | session (c : Pool) (t : Server) : SessionStep c.server t → PoolStep c { c with server := t }

/-- Pool states reachable from the initial one. -/
inductive PoolReachable : Pool → Prop
  | init (net : List Bool) : PoolReachable (initial_pool net)
  | step (c c1 : Pool) : PoolReachable c → PoolStep c c1 → PoolReachable c1

/-- The worker holds a permit of the semaphore. -/
def holds_permit : worker_pc → Bool
  | worker_pc.at_loop => false
  | worker_pc.at_sem_wait => false
  | worker_pc.exited h => h
  | _ => true

/-- The worker holds a transfer whose status is `TRANSFER_PROCESSING`. -/
def is_processing : worker_pc → Bool
  | worker_pc.processing _ => true
  | _ => false

/-- The worker holds a transfer that it took out of the queue and that is not counted
in the statistics yet. -/
def in_flight : worker_pc → Bool
  | worker_pc.after_dequeue (some _) => true
  | worker_pc.processing _ => true
  | worker_pc.at_stats _ => true
  | _ => false

/-- Queue `q1` differs from `q` only by requests added at the rear: the semaphore, the two
statistics counters and `front` are the same, and `count` has not decreased. -/
def queue_kept (q q1 : file_queue_t) : Prop :=
  q1.queue_semaphore = q.queue_semaphore ∧ q1.total_processed = q.total_processed ∧
    q1.total_failed = q.total_failed ∧ q1.front = q.front ∧ q.count ≤ q1.count

/-- Consistency of a pool state: consistent tables, five workers, a semaphore value that
together with the permits held makes 5, and statistics that count every request taken
out of the queue which is neither in the hands of a worker nor given up. -/
structure pool_ok (c : Pool) : Prop where
  tables : tables_ok c.server.clients c.server.rooms
  wlen : c.workers.length = MAX_UPLOAD_QUEUE
  sem_lo : 0 ≤ c.server.upload_queue.queue_semaphore
  permits : c.server.upload_queue.queue_semaphore +
    ((c.workers.countP holds_permit : Nat) : Int) = 5
  counted : c.server.upload_queue.total_processed + c.server.upload_queue.total_failed +
    ((c.dropped : Nat) : Int) + ((c.workers.countP in_flight : Nat) : Int) =
      ((c.removed : Nat) : Int)

/-- Session "A" (slot 0) has the line `buffer` executed. -/
def demo_command (s : Server) (buffer : CStr) : Server :=
  ((dispatch s 0 buffer 0).map Prod.fst).getD s

/-- In `demo_two_sessions`, "A" has asked to send six files to "B". -/
def demo_six_sends : Server :=
  ["/sendfile f1.txt B 10".toList, "/sendfile f2.txt B 10".toList,
   "/sendfile f3.txt B 10".toList, "/sendfile f4.txt B 10".toList,
   "/sendfile f5.txt B 10".toList, "/sendfile f6.txt B 10".toList].foldl demo_command
    demo_two_sessions

/-- A pool whose workers all stand at the head of their loop. -/
def pool_of (s : Server) : Pool :=
  { server := s, workers := List.replicate MAX_UPLOAD_QUEUE worker_pc.at_loop,
    removed := 0, dropped := 0 }

/-- Worker `k` makes `n` steps in a row (at time 0, no path exists yet, `fopen` succeeds,
`sem_wait` does not fail); a step that is not possible is skipped. -/
def pool_steps (c : Pool) (k : Nat) : Nat → Pool
  | 0 => c
  | n + 1 =>
    (worker_step (pool_steps c k n) k 0 (fun _ => false) true [] none).getD (pool_steps c k n)

/-- The six requests are queued and each of the five workers has taken a permit, taken a
request and started to process it. -/
def demo_five_processing : Pool :=
  pool_steps (pool_steps (pool_steps (pool_steps (pool_steps (pool_of demo_six_sends) 0 5) 1 5)
    2 5) 3 5) 4 5

/-- In `demo_two_sessions`, "A" has asked to send one file to "B". -/
def demo_one_send : Server := demo_command demo_two_sessions "/sendfile f1.txt B 10".toList

/-- Worker 0 has taken a permit and the request of `demo_one_send` out of the queue and
stands before the test of line 483. -/
def demo_taken : Pool := pool_steps (pool_of demo_one_send) 0 4

/-- The state `demo_taken` after `server_running` was cleared and worker 0 made its next
step: the test of line 483 gives the request up. -/
def demo_dropped : Pool :=
  pool_steps { demo_taken with server := { demo_taken.server with server_running := false } } 0 1

/-- A transfer held at the statistics update or at the notification is in a final state. -/
def terminal_pc : worker_pc → Bool
  | worker_pc.at_stats transfer =>
    decide (transfer.status = transfer_status_t.TRANSFER_COMPLETED ∨
      transfer.status = transfer_status_t.TRANSFER_FAILED)
  | worker_pc.at_notify transfer =>
    decide (transfer.status = transfer_status_t.TRANSFER_COMPLETED ∨
      transfer.status = transfer_status_t.TRANSFER_FAILED)
  | _ => true

/-- The transfer that worker 0 processes in `demo_five_processing`. -/
def demo_first_transfer : file_transfer_t :=
  match demo_five_processing.workers[0]? with
  | some (worker_pc.processing transfer) => transfer
  | _ => zero_transfer

/-- After the request of `demo_one_send` was queued, the session of "B" (slot 1) has
ended, a new connection on descriptor 9 was accepted into the freed slot and has logged
in as "C". -/
def demo_slot_reused : Server :=
  (login_attempt
    (accept_connection (session_exit demo_one_send 1) 9 "10.0.0.3".toList true)
    1 "C\n".toList).1

/-- In `demo_slot_reused` worker 0 has processed the request and updated the statistics;
it stands before the notification. -/
def demo_before_notify : Pool := pool_steps (pool_of demo_slot_reused) 0 7

/-! ## Concurrent logins -/

/-- The critical section of the login loop (lines 1140-1145, `clients_mutex` held): the
check of the name and, when it passes, the write of the name into the slot.  The second
component is `login_successful`. -/
def login_locked (s : Server) (client_idx : Nat) (username_buffer : CStr) : Server × Bool :=
  if is_username_valid_and_unique s.clients username_buffer ≠ 0 then
    let client := client_at s.clients client_idx
    let named : client_t := { client with username := username_buffer }
    ({ s with clients := s.clients.set client_idx named }, true)
  else (s, false)

/-- The reply of the login loop after the critical section (lines 1147-1160), sent
without the lock. -/
def login_reply (s : Server) (client_idx : Nat) (login_successful : Bool) : Server :=
  if login_successful then
    (send s (some client_idx) (client_at s.clients client_idx).sockfd
      (snprintf MAX_MSG_LEN
        (SERVER_RESPONSE_OK ++ "Welcome, ".toList ++
          (client_at s.clients client_idx).username ++ "!".toList))).1
  else
    (send s (some client_idx) (client_at s.clients client_idx).sockfd
      (snprintf MAX_MSG_LEN
        (SERVER_RESPONSE_ERROR ++ "Username invalid (max ".toList ++ fmt_d MAX_USERNAME_LEN ++
          " chars, alphanumeric) or already taken.".toList))).1

/-- Where a session thread stands in one turn of its login loop. -/
inductive login_pc where
  /-- The name is received; before `pthread_mutex_lock` (line 1140). -/
  | at_lock
  /-- After `pthread_mutex_unlock` (line 1145), with the value of `login_successful`. -/
  | at_reply (login_successful : Bool)
  /-- The reply is sent (line 1150 or 1159). -/
  | finished (login_successful : Bool)
deriving DecidableEq, Repr

/-- The server together with the session threads that attempt to log in: `pcs[j]` is
the place of the thread that serves the slot `slots[j]`. -/
structure Logins where
  server : Server
  pcs : List login_pc
deriving DecidableEq, Repr

/-- All threads have received the name and stand before the lock. -/
def login_start (s : Server) (slots : List Nat) : Logins :=
  { server := s, pcs := slots.map (fun _ => login_pc.at_lock) }

/-- One atomic step of thread `j`: the critical section, or the reply.  A thread that
has sent its reply makes no step. -/
def login_step (slots : List Nat) (c : Logins) (username_buffer : CStr) (j : Nat) :
    Option Logins :=
  match slots[j]?, c.pcs[j]? with
  | some client_idx, some login_pc.at_lock =>
    some { server := (login_locked c.server client_idx username_buffer).1,
           pcs := c.pcs.set j
             (login_pc.at_reply (login_locked c.server client_idx username_buffer).2) }
  | some client_idx, some (login_pc.at_reply login_successful) =>
    some { server := login_reply c.server client_idx login_successful,
           pcs := c.pcs.set j (login_pc.finished login_successful) }
  | _, _ => none

/-- An interleaving: the threads named in `schedule` make one step each, in this order. -/
def login_run (slots : List Nat) (c : Logins) (username_buffer : CStr) :
    List Nat → Option Logins
  | [] => some c
  | j :: schedule =>
    (login_step slots c username_buffer j).bind
      (fun c1 => login_run slots c1 username_buffer schedule)

/-- The reply of the specification: a welcome for the attempt that succeeds, the error
text for an attempt that is rejected. -/
def expected_login_reply (username : CStr) (succeeds : Bool) : CStr :=
  if succeeds then "OK:Welcome, ".toList ++ username ++ "!".toList
  else "ERROR:Username invalid (max 16 chars, alphanumeric) or already taken.".toList

/-- The messages sent to slot `i` between the states `s` and `t`. -/
def sends_to (s t : Server) (i : Nat) : List (Option Nat × CStr) :=
  (new_sends s t).filter (fun m => m.1 == some i)

/-- Two connections are accepted on descriptors 4 and 5 and nobody is logged in. -/
def demo_two_connections : Server :=
  accept_connection (accept_connection (initial_server []) 4 "10.0.0.1".toList true)
    5 "10.0.0.2".toList true

/-- The state of the thread of slot `i` when the slot `w` has taken the name `u`: it
has not yet entered the critical section and is not `w`, or it has left it with
`login_successful` set exactly for `i = w`; its reply is in the send log exactly when it
has finished. -/
def thread_ok (s t : Server) (u : CStr) (w i : Nat) (pc : login_pc) : Prop :=
  (pc = login_pc.at_lock ∧ i ≠ w ∧ sends_to s t i = []) ∨
  (pc = login_pc.at_reply (decide (i = w)) ∧ sends_to s t i = []) ∨
  (pc = login_pc.finished (decide (i = w)) ∧
    sends_to s t i = [(some i, expected_login_reply u (decide (i = w)))])

/-- Invariant of the interleavings that start in `login_start s slots`: either no
thread has entered the critical section and the server is as at the start, or one slot
`w` has written the name and every thread is in a state allowed by `thread_ok`. -/
structure login_inv (s : Server) (slots : List Nat) (u : CStr) (c : Logins) : Prop where
  len : c.pcs.length = slots.length
  sent_le : s.sent.length ≤ c.server.sent.length
  only : ∀ m ∈ new_sends s c.server, ∃ i ∈ slots, m.1 = some i
  state : (c.server = s ∧ ∀ pc ∈ c.pcs, pc = login_pc.at_lock) ∨
    ∃ w, w ∈ slots ∧
      c.server.clients = s.clients.set w { client_at s.clients w with username := u } ∧
      ∀ (j i : Nat) (pc : login_pc), slots[j]? = some i → c.pcs[j]? = some pc →
        thread_ok s c.server u w i pc

/-- The interleaving of two login attempts with the name "A" in which the thread of
slot 1 enters the critical section first and replies last. -/
def demo_login_race : Logins :=
  (login_run [0, 1] (login_start demo_two_connections [0, 1]) "A".toList [1, 0, 0, 1]).getD
    (login_start demo_two_connections [0, 1])

/-! ## The shutdown loop of `main` -/

/-- Consistency of the session table with the room table: the fields of `tables_ok`
other than `sock`.  It holds also after the shutdown loop of `main` has closed the
socket of a session that is still active. -/
structure tables_live (clients : List client_t) (rooms : List room_t) : Prop where
  clen : clients.length = MAX_CLIENTS_GLOBAL
  rlen : rooms.length = MAX_ROOMS
  room : ∀ (a : Nat) (ra : room_t), rooms[a]? = some ra → room_ok ra
  uniq : ∀ (a b : Nat) (ra rb : room_t), rooms[a]? = some ra → rooms[b]? = some rb → ra.active = true →
    rb.active = true → ra.name = rb.name → a = b
  member : ∀ (a : Nat) (ra : room_t), rooms[a]? = some ra → ∀ m ∈ ra.member_client_indices, m ≠ -1 →
    (client_at clients m.toNat).current_room_name = ra.name ∧
      (client_at clients m.toNat).active = true
  in_room : ∀ i : Nat, i < MAX_CLIENTS_GLOBAL → (client_at clients i).current_room_name ≠ [] →
    ∃ (a : Nat) (ra : room_t), rooms[a]? = some ra ∧ ra.active = true ∧
      ra.name = (client_at clients i).current_room_name ∧
      (i : Int) ∈ ra.member_client_indices
  names : ∀ i j : Nat, i < MAX_CLIENTS_GLOBAL → j < MAX_CLIENTS_GLOBAL →
    (client_at clients i).active = true → (client_at clients j).active = true →
    (client_at clients i).username ≠ [] →
    (client_at clients i).username = (client_at clients j).username → i = j
  idle : ∀ i : Nat, i < MAX_CLIENTS_GLOBAL → (client_at clients i).active = false →
    (client_at clients i).username = [] ∧ (client_at clients i).current_room_name = []
  ulen : ∀ i : Nat, i < MAX_CLIENTS_GLOBAL → (client_at clients i).username.length ≤ MAX_USERNAME_LEN

/-- One turn of the shutdown loop of `main` (lines 1364-1373), made with `clients_mutex`
held: the session of slot `i`, when it is active and its socket is open, is sent the
notice and its socket is closed; the slot stays active with `sockfd = -1` until the
thread of the session runs `cleanup_client`. -/
def shutdown_close (s : Server) (i : Nat) : Server :=
  let client := client_at s.clients i
  if client.active = true ∧ client.sockfd ≠ -1 then
    let s1 := (send s (some i) client.sockfd
      "SERVER_DOWN:Server is shutting down NOW.\n".toList).1
    { s1 with clients := s1.clients.set i { client with sockfd := -1 } }
  else s

/-- Atomic steps of the whole server: the steps of the acceptor and of the session
threads, and the turns of the shutdown loop of `main`, which runs once `server_running`
is cleared.  A session thread that has received a command line before the flag was
cleared still executes it, so a `SessionStep.command` can follow a `close`. -/
inductive ServerStep : Server → Server → Prop
  | session (s t : Server) : SessionStep s t → ServerStep s t
  | close (s : Server) (i : Nat) :
      s.server_running = false → i < MAX_CLIENTS_GLOBAL → ServerStep s (shutdown_close s i)

/-- States reachable from the initial state by the steps of the whole server. -/
inductive ServerReachable : Server → Prop
  | init (net : List Bool) : ServerReachable (initial_server net)
  | step (s t : Server) : ServerReachable s → ServerStep s t → ServerReachable t

/-- The state `demo_lobby_two` ("A" and "B" in the room "lobby") after the server was
stopped and the shutdown loop has closed the socket of slot 0. -/
def demo_lobby_closed : Server :=
  shutdown_close { demo_lobby_two with server_running := false } 0

/-- The state `demo_two_sessions` ("A" and "B" logged in) after the server was stopped
and the shutdown loop has closed the socket of slot 0. -/
def demo_two_closed : Server :=
  shutdown_close { demo_two_sessions with server_running := false } 0

/-- Three sessions "A", "B", "C" in the room "lobby". -/
def demo_lobby_three : Server :=
  handle_join_room
    (login_attempt (accept_connection demo_lobby_two 6 "10.0.0.3".toList true) 2
      "C\n".toList).1
    2 "lobby".toList

/-- The state `demo_lobby_three` after the server was stopped and the shutdown loop
has closed the socket of slot 0. -/
def demo_lobby_three_closed : Server :=
  shutdown_close { demo_lobby_three with server_running := false } 0

/-! # Theorems -/

/-! ## Texts -/

theorem begins_with_snprintf (pre rest : CStr) (n : Nat) (h : pre.length ≤ n - 1) :
    begins_with pre (snprintf n (pre ++ rest)) := by
  unfold begins_with snprintf
  rw [List.take_take, Nat.min_eq_left h, List.take_left]

/-! ## Session registry -/

/-- C2: `is_username_valid_and_unique` returns 1 exactly for the names of 1 to 16
characters, all ASCII letters or digits, that no active slot holds as its non-empty
username; names are compared character by character, so case matters. -/
theorem is_username_valid_and_unique_iff (clients : List client_t) (s : CStr) :
    is_username_valid_and_unique clients s = 1 ↔
      (1 ≤ s.length ∧ s.length ≤ 16) ∧
      (∀ c ∈ s, c.isAlpha = true ∨ c.isDigit = true) ∧
      (∀ c ∈ clients, c.active = true → c.username ≠ [] → c.username ≠ s) := by
  unfold is_username_valid_and_unique MAX_USERNAME_LEN
  by_cases hlen : s.length = 0 ∨ s.length > 16
  · rw [if_pos hlen]
    constructor
    · intro h; exact absurd h (by decide)
    · rintro ⟨⟨h1, h2⟩, _⟩; omega
  · rw [if_neg hlen]
    by_cases hal : s.any (fun c => !isalnum c) = true
    · rw [if_pos hal]
      constructor
      · intro h; exact absurd h (by decide)
      · rintro ⟨_, h, _⟩
        rw [List.any_eq_true] at hal
        obtain ⟨c, hc, hcn⟩ := hal
        have := h c hc
        simp [isalnum] at hcn
        rcases this with h1 | h1 <;> simp [h1] at hcn
    · rw [if_neg hal]
      by_cases hdup :
          clients.any (fun c => c.active && c.username != [] && c.username == s) = true
      · rw [if_pos hdup]
        constructor
        · intro h; exact absurd h (by decide)
        · rintro ⟨_, _, h⟩
          rw [List.any_eq_true] at hdup
          obtain ⟨c, hc, hcn⟩ := hdup
          simp at hcn
          exact absurd hcn.2 (h c hc hcn.1.1 hcn.1.2)
      · rw [if_neg hdup]
        simp only [true_iff]
        refine ⟨by omega, ?_, ?_⟩
        · intro c hc
          by_contra hcon
          apply hal
          rw [List.any_eq_true]
          refine ⟨c, hc, ?_⟩
          simp [isalnum]
          simp at hcon
          exact hcon
        · intro c hc ha hne heq
          apply hdup
          rw [List.any_eq_true]
          have hs : s ≠ [] := heq ▸ hne
          exact ⟨c, hc, by simp [ha, heq, hs]⟩

/-! ## Upload queue -/

theorem tmod_15 (x : Int) (h : 0 ≤ x) : Int.tmod x 15 = x % 15 :=
  Int.tmod_eq_emod h (by decide)

/-- C9: every reachable state of the upload queue has `0 ≤ count ≤ 15`,
`0 ≤ front < 15`, `0 ≤ rear < 15` and `rear = (front + count) mod 15` over an array of
15 slots, so the `count` occupied and the `15 - count` free slots make up the capacity. -/
theorem upload_queue_invariant (q : file_queue_t) (h : QueueReachable q) :
    q.transfers.length = 15 ∧ 0 ≤ q.count ∧ q.count ≤ 15 ∧ 0 ≤ q.front ∧ q.front < 15 ∧
      0 ≤ q.rear ∧ q.rear < 15 ∧ q.rear = (q.front + q.count) % 15 ∧
      0 ≤ 15 - q.count ∧ q.count + (15 - q.count) = 3 * (MAX_UPLOAD_QUEUE : Int) := by
  have key : q.transfers.length = 15 ∧ 0 ≤ q.count ∧ q.count ≤ 15 ∧ 0 ≤ q.front ∧
      q.front < 15 ∧ 0 ≤ q.rear ∧ q.rear < 15 ∧ q.rear = (q.front + q.count) % 15 := by
    induction h with
    | init => decide
    | enqueue q running t q1 r _ he ih =>
      obtain ⟨h0, h1, h2, h3, h4, h5, h6, h7⟩ := ih
      unfold enqueue_file_transfer at he
      split at he
      · exact absurd he (by simp)
      · split at he
        · simp at he; rw [← he.1]; exact ⟨h0, h1, h2, h3, h4, h5, h6, h7⟩
        · rename_i hc hr
          simp [MAX_UPLOAD_QUEUE] at he hc hr
          rw [← he.1]
          simp only [List.length_set]
          rw [tmod_15 _ (by omega)]
          have hcnt : q.count < 15 := by
            by_contra hh
            exact absurd (hc (by omega)) (by simp [hr])
          refine ⟨h0, by omega, by omega, h3, h4, by omega, by omega, by omega⟩
    | dequeue q running q1 t _ he ih =>
      obtain ⟨h0, h1, h2, h3, h4, h5, h6, h7⟩ := ih
      unfold file_processor_dequeue at he
      split at he
      · exact absurd he (by simp)
      · split at he
        · rename_i hc
          simp [MAX_UPLOAD_QUEUE] at he
          rw [← he.1]
          simp only
          rw [tmod_15 _ (by omega)]
          refine ⟨h0, by omega, by omega, by omega, by omega, h5, h6, by omega⟩
        · simp at he; rw [← he.1]; exact ⟨h0, h1, h2, h3, h4, h5, h6, h7⟩
    | stats q status _ ih =>
      unfold file_processor_update_stats
      split <;> exact ih
  obtain ⟨h0, h1, h2, h3, h4, h5, h6, h7⟩ := key
  refine ⟨h0, h1, h2, h3, h4, h5, h6, h7, by omega, ?_⟩
  simp [MAX_UPLOAD_QUEUE]

/-- Witness of C9: the queue after one accepted enqueue on the initial queue. -/
theorem upload_queue_invariant_witness :
    QueueReachable queue_with_one_request ∧
      queue_with_one_request.rear =
        (queue_with_one_request.front + queue_with_one_request.count) % 15 :=
  ⟨QueueReachable.enqueue init_file_transfer_system true zero_transfer
      queue_with_one_request 1 QueueReachable.init (by decide),
   (upload_queue_invariant queue_with_one_request
      (QueueReachable.enqueue init_file_transfer_system true zero_transfer
        queue_with_one_request 1 QueueReachable.init (by decide))).2.2.2.2.2.2.2.1⟩

/-- C10: when the server is shutting down `enqueue_file_transfer` returns 0 and leaves
the queue as it is; when the server runs and `count < 15` it returns 1, stores the
request at the old `rear`, sets `rear` to `(rear + 1) mod 15` and adds one to `count`,
leaving the other slots, `front` and the two counters as they are. -/
theorem enqueue_file_transfer_result (q : file_queue_t) (t : file_transfer_t)
    (hlen : q.transfers.length = 15) (hr0 : 0 ≤ q.rear) (hr1 : q.rear < 15) :
    enqueue_file_transfer q false t = some (q, 0) ∧
    (q.count < 15 → ∃ q1, enqueue_file_transfer q true t = some (q1, 1) ∧
        q1.transfers[q.rear.toNat]? = some t ∧
        (∀ j, j ≠ q.rear.toNat → q1.transfers[j]? = q.transfers[j]?) ∧
        q1.rear = (q.rear + 1) % 15 ∧ q1.count = q.count + 1 ∧ q1.front = q.front ∧
        q1.total_processed = q.total_processed ∧ q1.total_failed = q.total_failed) := by
  constructor
  · simp [enqueue_file_transfer]
  · intro hc
    have hnot : ¬ (q.count ≥ ((MAX_UPLOAD_QUEUE * 3 : Nat) : Int) ∧ true = true) := by
      simp [MAX_UPLOAD_QUEUE]; omega
    refine ⟨{ q with transfers := q.transfers.set q.rear.toNat t,
                     rear := Int.tmod (q.rear + 1) ((MAX_UPLOAD_QUEUE * 3 : Nat) : Int),
                     count := q.count + 1 },
      by unfold enqueue_file_transfer; rw [if_neg hnot, if_neg (by decide)], ?_, ?_,
      ?_, rfl, rfl, rfl, rfl⟩
    · simp only
      rw [List.getElem?_set_eq_of_lt]
      omega
    · intro j hj
      simp only
      rw [List.getElem?_set_ne (Ne.symm hj)]
    · simp only [MAX_UPLOAD_QUEUE]
      exact tmod_15 _ (by omega)

/-- Witness of C10: the initial queue. -/
theorem enqueue_file_transfer_result_witness :
    enqueue_file_transfer init_file_transfer_system false zero_transfer =
        some (init_file_transfer_system, 0) ∧
      enqueue_file_transfer init_file_transfer_system true zero_transfer =
        some (queue_with_one_request, 1) :=
  ⟨(enqueue_file_transfer_result init_file_transfer_system zero_transfer (by decide)
      (by decide) (by decide)).1, by decide⟩

/-- C8 as stated fails: a Completed transfer whose sender and receiver slots are no
longer active produces no message at all. -/
theorem notify_transfer_completion_inactive :
    (notify_transfer_completion (initial_server [])
      { zero_transfer with status := transfer_status_t.TRANSFER_COMPLETED,
                           sender_idx := 0, receiver_idx := 1 }).sent = [] := by
  decide

theorem new_sends_self (s : Server) : new_sends s s = [] := by
  simp [new_sends]

theorem new_sends_send (s t : Server) (i : Option Nat) (fd : Int) (text : CStr)
    (h : s.sent.length ≤ t.sent.length) :
    new_sends s (send t i fd text).1 = new_sends s t ++ [(i, text)] := by
  simp [new_sends, send, List.drop_append_of_le_length h]

theorem send_sent_length (s : Server) (i : Option Nat) (fd : Int) (text : CStr) :
    s.sent.length ≤ (send s i fd text).1.sent.length := by
  simp [send]

@[simp] theorem send_clients (s : Server) (i : Option Nat) (fd : Int) (text : CStr) :
    (send s i fd text).1.clients = s.clients := rfl

@[simp] theorem send_rooms (s : Server) (i : Option Nat) (fd : Int) (text : CStr) :
    (send s i fd text).1.rooms = s.rooms := rfl

@[simp] theorem send_upload_queue (s : Server) (i : Option Nat) (fd : Int) (text : CStr) :
    (send s i fd text).1.upload_queue = s.upload_queue := rfl

@[simp] theorem send_server_running (s : Server) (i : Option Nat) (fd : Int) (text : CStr) :
    (send s i fd text).1.server_running = s.server_running := rfl

theorem send_sent (s : Server) (i : Option Nat) (fd : Int) (text : CStr) :
    (send s i fd text).1.sent =
      s.sent ++ [{ to_idx := i, sockfd := fd, text := text, ok := s.net.headD true }] := rfl

theorem begins_with_ne_nil (pre text : CStr) (h : begins_with pre text) (hp : pre ≠ []) :
    text ≠ [] := by
  intro ht
  unfold begins_with at h
  rw [ht] at h
  simp at h
  exact hp h

theorem completion_sender_msg_ok (t : file_transfer_t)
    (h : t.status = transfer_status_t.TRANSFER_COMPLETED) :
    begins_with "OK:".toList (completion_sender_msg t) := by
  unfold completion_sender_msg
  rw [if_pos h]
  simp only [List.append_assoc]
  exact begins_with_snprintf _ _ _ (by decide)

theorem completion_sender_msg_error (t : file_transfer_t)
    (h : t.status ≠ transfer_status_t.TRANSFER_COMPLETED) :
    begins_with "ERROR:".toList (completion_sender_msg t) := by
  unfold completion_sender_msg
  rw [if_neg h]
  simp only [List.append_assoc]
  exact begins_with_snprintf _ _ _ (by decide)

theorem completion_receiver_msg_notify (t : file_transfer_t)
    (h : t.status = transfer_status_t.TRANSFER_COMPLETED) :
    begins_with "FILE_NOTIFY:".toList (completion_receiver_msg t) := by
  unfold completion_receiver_msg
  rw [if_pos h]
  simp only [List.append_assoc]
  exact begins_with_snprintf _ _ _ (by decide)

/-- C8, amended: `notify_transfer_completion` sends a message only to an active slot.
For a Completed transfer it sends one text beginning "OK:" to the sender slot when
that slot is active, then one text beginning "FILE_NOTIFY:" to the receiver slot when
that slot is active; for any other transfer it sends one text beginning "ERROR:" to
the sender slot when that slot is active and nothing to the receiver. -/
theorem notify_transfer_completion_sends (s : Server) (t : file_transfer_t) :
    (t.status = transfer_status_t.TRANSFER_COMPLETED →
      begins_with "OK:".toList (completion_sender_msg t) ∧
      begins_with "FILE_NOTIFY:".toList (completion_receiver_msg t)) ∧
    (t.status ≠ transfer_status_t.TRANSFER_COMPLETED →
      begins_with "ERROR:".toList (completion_sender_msg t)) ∧
    new_sends s (notify_transfer_completion s t) =
      (if slot_active s t.sender_idx then
        [(some t.sender_idx.toNat, completion_sender_msg t)] else []) ++
      (if t.status = transfer_status_t.TRANSFER_COMPLETED ∧ slot_active s t.receiver_idx then
        [(some t.receiver_idx.toNat, completion_receiver_msg t)] else []) := by
  refine ⟨fun h => ⟨completion_sender_msg_ok t h, completion_receiver_msg_notify t h⟩,
    completion_sender_msg_error t, ?_⟩
  have hrecv : completion_receiver_msg t ≠ [] ↔
      t.status = transfer_status_t.TRANSFER_COMPLETED := by
    constructor
    · intro h
      by_contra hn
      exact h (by unfold completion_receiver_msg; rw [if_neg hn])
    · intro h
      exact begins_with_ne_nil _ _ (completion_receiver_msg_notify t h) (by decide)
  unfold notify_transfer_completion
  by_cases hs : slot_active s t.sender_idx <;>
    by_cases hr : t.status = transfer_status_t.TRANSFER_COMPLETED ∧ slot_active s t.receiver_idx
  all_goals
    have hs1 := hs
    have hr1 := hr
    unfold slot_active at hs1 hr1
    simp only [hrecv, ge_iff_le, send_clients]
    simp only [hs, hr, if_true, if_false]
  · rw [if_pos hs1, if_pos (by tauto)]
    rw [new_sends_send _ _ _ _ _ (send_sent_length _ _ _ _),
      new_sends_send _ _ _ _ _ (le_refl _), new_sends_self]
    rfl
  · rw [if_pos hs1, if_neg (by tauto)]
    rw [new_sends_send _ _ _ _ _ (le_refl _), new_sends_self]
    rfl
  · rw [if_neg hs1, if_pos (by tauto)]
    rw [new_sends_send _ _ _ _ _ (le_refl _), new_sends_self]
    rfl
  · rw [if_neg hs1, if_neg (by tauto)]
    rw [new_sends_self]
    rfl

/-! ## Scans and table accesses -/

theorem firstIdx_some {α : Type} (p : α → Bool) (xs : List α) (i : Nat)
    (h : firstIdx p xs = some i) :
    ∃ x, xs[i]? = some x ∧ p x = true ∧ ∀ j y, j < i → xs[j]? = some y → p y = false := by
  induction xs generalizing i with
  | nil => simp [firstIdx] at h
  | cons x xs ih =>
    unfold firstIdx at h
    by_cases hx : p x = true
    · rw [if_pos hx] at h
      cases h
      exact ⟨x, by simp, hx, fun j y hj => absurd hj (Nat.not_lt_zero j)⟩
    · rw [if_neg hx] at h
      cases hf : firstIdx p xs with
      | none => rw [hf] at h; cases h
      | some k =>
        rw [hf] at h
        cases h
        obtain ⟨y, hy, hpy, hmin⟩ := ih k hf
        refine ⟨y, by simpa using hy, hpy, ?_⟩
        intro j z hj hz
        cases j with
        | zero => simp at hz; rw [← hz]; simpa using hx
        | succ j =>
          simp only [Nat.add_lt_add_iff_right] at hj
          exact hmin j z hj (by simpa using hz)

theorem firstIdx_none {α : Type} (p : α → Bool) (xs : List α) (h : firstIdx p xs = none) :
    ∀ x ∈ xs, p x = false := by
  induction xs with
  | nil => intro x hx; cases hx
  | cons x xs ih =>
    unfold firstIdx at h
    by_cases hx : p x = true
    · rw [if_pos hx] at h; cases h
    · rw [if_neg hx] at h
      cases hf : firstIdx p xs with
      | none =>
        intro y hy
        rcases List.mem_cons.mp hy with rfl | hy
        · simpa using hx
        · exact ih hf y hy
      | some k => rw [hf] at h; cases h

theorem firstIdx_of_mem {α : Type} (p : α → Bool) (xs : List α) (x : α) (hx : x ∈ xs)
    (hp : p x = true) : ∃ i, firstIdx p xs = some i := by
  cases hf : firstIdx p xs with
  | some i => exact ⟨i, rfl⟩
  | none => rw [firstIdx_none p xs hf x hx] at hp; cases hp

theorem client_at_of_getElem (clients : List client_t) (i : Nat) (c : client_t)
    (h : clients[i]? = some c) : client_at clients i = c := by
  simp [client_at, h]

theorem room_at_of_getElem (rooms : List room_t) (i : Nat) (r : room_t)
    (h : rooms[i]? = some r) : room_at rooms i = r := by
  simp [room_at, h]

theorem getElem_client_at (clients : List client_t) (i : Nat) (h : i < clients.length) :
    clients[i]? = some (client_at clients i) := by
  simp [client_at, List.getElem?_eq_getElem h]

theorem getElem_room_at (rooms : List room_t) (i : Nat) (h : i < rooms.length) :
    rooms[i]? = some (room_at rooms i) := by
  simp [room_at, List.getElem?_eq_getElem h]

theorem client_at_set_self (clients : List client_t) (i : Nat) (c : client_t)
    (h : i < clients.length) : client_at (clients.set i c) i = c := by
  simp [client_at, List.getElem?_set_eq_of_lt, h]

theorem client_at_set_ne (clients : List client_t) (i k : Nat) (c : client_t) (h : i ≠ k) :
    client_at (clients.set i c) k = client_at clients k := by
  simp [client_at, List.getElem?_set_ne h]

theorem getElem_set_cases {α : Type} (l : List α) (i j : Nat) (a b : α)
    (h : (l.set i a)[j]? = some b) : (j = i ∧ b = a) ∨ (j ≠ i ∧ l[j]? = some b) := by
  by_cases hij : i = j
  · subst hij
    left
    rw [List.getElem?_set] at h
    simp at h
    exact ⟨rfl, h.2.symm⟩
  · right
    rw [List.getElem?_set_ne hij] at h
    exact ⟨fun e => hij e.symm, h⟩

theorem mem_of_getElem {α : Type} (l : List α) (i : Nat) (a : α) (h : l[i]? = some a) :
    a ∈ l := by
  rw [List.getElem?_eq_some] at h
  obtain ⟨hi, rfl⟩ := h
  exact List.getElem_mem hi

theorem getElem_of_mem {α : Type} (l : List α) (a : α) (h : a ∈ l) :
    ∃ i : Nat, l[i]? = some a := by
  obtain ⟨i, hi, rfl⟩ := List.getElem_of_mem h
  exact ⟨i, List.getElem?_eq_getElem hi⟩

/-! ## Room slots -/

theorem room_name_valid_length (n : CStr) (h : is_room_name_valid n = 1) :
    n ≠ [] ∧ n.length ≤ MAX_ROOM_NAME_LEN := by
  unfold is_room_name_valid at h
  split at h
  · cases h
  · rename_i hl
    constructor
    · intro hn; apply hl; left; simp [hn]
    · omega

theorem room_name_valid_take (n : CStr) (h : is_room_name_valid n = 1) :
    n.take MAX_ROOM_NAME_LEN = n :=
  List.take_of_length_le (room_name_valid_length n h).2

theorem countP_pos_of_getElem (l : List Int) (j : Nat) (m : Int) (h : l[j]? = some m)
    (hm : m ≠ -1) : 0 < l.countP (fun m => m != -1) := by
  rw [List.countP_pos_iff]
  exact ⟨m, mem_of_getElem l j m h, by simpa using hm⟩

theorem room_ok.active_of_mem {r : room_t} (h : room_ok r) (m : Int)
    (hm : m ∈ r.member_client_indices) (hne : m ≠ -1) : r.active = true := by
  rw [h.act, h.count]
  have : 0 < r.member_client_indices.countP (fun m => m != -1) := by
    rw [List.countP_pos_iff]
    exact ⟨m, hm, by simpa using hne⟩
  omega

theorem room_ok.free_of_inactive {r : room_t} (h : room_ok r) (ha : r.active = false)
    (m : Int) (hm : m ∈ r.member_client_indices) : m = -1 := by
  by_contra hne
  rw [h.active_of_mem m hm hne] at ha
  cases ha

theorem room_ok.num_users_le {r : room_t} (h : room_ok r) :
    0 ≤ r.num_users ∧ r.num_users ≤ (MAX_ROOM_USERS : Int) := by
  have h1 := h.count
  have h2 : r.member_client_indices.countP (fun m => m != -1) ≤
      r.member_client_indices.length := List.countP_le_length _
  rw [h.mlen] at h2
  omega

theorem room_ok.free_slot {r : room_t} (h : room_ok r) (hlt : r.num_users < (MAX_ROOM_USERS : Int)) :
    ∃ slot, firstIdx (fun m => m == -1) r.member_client_indices = some slot := by
  cases hf : firstIdx (fun m => m == -1) r.member_client_indices with
  | some slot => exact ⟨slot, rfl⟩
  | none =>
    exfalso
    have hall := firstIdx_none _ _ hf
    have hc : r.member_client_indices.countP (fun m => m != -1) =
        r.member_client_indices.length := by
      rw [List.countP_eq_length]
      intro m hm
      have := hall m hm
      simp at this
      simpa using this
    have h1 := h.count
    rw [hc, h.mlen] at h1
    omega

theorem room_ok_remove (ra : room_t) (h : room_ok ra) (hact : ra.active = true) (j i : Nat)
    (hj : ra.member_client_indices[j]? = some (i : Int)) :
    room_ok
      { name := if ra.num_users - 1 = 0 then [] else ra.name,
        member_client_indices := ra.member_client_indices.set j (-1),
        num_users := ra.num_users - 1,
        active := if ra.num_users - 1 = 0 then false else true } := by
  have hjl : j < ra.member_client_indices.length := by
    rw [List.getElem?_eq_some] at hj; exact hj.1
  have hji : ra.member_client_indices[j] = (i : Int) := by
    rw [List.getElem?_eq_some] at hj; exact hj.2
  have hcnt : (ra.member_client_indices.set j (-1)).countP (fun m => m != -1) + 1 =
      ra.member_client_indices.countP (fun m => m != -1) := by
    rw [List.countP_set _ _ _ _ hjl, hji]
    have hp := countP_pos_of_getElem _ j i hj (by omega)
    have h1 : ((i : Int) != -1) = true := by simp
    simp [h1]
    omega
  have hc := h.count
  constructor
  · simp [h.mlen]
  · simp only; omega
  · simp only
    constructor
    · intro hh
      split at hh
      · cases hh
      · omega
    · intro hh
      rw [if_neg (by omega)]
  · simp only
    intro hh
    split at hh
    · cases hh
    · rename_i hne
      rw [if_neg hne]
      exact h.name_valid hact
  · simp only
    intro hh
    split at hh
    · rename_i he; rw [if_pos he]
    · cases hh
  · intro x y m hx hy hm
    simp only at hx hy
    rcases getElem_set_cases _ _ _ _ _ hx with ⟨_, e⟩ | ⟨_, hx1⟩
    · exact absurd e hm
    rcases getElem_set_cases _ _ _ _ _ hy with ⟨_, e⟩ | ⟨_, hy1⟩
    · exact absurd e hm
    exact h.nodup x y m hx1 hy1 hm
  · intro m hm hne
    simp only at hm
    rcases List.mem_or_eq_of_mem_set hm with hm1 | e
    · exact h.range m hm1 hne
    · exact absurd e hne

theorem room_ok_add (ra : room_t) (h : room_ok ra) (slot i : Nat) (n : CStr)
    (hslot : ra.member_client_indices[slot]? = some (-1))
    (hfresh : ∀ m ∈ ra.member_client_indices, m ≠ (i : Int))
    (hi : i < MAX_CLIENTS_GLOBAL) (hn : is_room_name_valid n = 1) :
    room_ok
      { name := n,
        member_client_indices := ra.member_client_indices.set slot (i : Int),
        num_users := ra.num_users + 1,
        active := true } := by
  have hjl : slot < ra.member_client_indices.length := by
    rw [List.getElem?_eq_some] at hslot; exact hslot.1
  have hji : ra.member_client_indices[slot] = -1 := by
    rw [List.getElem?_eq_some] at hslot; exact hslot.2
  have hcnt : (ra.member_client_indices.set slot (i : Int)).countP (fun m => m != -1) =
      ra.member_client_indices.countP (fun m => m != -1) + 1 := by
    rw [List.countP_set _ _ _ _ hjl, hji]
    have h1 : ((i : Int) != -1) = true := by simp
    simp [h1]
  have hc := h.count
  constructor
  · simp [h.mlen]
  · simp only; omega
  · simp only; constructor
    · intro _; omega
    · intro _; trivial
  · intro _; exact hn
  · intro hh; cases hh
  · intro x y m hx hy hm
    simp only at hx hy
    rcases getElem_set_cases _ _ _ _ _ hx with ⟨ex, e⟩ | ⟨nx, hx1⟩ <;>
      rcases getElem_set_cases _ _ _ _ _ hy with ⟨ey, e2⟩ | ⟨ny, hy1⟩
    · rw [ex, ey]
    · exact absurd e (hfresh m (mem_of_getElem _ _ _ hy1))
    · exact absurd e2 (hfresh m (mem_of_getElem _ _ _ hx1))
    · exact h.nodup x y m hx1 hy1 hm
  · intro m hm hne
    simp only at hm
    rcases List.mem_or_eq_of_mem_set hm with hm1 | e
    · exact h.range m hm1 hne
    · rw [e]; omega

/-! ## Consistency of the two tables -/

theorem toNat_ne_of_ne (m : Int) (i : Nat) (h0 : 0 ≤ m) (h : m ≠ (i : Int)) : m.toNat ≠ i := by
  omega

theorem tables_ok.not_member {clients : List client_t} {rooms : List room_t}
    (h : tables_ok clients rooms) (i : Nat)
    (hroom : (client_at clients i).current_room_name = []) (a : Nat) (ra : room_t)
    (ha : rooms[a]? = some ra) : ∀ m ∈ ra.member_client_indices, m ≠ (i : Int) := by
  intro m hm e
  subst e
  have hne : (i : Int) ≠ -1 := by omega
  have h1 := (h.member a ra ha _ hm hne).1
  simp only [Int.toNat_ofNat] at h1
  rw [hroom] at h1
  have hact := (h.room a ra ha).active_of_mem _ hm hne
  exact (room_name_valid_length _ ((h.room a ra ha).name_valid hact)).1 h1.symm

theorem tables_ok_leave (clients : List client_t) (rooms : List room_t)
    (h : tables_ok clients rooms) (i a j : Nat) (ra : room_t) (hi : i < MAX_CLIENTS_GLOBAL)
    (ha : rooms[a]? = some ra) (hact : ra.active = true)
    (hname : ra.name = (client_at clients i).current_room_name)
    (hj : ra.member_client_indices[j]? = some (i : Int)) :
    tables_ok
      (clients.set i { client_at clients i with current_room_name := [] })
      (rooms.set a
        { name := if ra.num_users - 1 = 0 then [] else ra.name,
          member_client_indices := ra.member_client_indices.set j (-1),
          num_users := ra.num_users - 1,
          active := if ra.num_users - 1 = 0 then false else true }) := by
  have hicl : i < clients.length := by rw [h.clen]; exact hi
  have hok' := room_ok_remove ra (h.room a ra ha) hact j i hj
  have hraok := h.room a ra ha
  -- an occupied entry of the new member array is an old entry other than `i`
  have hmem' : ∀ m ∈ ra.member_client_indices.set j (-1), m ≠ -1 →
      m ∈ ra.member_client_indices ∧ m ≠ (i : Int) := by
    intro m hm hne
    obtain ⟨x, hx⟩ := getElem_of_mem _ _ hm
    rcases getElem_set_cases _ _ _ _ _ hx with ⟨_, e⟩ | ⟨nx, hx1⟩
    · exact absurd e hne
    · refine ⟨mem_of_getElem _ _ _ hx1, ?_⟩
      intro e
      subst e
      exact nx (hraok.nodup x j _ hx1 hj hne)
  have hcl : ∀ k, k ≠ i →
      client_at (clients.set i { client_at clients i with current_room_name := [] }) k =
        client_at clients k := fun k hk => client_at_set_ne _ _ _ _ (Ne.symm hk)
  have hcli : client_at (clients.set i { client_at clients i with current_room_name := [] }) i =
      { client_at clients i with current_room_name := [] } := client_at_set_self _ _ _ hicl
  constructor
  · simp [h.clen]
  · simp [h.rlen]
  · intro b rb hb
    rcases getElem_set_cases _ _ _ _ _ hb with ⟨_, e⟩ | ⟨_, hb1⟩
    · rw [e]; exact hok'
    · exact h.room b rb hb1
  · intro b c rb rc hb hc hab hac hbc
    rcases getElem_set_cases _ _ _ _ _ hb with ⟨eb, e⟩ | ⟨nb, hb1⟩ <;>
      rcases getElem_set_cases _ _ _ _ _ hc with ⟨ec, e2⟩ | ⟨nc, hc1⟩
    · rw [eb, ec]
    · exfalso
      apply nc
      rw [e] at hab hbc
      simp only at hab hbc
      split at hab
      · cases hab
      · rename_i hz
        rw [if_neg hz] at hbc
        exact (h.uniq a c ra rc ha hc1 hact hac hbc).symm
    · exfalso
      apply nb
      rw [e2] at hac hbc
      simp only at hac hbc
      split at hac
      · cases hac
      · rename_i hz
        rw [if_neg hz] at hbc
        exact (h.uniq a b ra rb ha hb1 hact hab hbc.symm).symm
    · exact h.uniq b c rb rc hb1 hc1 hab hac hbc
  · intro b rb hb m hm hne
    rcases getElem_set_cases _ _ _ _ _ hb with ⟨_, e⟩ | ⟨nb, hb1⟩
    · rw [e] at hm
      simp only at hm
      obtain ⟨hm1, hmi⟩ := hmem' m hm hne
      have hr := hraok.range m hm1 hne
      rw [hcl _ (toNat_ne_of_ne m i hr.1 hmi)]
      have hold := h.member a ra ha m hm1 hne
      have hact' := hok'.active_of_mem m hm hne
      simp only at hact'
      rw [e]
      simp only
      split at hact'
      · cases hact'
      · rename_i hz
        rw [if_neg hz]
        exact hold
    · have hmi : m ≠ (i : Int) := by
        intro e
        subst e
        have hold := h.member b rb hb1 _ hm hne
        simp only [Int.toNat_ofNat] at hold
        have hbact := (h.room b rb hb1).active_of_mem _ hm hne
        exact nb (h.uniq b a rb ra hb1 ha hbact hact (by rw [hname, hold.1]))
      have hr := (h.room b rb hb1).range m hm hne
      rw [hcl _ (toNat_ne_of_ne m i hr.1 hmi)]
      exact h.member b rb hb1 m hm hne
  · intro k hk hkroom
    have hki : k ≠ i := by
      intro e
      subst e
      rw [hcli] at hkroom
      exact hkroom rfl
    rw [hcl k hki] at hkroom ⊢
    obtain ⟨b, rb, hb, hbact, hbname, hkm⟩ := h.in_room k hk hkroom
    by_cases hba : b = a
    · subst hba
      have e : rb = ra := by rw [ha] at hb; exact (Option.some.inj hb).symm
      subst e
      have hal : b < rooms.length := by
        rw [List.getElem?_eq_some] at ha; exact ha.1
      obtain ⟨x, hx⟩ := getElem_of_mem _ _ hkm
      have hxj : x ≠ j := by
        intro e
        subst e
        rw [hj] at hx
        have := Option.some.inj hx
        omega
      have hkm' : (k : Int) ∈ rb.member_client_indices.set j (-1) :=
        mem_of_getElem _ x _ (by rw [List.getElem?_set_ne (Ne.symm hxj)]; exact hx)
      have hact' := hok'.active_of_mem _ hkm' (by omega)
      simp only at hact'
      refine ⟨b, _, List.getElem?_set_eq_of_lt _ hal, hact', ?_, hkm'⟩
      simp only
      split at hact'
      · cases hact'
      · rename_i hz
        rw [if_neg hz]
        exact hbname
    · exact ⟨b, rb, by rw [List.getElem?_set_ne (Ne.symm hba)]; exact hb, hbact, hbname, hkm⟩
  · intro x y hx hy hxa hya hxn hxy
    have e1 : ∀ k, (client_at (clients.set i
        { client_at clients i with current_room_name := [] }) k).username =
        (client_at clients k).username := by
      intro k
      by_cases hk : k = i
      · subst hk; rw [hcli]
      · rw [hcl k hk]
    have e2 : ∀ k, (client_at (clients.set i
        { client_at clients i with current_room_name := [] }) k).active =
        (client_at clients k).active := by
      intro k
      by_cases hk : k = i
      · subst hk; rw [hcli]
      · rw [hcl k hk]
    rw [e1] at hxn
    rw [e1, e1] at hxy
    rw [e2] at hxa hya
    exact h.names x y hx hy hxa hya hxn hxy
  · intro k hk hka
    by_cases hki : k = i
    · subst hki
      rw [hcli] at hka ⊢
      exact ⟨(h.idle k hk hka).1, rfl⟩
    · rw [hcl k hki] at hka ⊢
      exact h.idle k hk hka
  · intro k hk
    by_cases hki : k = i
    · subst hki
      rw [hcli]
      exact h.ulen k hk
    · rw [hcl k hki]
      exact h.ulen k hk
  · intro k hk hka
    by_cases hki : k = i
    · subst hki
      rw [hcli] at hka ⊢
      exact h.sock k hk hka
    · rw [hcl k hki] at hka ⊢
      exact h.sock k hk hka

theorem tables_ok_join (clients : List client_t) (rooms : List room_t)
    (h : tables_ok clients rooms) (i a slot : Nat) (ra : room_t) (n : CStr)
    (hi : i < MAX_CLIENTS_GLOBAL) (hiact : (client_at clients i).active = true)
    (hroom : (client_at clients i).current_room_name = [])
    (ha : rooms[a]? = some ra) (hn : is_room_name_valid n = 1)
    (hcase : (ra.active = true ∧ ra.name = n) ∨
      (ra.active = false ∧ ∀ (b : Nat) (rb : room_t), rooms[b]? = some rb →
        rb.active = true → rb.name ≠ n))
    (hslot : ra.member_client_indices[slot]? = some (-1)) :
    tables_ok
      (clients.set i { client_at clients i with current_room_name := n })
      (rooms.set a
        { name := n,
          member_client_indices := ra.member_client_indices.set slot (i : Int),
          num_users := ra.num_users + 1,
          active := true }) := by
  have hicl : i < clients.length := by rw [h.clen]; exact hi
  have hal : a < rooms.length := by
    rw [List.getElem?_eq_some] at ha; exact ha.1
  have hraok := h.room a ra ha
  have hfresh := h.not_member i hroom
  have hok' := room_ok_add ra hraok slot i n hslot (hfresh a ra ha) hi hn
  have hcl : ∀ k, k ≠ i →
      client_at (clients.set i { client_at clients i with current_room_name := n }) k =
        client_at clients k := fun k hk => client_at_set_ne _ _ _ _ (Ne.symm hk)
  have hcli : client_at (clients.set i { client_at clients i with current_room_name := n }) i =
      { client_at clients i with current_room_name := n } := client_at_set_self _ _ _ hicl
  have hmem' : ∀ m ∈ ra.member_client_indices.set slot (i : Int),
      m = (i : Int) ∨ (m ∈ ra.member_client_indices) := by
    intro m hm
    rcases List.mem_or_eq_of_mem_set hm with hm1 | e
    · exact Or.inr hm1
    · exact Or.inl e
  constructor
  · simp [h.clen]
  · simp [h.rlen]
  · intro b rb hb
    rcases getElem_set_cases _ _ _ _ _ hb with ⟨_, e⟩ | ⟨_, hb1⟩
    · rw [e]; exact hok'
    · exact h.room b rb hb1
  · intro b c rb rc hb hc hab hac hbc
    rcases getElem_set_cases _ _ _ _ _ hb with ⟨eb, e⟩ | ⟨nb, hb1⟩ <;>
      rcases getElem_set_cases _ _ _ _ _ hc with ⟨ec, e2⟩ | ⟨nc, hc1⟩
    · rw [eb, ec]
    · exfalso
      rw [e] at hbc
      simp only at hbc
      rcases hcase with ⟨h1, h2⟩ | ⟨_, h2⟩
      · exact nc (h.uniq a c ra rc ha hc1 h1 hac (by rw [h2, hbc])).symm
      · exact h2 c rc hc1 hac hbc.symm
    · exfalso
      rw [e2] at hbc
      simp only at hbc
      rcases hcase with ⟨h1, h2⟩ | ⟨_, h2⟩
      · exact nb (h.uniq a b ra rb ha hb1 h1 hab (by rw [h2, hbc])).symm
      · exact h2 b rb hb1 hab hbc
    · exact h.uniq b c rb rc hb1 hc1 hab hac hbc
  · intro b rb hb m hm hne
    rcases getElem_set_cases _ _ _ _ _ hb with ⟨_, e⟩ | ⟨nb, hb1⟩
    · rw [e] at hm ⊢
      simp only at hm ⊢
      rcases hmem' m hm with e1 | hm1
      · subst e1
        simp only [Int.toNat_ofNat]
        rw [hcli]
        exact ⟨rfl, hiact⟩
      · have hmi := hfresh a ra ha m hm1
        have hr := hraok.range m hm1 hne
        rw [hcl _ (toNat_ne_of_ne m i hr.1 hmi)]
        have hold := h.member a ra ha m hm1 hne
        rcases hcase with ⟨_, h2⟩ | ⟨h1, _⟩
        · rw [← h2]; exact hold
        · exact absurd (hraok.free_of_inactive h1 m hm1) hne
    · have hmi := hfresh b rb hb1 m hm
      have hr := (h.room b rb hb1).range m hm hne
      rw [hcl _ (toNat_ne_of_ne m i hr.1 hmi)]
      exact h.member b rb hb1 m hm hne
  · intro k hk hkroom
    by_cases hki : k = i
    · subst hki
      rw [hcli]
      exact ⟨a, _, List.getElem?_set_eq_of_lt _ hal, rfl, rfl,
        mem_of_getElem _ slot _ (List.getElem?_set_eq_of_lt _ (by
          rw [List.getElem?_eq_some] at hslot; exact hslot.1))⟩
    · rw [hcl k hki] at hkroom ⊢
      obtain ⟨b, rb, hb, hbact, hbname, hkm⟩ := h.in_room k hk hkroom
      by_cases hba : b = a
      · subst hba
        have e : rb = ra := by rw [ha] at hb; exact (Option.some.inj hb).symm
        subst e
        obtain ⟨x, hx⟩ := getElem_of_mem _ _ hkm
        have hxs : x ≠ slot := by
          intro e
          subst e
          rw [hslot] at hx
          have := Option.some.inj hx
          omega
        refine ⟨b, _, List.getElem?_set_eq_of_lt _ hal, rfl, ?_,
          mem_of_getElem _ x _ (by rw [List.getElem?_set_ne (Ne.symm hxs)]; exact hx)⟩
        simp only
        rcases hcase with ⟨_, h2⟩ | ⟨h1, _⟩
        · rw [← h2]; exact hbname
        · rw [h1] at hbact; cases hbact
      · exact ⟨b, rb, by rw [List.getElem?_set_ne (Ne.symm hba)]; exact hb, hbact, hbname, hkm⟩
  · intro x y hx hy hxa hya hxn hxy
    have e1 : ∀ k, (client_at (clients.set i
        { client_at clients i with current_room_name := n }) k).username =
        (client_at clients k).username := by
      intro k
      by_cases hk : k = i
      · subst hk; rw [hcli]
      · rw [hcl k hk]
    have e2 : ∀ k, (client_at (clients.set i
        { client_at clients i with current_room_name := n }) k).active =
        (client_at clients k).active := by
      intro k
      by_cases hk : k = i
      · subst hk; rw [hcli]
      · rw [hcl k hk]
    rw [e1] at hxn
    rw [e1, e1] at hxy
    rw [e2] at hxa hya
    exact h.names x y hx hy hxa hya hxn hxy
  · intro k hk hka
    by_cases hki : k = i
    · subst hki
      rw [hcli] at hka
      simp only at hka
      rw [hiact] at hka
      cases hka
    · rw [hcl k hki] at hka ⊢
      exact h.idle k hk hka
  · intro k hk
    by_cases hki : k = i
    · subst hki
      rw [hcli]
      exact h.ulen k hk
    · rw [hcl k hki]
      exact h.ulen k hk
  · intro k hk hka
    by_cases hki : k = i
    · subst hki
      rw [hcli] at hka ⊢
      exact h.sock k hk hka
    · rw [hcl k hki] at hka ⊢
      exact h.sock k hk hka

/-- A write to slot `i` that keeps `current_room_name` keeps the tables consistent when
the new username is empty, unchanged on an active slot, or used by no other active
slot, and when the slot stays active unless it is in no room. -/
theorem tables_ok_set_client (clients : List client_t) (rooms : List room_t)
    (h : tables_ok clients rooms) (i : Nat) (c : client_t) (hi : i < MAX_CLIENTS_GLOBAL)
    (hroom : c.current_room_name = (client_at clients i).current_room_name)
    (hidle : c.active = false → c.username = [] ∧ c.current_room_name = [])
    (hstay : c.active = true ∨ (client_at clients i).current_room_name = [])
    (hlen : c.username.length ≤ MAX_USERNAME_LEN)
    (hsock : c.active = true → 0 ≤ c.sockfd)
    (huniq : c.username = [] ∨
      (c.username = (client_at clients i).username ∧ (client_at clients i).active = true) ∨
      (∀ j, j < MAX_CLIENTS_GLOBAL → j ≠ i → (client_at clients j).active = true →
        (client_at clients j).username ≠ c.username)) :
    tables_ok (clients.set i c) rooms := by
  have hicl : i < clients.length := by rw [h.clen]; exact hi
  have hcl : ∀ k, k ≠ i → client_at (clients.set i c) k = client_at clients k :=
    fun k hk => client_at_set_ne _ _ _ _ (Ne.symm hk)
  have hcli : client_at (clients.set i c) i = c := client_at_set_self _ _ _ hicl
  constructor
  · simp [h.clen]
  · exact h.rlen
  · exact h.room
  · exact h.uniq
  · intro b rb hb m hm hne
    have hold := h.member b rb hb m hm hne
    by_cases hmi : m.toNat = i
    · rw [hmi] at hold ⊢
      rw [hcli, hroom]
      refine ⟨hold.1, ?_⟩
      rcases hstay with h1 | h1
      · exact h1
      · exfalso
        have hr := (h.room b rb hb).range m hm hne
        have : m = (i : Int) := by omega
        exact h.not_member i h1 b rb hb m hm this
    · rw [hcl _ hmi]; exact hold
  · intro k hk hkroom
    by_cases hki : k = i
    · subst hki
      rw [hcli, hroom] at hkroom ⊢
      exact h.in_room k hk hkroom
    · rw [hcl k hki] at hkroom ⊢
      exact h.in_room k hk hkroom
  · intro x y hx hy hxa hya hxn hxy
    by_cases hxi : x = i <;> by_cases hyi : y = i
    · rw [hxi, hyi]
    · subst hxi
      rw [hcli] at hxa hxn hxy
      rw [hcl y hyi] at hya hxy
      rcases huniq with h1 | ⟨h1, h2⟩ | h1
      · exact absurd h1 hxn
      · rw [h1] at hxn hxy
        exact h.names x y hx hy h2 hya hxn hxy
      · exact absurd hxy.symm (h1 y hy hyi hya)
    · subst hyi
      rw [hcli] at hya hxy
      rw [hcl x hxi] at hxa hxn hxy
      rcases huniq with h1 | ⟨h1, h2⟩ | h1
      · rw [h1] at hxy; exact absurd hxy hxn
      · rw [h1] at hxy
        exact h.names x y hx hy hxa h2 hxn hxy
      · exact absurd hxy (h1 x hx hxi hxa)
    · rw [hcl x hxi] at hxa hxn hxy
      rw [hcl y hyi] at hya hxy
      exact h.names x y hx hy hxa hya hxn hxy
  · intro k hk hka
    by_cases hki : k = i
    · subst hki
      rw [hcli] at hka ⊢
      exact hidle hka
    · rw [hcl k hki] at hka ⊢
      exact h.idle k hk hka
  · intro k hk
    by_cases hki : k = i
    · subst hki
      rw [hcli]
      exact hlen
    · rw [hcl k hki]
      exact h.ulen k hk
  · intro k hk hka
    by_cases hki : k = i
    · subst hki
      rw [hcli] at hka ⊢
      exact hsock hka
    · rw [hcl k hki] at hka ⊢
      exact h.sock k hk hka

theorem tables_ok_initial : tables_ok initialize_clients initialize_rooms := by
  have hc : ∀ i, client_at initialize_clients i = zero_client ∨ client_at initialize_clients i =
      { sockfd := -1, username := [], ip_addr := [], active := false,
        current_room_name := [] } := by
    intro i
    unfold client_at initialize_clients
    by_cases hi : i < MAX_CLIENTS_GLOBAL
    · right; simp [List.getElem?_replicate, hi]
    · left; simp [List.getElem?_replicate, hi]
  have hr : ∀ (a : Nat) (ra : room_t), initialize_rooms[a]? = some ra →
      ra = { name := [], member_client_indices := List.replicate MAX_ROOM_USERS (-1),
             num_users := 0, active := false } := by
    intro a ra ha
    unfold initialize_rooms at ha
    rw [List.getElem?_replicate] at ha
    split at ha
    · exact (Option.some.inj ha).symm
    · cases ha
  constructor
  · simp [initialize_clients]
  · simp [initialize_rooms]
  · intro a ra ha
    rw [hr a ra ha]
    constructor
    · simp
    · simp [MAX_ROOM_USERS]
    · simp
    · intro hh; cases hh
    · intro _; rfl
    · intro j k m hj hk hm
      simp only [List.getElem?_replicate] at hj
      split at hj
      · exact absurd (Option.some.inj hj).symm hm
      · cases hj
    · intro m hm hne
      exact absurd (List.eq_of_mem_replicate hm) hne
  · intro a b ra rb ha hb hact
    rw [hr a ra ha] at hact
    cases hact
  · intro a ra ha m hm hne
    rw [hr a ra ha] at hm
    exact absurd (List.eq_of_mem_replicate hm) hne
  · intro i hi hroom
    rcases hc i with e | e <;> rw [e] at hroom <;> exact absurd rfl hroom
  · intro i j hi hj hact
    rcases hc i with e | e <;> rw [e] at hact <;> cases hact
  · intro i hi _
    rcases hc i with e | e <;> rw [e] <;> exact ⟨rfl, rfl⟩
  · intro i hi
    rcases hc i with e | e <;> rw [e] <;> simp [zero_client]
  · intro i hi hact
    rcases hc i with e | e <;> rw [e] at hact <;> cases hact

/-! ## Effect of the handlers on the tables -/

theorem fan_out_frame (sel : Int → Bool) (text : CStr) (ms : List Int) (s : Server) :
    (fan_out sel text s ms).1.clients = s.clients ∧
    (fan_out sel text s ms).1.rooms = s.rooms ∧
    (fan_out sel text s ms).1.upload_queue = s.upload_queue ∧
    (fan_out sel text s ms).1.server_running = s.server_running ∧
    s.sent.length ≤ (fan_out sel text s ms).1.sent.length := by
  induction ms generalizing s with
  | nil => simp [fan_out]
  | cons m ms ih =>
    unfold fan_out
    by_cases hsel : sel m = true
    · rw [if_pos hsel]
      dsimp only
      generalize (if (client_at s.clients m.toNat).active = true then
        (client_at s.clients m.toNat).sockfd else -1) = fd
      by_cases hfd : fd ≠ -1
      · rw [if_pos hfd]
        obtain ⟨h1, h2, h3, h4, h5⟩ := ih (send s (some m.toNat) fd text).1
        exact ⟨h1, h2, h3, h4, le_trans (send_sent_length _ _ _ _) h5⟩
      · rw [if_neg hfd]
        exact ih s
    · rw [if_neg hsel]
      exact ih s

@[simp] theorem fan_out_clients (sel : Int → Bool) (text : CStr) (ms : List Int) (s : Server) :
    (fan_out sel text s ms).1.clients = s.clients := (fan_out_frame sel text ms s).1

@[simp] theorem fan_out_rooms (sel : Int → Bool) (text : CStr) (ms : List Int) (s : Server) :
    (fan_out sel text s ms).1.rooms = s.rooms := (fan_out_frame sel text ms s).2.1

@[simp] theorem fan_out_upload_queue (sel : Int → Bool) (text : CStr) (ms : List Int)
    (s : Server) : (fan_out sel text s ms).1.upload_queue = s.upload_queue :=
  (fan_out_frame sel text ms s).2.2.1

@[simp] theorem fan_out_server_running (sel : Int → Bool) (text : CStr) (ms : List Int)
    (s : Server) : (fan_out sel text s ms).1.server_running = s.server_running :=
  (fan_out_frame sel text ms s).2.2.2.1

theorem room_at_set_self (rooms : List room_t) (a : Nat) (r : room_t) (h : a < rooms.length) :
    room_at (rooms.set a r) a = r := by
  simp [room_at, List.getElem?_set_eq_of_lt, h]

theorem find_room_of_in_room (clients : List client_t) (rooms : List room_t)
    (h : tables_ok clients rooms) (i : Nat) (hi : i < MAX_CLIENTS_GLOBAL)
    (hroom : (client_at clients i).current_room_name ≠ []) :
    ∃ (a j : Nat) (ra : room_t),
      find_room_idx_by_name rooms (client_at clients i).current_room_name = some a ∧
      rooms[a]? = some ra ∧ ra.active = true ∧
      ra.name = (client_at clients i).current_room_name ∧
      firstIdx (fun m => m == (i : Int)) ra.member_client_indices = some j ∧
      ra.member_client_indices[j]? = some (i : Int) := by
  obtain ⟨b, rb, hb, hbact, hbname, hmem⟩ := h.in_room i hi hroom
  obtain ⟨a, ha⟩ := firstIdx_of_mem (fun r => r.active && r.name ==
    (client_at clients i).current_room_name) rooms rb (mem_of_getElem _ _ _ hb)
    (by simp [hbact, hbname])
  obtain ⟨ra, hra, hp, _⟩ := firstIdx_some _ _ _ ha
  simp at hp
  have hab : a = b := h.uniq a b ra rb hra hb hp.1 hbact (by rw [hp.2, hbname])
  subst hab
  have e : ra = rb := by rw [hb] at hra; exact (Option.some.inj hra).symm
  subst e
  obtain ⟨j, hj⟩ := firstIdx_of_mem (fun m => m == (i : Int)) _ _ hmem (by simp)
  obtain ⟨m, hm, hpm, _⟩ := firstIdx_some _ _ _ hj
  simp at hpm
  subst hpm
  exact ⟨a, j, ra, ha, hra, hp.1, hp.2, hj, hm⟩

theorem tables_ok.room_name_take {clients : List client_t} {rooms : List room_t}
    (h : tables_ok clients rooms) (i : Nat) (hi : i < MAX_CLIENTS_GLOBAL) :
    (client_at clients i).current_room_name.take MAX_ROOM_NAME_LEN =
      (client_at clients i).current_room_name := by
  by_cases hroom : (client_at clients i).current_room_name = []
  · rw [hroom]; rfl
  · obtain ⟨a, ra, ha, hact, hname, _⟩ := h.in_room i hi hroom
    rw [← hname]
    exact room_name_valid_take _ ((h.room a ra ha).name_valid hact)

theorem handle_leave_room_tables (s : Server) (i : Nat) (notify : Bool)
    (h : tables_ok s.clients s.rooms) (hi : i < MAX_CLIENTS_GLOBAL) :
    tables_ok (handle_leave_room s i notify).clients (handle_leave_room s i notify).rooms ∧
    (handle_leave_room s i notify).clients =
      s.clients.set i { client_at s.clients i with current_room_name := [] } ∧
    (handle_leave_room s i notify).upload_queue = s.upload_queue ∧
    (handle_leave_room s i notify).server_running = s.server_running := by
  have hicl : i < s.clients.length := by rw [h.clen]; exact hi
  by_cases hroom : (client_at s.clients i).current_room_name = []
  · have hself : s.clients.set i { client_at s.clients i with current_room_name := [] } =
        s.clients := by
      have e : ({ client_at s.clients i with current_room_name := [] } : client_t) =
          client_at s.clients i := by
        cases hc : client_at s.clients i
        rw [hc] at hroom
        simp only at hroom
        simp [hroom]
      rw [e]
      apply List.ext_getElem?
      intro k
      by_cases hk : i = k
      · subst hk
        rw [List.getElem?_set_eq_of_lt _ hicl, getElem_client_at _ _ hicl]
      · rw [List.getElem?_set_ne hk]
    unfold handle_leave_room
    simp only [hroom, if_true]
    rw [hself]
    cases notify <;> simp [h]
  · obtain ⟨a, j, ra, hfind, hra, hact, hname, hj, hjm⟩ :=
      find_room_of_in_room _ _ h i hi hroom
    have hal : a < s.rooms.length := by
      rw [List.getElem?_eq_some] at hra; exact hra.1
    have htake := h.room_name_take i hi
    have hrm : room_remove_member ra i =
        ({ ra with member_client_indices := ra.member_client_indices.set j (-1),
                   num_users := ra.num_users - 1 }, true) := by
      unfold room_remove_member
      rw [hj]
    have key := tables_ok_leave _ _ h i a j ra hi hra hact hname hjm
    unfold handle_leave_room
    simp only [hroom, if_false, htake, hfind, room_at_of_getElem _ _ _ hra, hrm, if_true,
      fan_out_clients, fan_out_rooms, fan_out_upload_queue, fan_out_server_running]
    cases notify <;>
      simp only [if_true, if_false, send_clients, send_rooms, send_upload_queue,
        send_server_running, room_at_set_self _ _ _ hal, hact, and_true, true_and,
        Bool.false_eq_true, List.set_set]
    all_goals
      by_cases hz : ra.num_users - 1 = 0
      all_goals
        simp only [hz, if_true, if_false, hname, and_self] at key ⊢
        simp only [set_current_room_name, room_deactivate, List.take_nil]
        first | exact ⟨key, trivial, trivial⟩ | exact ⟨key, trivial⟩ | exact key | exact ⟨key, rfl, rfl, rfl⟩

theorem room_ok.members_of_inactive {r : room_t} (h : room_ok r) (ha : r.active = false) :
    r.member_client_indices = List.replicate MAX_ROOM_USERS (-1) ∧ r.num_users = 0 := by
  constructor
  · rw [List.eq_replicate_iff]
    exact ⟨h.mlen, fun m hm => h.free_of_inactive ha m hm⟩
  · have h1 := h.act
    have h2 := h.num_users_le
    by_contra hne
    have : r.active = true := h1.mpr (by omega)
    rw [ha] at this
    cases this

theorem join_enter_tables (s0 : Server) (rooms1 : List room_t) (i a : Nat) (n : CStr)
    (created : Bool) (ra : room_t) (h : tables_ok s0.clients s0.rooms)
    (hi : i < MAX_CLIENTS_GLOBAL) (hiact : (client_at s0.clients i).active = true)
    (hroom : (client_at s0.clients i).current_room_name = [])
    (hn : is_room_name_valid n = 1) (hra : s0.rooms[a]? = some ra)
    (hcase : (created = false ∧ rooms1 = s0.rooms ∧ ra.active = true ∧ ra.name = n) ∨
      (created = true ∧
        rooms1 = s0.rooms.set a
          { name := n.take MAX_ROOM_NAME_LEN,
            member_client_indices := List.replicate MAX_ROOM_USERS (-1),
            num_users := 0, active := true } ∧
        ra.active = false ∧
        ∀ (b : Nat) (rb : room_t), s0.rooms[b]? = some rb → rb.active = true → rb.name ≠ n)) :
    tables_ok (join_enter { s0 with rooms := rooms1 } i n a created).clients
      (join_enter { s0 with rooms := rooms1 } i n a created).rooms ∧
    (join_enter { s0 with rooms := rooms1 } i n a created).upload_queue = s0.upload_queue ∧
    (join_enter { s0 with rooms := rooms1 } i n a created).server_running =
      s0.server_running := by
  have hal : a < s0.rooms.length := by
    rw [List.getElem?_eq_some] at hra; exact hra.1
  have hraok := h.room a ra hra
  have hntake := room_name_valid_take n hn
  rcases hcase with ⟨hc, hr1, hact, hname⟩ | ⟨hc, hr1, hinact, hnone⟩
  · subst hc hr1
    unfold join_enter
    simp only [room_at_of_getElem _ _ _ hra]
    by_cases hfull : ra.num_users ≥ (MAX_ROOM_USERS : Int)
    · simp only [hfull, if_true, Bool.false_eq_true, if_false, send_clients, send_rooms,
        send_upload_queue, send_server_running]
      exact ⟨h, trivial, trivial⟩
    · simp only [hfull, if_false]
      obtain ⟨slot, hslot⟩ := hraok.free_slot (by omega)
      obtain ⟨m, hm, hpm, _⟩ := firstIdx_some _ _ _ hslot
      simp at hpm
      subst hpm
      have key := tables_ok_join _ _ h i a slot ra n hi hiact hroom hra hn
        (Or.inl ⟨hact, hname⟩) hm
      simp only [hslot, send_clients, send_rooms, send_upload_queue, send_server_running,
        fan_out_clients, fan_out_rooms, fan_out_upload_queue, fan_out_server_running,
        set_current_room_name, hname, hntake, hact]
      exact ⟨key, trivial, trivial⟩
  · subst hc hr1
    obtain ⟨hmem, hnum⟩ := hraok.members_of_inactive hinact
    have hslot0 : ra.member_client_indices[0]? = some (-1) := by
      rw [hmem]; rfl
    have key := tables_ok_join _ _ h i a 0 ra n hi hiact hroom hra hn
      (Or.inr ⟨hinact, hnone⟩) hslot0
    rw [hmem, hnum] at key
    have hfirst : firstIdx (fun m => m == -1) (List.replicate MAX_ROOM_USERS (-1 : Int)) =
        some 0 := by decide
    unfold join_enter
    simp only [room_at_set_self _ _ _ hal, hntake]
    have hnf : ¬ ((0 : Int) ≥ (MAX_ROOM_USERS : Int)) := by decide
    simp only [hnf, if_false, hfirst, send_clients, send_rooms, send_upload_queue,
      send_server_running, fan_out_clients, fan_out_rooms, fan_out_upload_queue,
      fan_out_server_running, set_current_room_name, hntake, List.set_set]
    exact ⟨key, trivial, trivial⟩

theorem join_locate_cases (rooms : List room_t) (n : CStr) (rooms1 : List room_t) (a : Nat)
    (created : Bool) (h : join_locate rooms n = some (rooms1, a, created)) :
    ∃ ra, rooms[a]? = some ra ∧
      ((created = false ∧ rooms1 = rooms ∧ ra.active = true ∧ ra.name = n) ∨
       (created = true ∧
        rooms1 = rooms.set a
          { name := n.take MAX_ROOM_NAME_LEN,
            member_client_indices := List.replicate MAX_ROOM_USERS (-1),
            num_users := 0, active := true } ∧
        ra.active = false ∧
        ∀ (b : Nat) (rb : room_t), rooms[b]? = some rb → rb.active = true → rb.name ≠ n)) := by
  unfold join_locate at h
  cases hf : find_room_idx_by_name rooms n with
  | some b =>
    rw [hf] at h
    simp only [Option.some.injEq, Prod.mk.injEq] at h
    obtain ⟨e1, e2, e3⟩ := h
    subst e1 e2 e3
    obtain ⟨ra, hra, hp, _⟩ := firstIdx_some _ _ _ hf
    simp at hp
    exact ⟨ra, hra, Or.inl ⟨rfl, rfl, hp.1, hp.2⟩⟩
  | none =>
    rw [hf] at h
    simp only at h
    cases hs : firstIdx (fun r => r.active == false) rooms with
    | none => rw [hs] at h; cases h
    | some f =>
      rw [hs] at h
      simp only [Option.some.injEq, Prod.mk.injEq] at h
      obtain ⟨e1, e2, e3⟩ := h
      subst e1 e2 e3
      obtain ⟨ra, hra, hp, _⟩ := firstIdx_some _ _ _ hs
      simp at hp
      refine ⟨ra, hra, Or.inr ⟨rfl, rfl, hp, ?_⟩⟩
      intro b rb hb hbact hbn
      have := firstIdx_none _ _ hf rb (mem_of_getElem _ _ _ hb)
      simp [hbact, hbn] at this

theorem handle_join_room_tables (s : Server) (i : Nat) (n : CStr)
    (h : tables_ok s.clients s.rooms) (hi : i < MAX_CLIENTS_GLOBAL)
    (hiact : (client_at s.clients i).active = true) :
    tables_ok (handle_join_room s i n).clients (handle_join_room s i n).rooms ∧
    (handle_join_room s i n).upload_queue = s.upload_queue ∧
    (handle_join_room s i n).server_running = s.server_running := by
  have hicl : i < s.clients.length := by rw [h.clen]; exact hi
  unfold handle_join_room
  by_cases hv : is_room_name_valid n = 0
  · simp only [hv, if_true, send_clients, send_rooms, send_upload_queue, send_server_running]
    exact ⟨h, trivial, trivial⟩
  · have hn : is_room_name_valid n = 1 := by
      unfold is_room_name_valid at hv ⊢
      split
      · rename_i hc; rw [if_pos hc] at hv; exact absurd rfl hv
      · rename_i hc
        rw [if_neg hc] at hv
        split
        · rename_i hc2; rw [if_pos hc2] at hv; exact absurd rfl hv
        · rfl
    simp only [hv, if_false]
    by_cases hal : (client_at s.clients i).current_room_name ≠ [] ∧
        (client_at s.clients i).current_room_name = n
    · rw [if_pos hal]
      simp only [send_clients, send_rooms, send_upload_queue, send_server_running]
      exact ⟨h, trivial, trivial⟩
    · rw [if_neg hal]
      have hs0 : ∃ s0, (if (client_at s.clients i).current_room_name ≠ [] then
            handle_leave_room s i false else s) = s0 ∧
          tables_ok s0.clients s0.rooms ∧ (client_at s0.clients i).active = true ∧
          (client_at s0.clients i).current_room_name = [] ∧
          s0.upload_queue = s.upload_queue ∧ s0.server_running = s.server_running := by
        by_cases hroom : (client_at s.clients i).current_room_name ≠ []
        · rw [if_pos hroom]
          obtain ⟨h1, h2, h3, h4⟩ := handle_leave_room_tables s i false h hi
          refine ⟨_, rfl, h1, ?_, ?_, h3, h4⟩
          · rw [h2, client_at_set_self _ _ _ hicl]; exact hiact
          · rw [h2, client_at_set_self _ _ _ hicl]
        · rw [if_neg hroom]
          exact ⟨s, rfl, h, hiact, not_not.mp hroom, rfl, rfl⟩
      obtain ⟨s0, e0, h0, hact0, hroom0, hq0, hr0⟩ := hs0
      simp only [e0]
      cases hl : join_locate s0.rooms n with
      | none =>
        simp only [send_clients, send_rooms, send_upload_queue, send_server_running]
        exact ⟨h0, hq0, hr0⟩
      | some res =>
        obtain ⟨rooms1, a, created⟩ := res
        obtain ⟨ra, hra, hcase⟩ := join_locate_cases _ _ _ _ _ hl
        obtain ⟨k1, k2, k3⟩ := join_enter_tables s0 rooms1 i a n created ra h0 hi hact0 hroom0
          hn hra hcase
        simp only
        exact ⟨k1, k2.trans hq0, k3.trans hr0⟩

theorem cleanup_client_tables (s : Server) (i : Nat) (h : tables_ok s.clients s.rooms) :
    tables_ok (cleanup_client s i).clients (cleanup_client s i).rooms ∧
    (cleanup_client s i).upload_queue = s.upload_queue ∧
    (cleanup_client s i).server_running = s.server_running := by
  unfold cleanup_client
  by_cases hi : i ≥ MAX_CLIENTS_GLOBAL
  · rw [if_pos hi]; exact ⟨h, rfl, rfl⟩
  · rw [if_neg hi]
    have hi' : i < MAX_CLIENTS_GLOBAL := by omega
    have hicl : i < s.clients.length := by rw [h.clen]; exact hi'
    have hs1 : ∃ s1, (if ((client_at s.clients i).active &&
          (client_at s.clients i).current_room_name != []) = true then
          handle_leave_room s i false else s) = s1 ∧
        tables_ok s1.clients s1.rooms ∧
        ((client_at s1.clients i).active = true →
          (client_at s1.clients i).current_room_name = []) ∧
        s1.upload_queue = s.upload_queue ∧ s1.server_running = s.server_running := by
      by_cases hc : ((client_at s.clients i).active &&
          (client_at s.clients i).current_room_name != []) = true
      · rw [if_pos hc]
        obtain ⟨h1, h2, h3, h4⟩ := handle_leave_room_tables s i false h hi'
        refine ⟨_, rfl, h1, ?_, h3, h4⟩
        intro _
        rw [h2, client_at_set_self _ _ _ hicl]
      · rw [if_neg hc]
        refine ⟨s, rfl, h, ?_, rfl, rfl⟩
        intro ha
        simp [ha] at hc
        exact hc
    obtain ⟨s1, e1, h1, hroom1, hq1, hr1⟩ := hs1
    simp only [e1]
    by_cases ha : (client_at s1.clients i).active = true
    · rw [if_pos ha]
      simp only
      refine ⟨?_, hq1, hr1⟩
      apply tables_ok_set_client _ _ h1 i _ hi'
      · exact (hroom1 ha).symm
      · intro _; exact ⟨rfl, rfl⟩
      · exact Or.inr (hroom1 ha)
      · simp
      · intro hh; cases hh
      · exact Or.inl rfl
    · rw [if_neg ha]
      exact ⟨h1, hq1, hr1⟩

theorem session_exit_tables (s : Server) (i : Nat) (h : tables_ok s.clients s.rooms) :
    tables_ok (session_exit s i).clients (session_exit s i).rooms := by
  unfold session_exit
  by_cases hr : s.server_running = false
  · simp only [hr, if_true]
    exact (cleanup_client_tables _ i (by simpa using h)).1
  · simp only [hr, if_false]
    exact (cleanup_client_tables _ i h).1

theorem accept_connection_tables (s : Server) (fd : Int) (ip : CStr) (created : Bool)
    (h : tables_ok s.clients s.rooms) (hfd : 0 ≤ fd) :
    tables_ok (accept_connection s fd ip created).clients
      (accept_connection s fd ip created).rooms := by
  unfold accept_connection
  cases hf : find_free_client_slot s.clients with
  | none => simpa using h
  | some f =>
    obtain ⟨c, hc, hp, _⟩ := firstIdx_some _ _ _ hf
    simp at hp
    have hfl : f < s.clients.length := by
      rw [List.getElem?_eq_some] at hc; exact hc.1
    have hf50 : f < MAX_CLIENTS_GLOBAL := by rw [← h.clen]; exact hfl
    have hcf : client_at s.clients f = c := client_at_of_getElem _ _ _ hc
    have hinact : (client_at s.clients f).active = false := by rw [hcf]; exact hp
    have hidle := h.idle f hf50 hinact
    cases created
    · simp only [Bool.false_eq_true, if_false]
      apply tables_ok_set_client _ _ h f _ hf50
      · rfl
      · intro _; exact hidle
      · exact Or.inr hidle.2
      · exact h.ulen f hf50
      · intro hh; cases hh
      · exact Or.inl hidle.1
    · simp only [if_true]
      apply tables_ok_set_client _ _ h f _ hf50
      · rfl
      · intro hh; cases hh
      · exact Or.inl rfl
      · exact h.ulen f hf50
      · intro _; exact hfd
      · exact Or.inl hidle.1

theorem username_check_sound (clients : List client_t) (u : CStr)
    (h : is_username_valid_and_unique clients u ≠ 0) :
    1 ≤ u.length ∧ u.length ≤ MAX_USERNAME_LEN ∧
      ∀ c ∈ clients, c.active = true → c.username ≠ u := by
  unfold is_username_valid_and_unique at h
  split at h
  · exact absurd rfl h
  · rename_i hlen
    split at h
    · exact absurd rfl h
    · split at h
      · exact absurd rfl h
      · rename_i hdup
        refine ⟨by omega, by omega, ?_⟩
        intro c hc ha he
        apply hdup
        rw [List.any_eq_true]
        have hne : u ≠ [] := by
          intro e; apply hlen; left; simp [e]
        exact ⟨c, hc, by simp [ha, he, hne]⟩

theorem login_attempt_tables (s : Server) (i : Nat) (data : List Char)
    (h : tables_ok s.clients s.rooms) (hi : i < MAX_CLIENTS_GLOBAL)
    (hact : (client_at s.clients i).active = true) :
    tables_ok (login_attempt s i data).1.clients (login_attempt s i data).1.rooms := by
  unfold login_attempt
  by_cases hv : is_username_valid_and_unique s.clients (cut_crlf (c_str data)) ≠ 0
  · rw [if_pos hv]
    simp only [send_clients, send_rooms]
    obtain ⟨_, hl2, huniq⟩ := username_check_sound _ _ hv
    apply tables_ok_set_client _ _ h i _ hi
    · rfl
    · intro hh; simp only at hh; rw [hact] at hh; cases hh
    · exact Or.inl hact
    · exact hl2
    · intro _; exact h.sock i hi hact
    · right; right
      intro j hj hji hja hju
      have hjl : j < s.clients.length := by rw [h.clen]; exact hj
      have hmem : client_at s.clients j ∈ s.clients :=
        mem_of_getElem _ j _ (getElem_client_at _ _ hjl)
      exact huniq _ hmem hja hju
  · rw [if_neg hv]
    simpa using h

theorem handle_whisper_message_frame (s : Server) (i : Nat) (target message : CStr) :
    (handle_whisper_message s i target message).clients = s.clients ∧
    (handle_whisper_message s i target message).rooms = s.rooms := by
  unfold handle_whisper_message
  dsimp only
  split_ifs
  · simp
  · simp
  · split
    · simp
    · split_ifs <;> simp

theorem dispatch_whisper_frame (s : Server) (i : Nat) (args : CStr) :
    (dispatch_whisper s i args).clients = s.clients ∧
    (dispatch_whisper s i args).rooms = s.rooms := by
  unfold dispatch_whisper
  dsimp only
  split
  · simp
  · exact handle_whisper_message_frame _ _ _ _

theorem handle_status_frame (s : Server) (i : Nat) :
    (handle_status s i).clients = s.clients ∧ (handle_status s i).rooms = s.rooms := by
  unfold handle_status
  simp

theorem notify_queue_status_frame (s : Server) (i : Nat) (filename : CStr) (p w : Int) :
    (notify_queue_status s i filename p w).clients = s.clients ∧
    (notify_queue_status s i filename p w).rooms = s.rooms := by
  unfold notify_queue_status
  dsimp only
  split_ifs <;> simp

@[simp] theorem notify_queue_status_clients (s : Server) (i : Nat) (filename : CStr)
    (p w : Int) : (notify_queue_status s i filename p w).clients = s.clients :=
  (notify_queue_status_frame s i filename p w).1

@[simp] theorem notify_queue_status_rooms (s : Server) (i : Nat) (filename : CStr)
    (p w : Int) : (notify_queue_status s i filename p w).rooms = s.rooms :=
  (notify_queue_status_frame s i filename p w).2

theorem handle_sendfile_command_frame_elim (s : Server) (i : Nat) (args : CStr) (now : Int) :
    (handle_sendfile_command s i args now).elim True
      (fun t => t.clients = s.clients ∧ t.rooms = s.rooms) := by
  unfold handle_sendfile_command
  dsimp only
  repeat' split
  all_goals simp [Option.elim]

theorem handle_sendfile_command_frame (s : Server) (i : Nat) (args : CStr) (now : Int)
    (t : Server) (h : handle_sendfile_command s i args now = some t) :
    t.clients = s.clients ∧ t.rooms = s.rooms := by
  have := handle_sendfile_command_frame_elim s i args now
  rw [h] at this
  exact this

theorem handle_broadcast_message_frame (s : Server) (i : Nat) (message : CStr)
    (h : tables_ok s.clients s.rooms) (hi : i < MAX_CLIENTS_GLOBAL) :
    (handle_broadcast_message s i message).clients = s.clients ∧
    (handle_broadcast_message s i message).rooms = s.rooms := by
  unfold handle_broadcast_message
  dsimp only
  by_cases hroom : (client_at s.clients i).current_room_name = []
  · rw [if_pos hroom]; simp
  · rw [if_neg hroom]
    by_cases hm : message.length = 0
    · rw [if_pos hm]; simp
    · rw [if_neg hm]
      obtain ⟨a, j, ra, hfind, _⟩ := find_room_of_in_room _ _ h i hi hroom
      rw [hfind]
      simp

theorem dispatch_tables (s : Server) (i : Nat) (buffer : CStr) (now : Int) (t : Server)
    (ex : Bool) (h : tables_ok s.clients s.rooms) (hi : i < MAX_CLIENTS_GLOBAL)
    (hact : (client_at s.clients i).active = true)
    (hd : dispatch s i buffer now = some (t, ex)) : tables_ok t.clients t.rooms := by
  unfold dispatch at hd
  split_ifs at hd
  · cases hd; exact (handle_join_room_tables s i _ h hi hact).1
  · cases hd; exact (handle_leave_room_tables s i true h hi).1
  · cases hd
    obtain ⟨h1, h2⟩ := handle_broadcast_message_frame s i
      ((buffer.drop 11).dropWhile (fun c => c == Char.ofNat 32)) h hi
    rw [h1, h2]; exact h
  · cases hd
    obtain ⟨h1, h2⟩ := dispatch_whisper_frame s i (buffer.drop 9)
    rw [h1, h2]; exact h
  · cases hs : handle_sendfile_command s i
        ((buffer.drop 10).dropWhile (fun c => c == Char.ofNat 32)) now with
    | none => rw [hs] at hd; cases hd
    | some t1 =>
      rw [hs] at hd
      cases hd
      obtain ⟨h1, h2⟩ := handle_sendfile_command_frame _ _ _ _ _ hs
      rw [h1, h2]; exact h
  · cases hd
    obtain ⟨h1, h2⟩ := handle_status_frame s i
    rw [h1, h2]; exact h
  · cases hd; simpa using h
  · cases hd; simpa using h
  · cases hd; simpa using h

theorem session_step_tables (s t : Server) (h : tables_ok s.clients s.rooms)
    (hs : SessionStep s t) : tables_ok t.clients t.rooms := by
  cases hs with
  | accept fd ip created hfd => exact accept_connection_tables s fd ip created h hfd
  | login i data hi hact => exact login_attempt_tables s i data h hi hact
  | command i buffer now _ hi hact _ hd => exact dispatch_tables s i buffer now t false h hi hact hd
  | exit i buffer now t1 hi hact _ hd =>
    exact session_exit_tables t1 i (dispatch_tables s i buffer now t1 true h hi hact hd)
  | cleanup i => exact session_exit_tables s i h
  | shutdown => exact h

theorem reachable_tables (s : Server) (h : Reachable s) : tables_ok s.clients s.rooms := by
  induction h with
  | init net => exact tables_ok_initial
  | step s t _ hs ih => exact session_step_tables s t ih hs

theorem demo_two_sessions_reachable : Reachable demo_two_sessions := by
  unfold demo_two_sessions
  refine Reachable.step _ _ (Reachable.step _ _ (Reachable.step _ _ (Reachable.step _ _
    (Reachable.init []) (SessionStep.accept _ 4 _ true (by decide)))
    (SessionStep.accept _ 5 _ true (by decide)))
    (SessionStep.login _ 0 _ (by decide) (by decide)))
    (SessionStep.login _ 1 _ (by decide) (by decide))

theorem demo_lobby_reachable : Reachable demo_lobby :=
  Reachable.step _ _ demo_two_sessions_reachable
    (SessionStep.command demo_two_sessions 0 "/join lobby".toList 0 demo_lobby (by decide)
      (by decide) (by decide) (by rfl))

example : demo_lobby.clients[0]? = some { sockfd := 4, username := "A".toList, ip_addr := "10.0.0.1".toList, active := true, current_room_name := "lobby".toList } := by decide
example : (room_at demo_lobby.rooms 0).member_client_indices[0]? = some 0 := by decide

theorem handle_leave_room_rooms (s : Server) (i : Nat) (notify : Bool)
    (h : tables_ok s.clients s.rooms) (hi : i < MAX_CLIENTS_GLOBAL)
    (hroom : (client_at s.clients i).current_room_name ≠ []) :
    ∃ (a j : Nat) (ra : room_t),
      find_room_idx_by_name s.rooms (client_at s.clients i).current_room_name = some a ∧
      s.rooms[a]? = some ra ∧ ra.active = true ∧
      ra.name = (client_at s.clients i).current_room_name ∧
      ra.member_client_indices[j]? = some (i : Int) ∧
      (handle_leave_room s i notify).rooms =
        s.rooms.set a
          { name := if ra.num_users - 1 = 0 then [] else ra.name,
            member_client_indices := ra.member_client_indices.set j (-1),
            num_users := ra.num_users - 1,
            active := if ra.num_users - 1 = 0 then false else true } := by
  obtain ⟨a, j, ra, hfind, hra, hact, hname, hj, hjm⟩ :=
    find_room_of_in_room _ _ h i hi hroom
  refine ⟨a, j, ra, hfind, hra, hact, hname, hjm, ?_⟩
  have hal : a < s.rooms.length := by
    rw [List.getElem?_eq_some] at hra; exact hra.1
  have htake := h.room_name_take i hi
  have hrm : room_remove_member ra i =
      ({ ra with member_client_indices := ra.member_client_indices.set j (-1),
                 num_users := ra.num_users - 1 }, true) := by
    unfold room_remove_member
    rw [hj]
  unfold handle_leave_room
  simp only [hroom, if_false, htake, hfind, room_at_of_getElem _ _ _ hra, hrm, if_true,
    fan_out_clients, fan_out_rooms, fan_out_upload_queue, fan_out_server_running]
  cases notify <;>
    simp only [if_true, if_false, send_clients, send_rooms, send_upload_queue,
      send_server_running, room_at_set_self _ _ _ hal, hact, and_true, true_and,
      Bool.false_eq_true, List.set_set]
  all_goals
    by_cases hz : ra.num_users - 1 = 0
    all_goals
      simp only [hz, if_true, if_false, hname, and_self, send_rooms]
      try simp only [room_deactivate]

theorem handle_join_room_created (s : Server) (i f : Nat) (n : CStr)
    (hroom : (client_at s.clients i).current_room_name = [])
    (hn : is_room_name_valid n = 1) (hfind : find_room_idx_by_name s.rooms n = none)
    (hfree : firstIdx (fun r => r.active == false) s.rooms = some f) :
    (handle_join_room s i n).rooms =
      s.rooms.set f
        { name := n,
          member_client_indices := (List.replicate MAX_ROOM_USERS (-1)).set 0 (i : Int),
          num_users := 1, active := true } := by
  obtain ⟨rf, hrf, _, _⟩ := firstIdx_some _ _ _ hfree
  have hfl : f < s.rooms.length := by
    rw [List.getElem?_eq_some] at hrf; exact hrf.1
  have hntake := room_name_valid_take n hn
  have hfirst : firstIdx (fun m => m == -1) (List.replicate MAX_ROOM_USERS (-1 : Int)) =
      some 0 := by decide
  have hnf : ¬ ((0 : Int) ≥ (MAX_ROOM_USERS : Int)) := by decide
  have hv : ¬ (is_room_name_valid n = 0) := by rw [hn]; decide
  unfold handle_join_room
  simp only [hv, if_false, hroom, ne_eq, not_true_eq_false, false_and]
  unfold join_locate
  simp only [hfind, hfree]
  unfold join_enter
  simp only [room_at_set_self _ _ _ hfl, hntake, hnf, if_false, hfirst, send_rooms,
    fan_out_rooms, List.set_set]
  rfl

/-! ## Invariants of the reachable states -/

/-- C1: in every reachable state no two active session slots hold the same non-empty
username. -/
theorem unique_active_usernames (s : Server) (h : Reachable s) (i j : Nat)
    (ci cj : client_t) (hi : s.clients[i]? = some ci) (hj : s.clients[j]? = some cj)
    (hij : i ≠ j) (hai : ci.active = true) (haj : cj.active = true)
    (hne : ci.username ≠ []) : ci.username ≠ cj.username := by
  have ht := reachable_tables s h
  have hil : i < MAX_CLIENTS_GLOBAL := by
    rw [← ht.clen]; rw [List.getElem?_eq_some] at hi; exact hi.1
  have hjl : j < MAX_CLIENTS_GLOBAL := by
    rw [← ht.clen]; rw [List.getElem?_eq_some] at hj; exact hj.1
  have e1 := client_at_of_getElem _ _ _ hi
  have e2 := client_at_of_getElem _ _ _ hj
  intro heq
  apply hij
  apply ht.names i j hil hjl
  · rw [e1]; exact hai
  · rw [e2]; exact haj
  · rw [e1]; exact hne
  · rw [e1, e2]; exact heq

/-- Witness of C1: the sessions "A" and "B" of `demo_two_sessions`. -/
theorem unique_active_usernames_witness :
    (client_at demo_two_sessions.clients 0).username ≠
      (client_at demo_two_sessions.clients 1).username :=
  unique_active_usernames demo_two_sessions demo_two_sessions_reachable 0 1
    (client_at demo_two_sessions.clients 0) (client_at demo_two_sessions.clients 1)
    (by decide) (by decide) (by decide) (by decide) (by decide) (by decide)

/-- C3: in every reachable state a session index occurs in at most one member entry
over all rooms: two entries that hold it are the same entry of the same room. -/
theorem session_in_one_member_slot (s : Server) (h : Reachable s) (i a b j k : Nat)
    (ra rb : room_t) (ha : s.rooms[a]? = some ra) (hb : s.rooms[b]? = some rb)
    (hj : ra.member_client_indices[j]? = some (i : Int))
    (hk : rb.member_client_indices[k]? = some (i : Int)) : a = b ∧ j = k := by
  have ht := reachable_tables s h
  have hne : (i : Int) ≠ -1 := by omega
  have hma := mem_of_getElem _ _ _ hj
  have hmb := mem_of_getElem _ _ _ hk
  have h1 := (ht.member a ra ha _ hma hne).1
  have h2 := (ht.member b rb hb _ hmb hne).1
  have hab : a = b := ht.uniq a b ra rb ha hb ((ht.room a ra ha).active_of_mem _ hma hne)
    ((ht.room b rb hb).active_of_mem _ hmb hne) (by rw [← h1, ← h2])
  subst hab
  have e : ra = rb := by rw [ha] at hb; exact Option.some.inj hb
  subst e
  exact ⟨rfl, (ht.room a ra ha).nodup j k _ hj hk hne⟩

/-- Witness of C3: session 0 of `demo_lobby` sits in entry 0 of room 0. -/
theorem session_in_one_member_slot_witness :
    (room_at demo_lobby.rooms 0).member_client_indices[0]? = some 0 ∧ (0 = 0 ∧ 0 = 0) :=
  ⟨by decide,
   session_in_one_member_slot demo_lobby demo_lobby_reachable 0 0 0 0 0
    (room_at demo_lobby.rooms 0) (room_at demo_lobby.rooms 0) (by decide) (by decide)
    (by decide) (by decide)⟩

/-- C4: in every reachable state `num_users` of each room is the number of its member
entries other than -1 and is at most 15; a call of `handle_join_room` in such a
state never takes the branch "Internal server error joining room". -/
theorem room_count_invariant (s : Server) (h : Reachable s) :
    (∀ (a : Nat) (ra : room_t), s.rooms[a]? = some ra →
      ra.num_users = (ra.member_client_indices.countP (fun m => m != -1) : Nat) ∧
      ra.num_users ≤ 15) ∧
    (∀ (i : Nat) (n : CStr), i < MAX_CLIENTS_GLOBAL → join_internal_error s i n = false) := by
  have ht := reachable_tables s h
  constructor
  · intro a ra ha
    exact ⟨(ht.room a ra ha).count, (ht.room a ra ha).num_users_le.2⟩
  · intro i n hi
    unfold join_internal_error
    dsimp only
    by_cases h1 : is_room_name_valid n = 0
    · rw [if_pos h1]
    rw [if_neg h1]
    by_cases h2 : (client_at s.clients i).current_room_name ≠ [] ∧
        (client_at s.clients i).current_room_name = n
    · rw [if_pos h2]
    rw [if_neg h2]
    · have hs0 : ∃ s0, (if (client_at s.clients i).current_room_name ≠ [] then
            handle_leave_room s i false else s) = s0 ∧ tables_ok s0.clients s0.rooms := by
        by_cases hroom : (client_at s.clients i).current_room_name ≠ []
        · rw [if_pos hroom]
          exact ⟨_, rfl, (handle_leave_room_tables s i false ht hi).1⟩
        · rw [if_neg hroom]
          exact ⟨s, rfl, ht⟩
      obtain ⟨s0, e0, h0⟩ := hs0
      simp only [e0]
      cases hl : join_locate s0.rooms n with
      | none => rfl
      | some res =>
        obtain ⟨rooms1, a, created⟩ := res
        obtain ⟨ra, hra, hcase⟩ := join_locate_cases _ _ _ _ _ hl
        have hal : a < s0.rooms.length := by
          rw [List.getElem?_eq_some] at hra; exact hra.1
        simp only
        split_ifs with hfull
        · rfl
        · rcases hcase with ⟨_, hr1, _, _⟩ | ⟨_, hr1, _, _⟩
          · subst hr1
            rw [room_at_of_getElem _ _ _ hra] at hfull ⊢
            obtain ⟨slot, hslot⟩ := (h0.room a ra hra).free_slot (by omega)
            rw [hslot]
          · subst hr1
            rw [room_at_set_self _ _ _ hal]
            rfl

/-- Witness of C4: room 0 of `demo_lobby` has one member. -/
theorem room_count_invariant_witness :
    (room_at demo_lobby.rooms 0).num_users = 1 ∧
      join_internal_error demo_lobby 1 "lobby".toList = false :=
  ⟨by decide,
   (room_count_invariant demo_lobby demo_lobby_reachable).2 1 "lobby".toList (by decide)⟩

/-- C5: in every reachable state a room slot is active exactly when its `num_users` is
positive, and an inactive slot has an empty name; the join of a session that is in no
room to a name that no active room has activates the first free slot under that name
with one member; the leave of the only member of a room deactivates its slot and
clears its name. -/
theorem room_active_iff_occupied (s : Server) (h : Reachable s) :
    (∀ (a : Nat) (ra : room_t), s.rooms[a]? = some ra →
      (ra.active = true ↔ 0 < ra.num_users) ∧ (ra.active = false → ra.name = [])) ∧
    (∀ (i f : Nat) (n : CStr), (client_at s.clients i).current_room_name = [] →
      is_room_name_valid n = 1 → find_room_idx_by_name s.rooms n = none →
      firstIdx (fun r => r.active == false) s.rooms = some f →
      (room_at (handle_join_room s i n).rooms f).active = true ∧
      (room_at (handle_join_room s i n).rooms f).name = n ∧
      (room_at (handle_join_room s i n).rooms f).num_users = 1) ∧
    (∀ (i a : Nat) (notify : Bool), i < MAX_CLIENTS_GLOBAL →
      (client_at s.clients i).current_room_name ≠ [] →
      find_room_idx_by_name s.rooms (client_at s.clients i).current_room_name = some a →
      (room_at s.rooms a).num_users = 1 →
      (room_at (handle_leave_room s i notify).rooms a).active = false ∧
      (room_at (handle_leave_room s i notify).rooms a).name = [] ∧
      (room_at (handle_leave_room s i notify).rooms a).num_users = 0) := by
  have ht := reachable_tables s h
  refine ⟨?_, ?_, ?_⟩
  · intro a ra ha
    exact ⟨(ht.room a ra ha).act, (ht.room a ra ha).name_clear⟩
  · intro i f n hroom hn hfind hfree
    obtain ⟨rf, hrf, _, _⟩ := firstIdx_some _ _ _ hfree
    have hfl : f < s.rooms.length := by
      rw [List.getElem?_eq_some] at hrf; exact hrf.1
    rw [handle_join_room_created s i f n hroom hn hfind hfree, room_at_set_self _ _ _ hfl]
    exact ⟨rfl, rfl, rfl⟩
  · intro i a notify hi hroom hfind hone
    obtain ⟨a1, j, ra, hfind1, hra, _, _, _, hrooms⟩ :=
      handle_leave_room_rooms s i notify ht hi hroom
    rw [hfind] at hfind1
    cases hfind1
    have hal : a < s.rooms.length := by
      rw [List.getElem?_eq_some] at hra; exact hra.1
    rw [room_at_of_getElem _ _ _ hra] at hone
    rw [hrooms, room_at_set_self _ _ _ hal]
    simp [hone]

/-- Witness of C5: room 0 of `demo_lobby` is active with one member, and is inactive with
an empty name after that member has left. -/
theorem room_active_iff_occupied_witness :
    ((room_at demo_lobby.rooms 0).active = true ↔ 0 < (room_at demo_lobby.rooms 0).num_users) ∧
      (room_at (handle_leave_room demo_lobby 0 true).rooms 0).active = false ∧
      (room_at (handle_leave_room demo_lobby 0 true).rooms 0).name = [] :=
  ⟨((room_active_iff_occupied demo_lobby demo_lobby_reachable).1 0
      (room_at demo_lobby.rooms 0) (by decide)).1,
   ((room_active_iff_occupied demo_lobby demo_lobby_reachable).2.2 0 0 true (by decide)
      (by decide) (by decide) (by decide)).1,
   ((room_active_iff_occupied demo_lobby demo_lobby_reachable).2.2 0 0 true (by decide)
      (by decide) (by decide) (by decide)).2.1⟩

/-! ## Sends of the handlers -/

theorem sends_after_refl (s : Server) : sends_after s s [] := by
  simp [sends_after]

theorem sends_after_trans (s t u : Server) (l1 l2 : List (Option Nat × CStr))
    (h1 : sends_after s t l1) (h2 : sends_after t u l2) : sends_after s u (l1 ++ l2) := by
  unfold sends_after at *
  rw [h2, h1, List.append_assoc]

theorem sends_after_send (s : Server) (i : Option Nat) (fd : Int) (text : CStr) :
    sends_after s (send s i fd text).1 [(i, text)] := by
  simp [sends_after, send]

theorem sends_after_eq (s t u : Server) (l : List (Option Nat × CStr))
    (h : sends_after s t l) (e : u.sent = t.sent) : sends_after s u l := by
  unfold sends_after at *
  rw [e, h]

theorem new_sends_of_sends_after (s t : Server) (l : List (Option Nat × CStr))
    (h : sends_after s t l) : new_sends s t = l := by
  unfold sends_after at h
  unfold new_sends
  rw [List.map_drop, h]
  have : s.sent.length = (s.sent.map (fun m => (m.to_idx, m.text))).length := by simp
  rw [this, List.drop_left]

/-- The sends of a notification loop: one to each selected entry whose session is active
with a descriptor other than -1, in the order of the entries. -/
theorem fan_out_sends (sel : Int → Bool) (text : CStr) (ms : List Int) (s : Server) :
    sends_after s (fan_out sel text s ms).1
      ((ms.filter (fun m => sel m && (client_at s.clients m.toNat).active &&
          decide ((client_at s.clients m.toNat).sockfd ≠ -1))).map
        (fun m => (some m.toNat, text))) := by
  induction ms generalizing s with
  | nil => simp [fan_out, sends_after]
  | cons m ms ih =>
    unfold fan_out
    by_cases hsel : sel m = true
    · rw [if_pos hsel]
      dsimp only
      by_cases hact : (client_at s.clients m.toNat).active = true
      · rw [if_pos hact]
        by_cases hfd : (client_at s.clients m.toNat).sockfd ≠ -1
        · rw [if_pos hfd]
          have h1 := sends_after_send s (some m.toNat) (client_at s.clients m.toNat).sockfd text
          have h2 := ih (send s (some m.toNat) (client_at s.clients m.toNat).sockfd text).1
          have h3 := sends_after_trans _ _ _ _ _ h1 h2
          simp only [send_clients] at h3
          rw [List.filter_cons_of_pos (by simp [hsel, hact, hfd])]
          exact h3
        · rw [if_neg hfd]
          rw [List.filter_cons_of_neg (by simp [hsel, hact]; simpa using hfd)]
          exact ih s
      · rw [if_neg hact]
        simp only [ne_eq, not_true_eq_false, if_false]
        rw [List.filter_cons_of_neg (by simp [hsel, hact])]
        exact ih s
    · rw [if_neg hsel]
      rw [List.filter_cons_of_neg (by simp [hsel])]
      exact ih s

theorem snprintf_of_length_le (n : Nat) (text : CStr) (h : text.length ≤ n - 1) :
    snprintf n text = text := List.take_of_length_le h

theorem demo_lobby_two_reachable : Reachable demo_lobby_two :=
  Reachable.step _ _ demo_lobby_reachable
    (SessionStep.command demo_lobby 1 "/join lobby".toList 0 demo_lobby_two (by decide)
      (by decide) (by decide) (by rfl))

/-! ## Replies of the command handlers -/

theorem replies_of_reply_last (s t : Server) (i : Nat) (reply : CStr)
    (h : reply_last s t i reply) : replies_to i s t = [reply] := by
  obtain ⟨l1, hs, ho⟩ := h
  unfold replies_to
  rw [new_sends_of_sends_after _ _ _ hs, List.filter_append]
  have : l1.filter (fun x => x.1 == some i) = [] := by
    rw [List.filter_eq_nil_iff]
    intro x hx
    simpa using ho x hx
  rw [this]
  simp

theorem reply_last_send (s : Server) (i : Nat) (fd : Int) (reply : CStr) :
    reply_last s (send s (some i) fd reply).1 i reply :=
  ⟨[], by simpa using sends_after_send s (some i) fd reply, by simp⟩

theorem sends_after_of_sent_eq (s t : Server) (e : t.sent = s.sent) : sends_after s t [] := by
  simp [sends_after, e]

/-- The targets of a notification loop are the selected entries. -/
theorem fan_out_others (sel : Int → Bool) (text : CStr) (ms : List Int) (s : Server) (i : Nat)
    (h : ∀ m ∈ ms, sel m = true → m.toNat ≠ i) :
    ∃ l, sends_after s (fan_out sel text s ms).1 l ∧ ∀ x ∈ l, x.1 ≠ some i := by
  refine ⟨_, fan_out_sends sel text ms s, ?_⟩
  intro x hx
  rw [List.mem_map] at hx
  obtain ⟨m, hm, rfl⟩ := hx
  rw [List.mem_filter] at hm
  simp only [Bool.and_eq_true] at hm
  have := h m hm.1 hm.2.1.1
  simpa using this

theorem begins_with_ok (rest : CStr) :
    begins_with "OK:".toList (snprintf MAX_MSG_LEN (SERVER_RESPONSE_OK ++ rest)) :=
  begins_with_snprintf _ _ _ (by decide)

theorem begins_with_error (rest : CStr) :
    begins_with "ERROR:".toList (snprintf MAX_MSG_LEN (SERVER_RESPONSE_ERROR ++ rest)) :=
  begins_with_snprintf _ _ _ (by decide)

theorem removed_members_others (clients : List client_t) (rooms : List room_t)
    (h : tables_ok clients rooms) (i a j : Nat) (ra : room_t) (ha : rooms[a]? = some ra)
    (hj : ra.member_client_indices[j]? = some (i : Int)) :
    ∀ m ∈ ra.member_client_indices.set j (-1), (m != -1) = true → m.toNat ≠ i := by
  intro m hm hsel
  have hne : m ≠ -1 := by simpa using hsel
  have hraok := h.room a ra ha
  obtain ⟨x, hx⟩ := getElem_of_mem _ _ hm
  rcases getElem_set_cases _ _ _ _ _ hx with ⟨_, e⟩ | ⟨nx, hx1⟩
  · exact absurd e hne
  · have hr := hraok.range m (mem_of_getElem _ _ _ hx1) hne
    apply toNat_ne_of_ne m i hr.1
    intro e
    subst e
    exact nx (hraok.nodup x j _ hx1 hj hne)

theorem handle_leave_room_sends (s : Server) (i : Nat) (notify : Bool)
    (h : tables_ok s.clients s.rooms) (hi : i < MAX_CLIENTS_GLOBAL) :
    ∃ l1, (∀ x ∈ l1, x.1 ≠ some i) ∧
      (notify = false → sends_after s (handle_leave_room s i notify) l1) ∧
      (notify = true → ∃ reply,
        sends_after s (handle_leave_room s i notify) (l1 ++ [(some i, reply)]) ∧
        ((client_at s.clients i).current_room_name = [] → begins_with "ERROR:".toList reply) ∧
        ((client_at s.clients i).current_room_name ≠ [] → begins_with "OK:".toList reply)) := by
  by_cases hroom : (client_at s.clients i).current_room_name = []
  · refine ⟨[], by simp, ?_, ?_⟩
    · intro hn
      subst hn
      unfold handle_leave_room
      simp only [hroom, if_true, Bool.false_eq_true, if_false]
      exact sends_after_refl s
    · intro hn
      subst hn
      unfold handle_leave_room
      simp only [hroom, if_true]
      exact ⟨_, by simpa using sends_after_send _ _ _ _, fun _ => begins_with_error _,
        fun hc => absurd rfl hc⟩
  · obtain ⟨a, j, ra, hfind, hra, hact, hname, hj, hjm⟩ :=
      find_room_of_in_room _ _ h i hi hroom
    have hal : a < s.rooms.length := by
      rw [List.getElem?_eq_some] at hra; exact hra.1
    have htake := h.room_name_take i hi
    have hrm : room_remove_member ra i =
        ({ ra with member_client_indices := ra.member_client_indices.set j (-1),
                   num_users := ra.num_users - 1 }, true) := by
      unfold room_remove_member
      rw [hj]
    obtain ⟨l, hl, hlo⟩ := fan_out_others (fun m => m != -1)
      (snprintf MAX_MSG_LEN ("[".toList ++ ra.name ++ "][SERVER] User '".toList ++
        (client_at s.clients i).username ++ "' has left the room.".toList))
      (ra.member_client_indices.set j (-1))
      { s with rooms := (s.rooms.set a
          { ra with member_client_indices := ra.member_client_indices.set j (-1),
                    num_users := ra.num_users - 1 }) } i
      (removed_members_others _ _ h i a j ra hra hjm)
    have hl' : sends_after s (fan_out (fun m => m != -1)
        (snprintf MAX_MSG_LEN ("[".toList ++ ra.name ++ "][SERVER] User '".toList ++
          (client_at s.clients i).username ++ "' has left the room.".toList))
        { s with rooms := (s.rooms.set a
            { ra with member_client_indices := ra.member_client_indices.set j (-1),
                      num_users := ra.num_users - 1 }) }
        (ra.member_client_indices.set j (-1))).1 l := hl
    refine ⟨l, hlo, ?_, ?_⟩
    · intro hn
      subst hn
      unfold handle_leave_room
      simp only [hroom, if_false, htake, hfind, room_at_of_getElem _ _ _ hra, hrm, if_true,
        fan_out_clients, fan_out_rooms, fan_out_upload_queue, fan_out_server_running,
        Bool.false_eq_true]
      split_ifs <;> exact sends_after_eq _ _ _ _ hl' rfl
    · intro hn
      subst hn
      unfold handle_leave_room
      simp only [hroom, if_false, htake, hfind, room_at_of_getElem _ _ _ hra, hrm, if_true,
        fan_out_clients, fan_out_rooms, fan_out_upload_queue, fan_out_server_running]
      refine ⟨snprintf MAX_MSG_LEN (SERVER_RESPONSE_OK ++ "You have left room '".toList ++
        (client_at s.clients i).current_room_name ++ "'.".toList), ?_,
        fun hc => by first | exact absurd hc hroom | exact hc.elim, fun _ => ?_⟩
      · split_ifs <;>
          exact sends_after_eq _ _ _ _
            (sends_after_trans _ _ _ _ _ hl' (sends_after_send _ _ _ _)) rfl
      · simp only [List.append_assoc]
        exact begins_with_ok _

theorem reply_last_after (s s0 t : Server) (i : Nat) (reply : CStr)
    (l0 : List (Option Nat × CStr)) (h0 : sends_after s s0 l0) (ho : ∀ x ∈ l0, x.1 ≠ some i)
    (h1 : reply_last s0 t i reply) : reply_last s t i reply := by
  obtain ⟨l1, hs, hl1⟩ := h1
  refine ⟨l0 ++ l1, ?_, ?_⟩
  · rw [List.append_assoc]
    exact sends_after_trans _ _ _ _ _ h0 hs
  · intro x hx
    rcases List.mem_append.mp hx with hx | hx
    · exact ho x hx
    · exact hl1 x hx

theorem reply_last_of_sent_eq (s s1 t : Server) (i : Nat) (reply : CStr)
    (e : s1.sent = s.sent) (h : reply_last s1 t i reply) : reply_last s t i reply := by
  obtain ⟨l1, hs, hl1⟩ := h
  refine ⟨l1, ?_, hl1⟩
  unfold sends_after at *
  rw [hs, e]

theorem reply_last_fan_out_send (sel : Int → Bool) (text : CStr) (ms : List Int) (s : Server)
    (i : Nat) (fd : Int) (reply : CStr) (h : ∀ m ∈ ms, sel m = true → m.toNat ≠ i) :
    reply_last s (send (fan_out sel text s ms).1 (some i) fd reply).1 i reply := by
  obtain ⟨l, hl, hlo⟩ := fan_out_others sel text ms s i h
  exact ⟨l, sends_after_trans _ _ _ _ _ hl (sends_after_send _ _ _ _), hlo⟩

theorem added_members_others (base : List Int) (slot i : Nat)
    (hr : ∀ m ∈ base, m ≠ -1 → 0 ≤ m) :
    ∀ m ∈ base.set slot (i : Int), (m != -1 && m != (i : Int)) = true → m.toNat ≠ i := by
  intro m hm hsel
  simp at hsel
  rcases List.mem_or_eq_of_mem_set hm with hm1 | e
  · exact toNat_ne_of_ne m i (hr m hm1 hsel.1) hsel.2
  · exact absurd e hsel.2

theorem join_enter_reply (s0 : Server) (rooms1 : List room_t) (i a : Nat) (n : CStr)
    (created : Bool) (ra : room_t) (h : tables_ok s0.clients s0.rooms)
    (hi : i < MAX_CLIENTS_GLOBAL)
    (hroom : (client_at s0.clients i).current_room_name = [])
    (hn : is_room_name_valid n = 1) (hra : s0.rooms[a]? = some ra)
    (hcase : (created = false ∧ rooms1 = s0.rooms ∧ ra.active = true ∧ ra.name = n) ∨
      (created = true ∧
        rooms1 = s0.rooms.set a
          { name := n.take MAX_ROOM_NAME_LEN,
            member_client_indices := List.replicate MAX_ROOM_USERS (-1),
            num_users := 0, active := true } ∧
        ra.active = false ∧
        ∀ (b : Nat) (rb : room_t), s0.rooms[b]? = some rb → rb.active = true → rb.name ≠ n)) :
    ∃ reply, reply_last s0 (join_enter { s0 with rooms := rooms1 } i n a created) i reply ∧
      ((begins_with "OK:".toList reply ∧
        (client_at (join_enter { s0 with rooms := rooms1 } i n a created).clients i
          ).current_room_name = n) ∨
       (begins_with "ERROR:".toList reply ∧
        (client_at (join_enter { s0 with rooms := rooms1 } i n a created).clients i
          ).current_room_name = [])) := by
  have hicl : i < s0.clients.length := by rw [h.clen]; exact hi
  have hal : a < s0.rooms.length := by
    rw [List.getElem?_eq_some] at hra; exact hra.1
  have hraok := h.room a ra hra
  have hntake := room_name_valid_take n hn
  rcases hcase with ⟨hc, hr1, hact, hname⟩ | ⟨hc, hr1, hinact, hnone⟩
  · subst hc hr1
    unfold join_enter
    simp only [room_at_of_getElem _ _ _ hra]
    by_cases hfull : ra.num_users ≥ (MAX_ROOM_USERS : Int)
    · simp only [hfull, if_true, Bool.false_eq_true, if_false, send_clients]
      refine ⟨_, reply_last_of_sent_eq _ _ _ _ _ rfl (reply_last_send _ _ _ _), Or.inr ⟨?_, hroom⟩⟩
      simp only [List.append_assoc]
      exact begins_with_error _
    · simp only [hfull, if_false]
      obtain ⟨slot, hslot⟩ := hraok.free_slot (by omega)
      simp only [hslot, send_clients, fan_out_clients, set_current_room_name, hname, hntake]
      refine ⟨_, reply_last_of_sent_eq _ _ _ _ _ rfl
        (reply_last_fan_out_send _ _ _ _ _ _ _
          (added_members_others _ slot i (fun m hm hne => (hraok.range m hm hne).1))),
        Or.inl ⟨?_, ?_⟩⟩
      · simp only [List.append_assoc]
        exact begins_with_ok _
      · rw [client_at_set_self _ _ _ hicl]
  · subst hc hr1
    have hfirst : firstIdx (fun m => m == -1) (List.replicate MAX_ROOM_USERS (-1 : Int)) =
        some 0 := by decide
    unfold join_enter
    simp only [room_at_set_self _ _ _ hal, hntake]
    have hnf : ¬ ((0 : Int) ≥ (MAX_ROOM_USERS : Int)) := by decide
    simp only [hnf, if_false, hfirst, send_clients, fan_out_clients, set_current_room_name,
      hntake]
    refine ⟨_, reply_last_of_sent_eq _ _ _ _ _ rfl
      (reply_last_fan_out_send _ _ _ _ _ _ _
        (added_members_others _ 0 i (fun m hm hne =>
          absurd (List.eq_of_mem_replicate hm) hne))),
      Or.inl ⟨?_, ?_⟩⟩
    · simp only [List.append_assoc]
      exact begins_with_ok _
    · rw [client_at_set_self _ _ _ hicl]

theorem handle_join_room_reply (s : Server) (i : Nat) (n : CStr)
    (h : tables_ok s.clients s.rooms) (hi : i < MAX_CLIENTS_GLOBAL) :
    ∃ reply, reply_last s (handle_join_room s i n) i reply ∧
      ((begins_with "OK:".toList reply ∧ (client_at s.clients i).current_room_name ≠ n ∧
        (client_at (handle_join_room s i n).clients i).current_room_name = n) ∨
       (begins_with "ERROR:".toList reply ∧
        ¬ ((client_at s.clients i).current_room_name ≠ n ∧
          (client_at (handle_join_room s i n).clients i).current_room_name = n))) := by
  have hicl : i < s.clients.length := by rw [h.clen]; exact hi
  unfold handle_join_room
  by_cases hv : is_room_name_valid n = 0
  · simp only [hv, if_true, send_clients]
    refine ⟨_, reply_last_send _ _ _ _, Or.inr ⟨?_, fun hc => hc.1 hc.2⟩⟩
    simp only [List.append_assoc]
    exact begins_with_error _
  · have hn : is_room_name_valid n = 1 := by
      unfold is_room_name_valid at hv ⊢
      split
      · rename_i hc; rw [if_pos hc] at hv; exact absurd rfl hv
      · rename_i hc
        rw [if_neg hc] at hv
        split
        · rename_i hc2; rw [if_pos hc2] at hv; exact absurd rfl hv
        · rfl
    have hnne := (room_name_valid_length n hn).1
    simp only [hv, if_false]
    by_cases hal : (client_at s.clients i).current_room_name ≠ [] ∧
        (client_at s.clients i).current_room_name = n
    · rw [if_pos hal]
      simp only [send_clients]
      refine ⟨_, reply_last_send _ _ _ _, Or.inr ⟨?_, fun hc => hc.1 hal.2⟩⟩
      simp only [List.append_assoc]
      exact begins_with_error _
    · rw [if_neg hal]
      have hsn : (client_at s.clients i).current_room_name ≠ n := by
        intro e
        apply hal
        exact ⟨by rw [e]; exact hnne, e⟩
      have hs0 : ∃ s0 l0, (if (client_at s.clients i).current_room_name ≠ [] then
            handle_leave_room s i false else s) = s0 ∧
          tables_ok s0.clients s0.rooms ∧
          (client_at s0.clients i).current_room_name = [] ∧
          sends_after s s0 l0 ∧ ∀ x ∈ l0, x.1 ≠ some i := by
        by_cases hroom : (client_at s.clients i).current_room_name ≠ []
        · rw [if_pos hroom]
          obtain ⟨h1, h2, _, _⟩ := handle_leave_room_tables s i false h hi
          obtain ⟨l0, ho, hf, _⟩ := handle_leave_room_sends s i false h hi
          refine ⟨_, l0, rfl, h1, ?_, hf rfl, ho⟩
          rw [h2, client_at_set_self _ _ _ hicl]
        · rw [if_neg hroom]
          exact ⟨s, [], rfl, h, not_not.mp hroom, sends_after_refl s, by simp⟩
      obtain ⟨s0, l0, e0, h0, hroom0, hsa, hlo⟩ := hs0
      simp only [e0]
      cases hl : join_locate s0.rooms n with
      | none =>
        simp only [send_clients]
        refine ⟨_, reply_last_after _ _ _ _ _ _ hsa hlo (reply_last_send _ _ _ _),
          Or.inr ⟨?_, fun hc => hnne (by rw [← hc.2, hroom0])⟩⟩
        simp only [List.append_assoc]
        exact begins_with_error _
      | some res =>
        obtain ⟨rooms1, a, created⟩ := res
        obtain ⟨ra, hra, hcase⟩ := join_locate_cases _ _ _ _ _ hl
        obtain ⟨reply, hrl, hor⟩ := join_enter_reply s0 rooms1 i a n created ra h0 hi hroom0
          hn hra hcase
        simp only
        refine ⟨reply, reply_last_after _ _ _ _ _ _ hsa hlo hrl, ?_⟩
        rcases hor with ⟨h1, h2⟩ | ⟨h1, h2⟩
        · exact Or.inl ⟨h1, hsn, h2⟩
        · exact Or.inr ⟨h1, fun hc => hnne (by rw [← hc.2, h2])⟩

theorem handle_broadcast_message_reply (s : Server) (i : Nat) (message : CStr)
    (h : tables_ok s.clients s.rooms) (hi : i < MAX_CLIENTS_GLOBAL) :
    ∃ reply, reply_last s (handle_broadcast_message s i message) i reply ∧
      (((client_at s.clients i).current_room_name ≠ [] ∧ message ≠ []) →
        begins_with "OK:".toList reply) ∧
      (¬ ((client_at s.clients i).current_room_name ≠ [] ∧ message ≠ []) →
        begins_with "ERROR:".toList reply) := by
  unfold handle_broadcast_message
  dsimp only
  by_cases hroom : (client_at s.clients i).current_room_name = []
  · rw [if_pos hroom]
    refine ⟨_, reply_last_send _ _ _ _, fun hc => absurd hroom hc.1, fun _ => ?_⟩
    exact begins_with_error _
  · rw [if_neg hroom]
    by_cases hm : message.length = 0
    · rw [if_pos hm]
      refine ⟨_, reply_last_send _ _ _ _,
        fun hc => absurd (List.length_eq_zero.mp hm) hc.2, fun _ => ?_⟩
      exact begins_with_error _
    · rw [if_neg hm]
      obtain ⟨a, j, ra, hfind, hra, _, _, _, _⟩ := find_room_of_in_room _ _ h i hi hroom
      have hraok := h.room a ra hra
      rw [hfind]
      simp only [room_at_of_getElem _ _ _ hra]
      refine ⟨_, reply_last_fan_out_send _ _ _ _ _ _ _ ?_, fun _ => ?_, fun hc => ?_⟩
      · intro m hm1 hsel
        simp at hsel
        exact toNat_ne_of_ne m i (hraok.range m hm1 hsel.1).1 hsel.2
      · unfold broadcast_response_msg
        split_ifs
        · simp only [List.append_assoc]
          exact begins_with_ok _
        · simp only [List.append_assoc]
          exact begins_with_ok _
      · exfalso
        apply hc
        exact ⟨hroom, fun e => hm (by rw [e]; rfl)⟩

theorem send_result (s : Server) (i : Option Nat) (fd : Int) (text : CStr) :
    (send s i fd text).2 = if s.net.headD true = true then (text.length : Int) else -1 := rfl

theorem not_delivered_of_single (s t : Server) (i : Nat) (m : Sent)
    (e : t.sent = s.sent ++ [m]) (hm : m.to_idx = some i) : ¬ delivered_to_other s t i := by
  rintro ⟨x, hx, hne, _⟩
  rw [e, List.drop_left] at hx
  simp at hx
  subst hx
  exact hne hm

theorem handle_whisper_message_reply (s : Server) (i : Nat) (target message : CStr) :
    ∃ reply, reply_last s (handle_whisper_message s i target message) i reply ∧
      ((begins_with "OK:".toList reply ∧
          delivered_to_other s (handle_whisper_message s i target message) i) ∨
       (begins_with "ERROR:".toList reply ∧
          ¬ delivered_to_other s (handle_whisper_message s i target message) i)) := by
  have herr : ∀ rest : CStr,
      ∃ reply, reply_last s (send s (some i) (client_at s.clients i).sockfd
          (snprintf MAX_MSG_LEN (SERVER_RESPONSE_ERROR ++ rest))).1 i reply ∧
        ((begins_with "OK:".toList reply ∧ delivered_to_other s
            (send s (some i) (client_at s.clients i).sockfd
              (snprintf MAX_MSG_LEN (SERVER_RESPONSE_ERROR ++ rest))).1 i) ∨
         (begins_with "ERROR:".toList reply ∧ ¬ delivered_to_other s
            (send s (some i) (client_at s.clients i).sockfd
              (snprintf MAX_MSG_LEN (SERVER_RESPONSE_ERROR ++ rest))).1 i)) := by
    intro rest
    exact ⟨_, reply_last_send _ _ _ _, Or.inr ⟨begins_with_error _,
      not_delivered_of_single _ _ _ _ (send_sent _ _ _ _) rfl⟩⟩
  unfold handle_whisper_message
  dsimp only
  by_cases h1 : target.length = 0
  · rw [if_pos h1]; exact herr _
  rw [if_neg h1]
  by_cases h2 : message.length = 0
  · rw [if_pos h2]; exact herr _
  rw [if_neg h2]
  cases hft : find_target_idx s.clients target with
  | none =>
    simp only [List.append_assoc]
    exact herr _
  | some target_idx =>
    simp only
    by_cases h3 : target_idx = i
    · rw [if_pos h3]; exact herr _
    rw [if_neg h3]
    by_cases h4 : (if (client_at s.clients target_idx).active = true then
        (client_at s.clients target_idx).sockfd else -1) ≠ -1
    · rw [if_pos h4]
      generalize (if (client_at s.clients target_idx).active = true then
        (client_at s.clients target_idx).sockfd else -1) = fd
      generalize hw : snprintf (MAX_MSG_LEN + MAX_USERNAME_LEN + 20)
        ("[WHISPER from ".toList ++ (client_at s.clients i).username ++ "]: ".toList ++
          message) = whisper_msg
      have hto : ∀ x ∈ [((some target_idx : Option Nat), whisper_msg)], x.1 ≠ some i := by
        intro x hx
        simp at hx
        subst hx
        simpa using h3
      by_cases h5 : (send s (some target_idx) fd whisper_msg).2 > 0
      · rw [if_pos h5]
        refine ⟨_, ⟨_, sends_after_trans _ _ _ _ _ (sends_after_send _ _ _ _)
          (sends_after_send _ _ _ _), hto⟩, Or.inl ⟨?_, ?_⟩⟩
        · simp only [List.append_assoc]
          exact begins_with_ok _
        · have hok : s.net.headD true = true := by
            by_contra hn
            rw [send_result, if_neg hn] at h5
            exact absurd h5 (by decide)
          refine ⟨{ to_idx := some target_idx, sockfd := fd, text := whisper_msg,
                    ok := s.net.headD true }, ?_, ?_, hok⟩
          · rw [send_sent, send_sent, List.append_assoc, List.drop_left]
            exact List.mem_cons_self _ _
          · simpa using h3
      · rw [if_neg h5]
        refine ⟨_, ⟨_, sends_after_trans _ _ _ _ _ (sends_after_send _ _ _ _)
          (sends_after_send _ _ _ _), hto⟩, Or.inr ⟨?_, ?_⟩⟩
        · simp only [List.append_assoc]
          exact begins_with_error _
        · have hlen : 0 < whisper_msg.length := by
            rw [← hw]
            unfold snprintf
            simp only [List.append_assoc, List.length_take, List.length_append]
            have e1 : "[WHISPER from ".toList.length = 14 := rfl
            rw [e1]
            simp only [MAX_MSG_LEN, MAX_USERNAME_LEN]
            omega
          have hok : s.net.headD true = false := by
            cases hb : s.net.headD true with
            | false => rfl
            | true =>
              exfalso
              apply h5
              rw [send_result, hb, if_pos rfl]
              exact_mod_cast hlen
          rintro ⟨x, hx, hne, hxok⟩
          rw [send_sent, send_sent, List.append_assoc, List.drop_left] at hx
          simp only [List.singleton_append, List.mem_cons, List.mem_singleton,
            List.not_mem_nil, or_false] at hx
          rcases hx with rfl | rfl
          · dsimp only at hxok
            rw [hok] at hxok
            cases hxok
          · exact hne rfl
    · rw [if_neg h4]
      simp only [List.append_assoc]
      exact herr _

theorem dispatch_whisper_reply (s : Server) (i : Nat) (args : CStr) :
    ∃ reply, reply_last s (dispatch_whisper s i args) i reply ∧
      ((begins_with "OK:".toList reply ∧ delivered_to_other s (dispatch_whisper s i args) i) ∨
       (begins_with "ERROR:".toList reply ∧
          ¬ delivered_to_other s (dispatch_whisper s i args) i)) := by
  unfold dispatch_whisper
  dsimp only
  split
  · exact ⟨_, reply_last_send _ _ _ _, Or.inr ⟨begins_with_error _,
      not_delivered_of_single _ _ _ _ (send_sent _ _ _ _) rfl⟩⟩
  · exact handle_whisper_message_reply _ _ _ _

theorem enqueue_no_wait (q : file_queue_t) (running : Bool) (t : file_transfer_t)
    (hnw : q.count < 15 ∨ running = false) :
    (running = false ∧ enqueue_file_transfer q running t = some (q, 0)) ∨
    (running = true ∧ ∃ q1, enqueue_file_transfer q running t = some (q1, 1) ∧
      q1.count = q.count + 1) := by
  cases running with
  | false =>
    left
    refine ⟨rfl, ?_⟩
    simp [enqueue_file_transfer]
  | true =>
    right
    have hc : q.count < 15 := by
      rcases hnw with h | h
      · exact h
      · cases h
    have hnot : ¬ (q.count ≥ ((MAX_UPLOAD_QUEUE * 3 : Nat) : Int) ∧ true = true) := by
      simp [MAX_UPLOAD_QUEUE]; omega
    refine ⟨rfl, { q with transfers := q.transfers.set q.rear.toNat t,
                          rear := Int.tmod (q.rear + 1) ((MAX_UPLOAD_QUEUE * 3 : Nat) : Int),
                          count := q.count + 1 }, ?_, rfl⟩
    unfold enqueue_file_transfer
    rw [if_neg hnot, if_neg (by decide)]

theorem notify_queue_status_reply (s : Server) (i : Nat) (filename : CStr) (p w : Int)
    (hi : i < MAX_CLIENTS_GLOBAL) (hact : (client_at s.clients i).active = true) :
    ∃ reply, notify_queue_status s i filename p w =
        (send s (some i) (client_at s.clients i).sockfd reply).1 ∧
      begins_with "OK:".toList reply := by
  unfold notify_queue_status
  dsimp only
  rw [if_pos ⟨hi, hact⟩]
  refine ⟨_, rfl, ?_⟩
  simp only [List.append_assoc]
  exact begins_with_ok _

theorem handle_sendfile_command_reply (s : Server) (i : Nat) (args : CStr) (now : Int)
    (hi : i < MAX_CLIENTS_GLOBAL) (hact : (client_at s.clients i).active = true)
    (hnw : s.upload_queue.count < 15 ∨ s.server_running = false) :
    ∃ t reply, handle_sendfile_command s i args now = some t ∧ reply_last s t i reply ∧
      ((begins_with "OK:".toList reply ∧ t.upload_queue.count = s.upload_queue.count + 1) ∨
       (begins_with "ERROR:".toList reply ∧ t.upload_queue.count = s.upload_queue.count)) := by
  have herr : ∀ rest : CStr, ∃ t reply,
      some (send s (some i) (client_at s.clients i).sockfd
        (snprintf MAX_MSG_LEN (SERVER_RESPONSE_ERROR ++ rest))).1 = some t ∧
      reply_last s t i reply ∧
      ((begins_with "OK:".toList reply ∧ t.upload_queue.count = s.upload_queue.count + 1) ∨
       (begins_with "ERROR:".toList reply ∧ t.upload_queue.count = s.upload_queue.count)) := by
    intro rest
    exact ⟨_, _, rfl, reply_last_send _ _ _ _, Or.inr ⟨begins_with_error _, rfl⟩⟩
  unfold handle_sendfile_command
  dsimp only
  by_cases h1 : (parse_sendfile_args args).1.length = 0 ∨
      (parse_sendfile_args args).2.1.length = 0
  · rw [if_pos h1]; exact herr _
  rw [if_neg h1]
  by_cases h2 : (parse_sendfile_args args).2.2 = 0
  · rw [if_pos h2]; exact herr _
  rw [if_neg h2]
  cases hft : find_target_idx s.clients (parse_sendfile_args args).2.1 with
  | none =>
    simp only [List.append_assoc]
    exact herr _
  | some target_idx =>
    simp only
    by_cases h3 : target_idx = i
    · rw [if_pos h3]; exact herr _
    rw [if_neg h3]
    by_cases h4 : is_valid_file_type (parse_sendfile_args args).1 = 0
    · rw [if_pos h4]; exact herr _
    rw [if_neg h4]
    by_cases h5 : (parse_sendfile_args args).2.2 > MAX_FILE_SIZE
    · rw [if_pos h5]; exact herr _
    rw [if_neg h5, if_neg h2]
    rcases enqueue_no_wait s.upload_queue s.server_running
      { zero_transfer with
          filename := (parse_sendfile_args args).1.take (MAX_FILENAME_LEN - 1),
          sender_username := (client_at s.clients i).username.take MAX_USERNAME_LEN,
          receiver_username := (parse_sendfile_args args).2.1.take MAX_USERNAME_LEN,
          sender_idx := i,
          receiver_idx := target_idx,
          file_size := (parse_sendfile_args args).2.2,
          request_time := now,
          status := transfer_status_t.TRANSFER_PENDING,
          processor_thread_id := -1 } hnw with ⟨_, he⟩ | ⟨_, q1, he, hq1⟩
    · rw [he]
      simp only [ne_eq, not_true_eq_false, if_false]
      exact ⟨_, _, rfl, reply_last_of_sent_eq _ _ _ _ _ rfl (reply_last_send _ _ _ _),
        Or.inr ⟨begins_with_error _, rfl⟩⟩
    · rw [he]
      simp only [ne_eq, one_ne_zero, not_false_eq_true, if_true]
      obtain ⟨reply, hr, hok⟩ := notify_queue_status_reply
        { s with upload_queue := q1 } i (parse_sendfile_args args).1
        (get_file_transfer_stats q1).2.1
        (calculate_estimated_wait_time q1 (get_file_transfer_stats q1).2.1) hi hact
      refine ⟨_, reply, rfl, ?_, Or.inl ⟨hok, ?_⟩⟩
      · rw [hr]
        exact reply_last_of_sent_eq _ _ _ _ _ rfl (reply_last_send _ _ _ _)
      · rw [hr]
        exact hq1

theorem handle_status_reply (s : Server) (i : Nat) :
    ∃ reply, reply_last s (handle_status s i) i reply ∧ begins_with "OK:".toList reply := by
  unfold handle_status
  dsimp only
  refine ⟨_, reply_last_send _ _ _ _, ?_⟩
  simp only [List.append_assoc]
  exact begins_with_ok _

/-- C7: in every reachable state, the dispatch of a non-empty command line of a
logged-in session returns (when the sendfile handler does not have to wait for a
free queue slot) and sends exactly one text to the slot of that session; the text
begins "OK:" when the command is accepted and "ERROR:" when it is rejected. -/
theorem dispatch_one_reply (s : Server) (h : Reachable s) (i : Nat) (buffer : CStr)
    (now : Int) (hi : i < MAX_CLIENTS_GLOBAL) (hact : (client_at s.clients i).active = true)
    (_hlog : (client_at s.clients i).username ≠ []) (_hbuf : buffer ≠ [])
    (hnw : s.upload_queue.count < 15 ∨ s.server_running = false) :
    ∃ (t : Server) (ex : Bool) (reply : CStr),
      dispatch s i buffer now = some (t, ex) ∧ replies_to i s t = [reply] ∧
      (command_accepted s t i buffer → begins_with "OK:".toList reply) ∧
      (¬ command_accepted s t i buffer → begins_with "ERROR:".toList reply) := by
  have ht := reachable_tables s h
  unfold dispatch
  by_cases c1 : buffer.take 6 = "/join ".toList
  · rw [if_pos c1]
    obtain ⟨reply, hrl, hor⟩ := handle_join_room_reply s i
      ((buffer.drop 6).dropWhile (fun c => c == Char.ofNat 32)) ht hi
    refine ⟨_, false, reply, rfl, replies_of_reply_last _ _ _ _ hrl, ?_, ?_⟩
    · unfold command_accepted
      rw [if_pos c1]
      intro ha
      rcases hor with ⟨h1, _⟩ | ⟨_, h2⟩
      · exact h1
      · exact absurd ha h2
    · unfold command_accepted
      rw [if_pos c1]
      intro ha
      rcases hor with ⟨_, h2⟩ | ⟨h1, _⟩
      · exact absurd h2 ha
      · exact h1
  rw [if_neg c1]
  by_cases c2 : buffer = "/leave".toList
  · rw [if_pos c2]
    obtain ⟨l1, ho, _, hy⟩ := handle_leave_room_sends s i true ht hi
    obtain ⟨reply, hsa, he, hk⟩ := hy rfl
    refine ⟨_, false, reply, rfl, replies_of_reply_last _ _ _ _ ⟨l1, hsa, ho⟩, ?_, ?_⟩
    · unfold command_accepted
      rw [if_neg c1, if_pos c2]
      exact hk
    · unfold command_accepted
      rw [if_neg c1, if_pos c2]
      intro ha
      exact he (not_not.mp ha)
  rw [if_neg c2]
  by_cases c3 : buffer.take 11 = "/broadcast ".toList
  · rw [if_pos c3]
    obtain ⟨reply, hrl, hk, he⟩ := handle_broadcast_message_reply s i
      ((buffer.drop 11).dropWhile (fun c => c == Char.ofNat 32)) ht hi
    refine ⟨_, false, reply, rfl, replies_of_reply_last _ _ _ _ hrl, ?_, ?_⟩
    · unfold command_accepted
      rw [if_neg c1, if_neg c2, if_pos c3]
      exact hk
    · unfold command_accepted
      rw [if_neg c1, if_neg c2, if_pos c3]
      exact he
  rw [if_neg c3]
  by_cases c4 : buffer.take 9 = "/whisper ".toList
  · rw [if_pos c4]
    obtain ⟨reply, hrl, hor⟩ := dispatch_whisper_reply s i (buffer.drop 9)
    refine ⟨_, false, reply, rfl, replies_of_reply_last _ _ _ _ hrl, ?_, ?_⟩
    · unfold command_accepted
      rw [if_neg c1, if_neg c2, if_neg c3, if_pos c4]
      intro ha
      rcases hor with ⟨h1, _⟩ | ⟨_, h2⟩
      · exact h1
      · exact absurd ha h2
    · unfold command_accepted
      rw [if_neg c1, if_neg c2, if_neg c3, if_pos c4]
      intro ha
      rcases hor with ⟨_, h2⟩ | ⟨h1, _⟩
      · exact absurd h2 ha
      · exact h1
  rw [if_neg c4]
  by_cases c5 : buffer.take 10 = "/sendfile ".toList
  · rw [if_pos c5]
    obtain ⟨t, reply, hs, hrl, hor⟩ := handle_sendfile_command_reply s i
      ((buffer.drop 10).dropWhile (fun c => c == Char.ofNat 32)) now hi hact hnw
    rw [hs]
    refine ⟨t, false, reply, rfl, replies_of_reply_last _ _ _ _ hrl, ?_, ?_⟩
    · unfold command_accepted
      rw [if_neg c1, if_neg c2, if_neg c3, if_neg c4, if_pos c5]
      intro ha
      rcases hor with ⟨h1, _⟩ | ⟨_, h2⟩
      · exact h1
      · rw [h2] at ha; omega
    · unfold command_accepted
      rw [if_neg c1, if_neg c2, if_neg c3, if_neg c4, if_pos c5]
      intro ha
      rcases hor with ⟨_, h2⟩ | ⟨h1, _⟩
      · exact absurd h2 ha
      · exact h1
  rw [if_neg c5]
  have hacc : ∀ t : Server, command_accepted s t i buffer ↔
      (buffer = "/status".toList ∨ buffer = "/exit".toList) := by
    intro t
    unfold command_accepted
    rw [if_neg c1, if_neg c2, if_neg c3, if_neg c4, if_neg c5]
  by_cases c6 : buffer = "/status".toList
  · rw [if_pos c6]
    obtain ⟨reply, hrl, hok⟩ := handle_status_reply s i
    exact ⟨_, false, reply, rfl, replies_of_reply_last _ _ _ _ hrl, fun _ => hok,
      fun ha => absurd ((hacc _).mpr (Or.inl c6)) ha⟩
  rw [if_neg c6]
  by_cases c7 : buffer = "/exit".toList
  · rw [if_pos c7]
    refine ⟨_, true, _, rfl, replies_of_reply_last _ _ _ _ (reply_last_send _ _ _ _),
      fun _ => ?_, fun ha => absurd ((hacc _).mpr (Or.inr c7)) ha⟩
    simp only [List.append_assoc]
    exact begins_with_ok _
  rw [if_neg c7]
  have hrej : ∀ t : Server, ¬ command_accepted s t i buffer := by
    intro t ha
    rcases (hacc t).mp ha with e | e
    · exact c6 e
    · exact c7 e
  by_cases c8 : buffer.head? = some (Char.ofNat 47)
  · rw [if_pos c8]
    exact ⟨_, false, _, rfl, replies_of_reply_last _ _ _ _ (reply_last_send _ _ _ _),
      fun ha => absurd ha (hrej _), fun _ => begins_with_error _⟩
  · rw [if_neg c8]
    exact ⟨_, false, _, rfl, replies_of_reply_last _ _ _ _ (reply_last_send _ _ _ _),
      fun ha => absurd ha (hrej _), fun _ => begins_with_error _⟩

/-- Witness of C7: "A" sends `/join lobby` in `demo_two_sessions` and gets the one reply
"OK:You joined room 'lobby'. (New room created)". -/
theorem dispatch_one_reply_witness :
    dispatch demo_two_sessions 0 "/join lobby".toList 0 = some (demo_lobby, false) ∧
    replies_to 0 demo_two_sessions demo_lobby =
      ["OK:You joined room 'lobby'. (New room created)".toList] ∧
    ∃ (t : Server) (ex : Bool) (reply : CStr),
      dispatch demo_two_sessions 0 "/join lobby".toList 0 = some (t, ex) ∧
      replies_to 0 demo_two_sessions t = [reply] ∧
      (command_accepted demo_two_sessions t 0 "/join lobby".toList →
        begins_with "OK:".toList reply) ∧
      (¬ command_accepted demo_two_sessions t 0 "/join lobby".toList →
        begins_with "ERROR:".toList reply) :=
  ⟨by rfl, by decide,
   dispatch_one_reply demo_two_sessions demo_two_sessions_reachable 0 "/join lobby".toList 0
    (by decide) (by decide) (by decide) (by decide) (by decide)⟩

/-! ## File metadata validation -/

theorem strrchr_none_iff (s : CStr) (c : Char) : strrchr s c = none ↔ c ∉ s := by
  induction s with
  | nil => simp [strrchr]
  | cons x xs ih =>
    rw [strrchr]
    cases hx : strrchr xs c with
    | some t =>
      have : ¬ c ∉ xs := fun hn => by rw [ih.mpr hn] at hx; cases hx
      simp only [List.mem_cons, not_or]
      constructor
      · intro h; cases h
      · intro h; exact absurd h.2 this
    | none =>
      have hn := ih.mp hx
      by_cases hc : x = c
      · simp [hc]
      · simp only [if_neg hc, List.mem_cons, not_or, true_iff]
        exact ⟨fun e => hc e.symm, hn⟩

theorem strrchr_some_iff (s : CStr) (c : Char) (t : CStr) :
    strrchr s c = some t ↔ ∃ stem rest, s = stem ++ c :: rest ∧ c ∉ rest ∧ t = c :: rest := by
  induction s generalizing t with
  | nil => simp [strrchr]
  | cons x xs ih =>
    rw [strrchr]
    cases hx : strrchr xs c with
    | some u =>
      obtain ⟨stem, rest, e, hr, eu⟩ := (ih u).mp hx
      constructor
      · intro h
        cases h
        exact ⟨x :: stem, rest, by rw [e]; rfl, hr, eu⟩
      · rintro ⟨stem2, rest2, e2, hr2, et⟩
        cases stem2 with
        | nil =>
          simp only [List.nil_append, List.cons.injEq] at e2
          rw [e2.2] at e
          exact absurd (by rw [e]; simp) hr2
        | cons y ys =>
          simp only [List.cons_append, List.cons.injEq] at e2
          have := (ih (c :: rest2)).mpr ⟨ys, rest2, e2.2, hr2, rfl⟩
          rw [hx] at this
          rw [et]; exact this
    | none =>
      have hn := (strrchr_none_iff xs c).mp hx
      by_cases hc : x = c
      · simp only [if_pos hc, Option.some.injEq]
        constructor
        · intro h; exact ⟨[], xs, by rw [hc]; rfl, hn, by rw [← h, hc]⟩
        · rintro ⟨stem2, rest2, e2, hr2, et⟩
          cases stem2 with
          | nil =>
            simp only [List.nil_append, List.cons.injEq] at e2
            rw [et, e2.2, hc]
          | cons y ys =>
            simp only [List.cons_append, List.cons.injEq] at e2
            exact absurd (by rw [e2.2]; simp) hn
      · simp only [if_neg hc]
        constructor
        · intro h; cases h
        rintro ⟨stem2, rest2, e2, hr2, et⟩
        cases stem2 with
        | nil =>
          simp only [List.nil_append, List.cons.injEq] at e2
          exact absurd e2.1 hc
        | cons y ys =>
          simp only [List.cons_append, List.cons.injEq] at e2
          exact absurd (by rw [e2.2]; simp) hn

theorem is_valid_file_type_iff (filename : CStr) :
    is_valid_file_type filename = 1 ↔
      ∃ stem rest, filename = stem ++ '.' :: rest ∧ '.' ∉ rest ∧
        ∃ ext ∈ [".txt".toList, ".pdf".toList, ".jpg".toList, ".png".toList],
          ('.' :: rest).map Char.toLower = ext.map Char.toLower := by
  have h46 : Char.ofNat 46 = '.' := rfl
  unfold is_valid_file_type
  rw [h46]
  by_cases h0 : filename.length = 0
  · rw [if_pos h0]
    have : filename = [] := List.length_eq_zero.mp h0
    subst this
    simp
  · rw [if_neg h0]
    cases hd : strrchr filename '.' with
    | none =>
      have hn := (strrchr_none_iff _ _).mp hd
      simp only [false_iff]
      · constructor
        · intro h; cases h
        · rintro ⟨stem, rest, e, -⟩
          exact absurd (by rw [e]; simp) hn
    | some dot =>
      obtain ⟨stem, rest, e, hr, ed⟩ := (strrchr_some_iff _ _ _).mp hd
      subst ed
      simp only
      constructor
      · intro h
        split at h
        · rename_i hany
          rw [List.any_eq_true] at hany
          obtain ⟨ext, hext, hcmp⟩ := hany
          refine ⟨stem, rest, e, hr, ext, hext, ?_⟩
          unfold strcasecmp at hcmp
          by_contra hne
          rw [if_neg hne] at hcmp
          exact absurd hcmp (by decide)
        · cases h
      · rintro ⟨stem2, rest2, e2, hr2, ext, hext, hcmp⟩
        have hd2 := (strrchr_some_iff filename '.' ('.' :: rest2)).mpr ⟨stem2, rest2, e2, hr2, rfl⟩
        rw [hd] at hd2
        cases hd2
        rw [if_pos]
        rw [List.any_eq_true]
        exact ⟨ext, hext, by unfold strcasecmp; rw [if_pos hcmp]; rfl⟩

theorem is_valid_file_type_cases (filename : CStr) :
    is_valid_file_type filename = 0 ∨ is_valid_file_type filename = 1 := by
  unfold is_valid_file_type
  repeat' split
  all_goals simp

/-- C12: `validate_file_metadata filename size` returns 1 exactly when the size lies in
(0, 3145728] and the file name is `stem ++ '.' :: rest` with no further '.' in `rest`
and `'.' :: rest` equal, letter case ignored, to one of ".txt", ".pdf", ".jpg", ".png";
a file name without a '.' (the empty name included) is rejected with 0. -/
theorem validate_file_metadata_iff (filename : CStr) (size : Nat) :
    (validate_file_metadata filename size = 1 ↔
      (0 < size ∧ size ≤ 3145728 ∧
        ∃ stem rest, filename = stem ++ '.' :: rest ∧ '.' ∉ rest ∧
          ∃ ext ∈ [".txt".toList, ".pdf".toList, ".jpg".toList, ".png".toList],
            ('.' :: rest).map Char.toLower = ext.map Char.toLower)) ∧
    ('.' ∉ filename → validate_file_metadata filename size = 0) := by
  have hiff := is_valid_file_type_iff filename
  have hM : MAX_FILE_SIZE = 3145728 := rfl
  constructor
  · unfold validate_file_metadata
    rw [hM]
    rcases is_valid_file_type_cases filename with h0 | h1
    · rw [if_pos h0]
      constructor
      · intro h; cases h
      · rintro ⟨-, -, hx⟩
        rw [hiff.mpr hx] at h0; cases h0
    · have hne : ¬ is_valid_file_type filename = 0 := by rw [h1]; decide
      rw [if_neg hne]
      have hx := hiff.mp h1
      by_cases hs : size > 3145728
      · rw [if_pos hs]
        constructor
        · intro h; cases h
        · rintro ⟨-, h2, -⟩; omega
      · rw [if_neg hs]
        by_cases hz : size = 0
        · rw [if_pos hz]
          constructor
          · intro h; cases h
          · rintro ⟨h2, -, -⟩; omega
        · rw [if_neg hz]
          simp only [true_iff]
          exact ⟨by omega, by omega, hx⟩
  · intro hn
    unfold validate_file_metadata
    rw [if_pos]
    rcases is_valid_file_type_cases filename with h0 | h1
    · exact h0
    · obtain ⟨stem, rest, e, -⟩ := hiff.mp h1
      exact absurd (by rw [e]; simp) hn

/-! ## Rejected commands leave the tables alone -/

/-- C14: for a session `i` that is in no room, `/leave` is `handle_leave_room s i true`,
which makes exactly one send, the reply "ERROR:You are not currently in any room." to
slot `i`, and leaves the session table, the room table (members, `num_users`, `active`,
name of every room), the upload queue and `server_running` as they were. -/
theorem leave_outside_room (s : Server) (i : Nat) (now : Int)
    (hroom : (client_at s.clients i).current_room_name = []) :
    dispatch s i "/leave".toList now = some (handle_leave_room s i true, false) ∧
    sends_after s (handle_leave_room s i true)
      [(some i, "ERROR:You are not currently in any room.".toList)] ∧
    begins_with "ERROR:".toList "ERROR:You are not currently in any room.".toList ∧
    (handle_leave_room s i true).clients = s.clients ∧
    (handle_leave_room s i true).rooms = s.rooms ∧
    (handle_leave_room s i true).upload_queue = s.upload_queue ∧
    (handle_leave_room s i true).server_running = s.server_running := by
  refine ⟨?_, ?_, by decide, ?_, ?_, ?_, ?_⟩
  · unfold dispatch
    rw [if_neg (by decide), if_pos rfl]
  · have e : handle_leave_room s i true =
        (send s (some i) (client_at s.clients i).sockfd
          "ERROR:You are not currently in any room.".toList).1 := by
      unfold handle_leave_room
      simp only [hroom, if_true]
      rfl
    rw [e]
    exact sends_after_send s _ _ _
  all_goals
    unfold handle_leave_room
    simp only [hroom, if_true]
    simp

/-- Instance of `leave_outside_room`: "A" is logged in and has joined no room. -/
theorem leave_outside_room_witness :
    (client_at demo_two_sessions.clients 0).current_room_name = [] ∧
    sends_after demo_two_sessions (handle_leave_room demo_two_sessions 0 true)
      [(some 0, "ERROR:You are not currently in any room.".toList)] ∧
    (handle_leave_room demo_two_sessions 0 true).rooms = demo_two_sessions.rooms :=
  ⟨by decide, (leave_outside_room demo_two_sessions 0 0 (by decide)).2.1,
    (leave_outside_room demo_two_sessions 0 0 (by decide)).2.2.2.2.1⟩

theorem isalnum_iff (c : Char) : isalnum c = true ↔ ascii_letter_or_digit c := by
  unfold isalnum ascii_letter_or_digit Char.isAlpha Char.isUpper Char.isLower Char.isDigit
  simp only [Bool.or_eq_true, Bool.and_eq_true, decide_eq_true_eq, Char.toNat, UInt32.le_def,
    ge_iff_le]
  constructor
  · rintro ((h | h) | h)
    · right; left; exact ⟨h.1, h.2⟩
    · right; right; exact ⟨h.1, h.2⟩
    · left; exact ⟨h.1, h.2⟩
  · rintro (h | h | h)
    · right; exact ⟨h.1, h.2⟩
    · left; left; exact ⟨h.1, h.2⟩
    · left; right; exact ⟨h.1, h.2⟩

theorem is_room_name_valid_iff (n : CStr) :
    is_room_name_valid n = 1 ↔
      1 ≤ n.length ∧ n.length ≤ 32 ∧ ∀ c ∈ n, ascii_letter_or_digit c := by
  unfold is_room_name_valid
  have hM : MAX_ROOM_NAME_LEN = 32 := rfl
  rw [hM]
  by_cases h1 : n.length = 0 ∨ n.length > 32
  · rw [if_pos h1]
    constructor
    · intro h; cases h
    · rintro ⟨h2, h3, -⟩; omega
  · rw [if_neg h1]
    by_cases h2 : n.any (fun c => !isalnum c) = true
    · rw [if_pos h2]
      constructor
      · intro h; cases h
      · rintro ⟨-, -, h3⟩
        rw [List.any_eq_true] at h2
        obtain ⟨c, hc, hb⟩ := h2
        have := (isalnum_iff c).mpr (h3 c hc)
        rw [this] at hb
        cases hb
    · rw [if_neg h2]
      simp only [true_iff]
      refine ⟨by omega, by omega, ?_⟩
      intro c hc
      apply (isalnum_iff c).mp
      by_contra hb
      apply h2
      rw [List.any_eq_true]
      exact ⟨c, hc, by simpa using hb⟩

/-- C15: a room name that is empty, longer than 32 characters or holds a character
that is no ASCII letter or digit makes `is_room_name_valid` return 0, and then
`handle_join_room` makes exactly one send, the reply "ERROR:Invalid room name. Max 32
chars, alphanumeric only." to the caller, and leaves the session table (so the room the
session was in), the room table, the queue and `server_running` as they were; the
dispatcher passes the text after "/join " without its leading blanks; and
`is_room_name_valid` returns 1 exactly for names of 1 to 32 ASCII letters and digits. -/
theorem join_invalid_name_rejected (s : Server) (i : Nat) (name : CStr) (now : Int)
    (hbad : name = [] ∨ 32 < name.length ∨ ∃ c ∈ name, ¬ ascii_letter_or_digit c) :
    is_room_name_valid name = 0 ∧
    sends_after s (handle_join_room s i name)
      [(some i, "ERROR:Invalid room name. Max 32 chars, alphanumeric only.".toList)] ∧
    begins_with "ERROR:".toList
      "ERROR:Invalid room name. Max 32 chars, alphanumeric only.".toList ∧
    (handle_join_room s i name).clients = s.clients ∧
    (handle_join_room s i name).rooms = s.rooms ∧
    (handle_join_room s i name).upload_queue = s.upload_queue ∧
    (handle_join_room s i name).server_running = s.server_running ∧
    dispatch s i ("/join ".toList ++ name) now =
      some (handle_join_room s i (name.dropWhile (fun c => c == ' ')), false) ∧
    (∀ n : CStr, is_room_name_valid n = 1 ↔
      1 ≤ n.length ∧ n.length ≤ 32 ∧ ∀ c ∈ n, ascii_letter_or_digit c) := by
  have h0 : is_room_name_valid name = 0 := by
    have hne : ¬ is_room_name_valid name = 1 := by
      rw [is_room_name_valid_iff]
      rintro ⟨h1, h2, h3⟩
      rcases hbad with h | h | ⟨c, hc, hb⟩
      · rw [h] at h1; simp at h1
      · omega
      · exact hb (h3 c hc)
    unfold is_room_name_valid at hne ⊢
    split_ifs at hne ⊢ <;> first | rfl | exact absurd rfl hne
  have e : handle_join_room s i name =
      (send s (some i) (client_at s.clients i).sockfd
        "ERROR:Invalid room name. Max 32 chars, alphanumeric only.".toList).1 := by
    unfold handle_join_room
    simp only [h0, if_true]
    rfl
  refine ⟨h0, ?_, by decide, ?_, ?_, ?_, ?_, ?_, is_room_name_valid_iff⟩
  · rw [e]; exact sends_after_send s _ _ _
  · rw [e]; simp
  · rw [e]; simp
  · rw [e]; simp
  · rw [e]; simp
  · unfold dispatch
    rw [if_pos (by simp)]
    simp

/-- Instance of `join_invalid_name_rejected`: "A", a member of "lobby", asks for the room
"no room" and stays where it is. -/
theorem join_invalid_name_rejected_witness :
    (∃ c ∈ "no room".toList, ¬ ascii_letter_or_digit c) ∧
    sends_after demo_lobby (handle_join_room demo_lobby 0 "no room".toList)
      [(some 0, "ERROR:Invalid room name. Max 32 chars, alphanumeric only.".toList)] ∧
    (client_at (handle_join_room demo_lobby 0 "no room".toList).clients 0).current_room_name =
      "lobby".toList :=
  ⟨⟨' ', by decide, by decide⟩,
    (join_invalid_name_rejected demo_lobby 0 "no room".toList 0
      (Or.inr (Or.inr ⟨' ', by decide, by decide⟩))).2.1,
    by
      rw [(join_invalid_name_rejected demo_lobby 0 "no room".toList 0
        (Or.inr (Or.inr ⟨' ', by decide, by decide⟩))).2.2.2.1]
      decide⟩

/-! ## Effect of `cleanup_client` -/

theorem cleanup_client_clients (s : Server) (i : Nat) (h : tables_ok s.clients s.rooms)
    (hi : i < MAX_CLIENTS_GLOBAL) (hact : (client_at s.clients i).active = true) :
    (cleanup_client s i).clients =
      s.clients.set i
        { sockfd := -1, username := [], ip_addr := (client_at s.clients i).ip_addr,
          active := false, current_room_name := [] } ∧
    ((client_at s.clients i).current_room_name = [] → (cleanup_client s i).rooms = s.rooms) ∧
    ((client_at s.clients i).current_room_name ≠ [] →
      (cleanup_client s i).rooms = (handle_leave_room s i false).rooms) := by
  have hicl : i < s.clients.length := by rw [h.clen]; exact hi
  unfold cleanup_client
  rw [if_neg (by omega)]
  dsimp only
  by_cases hroom : (client_at s.clients i).current_room_name = []
  · have hc : ¬ ((client_at s.clients i).active &&
        (client_at s.clients i).current_room_name != []) = true := by simp [hroom]
    rw [if_neg hc, if_pos hact]
    exact ⟨rfl, fun _ => rfl, fun hn => absurd hroom hn⟩
  · have hc : ((client_at s.clients i).active &&
        (client_at s.clients i).current_room_name != []) = true := by simp [hroom, hact]
    obtain ⟨-, h2, -, -⟩ := handle_leave_room_tables s i false h hi
    have hact1 : (client_at (handle_leave_room s i false).clients i).active = true := by
      rw [h2, client_at_set_self _ _ _ hicl]; exact hact
    rw [if_pos hc, if_pos hact1]
    refine ⟨?_, fun he => absurd he hroom, fun _ => rfl⟩
    simp only
    rw [h2, client_at_set_self _ _ _ hicl, List.set_set]

/-- C16: in a reachable state, `cleanup_client s i` on an active slot `i` (logged in or
not, in a room or not) rewrites slot `i` to `sockfd = -1`, empty `username`, empty
`current_room_name`, `active = false` and the old `ip_addr`, leaves every other slot
as it was, and leaves `i` in no member array; the room table is unchanged when the
session was in no room, and otherwise the room `a` it was in has its entry `j` that
held `i` set to -1 and `num_users` decremented, and is deactivated with its name
cleared when that was the last member. -/
theorem cleanup_client_effect (s : Server) (i : Nat) (hs : Reachable s)
    (hi : i < MAX_CLIENTS_GLOBAL) (hact : (client_at s.clients i).active = true) :
    client_at (cleanup_client s i).clients i =
      { sockfd := -1, username := [], ip_addr := (client_at s.clients i).ip_addr,
        active := false, current_room_name := [] } ∧
    (∀ j, j ≠ i → client_at (cleanup_client s i).clients j = client_at s.clients j) ∧
    (cleanup_client s i).clients.length = s.clients.length ∧
    (∀ r ∈ (cleanup_client s i).rooms, (i : Int) ∉ r.member_client_indices) ∧
    ((client_at s.clients i).current_room_name = [] → (cleanup_client s i).rooms = s.rooms) ∧
    ((client_at s.clients i).current_room_name ≠ [] →
      ∃ (a j : Nat) (ra : room_t), s.rooms[a]? = some ra ∧ ra.active = true ∧
        ra.name = (client_at s.clients i).current_room_name ∧
        ra.member_client_indices[j]? = some (i : Int) ∧
        (cleanup_client s i).rooms =
          s.rooms.set a
            { name := if ra.num_users - 1 = 0 then [] else ra.name,
              member_client_indices := ra.member_client_indices.set j (-1),
              num_users := ra.num_users - 1,
              active := if ra.num_users - 1 = 0 then false else true }) := by
  have h := reachable_tables s hs
  have hicl : i < s.clients.length := by rw [h.clen]; exact hi
  obtain ⟨hc, hr0, hr1⟩ := cleanup_client_clients s i h hi hact
  have ht := (cleanup_client_tables s i h).1
  refine ⟨?_, ?_, ?_, ?_, hr0, ?_⟩
  · rw [hc, client_at_set_self _ _ _ hicl]
  · intro j hj
    rw [hc, client_at_set_ne _ _ _ _ (Ne.symm hj)]
  · rw [hc, List.length_set]
  · intro r hr hmem
    obtain ⟨a, hget⟩ := getElem_of_mem _ _ hr
    have := (ht.member a r hget (i : Int) hmem (by omega)).2
    rw [Int.toNat_ofNat, hc, client_at_set_self _ _ _ hicl] at this
    cases this
  · intro hroom
    obtain ⟨a, j, ra, -, hra, hra_act, hname, hj, hrooms⟩ :=
      handle_leave_room_rooms s i false h hi hroom
    exact ⟨a, j, ra, hra, hra_act, hname, hj, (hr1 hroom).trans hrooms⟩

/-- Instance of `cleanup_client_effect`: "A", alone in "lobby", is cleaned up and the
room slot is released. -/
theorem cleanup_client_effect_witness :
    (client_at demo_lobby.clients 0).active = true ∧
    (client_at (cleanup_client demo_lobby 0).clients 0).active = false ∧
    (∀ r ∈ (cleanup_client demo_lobby 0).rooms, (0 : Int) ∉ r.member_client_indices) ∧
    (room_at (cleanup_client demo_lobby 0).rooms 0).active = false :=
  ⟨by decide,
    by rw [(cleanup_client_effect demo_lobby 0 demo_lobby_reachable (by decide) (by decide)).1],
    (cleanup_client_effect demo_lobby 0 demo_lobby_reachable (by decide) (by decide)).2.2.2.1,
    by decide⟩

/-! ## The lobby scenario -/

/-- C17: from the initial state with every send succeeding, after connections on two
descriptors have logged in as "A" (slot 0) and "B" (slot 1): the line "/join lobby"
of "A" makes one send, "OK:You joined room 'lobby'. (New room created)" to "A"; then
"/join lobby" of "B" sends "A" the text "[lobby][SERVER] User 'B' has joined the room."
(and "B" its own reply); then "/broadcast hi" of "A" sends "B" the text "[lobby] A: hi"
and "A" the reply "OK:Message broadcast to 1 other user(s) in 'lobby'.". -/
theorem lobby_scenario :
    new_sends (initial_server []) demo_two_sessions =
      [(some 0, "OK:Welcome, A!".toList), (some 1, "OK:Welcome, B!".toList)] ∧
    dispatch demo_two_sessions 0 "/join lobby".toList 0 = some (demo_lobby, false) ∧
    new_sends demo_two_sessions demo_lobby =
      [(some 0, "OK:You joined room 'lobby'. (New room created)".toList)] ∧
    dispatch demo_lobby 1 "/join lobby".toList 0 = some (demo_lobby_two, false) ∧
    new_sends demo_lobby demo_lobby_two =
      [(some 0, "[lobby][SERVER] User 'B' has joined the room.".toList),
       (some 1, "OK:You joined room 'lobby'.".toList)] ∧
    dispatch demo_lobby_two 0 "/broadcast hi".toList 0 =
      some (handle_broadcast_message demo_lobby_two 0 "hi".toList, false) ∧
    new_sends demo_lobby_two (handle_broadcast_message demo_lobby_two 0 "hi".toList) =
      [(some 1, "[lobby] A: hi".toList),
       (some 0, "OK:Message broadcast to 1 other user(s) in 'lobby'.".toList)] ∧
    (handle_broadcast_message demo_lobby_two 0 "hi".toList).sent.all (fun m => m.ok) = true := by
  refine ⟨by decide, by decide, by decide, by decide, by decide, by decide, by decide, by decide⟩

/-! ## Whisper -/

theorem has_name_unique (clients : List client_t) (rooms : List room_t)
    (h : tables_ok clients rooms) (j k : Nat) (name : CStr) (hj : has_name clients j name)
    (hk : has_name clients k name) : j = k :=
  h.names j k hj.1 hk.1 hj.2.1 hk.2.1 (by rw [hj.2.2.2]; exact hj.2.2.1)
    (hj.2.2.2.trans hk.2.2.2.symm)

theorem find_target_none (clients : List client_t) (rooms : List room_t)
    (h : tables_ok clients rooms) (name : CStr) (hf : find_target_idx clients name = none) :
    ∀ j, ¬ has_name clients j name := by
  intro j hj
  have hjl : j < clients.length := by rw [h.clen]; exact hj.1
  have hmem : client_at clients j ∈ clients :=
    mem_of_getElem _ _ _ (getElem_client_at clients j hjl)
  have := firstIdx_none _ _ hf _ hmem
  simp [hj.2.1, hj.2.2.2] at this

theorem find_target_some (clients : List client_t) (rooms : List room_t)
    (h : tables_ok clients rooms) (name : CStr) (hn : name ≠ []) (k : Nat)
    (hf : find_target_idx clients name = some k) : has_name clients k name := by
  obtain ⟨x, hx, hp, -⟩ := firstIdx_some _ _ _ hf
  have hkl : k < clients.length := by
    by_contra hge
    rw [List.getElem?_eq_none_iff.mpr (by omega)] at hx
    cases hx
  have hc := client_at_of_getElem _ _ _ hx
  simp only [Bool.and_eq_true, beq_iff_eq] at hp
  refine ⟨by rw [← h.clen]; exact hkl, ?_, hn, ?_⟩
  · rw [hc]; exact hp.1
  · rw [hc]; exact hp.2

theorem username_length_le (clients : List client_t) (rooms : List room_t)
    (h : tables_ok clients rooms) (i : Nat) :
    (client_at clients i).username.length ≤ MAX_USERNAME_LEN := by
  by_cases hi : i < MAX_CLIENTS_GLOBAL
  · exact h.ulen i hi
  · have : clients[i]? = none := by
      rw [List.getElem?_eq_none_iff, h.clen]; omega
    simp [client_at, this, zero_client]

/-! ## Acceptance of a sendfile request -/

theorem handle_sendfile_command_cases (s : Server) (h : tables_ok s.clients s.rooms) (i : Nat)
    (args : CStr) (now : Int) (hi : i < MAX_CLIENTS_GLOBAL)
    (hact : (client_at s.clients i).active = true)
    (hnw : s.upload_queue.count < 15 ∨ s.server_running = false) :
    (¬ (s.server_running = true ∧ sendfile_request_valid s.clients i args) ∧
      ∃ rest, handle_sendfile_command s i args now =
        some (send s (some i) (client_at s.clients i).sockfd
          (snprintf MAX_MSG_LEN (SERVER_RESPONSE_ERROR ++ rest))).1) ∨
    (s.server_running = true ∧ sendfile_request_valid s.clients i args ∧
      ∃ j q1 reply, j ≠ i ∧ has_name s.clients j (parse_sendfile_args args).2.1 ∧
        enqueue_file_transfer s.upload_queue s.server_running (sendfile_request s i args now j) =
          some (q1, 1) ∧
        q1.count = s.upload_queue.count + 1 ∧
        handle_sendfile_command s i args now =
          some (send { s with upload_queue := q1 } (some i) (client_at s.clients i).sockfd
            reply).1 ∧
        begins_with "OK:".toList reply) := by
  unfold handle_sendfile_command
  dsimp only
  by_cases h1 : (parse_sendfile_args args).1.length = 0 ∨
      (parse_sendfile_args args).2.1.length = 0
  · rw [if_pos h1]
    refine Or.inl ⟨?_, _, rfl⟩
    rintro ⟨-, hv⟩
    rcases h1 with h1 | h1
    · exact hv.1 (List.length_eq_zero.mp h1)
    · exact hv.2.1 (List.length_eq_zero.mp h1)
  rw [if_neg h1]
  have hfn : (parse_sendfile_args args).1 ≠ [] := fun e => h1 (Or.inl (by rw [e]; rfl))
  have htn : (parse_sendfile_args args).2.1 ≠ [] := fun e => h1 (Or.inr (by rw [e]; rfl))
  by_cases h2 : (parse_sendfile_args args).2.2 = 0
  · rw [if_pos h2]
    refine Or.inl ⟨?_, _, rfl⟩
    rintro ⟨-, hv⟩
    have := hv.2.2.1
    omega
  rw [if_neg h2]
  cases hft : find_target_idx s.clients (parse_sendfile_args args).2.1 with
  | none =>
    simp only [List.append_assoc]
    refine Or.inl ⟨?_, _, rfl⟩
    rintro ⟨-, hv⟩
    obtain ⟨j, -, hj⟩ := hv.2.2.2.2.2
    exact find_target_none _ _ h _ hft j hj
  | some j =>
    have hj := find_target_some _ _ h _ htn _ hft
    simp only
    by_cases h3 : j = i
    · rw [if_pos h3]
      refine Or.inl ⟨?_, _, rfl⟩
      rintro ⟨-, hv⟩
      obtain ⟨k, hk, hkn⟩ := hv.2.2.2.2.2
      exact hk ((has_name_unique _ _ h _ _ _ hkn hj).trans h3)
    rw [if_neg h3]
    by_cases h4 : is_valid_file_type (parse_sendfile_args args).1 = 0
    · rw [if_pos h4]
      refine Or.inl ⟨?_, _, rfl⟩
      rintro ⟨-, hv⟩
      have := (is_valid_file_type_iff _).mpr hv.2.2.2.2.1
      rw [h4] at this
      cases this
    rw [if_neg h4]
    have hext : allowed_extension (parse_sendfile_args args).1 := by
      rcases is_valid_file_type_cases (parse_sendfile_args args).1 with h0 | h1
      · exact absurd h0 h4
      · exact (is_valid_file_type_iff _).mp h1
    by_cases h5 : (parse_sendfile_args args).2.2 > MAX_FILE_SIZE
    · rw [if_pos h5]
      refine Or.inl ⟨?_, _, rfl⟩
      rintro ⟨-, hv⟩
      have := hv.2.2.2.1
      simp only [MAX_FILE_SIZE] at h5
      omega
    rw [if_neg h5, if_neg h2]
    have hvalid : sendfile_request_valid s.clients i args := by
      refine ⟨hfn, htn, by omega, ?_, hext, j, h3, hj⟩
      simp only [MAX_FILE_SIZE] at h5
      omega
    rcases enqueue_no_wait s.upload_queue s.server_running (sendfile_request s i args now j)
      hnw with ⟨hrun, he⟩ | ⟨hrun, q1, he, hq1⟩
    · unfold sendfile_request at he
      rw [he]
      simp only [ne_eq, not_true_eq_false, if_false]
      refine Or.inl ⟨?_, _, rfl⟩
      rintro ⟨hr, -⟩
      rw [hrun] at hr
      cases hr
    · have he2 := he
      unfold sendfile_request at he
      rw [he]
      simp only [ne_eq, one_ne_zero, not_false_eq_true, if_true]
      obtain ⟨reply, hr, hok⟩ := notify_queue_status_reply
        { s with upload_queue := q1 } i (parse_sendfile_args args).1
        (get_file_transfer_stats q1).2.1
        (calculate_estimated_wait_time q1 (get_file_transfer_stats q1).2.1) hi hact
      exact Or.inr ⟨hrun, hvalid, j, q1, reply, h3, hj, he2, hq1, by rw [hr], hok⟩

/-- C11: in a reachable state where the call does not have to wait (the queue is not
full, or the server is stopping), `handle_sendfile_command` of an active session `i`
returns, and it adds a request to the upload queue exactly when the server is running
and the request is valid (file name and target name parsed from the arguments are not
empty, the size lies in (0, 3145728], the extension is allowed, the target name is that
of an active session other than `i`); the request added is the one built from the
arguments, entered by `enqueue_file_transfer`; in every other case the queue is left as
it was and exactly one send is made, a reply to `i` that begins "ERROR:". -/
theorem sendfile_enqueues_iff (s : Server) (hs : Reachable s) (i : Nat) (args : CStr)
    (now : Int) (hi : i < MAX_CLIENTS_GLOBAL) (hact : (client_at s.clients i).active = true)
    (hnw : s.upload_queue.count < 15 ∨ s.server_running = false) :
    ∃ t, handle_sendfile_command s i args now = some t ∧
      (t.upload_queue.count = s.upload_queue.count + 1 ↔
        (s.server_running = true ∧ sendfile_request_valid s.clients i args)) ∧
      ((s.server_running = true ∧ sendfile_request_valid s.clients i args) →
        ∃ j, j ≠ i ∧ has_name s.clients j (parse_sendfile_args args).2.1 ∧
          enqueue_file_transfer s.upload_queue s.server_running
            (sendfile_request s i args now j) = some (t.upload_queue, 1)) ∧
      (¬ (s.server_running = true ∧ sendfile_request_valid s.clients i args) →
        t.upload_queue = s.upload_queue ∧
        ∃ reply, sends_after s t [(some i, reply)] ∧ begins_with "ERROR:".toList reply) := by
  have h := reachable_tables s hs
  rcases handle_sendfile_command_cases s h i args now hi hact hnw with
    ⟨hn, rest, e⟩ | ⟨hrun, hv, j, q1, reply, hji, hj, he, hq1, e, hok⟩
  · refine ⟨_, e, ⟨fun hc => ?_, fun hc => absurd hc hn⟩, fun hc => absurd hc hn, fun _ => ?_⟩
    · rw [send_upload_queue] at hc
      omega
    · exact ⟨send_upload_queue _ _ _ _, _, sends_after_send _ _ _ _, begins_with_error _⟩
  · refine ⟨_, e, ⟨fun _ => ⟨hrun, hv⟩, fun _ => ?_⟩, fun _ => ⟨j, hji, hj, ?_⟩,
      fun hn => absurd ⟨hrun, hv⟩ hn⟩
    · rw [send_upload_queue]
      exact hq1
    · rw [send_upload_queue]
      exact he

/-- Instance of `sendfile_enqueues_iff`: "A" asks to send "report.pdf" of 2048 bytes to
"B" in `demo_two_sessions`, and the request enters the empty queue. -/
theorem sendfile_enqueues_iff_witness :
    sendfile_request_valid demo_two_sessions.clients 0 "report.pdf B 2048".toList ∧
    ((handle_sendfile_command demo_two_sessions 0 "report.pdf B 2048".toList 0).map
      (fun t => t.upload_queue.count)) = some 1 ∧
    ∃ t, handle_sendfile_command demo_two_sessions 0 "report.pdf B 2048".toList 0 = some t ∧
      (t.upload_queue.count = demo_two_sessions.upload_queue.count + 1 ↔
        (demo_two_sessions.server_running = true ∧
          sendfile_request_valid demo_two_sessions.clients 0 "report.pdf B 2048".toList)) ∧
      ((demo_two_sessions.server_running = true ∧
          sendfile_request_valid demo_two_sessions.clients 0 "report.pdf B 2048".toList) →
        ∃ j, j ≠ 0 ∧ has_name demo_two_sessions.clients j
            (parse_sendfile_args "report.pdf B 2048".toList).2.1 ∧
          enqueue_file_transfer demo_two_sessions.upload_queue demo_two_sessions.server_running
            (sendfile_request demo_two_sessions 0 "report.pdf B 2048".toList 0 j) =
              some (t.upload_queue, 1)) ∧
      (¬ (demo_two_sessions.server_running = true ∧
          sendfile_request_valid demo_two_sessions.clients 0 "report.pdf B 2048".toList) →
        t.upload_queue = demo_two_sessions.upload_queue ∧
        ∃ reply, sends_after demo_two_sessions t [(some 0, reply)] ∧
          begins_with "ERROR:".toList reply) :=
  ⟨⟨by decide, by decide, by decide, by decide,
      ⟨"report".toList, "pdf".toList, by decide, by decide, ".pdf".toList, by decide, by decide⟩,
      1, by decide, by decide, by decide, by decide, by decide⟩,
    by decide,
    sendfile_enqueues_iff demo_two_sessions demo_two_sessions_reachable 0
      "report.pdf B 2048".toList 0 (by decide) (by decide) (Or.inl (by decide))⟩

/-! ## The advisory wait estimate -/

theorem handle_sendfile_command_accepted (s : Server) (i : Nat) (args : CStr) (now : Int)
    (h : tables_ok s.clients s.rooms)
    (hrun : s.server_running = true) (hfull : s.upload_queue.count < 15)
    (hv : sendfile_request_valid s.clients i args) :
    ∃ q1, q1.count = s.upload_queue.count + 1 ∧
      q1.queue_semaphore = s.upload_queue.queue_semaphore ∧
      handle_sendfile_command s i args now =
        some (notify_queue_status { s with upload_queue := q1 } i (parse_sendfile_args args).1
          q1.count (calculate_estimated_wait_time q1 q1.count)) := by
  obtain ⟨hfn, htn, hpos, hle, hext, k, hki, hk⟩ := hv
  unfold handle_sendfile_command
  dsimp only
  have h1 : ¬ ((parse_sendfile_args args).1.length = 0 ∨
      (parse_sendfile_args args).2.1.length = 0) := by
    rintro (e | e)
    · exact hfn (List.length_eq_zero.mp e)
    · exact htn (List.length_eq_zero.mp e)
  have h2 : ¬ (parse_sendfile_args args).2.2 = 0 := by omega
  rw [if_neg h1, if_neg h2]
  cases hft : find_target_idx s.clients (parse_sendfile_args args).2.1 with
  | none => exact absurd hk (find_target_none _ _ h _ hft k)
  | some j =>
    have hj := find_target_some _ _ h _ htn _ hft
    have h3 : ¬ j = i := fun e => hki ((has_name_unique _ _ h _ _ _ hk hj).trans e)
    have h4 : ¬ is_valid_file_type (parse_sendfile_args args).1 = 0 := by
      rw [(is_valid_file_type_iff _).mpr hext]; decide
    have h5 : ¬ (parse_sendfile_args args).2.2 > MAX_FILE_SIZE := by
      simp only [MAX_FILE_SIZE]; omega
    simp only
    rw [if_neg h3, if_neg h4, if_neg h5, if_neg h2]
    have hnot : ¬ (s.upload_queue.count ≥ ((MAX_UPLOAD_QUEUE * 3 : Nat) : Int) ∧
        s.server_running = true) := by
      simp [MAX_UPLOAD_QUEUE]; omega
    unfold enqueue_file_transfer
    rw [if_neg hnot, if_neg (by rw [hrun]; decide)]
    simp only [ne_eq, one_ne_zero, not_false_eq_true, if_true]
    exact ⟨{ s.upload_queue with
        transfers := s.upload_queue.transfers.set s.upload_queue.rear.toNat
          (sendfile_request s i args now j),
        rear := Int.tmod (s.upload_queue.rear + 1) ((MAX_UPLOAD_QUEUE * 3 : Nat) : Int),
        count := s.upload_queue.count + 1 }, rfl, rfl, rfl⟩

/-- C20 as stated fails: with a free permit in the worker semaphore the estimate is 0
and not (p / 5) x 3.5, at position 3 with one free permit, and for the first request
of the demo state, whose reply announces an immediate start. -/
theorem wait_estimate_free_permit :
    calculate_estimated_wait_time
      { init_file_transfer_system with queue_semaphore := 1, count := 3 } 3 = 0 ∧
    ((0 : Int) : ℚ) / 10 ≠ ((3 : ℚ) / 5) * 3.5 ∧
    (handle_sendfile_command demo_two_sessions 0 "report.pdf B 2048".toList 0).map
        (fun t => new_sends demo_two_sessions t) =
      some [(some 0, ("OK:File 'report.pdf' queued for transfer (position 1 in queue). " ++
        "Processing will begin immediately.").toList)] := by
  refine ⟨by decide, by norm_num, by decide⟩

/-- C20, amended: a valid request accepted while the tables are consistent gets the
reply `notify_queue_status` for the position `p` (the queue count after the enqueue)
and an estimate which is 0 seconds when the worker semaphore has a free permit, and
(p / 5) x 3.5 seconds when it has none. -/
theorem wait_estimate_reported (s : Server) (h : tables_ok s.clients s.rooms) (i : Nat)
    (args : CStr) (now : Int) (hrun : s.server_running = true)
    (hfull : s.upload_queue.count < 15) (hv : sendfile_request_valid s.clients i args) :
    ∃ q1, q1.count = s.upload_queue.count + 1 ∧
      handle_sendfile_command s i args now =
        some (notify_queue_status { s with upload_queue := q1 } i (parse_sendfile_args args).1
          q1.count (calculate_estimated_wait_time q1 q1.count)) ∧
      ((calculate_estimated_wait_time q1 q1.count : Int) : ℚ) / 10 =
        if 0 < s.upload_queue.queue_semaphore then 0 else ((q1.count : ℚ) / 5) * 3.5 := by
  obtain ⟨q1, hc, hsem, e⟩ := handle_sendfile_command_accepted s i args now h hrun hfull hv
  refine ⟨q1, hc, e, ?_⟩
  unfold calculate_estimated_wait_time
  rw [hsem]
  by_cases hp : 0 < s.upload_queue.queue_semaphore
  · rw [if_pos hp, if_pos hp]; simp
  · rw [if_neg hp, if_neg hp]
    push_cast
    ring

/-- Instance of `wait_estimate_reported`: with no free permit the first request is told
to expect 0.7 seconds. -/
theorem wait_estimate_reported_witness :
    (handle_sendfile_command demo_busy 0 "report.pdf B 2048".toList 0).map
        (fun t => new_sends demo_busy t) =
      some [(some 0, ("OK:File 'report.pdf' queued for transfer (position 1 in queue). " ++
        "Estimated wait time: 0.7 seconds.").toList)] ∧
    ∃ q1, q1.count = demo_busy.upload_queue.count + 1 ∧
      handle_sendfile_command demo_busy 0 "report.pdf B 2048".toList 0 =
        some (notify_queue_status { demo_busy with upload_queue := q1 } 0
          (parse_sendfile_args "report.pdf B 2048".toList).1
          q1.count (calculate_estimated_wait_time q1 q1.count)) ∧
      ((calculate_estimated_wait_time q1 q1.count : Int) : ℚ) / 10 =
        if 0 < demo_busy.upload_queue.queue_semaphore then 0 else ((q1.count : ℚ) / 5) * 3.5 :=
  ⟨by decide,
    wait_estimate_reported demo_busy
      (reachable_tables demo_two_sessions demo_two_sessions_reachable) 0
      "report.pdf B 2048".toList 0 (by decide) (by decide)
      ⟨by decide, by decide, by decide, by decide,
        ⟨"report".toList, "pdf".toList, by decide, by decide, ".pdf".toList, by decide,
          by decide⟩,
        1, by decide, by decide, by decide, by decide, by decide⟩⟩

/-! ## Parsing the arguments of `/sendfile` -/

theorem isDigit_iff (c : Char) : c.isDigit = true ↔ 48 ≤ c.toNat ∧ c.toNat ≤ 57 := by
  unfold Char.isDigit
  simp only [Bool.and_eq_true, decide_eq_true_eq, Char.toNat, UInt32.le_def, ge_iff_le]
  exact Iff.rfl

theorem digitChar_digit (k : Nat) (hk : k < 10) :
    (Nat.digitChar k).isDigit = true ∧ (Nat.digitChar k).toNat - 48 = k := by
  interval_cases k <;> exact ⟨by decide, by decide⟩

theorem toDigitsCore_value (fuel : Nat) :
    ∀ (n : Nat) (ds : List Char), n < fuel → (∀ c ∈ ds, c.isDigit = true) →
      (∀ c ∈ Nat.toDigitsCore 10 fuel n ds, c.isDigit = true) ∧
      Nat.toDigitsCore 10 fuel n ds ≠ [] ∧
      (Nat.toDigitsCore 10 fuel n ds).foldl (fun acc c => acc * 10 + (c.toNat - 48)) 0 =
        ds.foldl (fun acc c => acc * 10 + (c.toNat - 48)) n := by
  induction fuel with
  | zero => intro n ds hn; omega
  | succ fuel ih =>
    intro n ds hn hds
    have hd := digitChar_digit (n % 10) (Nat.mod_lt _ (by decide))
    unfold Nat.toDigitsCore
    dsimp only
    by_cases h0 : n / 10 = 0
    · rw [if_pos h0]
      refine ⟨?_, by simp, ?_⟩
      · intro c hc
        rcases List.mem_cons.mp hc with e | e
        · rw [e]; exact hd.1
        · exact hds c e
      · rw [List.foldl_cons, hd.2]
        have : n % 10 = n := by omega
        rw [Nat.zero_mul, Nat.zero_add, this]
    · rw [if_neg h0]
      have hlt : n / 10 < fuel := by omega
      obtain ⟨h1, h2, h3⟩ := ih (n / 10) (Nat.digitChar (n % 10) :: ds) hlt (by
        intro c hc
        rcases List.mem_cons.mp hc with e | e
        · rw [e]; exact hd.1
        · exact hds c e)
      refine ⟨h1, h2, ?_⟩
      rw [h3, List.foldl_cons, hd.2]
      have : n / 10 * 10 + n % 10 = n := by omega
      rw [this]

theorem repr_digits (n : Nat) :
    (∀ c ∈ (Nat.repr n).toList, c.isDigit = true) ∧ (Nat.repr n).toList ≠ [] ∧
    (Nat.repr n).toList.foldl (fun acc c => acc * 10 + (c.toNat - 48)) 0 = n := by
  have h := toDigitsCore_value (n + 1) n [] (by omega) (by simp)
  exact h

theorem strtoul_repr (n : Nat) (hn : n < 2 ^ 64) : strtoul (Nat.repr n).toList = n := by
  obtain ⟨hall, hne, hv⟩ := repr_digits n
  cases hl : (Nat.repr n).toList with
  | nil => exact absurd hl hne
  | cons c rest =>
    rw [hl] at hall hv
    have hc := (isDigit_iff c).mp (hall c (List.mem_cons_self _ _))
    have hsp : isspace c = false := by
      unfold isspace
      have h32 : (c == Char.ofNat 32) = false := by
        rw [beq_eq_false_iff_ne]
        intro e; rw [e] at hc; revert hc; decide
      rw [h32]
      simp only [Bool.false_or, Bool.and_eq_false_iff, decide_eq_false_iff_not]
      right; omega
    have hminus : ¬ (some c = some (Char.ofNat 45)) := by
      intro e; cases e; revert hc; decide
    have hplus : ¬ (some c = some (Char.ofNat 43)) := by
      intro e; cases e; revert hc; decide
    have htake : (c :: rest).takeWhile Char.isDigit = c :: rest := by
      rw [List.takeWhile_eq_self_iff]
      exact hall
    unfold strtoul
    simp only [List.dropWhile_cons, hsp, Bool.false_eq_true, if_false, List.head?_cons, hminus,
      hplus, or_self, htake, hv]
    rw [if_neg (by omega)]
    simp

theorem dropWhile_blank_replicate (a : Nat) (l : CStr) :
    (List.replicate a ' ' ++ l).dropWhile (fun c => c == Char.ofNat 32) =
      l.dropWhile (fun c => c == Char.ofNat 32) := by
  induction a with
  | zero => rfl
  | succ a ih =>
    rw [List.replicate_succ, List.cons_append, List.dropWhile_cons]
    have : ((' ' : Char) == Char.ofNat 32) = true := by decide
    rw [this]
    exact ih

theorem dropWhile_blank_of_head (l : CStr) (h : ∀ c, l.head? = some c → c ≠ ' ') :
    l.dropWhile (fun c => c == Char.ofNat 32) = l := by
  cases l with
  | nil => rfl
  | cons c rest =>
    rw [List.dropWhile_cons]
    have : (c == Char.ofNat 32) = false := by
      rw [beq_eq_false_iff_ne]
      exact h c rfl
    rw [this]
    rfl

theorem word_then_blank (w rest : CStr) (hw : ' ' ∉ w) :
    (w ++ ' ' :: rest).dropWhile (fun c => c != Char.ofNat 32) = ' ' :: rest ∧
    (w ++ ' ' :: rest).takeWhile (fun c => c != Char.ofNat 32) = w := by
  induction w with
  | nil => exact ⟨by rfl, by rfl⟩
  | cons c cs ih =>
    have hc : (c != Char.ofNat 32) = true := by
      rw [bne_iff_ne]
      intro e
      exact hw (by rw [e]; exact List.mem_cons_self _ _)
    have hcs : ' ' ∉ cs := fun hm => hw (List.mem_cons_of_mem _ hm)
    rw [List.cons_append, List.dropWhile_cons, List.takeWhile_cons, hc]
    simp only [if_true]
    exact ⟨(ih hcs).1, by rw [(ih hcs).2]⟩

theorem word_alone (w : CStr) (hw : ' ' ∉ w) :
    w.dropWhile (fun c => c != Char.ofNat 32) = [] := by
  induction w with
  | nil => rfl
  | cons c cs ih =>
    have hc : (c != Char.ofNat 32) = true := by
      rw [bne_iff_ne]
      intro e
      exact hw (by rw [e]; exact List.mem_cons_self _ _)
    rw [List.dropWhile_cons, hc]
    exact ih (fun hm => hw (List.mem_cons_of_mem _ hm))

theorem head_not_blank (w rest : CStr) (hw : ' ' ∉ w) (hne : w ≠ []) :
    ∀ c, (w ++ rest).head? = some c → c ≠ ' ' := by
  intro c hc e
  cases w with
  | nil => exact hne rfl
  | cons x xs =>
    simp only [List.cons_append, List.head?_cons, Option.some.injEq] at hc
    exact hw (by rw [← e, ← hc]; exact List.mem_cons_self _ _)

theorem parse_sendfile_args_three (f u d : CStr) (a b c : Nat)
    (hf1 : f ≠ []) (hf2 : f.length ≤ 255) (hfs : ' ' ∉ f)
    (hu1 : u ≠ []) (hu2 : u.length ≤ 16) (hus : ' ' ∉ u)
    (hd : ∀ x, d.head? = some x → x ≠ ' ') :
    parse_sendfile_args
        (List.replicate a ' ' ++ (f ++ (List.replicate (b + 1) ' ' ++
          (u ++ (List.replicate (c + 1) ' ' ++ d))))) = (f, u, strtoul d) := by
  unfold parse_sendfile_args
  simp only [dropWhile_blank_replicate]
  rw [dropWhile_blank_of_head _ (head_not_blank f _ hfs hf1)]
  rw [List.replicate_succ, List.cons_append]
  obtain ⟨h1, h2⟩ := word_then_blank f
    (List.replicate b ' ' ++ (u ++ (List.replicate (c + 1) ' ' ++ d))) hfs
  rw [h1]
  simp only [h2, dropWhile_blank_replicate]
  rw [dropWhile_blank_of_head _ (head_not_blank u _ hus hu1)]
  rw [List.replicate_succ, List.cons_append]
  obtain ⟨h3, h4⟩ := word_then_blank u (List.replicate c ' ' ++ d) hus
  rw [h3]
  simp only [h4, dropWhile_blank_replicate]
  rw [dropWhile_blank_of_head _ hd]
  have e1 : min f.length (MAX_FILENAME_LEN - 1) = f.length := by
    simp only [MAX_FILENAME_LEN]; omega
  have e2 : min u.length MAX_USERNAME_LEN = u.length := by
    simp only [MAX_USERNAME_LEN]; omega
  rw [e1, e2, List.take_left, List.take_left]

theorem parse_sendfile_args_two (f u : CStr) (a b : Nat)
    (hf1 : f ≠ []) (hf2 : f.length ≤ 255) (hfs : ' ' ∉ f)
    (hu1 : u ≠ []) (hu2 : u.length ≤ 16) (hus : ' ' ∉ u) :
    parse_sendfile_args (List.replicate a ' ' ++ (f ++ (List.replicate (b + 1) ' ' ++ u))) =
      (f, u, 0) := by
  unfold parse_sendfile_args
  simp only [dropWhile_blank_replicate]
  rw [dropWhile_blank_of_head _ (head_not_blank f _ hfs hf1)]
  rw [List.replicate_succ, List.cons_append]
  obtain ⟨h1, h2⟩ := word_then_blank f (List.replicate b ' ' ++ u) hfs
  rw [h1]
  simp only [h2, dropWhile_blank_replicate]
  have hu' := head_not_blank u [] hus hu1
  rw [List.append_nil] at hu'
  rw [dropWhile_blank_of_head _ hu', word_alone u hus]
  simp only
  have e1 : min f.length (MAX_FILENAME_LEN - 1) = f.length := by
    simp only [MAX_FILENAME_LEN]; omega
  have e3 : u.take MAX_USERNAME_LEN = u := by
    apply List.take_of_length_le
    simp only [MAX_USERNAME_LEN]; omega
  rw [e1, e3, List.take_left]
  have hlast : ∀ x, u.reverse.head? = some x → x ≠ ' ' := by
    intro x hx e
    apply hus
    rw [← e]
    have : x ∈ u.reverse := List.mem_of_mem_head? hx
    exact List.mem_reverse.mp this
  rw [dropWhile_blank_of_head _ hlast, List.reverse_reverse]

/-- C18: for a file name `f` of 1 to 255 characters and a user name `u` of 1 to 16
characters, both without blanks, and a size `n < 2^64`, `parse_sendfile_args` applied
to `f`, `u` and the decimal digits of `n`, preceded by `a` blanks and separated by
`b + 1` and `c + 1` blanks, yields `(f, u, n)`, and without the size field it yields
`(f, u, 0)`; "report.pdf B 2048" yields ("report.pdf", "B", 2048), and when that
request of "A" is accepted, taken by a worker and completed, the notification sent to
"B" is "FILE_NOTIFY:You received file 'report.pdf' from 'A' (size: 2048 bytes)", which
contains "size: 2048". -/
theorem parse_sendfile_args_round_trip (f u : CStr) (n a b c : Nat)
    (hf1 : 1 ≤ f.length) (hf2 : f.length ≤ 255) (hfs : ' ' ∉ f)
    (hu1 : 1 ≤ u.length) (hu2 : u.length ≤ 16) (hus : ' ' ∉ u) (hn : n < 2 ^ 64) :
    parse_sendfile_args
        (List.replicate a ' ' ++ (f ++ (List.replicate (b + 1) ' ' ++
          (u ++ (List.replicate (c + 1) ' ' ++ (Nat.repr n).toList))))) = (f, u, n) ∧
    parse_sendfile_args (List.replicate a ' ' ++ (f ++ (List.replicate (b + 1) ' ' ++ u))) =
      (f, u, 0) ∧
    parse_sendfile_args "report.pdf B 2048".toList = ("report.pdf".toList, "B".toList, 2048) ∧
    (handle_sendfile_command demo_two_sessions 0 "report.pdf B 2048".toList 0).bind
        (fun t => (file_processor_dequeue t.upload_queue t.server_running).bind
          (fun r => r.2.map (fun tr => new_sends t (notify_transfer_completion t
            { tr with status := transfer_status_t.TRANSFER_COMPLETED })))) =
      some [(some 0,
          "OK:File 'report.pdf' sent successfully to 'B' (processed in 0.0 seconds).".toList),
        (some 1,
          "FILE_NOTIFY:You received file 'report.pdf' from 'A' (size: 2048 bytes)".toList)] ∧
    "size: 2048".toList <:+:
      "FILE_NOTIFY:You received file 'report.pdf' from 'A' (size: 2048 bytes)".toList := by
  have hfne : f ≠ [] := fun e => by rw [e] at hf1; simp at hf1
  have hune : u ≠ [] := fun e => by rw [e] at hu1; simp at hu1
  obtain ⟨hall, hne, -⟩ := repr_digits n
  have hd : ∀ x, (Nat.repr n).toList.head? = some x → x ≠ ' ' := by
    intro x hx e
    have := (isDigit_iff x).mp (hall x (List.mem_of_mem_head? hx))
    rw [e] at this
    revert this
    decide
  refine ⟨?_, parse_sendfile_args_two f u a b hfne hf2 hfs hune hu2 hus, by decide, by decide,
    ⟨"FILE_NOTIFY:You received file 'report.pdf' from 'A' (".toList, " bytes)".toList,
      by decide⟩⟩
  rw [parse_sendfile_args_three f u _ a b c hfne hf2 hfs hune hu2 hus hd, strtoul_repr n hn]

/-- Instance of `parse_sendfile_args_round_trip`: the line "report.pdf B 2048" with single
blanks, and the same line without the size. -/
theorem parse_sendfile_args_round_trip_witness :
    parse_sendfile_args
        (List.replicate 0 ' ' ++ ("report.pdf".toList ++ (List.replicate (0 + 1) ' ' ++
          ("B".toList ++ (List.replicate (0 + 1) ' ' ++ (Nat.repr 2048).toList))))) =
      ("report.pdf".toList, "B".toList, 2048) ∧
    parse_sendfile_args
        (List.replicate 0 ' ' ++ ("report.pdf".toList ++ (List.replicate (0 + 1) ' ' ++
          "B".toList))) = ("report.pdf".toList, "B".toList, 0) :=
  ⟨(parse_sendfile_args_round_trip "report.pdf".toList "B".toList 2048 0 0 0 (by decide)
      (by decide) (by decide) (by decide) (by decide) (by decide) (by decide)).1,
    (parse_sendfile_args_round_trip "report.pdf".toList "B".toList 2048 0 0 0 (by decide)
      (by decide) (by decide) (by decide) (by decide) (by decide) (by decide)).2.1⟩

/-! ## Unique artifact paths -/

theorem fmt_d_length (k : Nat) (hk : k ≤ 999) : (fmt_d (k : Int)).length ≤ 3 := by
  have e : fmt_d (k : Int) = (Nat.repr k).toList := rfl
  rw [e]
  exact Nat.repr_length k 3 (by decide) (by omega)

theorem unique_candidate_eq (receiver stem ext : CStr) (k : Nat) (hk : k ≤ 999)
    (hlen : stem.length + ext.length ≤ 2000) :
    unique_candidate receiver stem ext k = stem ++ "_".toList ++ fmt_d k ++ ext := by
  have hd := fmt_d_length k hk
  have h1 : "_".toList.length = 1 := rfl
  unfold unique_candidate
  by_cases he : ext.length > 0
  · rw [if_pos he]
    dsimp only
    rw [if_pos (by simp only [List.length_append, h1]; omega)]
    apply snprintf_of_length_le
    simp only [List.length_append, h1]
    omega
  · rw [if_neg he]
    have : ext = [] := List.length_eq_zero.mp (by omega)
    rw [this, List.append_nil]
    apply snprintf_of_length_le
    simp only [List.length_append, h1]
    omega

theorem unique_loop_first_free (stat_ok : CStr → Bool) (receiver stem ext : CStr) (k : Nat)
    (hk : k ≤ 999) (hfree : stat_ok (unique_candidate receiver stem ext k) = false) :
    ∀ (rounds counter : Nat), counter ≤ k → k - counter < rounds →
      (∀ j, counter ≤ j → j < k → stat_ok (unique_candidate receiver stem ext j) = true) →
      unique_loop stat_ok receiver stem ext rounds counter =
        unique_candidate receiver stem ext k := by
  intro rounds
  induction rounds with
  | zero => intro counter _ h; omega
  | succ rounds ih =>
    intro counter hck hr hbusy
    unfold unique_loop
    dsimp only
    by_cases hc : counter = k
    · rw [hc, if_neg (by rw [hfree]; simp)]
    · have hlt : counter < k := by omega
      rw [if_pos ⟨hbusy counter (le_refl _) hlt, by omega⟩]
      exact ih (counter + 1) (by omega) (by omega)
        (fun j hj hjk => hbusy j (by omega) hjk)

theorem suffix_length_le (pre filename stem rest : CStr) (hpre : '.' ∉ pre)
    (h : pre ++ filename = stem ++ '.' :: rest) : ('.' :: rest).length ≤ filename.length := by
  rcases List.append_eq_append_iff.mp h with ⟨a, e1, e2⟩ | ⟨c, e1, e2⟩
  · rw [e2]; simp
  · cases c with
    | nil =>
      simp only [List.nil_append] at e2
      rw [e2]
    | cons x xs =>
      simp only [List.cons_append, List.cons.injEq] at e2
      exact absurd (by rw [e1, ← e2.1]; simp) hpre

theorem generate_unique_filepath_split (stat_ok : CStr → Bool)
    (receiver filename stem ext : CStr)
    (hr : receiver.length ≤ 16) (hrd : '.' ∉ receiver) (hf : filename.length ≤ 255)
    (hsplit : "uploads/".toList ++ receiver ++ "_".toList ++ filename = stem ++ ext)
    (hext : (ext = [] ∧ '.' ∉ stem) ∨ ∃ rest, ext = '.' :: rest ∧ '.' ∉ rest) :
    stem.length + ext.length ≤ 280 ∧
    generate_unique_filepath stat_ok receiver filename =
      if stat_ok (stem ++ ext) = true then unique_loop stat_ok receiver stem ext 999 1
      else stem ++ ext := by
  have hlen : stem.length + ext.length ≤ 280 := by
    have := congrArg List.length hsplit
    simp only [List.length_append] at this
    have e1 : "uploads/".toList.length = 8 := rfl
    have e2 : "_".toList.length = 1 := rfl
    rw [e1, e2] at this
    omega
  have hp : snprintf 2048
      (UPLOADS_DIR ++ "/".toList ++ receiver ++ "_".toList ++ filename) = stem ++ ext := by
    have e : UPLOADS_DIR ++ "/".toList = "uploads/".toList := rfl
    rw [e, hsplit]
    apply snprintf_of_length_le
    rw [List.length_append]
    omega
  refine ⟨hlen, ?_⟩
  unfold generate_unique_filepath
  simp only [hp]
  by_cases hs : stat_ok (stem ++ ext) = true
  · rw [if_pos hs, if_pos hs]
    have h46 : Char.ofNat 46 = '.' := rfl
    rw [h46]
    rcases hext with ⟨he, hnd⟩ | ⟨rest, he, hnd⟩
    · subst he
      simp only [List.append_nil, List.length_nil] at hlen ⊢
      rw [(strrchr_none_iff stem '.').mpr hnd]
      simp only
      rw [List.take_of_length_le (by omega)]
    · have hsome := (strrchr_some_iff (stem ++ ext) '.' ext).mpr ⟨stem, rest, by rw [he], hnd, he⟩
      rw [hsome]
      simp only
      have hpre : '.' ∉ "uploads/".toList ++ receiver ++ "_".toList := by
        simp only [List.mem_append, not_or]
        exact ⟨⟨by decide, hrd⟩, by decide⟩
      have hel : ext.length ≤ 255 := by
        have := suffix_length_le _ filename stem rest hpre (by rw [hsplit, he])
        rw [he]
        omega
      rw [List.take_of_length_le hel]
      have hbl : min ((stem ++ ext).length - ext.length) 1791 = stem.length := by
        rw [List.length_append]
        omega
      rw [hbl, List.take_left]
  · rw [if_neg hs, if_neg hs]

/-- C19: for a receiver name of at most 16 characters without '.' and a file name of at
most 255 characters, write the path "uploads/<receiver>_<filename>" as `stem ++ ext`,
where `ext` starts at its last '.' (and is empty when there is none).  When no file
exists at that path, `generate_unique_filepath` returns it; otherwise, for the smallest
`k` in 1..999 such that `stem ++ "_<k>" ++ ext` does not exist, it returns that path,
which does not name an existing file. -/
theorem generate_unique_filepath_spec (stat_ok : CStr → Bool)
    (receiver filename stem ext : CStr)
    (hr : receiver.length ≤ 16) (hrd : '.' ∉ receiver) (hf : filename.length ≤ 255)
    (hsplit : "uploads/".toList ++ receiver ++ "_".toList ++ filename = stem ++ ext)
    (hext : (ext = [] ∧ '.' ∉ stem) ∨ ∃ rest, ext = '.' :: rest ∧ '.' ∉ rest) :
    (stat_ok ("uploads/".toList ++ receiver ++ "_".toList ++ filename) = false →
      generate_unique_filepath stat_ok receiver filename =
        "uploads/".toList ++ receiver ++ "_".toList ++ filename) ∧
    (stat_ok ("uploads/".toList ++ receiver ++ "_".toList ++ filename) = true →
      ∀ k, 1 ≤ k → k ≤ 999 →
        stat_ok (stem ++ "_".toList ++ (Nat.repr k).toList ++ ext) = false →
        (∀ j, 1 ≤ j → j < k →
          stat_ok (stem ++ "_".toList ++ (Nat.repr j).toList ++ ext) = true) →
        generate_unique_filepath stat_ok receiver filename =
          stem ++ "_".toList ++ (Nat.repr k).toList ++ ext ∧
        stat_ok (generate_unique_filepath stat_ok receiver filename) = false) := by
  obtain ⟨hlen, e⟩ := generate_unique_filepath_split stat_ok receiver filename stem ext hr hrd hf
    hsplit hext
  have hfmt : ∀ k : Nat, fmt_d (k : Int) = (Nat.repr k).toList := fun _ => rfl
  rw [e, hsplit]
  constructor
  · intro hs
    rw [if_neg (by rw [hs]; simp)]
  · intro hs k hk1 hk2 hfree hbusy
    rw [if_pos hs]
    have hcand : ∀ j, j ≤ 999 → unique_candidate receiver stem ext j =
        stem ++ "_".toList ++ (Nat.repr j).toList ++ ext := by
      intro j hj
      rw [unique_candidate_eq receiver stem ext j hj (by omega), hfmt]
    have hloop := unique_loop_first_free stat_ok receiver stem ext k hk2
      (by rw [hcand k hk2]; exact hfree) 999 1 hk1 (by omega)
      (fun j hj hjk => by rw [hcand j (by omega)]; exact hbusy j hj hjk)
    rw [hloop, hcand k hk2]
    exact ⟨rfl, hfree⟩

/-- Instance of `generate_unique_filepath_spec`: "uploads/B_report.pdf" and
"uploads/B_report_1.pdf" exist, so the artifact goes to "uploads/B_report_2.pdf". -/
theorem generate_unique_filepath_spec_witness :
    generate_unique_filepath
        (fun p => p = "uploads/B_report.pdf".toList ∨ p = "uploads/B_report_1.pdf".toList)
        "B".toList "report.pdf".toList = "uploads/B_report_2.pdf".toList ∧
    generate_unique_filepath (fun _ => false) "B".toList "report.pdf".toList =
      "uploads/B_report.pdf".toList :=
  ⟨((generate_unique_filepath_spec
      (fun p => p = "uploads/B_report.pdf".toList ∨ p = "uploads/B_report_1.pdf".toList)
      "B".toList "report.pdf".toList "uploads/B_report".toList ".pdf".toList
      (by decide) (by decide) (by decide) (by decide)
      (Or.inr ⟨"pdf".toList, by decide, by decide⟩)).2 (by decide) 2 (by decide) (by decide)
      (by decide) (fun j h1 h2 => by
        have : j = 1 := by omega
        subst this
        decide)).1,
    (generate_unique_filepath_spec (fun _ => false)
      "B".toList "report.pdf".toList "uploads/B_report".toList ".pdf".toList
      (by decide) (by decide) (by decide) (by decide)
      (Or.inr ⟨"pdf".toList, by decide, by decide⟩)).1 (by decide)⟩

/-! ## The reply of a broadcast -/

/-- The notification loop in terms of the send log: the entries it appends go to the
selected entries whose session is active, in order, and the result counts those that
the network accepted. -/
theorem fan_out_count (sel : Int → Bool) (text : CStr) (htext : 0 < text.length)
    (ms : List Int) (s : Server) :
    ∃ l : List Sent, (fan_out sel text s ms).1.sent = s.sent ++ l ∧
      (fan_out sel text s ms).2 = ((l.filter (fun m => m.ok)).length : Int) ∧
      l.map (fun m => m.to_idx) =
        (ms.filter (fun m => sel m && (client_at s.clients m.toNat).active &&
          decide ((client_at s.clients m.toNat).sockfd ≠ -1))).map (fun m => some m.toNat) ∧
      ∀ m ∈ l, m.text = text := by
  induction ms generalizing s with
  | nil => exact ⟨[], by simp [fan_out], by simp [fan_out], by simp, by simp⟩
  | cons m ms ih =>
    unfold fan_out
    by_cases hsel : sel m = true
    · rw [if_pos hsel]
      dsimp only
      by_cases hact : (client_at s.clients m.toNat).active = true
      · rw [if_pos hact]
        by_cases hfd : (client_at s.clients m.toNat).sockfd ≠ -1
        · rw [if_pos hfd]
          obtain ⟨l, h1, h2, h3, h4⟩ :=
            ih (send s (some m.toNat) (client_at s.clients m.toNat).sockfd text).1
          simp only [send_clients] at h3
          refine ⟨{ to_idx := some m.toNat, sockfd := (client_at s.clients m.toNat).sockfd,
                    text := text, ok := s.net.headD true } :: l, ?_, ?_, ?_, ?_⟩
          · rw [h1, send_sent, List.append_assoc]; rfl
          · rw [send_result, h2]
            cases hb : s.net.headD true with
            | true =>
              have hp : (if true = true then (text.length : Int) else -1) > 0 := by
                simp only [if_true]; exact_mod_cast htext
              rw [if_pos hp]
              rw [List.filter_cons_of_pos (by simp [hb])]
              simp
            | false =>
              have hn : ¬ ((if false = true then (text.length : Int) else -1) > 0) := by simp
              rw [if_neg hn]
              rw [List.filter_cons_of_neg (by simp [hb])]
          · rw [List.filter_cons_of_pos (by simp [hsel, hact, hfd])]
            simp only [List.map_cons, h3]
          · intro x hx
            rcases List.mem_cons.mp hx with e | e
            · rw [e]
            · exact h4 x e
        · rw [if_neg hfd]
          rw [List.filter_cons_of_neg (by simp [hsel, hact]; simpa using hfd)]
          exact ih s
      · rw [if_neg hact]
        simp only [ne_eq, not_true_eq_false, if_false]
        rw [List.filter_cons_of_neg (by simp [hsel, hact])]
        exact ih s
    · rw [if_neg hsel]
      rw [List.filter_cons_of_neg (by simp [hsel])]
      exact ih s

/-- C25: in a reachable state, whatever outcomes `net` the sends get: a broadcast from a
session in no room, or of an empty text, makes exactly one send, a reply to the caller
that begins "ERROR:"; a broadcast of a non-empty text from a member of room `ra` sends
once to each other member, in member order, and then replies to the caller: with `c`
the number of those sends that succeeded, the reply is "OK:Message sent in '<room>' (you
are the only one here)." when the room has at most one member and `c = 0`, and
"OK:Message broadcast to <c> other user(s) in '<room>'." otherwise. -/
theorem broadcast_reply_count (s : Server) (hs : Reachable s) (net : List Bool) (i : Nat)
    (message : CStr) (hi : i < MAX_CLIENTS_GLOBAL) :
    (((client_at s.clients i).current_room_name = [] ∨ message = []) →
      ∃ reply : Sent,
        (handle_broadcast_message { s with net := net } i message).sent = s.sent ++ [reply] ∧
        reply.to_idx = some i ∧ begins_with "ERROR:".toList reply.text) ∧
    ((client_at s.clients i).current_room_name ≠ [] → message ≠ [] →
      ∃ (ra : room_t) (deliveries : List Sent) (reply : Sent),
        ra ∈ s.rooms ∧ ra.active = true ∧
        ra.name = (client_at s.clients i).current_room_name ∧
        (i : Int) ∈ ra.member_client_indices ∧
        (handle_broadcast_message { s with net := net } i message).sent =
          s.sent ++ deliveries ++ [reply] ∧
        deliveries.map (fun d => d.to_idx) =
          (ra.member_client_indices.filter (fun m => m != -1 && m != (i : Int))).map
            (fun m => some m.toNat) ∧
        reply.to_idx = some i ∧
        reply.text =
          if ra.num_users ≤ 1 ∧ (deliveries.filter (fun d => d.ok)).length = 0 then
            "OK:Message sent in '".toList ++ ra.name ++ "' (you are the only one here).".toList
          else
            "OK:Message broadcast to ".toList ++
              (Nat.repr (deliveries.filter (fun d => d.ok)).length).toList ++
              " other user(s) in '".toList ++ ra.name ++ "'.".toList) := by
  have ht := reachable_tables s hs
  constructor
  · intro hc
    unfold handle_broadcast_message
    dsimp only
    by_cases hroom : (client_at s.clients i).current_room_name = []
    · rw [if_pos hroom]
      exact ⟨_, send_sent _ _ _ _, rfl, begins_with_error _⟩
    · rw [if_neg hroom]
      have hm : message = [] := hc.resolve_left hroom
      rw [if_pos (by rw [hm]; rfl)]
      exact ⟨_, send_sent _ _ _ _, rfl, begins_with_error _⟩
  · intro hroom hmsg
    obtain ⟨a, j, ra, hfind, hra, hact, hname, _, hjm⟩ :=
      find_room_of_in_room _ _ ht i hi hroom
    have hraok := ht.room a ra hra
    have hml : message.length ≠ 0 := fun e => hmsg (List.length_eq_zero.mp e)
    have hnl := (room_name_valid_length _ (hraok.name_valid hact)).2
    have hfilter : ra.member_client_indices.filter (fun m => (m != -1 && m != (i : Int)) &&
          (client_at s.clients m.toNat).active &&
          decide ((client_at s.clients m.toNat).sockfd ≠ -1)) =
        ra.member_client_indices.filter (fun m => m != -1 && m != (i : Int)) := by
      apply List.filter_congr
      intro m hm
      by_cases hsel : (m != -1 && m != (i : Int)) = true
      · have hne : m ≠ -1 := by
          simp at hsel; exact hsel.1
        have hma := (ht.member a ra hra m hm hne).2
        have hr := hraok.range m hm hne
        have hs := ht.sock m.toNat (by omega) hma
        have hfd : (client_at s.clients m.toNat).sockfd ≠ -1 := by omega
        simp [hsel, hma, hfd]
      · simp [hsel]
    have hpos : 0 < (snprintf (MAX_MSG_LEN + MAX_USERNAME_LEN + MAX_ROOM_NAME_LEN + 50)
        ("[".toList ++ ra.name ++ "] ".toList ++ (client_at s.clients i).username ++
          ": ".toList ++ message)).length := by
      unfold snprintf
      simp only [List.length_take, List.length_append, MAX_MSG_LEN, MAX_USERNAME_LEN,
        MAX_ROOM_NAME_LEN]
      have e1 : "[".toList.length = 1 := rfl
      rw [e1]
      omega
    obtain ⟨l, h1, h2, h3, -⟩ := fan_out_count (fun m => m != -1 && m != (i : Int)) _ hpos
      ra.member_client_indices { s with net := net }
    dsimp only at h1 h3
    rw [hfilter] at h3
    have hcl : (l.filter (fun d => d.ok)).length ≤ 15 := by
      have e1 : l.length = (l.map (fun m => m.to_idx)).length := by simp
      have e2 := hraok.mlen
      have e3 := List.length_filter_le (fun m => m != -1 && m != (i : Int))
        ra.member_client_indices
      have e4 := List.length_filter_le (fun d : Sent => d.ok) l
      rw [h3, List.length_map] at e1
      simp only [MAX_ROOM_USERS] at e2
      omega
    refine ⟨ra, l,
      { to_idx := some i, sockfd := (client_at s.clients i).sockfd,
        text := broadcast_response_msg ra.name ra.num_users
          ((l.filter (fun d => d.ok)).length : Int),
        ok := (fan_out (fun m => m != -1 && m != (i : Int))
          (snprintf (MAX_MSG_LEN + MAX_USERNAME_LEN + MAX_ROOM_NAME_LEN + 50)
            ("[".toList ++ ra.name ++ "] ".toList ++ (client_at s.clients i).username ++
              ": ".toList ++ message)) { s with net := net }
          ra.member_client_indices).1.net.headD true },
      mem_of_getElem _ _ _ hra, hact, hname, mem_of_getElem _ _ _ hjm, ?_, h3, rfl, ?_⟩
    · unfold handle_broadcast_message
      simp only [hroom, if_false, hml, hfind, room_at_of_getElem _ _ _ hra,
        fan_out_rooms, fan_out_clients]
      rw [send_sent, h1, h2]
    · have hd := fmt_d_length (l.filter (fun d => d.ok)).length (by omega)
      have hfmt : fmt_d (((l.filter (fun d => d.ok)).length : Nat) : Int) =
          (Nat.repr (l.filter (fun d => d.ok)).length).toList := rfl
      unfold broadcast_response_msg
      dsimp only
      by_cases hv : ra.num_users ≤ 1 ∧ (l.filter (fun d => d.ok)).length = 0
      · rw [if_pos ⟨hv.1, by exact_mod_cast hv.2⟩, if_pos hv]
        apply snprintf_of_length_le
        simp only [List.length_append, MAX_MSG_LEN, MAX_ROOM_NAME_LEN] at hnl ⊢
        have e1 : SERVER_RESPONSE_OK.length = 3 := rfl
        have e2 : "Message sent in '".toList.length = 17 := rfl
        have e3 : "' (you are the only one here).".toList.length = 30 := rfl
        rw [e1, e2, e3]
        omega
      · rw [if_neg (fun hc => hv ⟨hc.1, by exact_mod_cast hc.2⟩), if_neg hv, hfmt]
        have e0 : SERVER_RESPONSE_OK ++ "Message broadcast to ".toList =
          "OK:Message broadcast to ".toList := rfl
        rw [← e0]
        apply snprintf_of_length_le
        rw [hfmt] at hd
        simp only [List.length_append, MAX_MSG_LEN, MAX_ROOM_NAME_LEN] at hnl ⊢
        have e1 : SERVER_RESPONSE_OK.length = 3 := rfl
        have e2 : "Message broadcast to ".toList.length = 21 := rfl
        have e3 : " other user(s) in '".toList.length = 19 := rfl
        have e4 : "'.".toList.length = 2 := rfl
        rw [e1, e2, e3, e4]
        omega

/-- Instance of `broadcast_reply_count`: "A" broadcasts "hi" in `demo_lobby_two` while the
network refuses the send to "B" (count 0 in a room of two), and alone in `demo_lobby`. -/
theorem broadcast_reply_count_witness :
    new_sends { demo_lobby_two with net := [false] }
        (handle_broadcast_message { demo_lobby_two with net := [false] } 0 "hi".toList) =
      [(some 1, "[lobby] A: hi".toList),
       (some 0, "OK:Message broadcast to 0 other user(s) in 'lobby'.".toList)] ∧
    new_sends demo_lobby (handle_broadcast_message demo_lobby 0 "hi".toList) =
      [(some 0, "OK:Message sent in 'lobby' (you are the only one here).".toList)] ∧
    ∃ (ra : room_t) (deliveries : List Sent) (reply : Sent),
      ra ∈ demo_lobby_two.rooms ∧ ra.active = true ∧
      ra.name = (client_at demo_lobby_two.clients 0).current_room_name ∧
      ((0 : Nat) : Int) ∈ ra.member_client_indices ∧
      (handle_broadcast_message { demo_lobby_two with net := [false] } 0 "hi".toList).sent =
        demo_lobby_two.sent ++ deliveries ++ [reply] ∧
      deliveries.map (fun d => d.to_idx) =
        (ra.member_client_indices.filter (fun m => m != -1 && m != ((0 : Nat) : Int))).map
          (fun m => some m.toNat) ∧
      reply.to_idx = some 0 ∧
      reply.text =
        if ra.num_users ≤ 1 ∧ (deliveries.filter (fun d => d.ok)).length = 0 then
          "OK:Message sent in '".toList ++ ra.name ++ "' (you are the only one here).".toList
        else
          "OK:Message broadcast to ".toList ++
            (Nat.repr (deliveries.filter (fun d => d.ok)).length).toList ++
            " other user(s) in '".toList ++ ra.name ++ "'.".toList :=
  ⟨by decide, by decide,
    (broadcast_reply_count demo_lobby_two demo_lobby_two_reachable [false] 0 "hi".toList
      (by decide)).2 (by decide) (by decide)⟩

/-! ## A refused move between rooms -/

set_option maxRecDepth 100000

/-- C26 fails: the request "a/b.txt B 10" of "A" passes every check of
`handle_sendfile_command` and enters the queue, and for the request a worker takes out
`generate_unique_filepath` yields "uploads/B_a/b.txt", which has a '/' after the prefix
"uploads/": no check looks at the characters of the file name before its last '.'. -/
theorem artifact_path_with_slash :
    sendfile_request_valid demo_two_sessions.clients 0 "a/b.txt B 10".toList ∧
    (handle_sendfile_command demo_two_sessions 0 "a/b.txt B 10".toList 0).bind
        (fun t => (file_processor_dequeue t.upload_queue t.server_running).bind
          (fun r => r.2.map (fun tr =>
            generate_unique_filepath (fun _ => false) tr.receiver_username tr.filename))) =
      some "uploads/B_a/b.txt".toList ∧
    '/' ∈ "uploads/B_a/b.txt".toList.drop "uploads/".toList.length ∧
    validate_file_metadata "../../etc/x.txt".toList 10 = 1 ∧
    generate_unique_filepath (fun _ => false) "B".toList "../../etc/x.txt".toList =
      "uploads/B_../../etc/x.txt".toList := by
  refine ⟨⟨by decide, by decide, by decide, by decide,
      ⟨"a/b".toList, "txt".toList, by decide, by decide, ".txt".toList, by decide, by decide⟩,
      1, by decide, by decide, by decide, by decide, by decide⟩,
    by decide, by decide, by decide, by decide⟩

/-! ## First-in-first-out refinement -/

theorem ring_holds_init : ring_holds init_file_transfer_system [] := by
  refine ⟨by decide, by decide, by decide, by decide, by decide, by decide, ?_⟩
  intro k hk
  simp at hk

theorem ring_enqueue (q : file_queue_t) (l : List file_transfer_t) (t : file_transfer_t)
    (h : ring_holds q l) :
    (l.length < 15 → ∃ q1 r, enqueue_file_transfer q true t = some (q1, r) ∧
      ring_holds q1 (l ++ [t])) ∧
    (¬ l.length < 15 → enqueue_file_transfer q true t = none) := by
  have hc := h.count
  have hcap := h.cap
  have hflo := h.front_lo
  have hfhi := h.front_hi
  have hrear := h.rear
  constructor
  · intro hlt
    have hnot : ¬ (q.count ≥ ((MAX_UPLOAD_QUEUE * 3 : Nat) : Int) ∧ true = true) := by
      simp [MAX_UPLOAD_QUEUE]; omega
    refine ⟨{ q with transfers := q.transfers.set q.rear.toNat t,
                     rear := Int.tmod (q.rear + 1) ((MAX_UPLOAD_QUEUE * 3 : Nat) : Int),
                     count := q.count + 1 }, 1, ?_, ?_⟩
    · unfold enqueue_file_transfer
      rw [if_neg hnot, if_neg (by decide)]
    · have hr0 : 0 ≤ q.rear := by omega
      have hr15 : q.rear < 15 := by omega
      have e15 : ((MAX_UPLOAD_QUEUE * 3 : Nat) : Int) = 15 := by decide
      refine ⟨?_, hflo, hfhi, ?_, ?_, ?_, ?_⟩
      · simp only [List.length_set]; exact h.tlen
      · simp only [List.length_append, List.length_singleton]; push_cast; omega
      · simp only [List.length_append, List.length_singleton]; omega
      · simp only [e15]
        rw [tmod_15 _ (by omega)]
        omega
      · intro k hk
        simp only [List.length_append, List.length_singleton] at hk
        simp only
        by_cases hkl : k < l.length
        · have hne : q.rear.toNat ≠ ((q.front + (k : Int)) % 15).toNat := by
            omega
          rw [List.getElem?_set_ne hne, List.getElem?_append_left hkl]
          exact h.slots k hkl
        · have hke : k = l.length := by omega
          have hidx : ((q.front + (k : Int)) % 15).toNat = q.rear.toNat := by
            rw [hke]; omega
          rw [hidx, List.getElem?_set_eq_of_lt _ (by rw [h.tlen]; omega), hke]
          simp
  · intro hge
    unfold enqueue_file_transfer
    rw [if_pos ⟨by simp [MAX_UPLOAD_QUEUE]; omega, rfl⟩]

theorem ring_dequeue (q : file_queue_t) (l : List file_transfer_t) (h : ring_holds q l) :
    (∀ x xs, l = x :: xs → ∃ q1, file_processor_dequeue q true = some (q1, some x) ∧
      ring_holds q1 xs) ∧
    (l = [] → file_processor_dequeue q true = none) := by
  have hc := h.count
  have hcap := h.cap
  have hflo := h.front_lo
  have hfhi := h.front_hi
  have hrear := h.rear
  constructor
  · intro x xs hl
    subst hl
    simp only [List.length_cons] at hc hcap
    have h0 := h.slots 0 (by simp)
    have hf : ((q.front + ((0 : Nat) : Int)) % 15).toNat = q.front.toNat := by omega
    rw [hf] at h0
    simp only [List.getElem?_cons_zero] at h0
    have e15 : ((MAX_UPLOAD_QUEUE * 3 : Nat) : Int) = 15 := by decide
    refine ⟨{ q with front := Int.tmod (q.front + 1) ((MAX_UPLOAD_QUEUE * 3 : Nat) : Int),
                     count := q.count - 1 }, ?_, ?_⟩
    · unfold file_processor_dequeue
      rw [if_neg (by intro hh; omega), if_pos ⟨by omega, rfl⟩, h0]
      rfl
    · refine ⟨h.tlen, ?_, ?_, ?_, ?_, ?_, ?_⟩
      · simp only [e15]; rw [tmod_15 _ (by omega)]; omega
      · simp only [e15]; rw [tmod_15 _ (by omega)]; omega
      · simp only; omega
      · omega
      · simp only [e15]; rw [tmod_15 _ (by omega)]; omega
      · intro k hk
        simp only [e15]
        rw [tmod_15 _ (by omega)]
        have hidx : (((q.front + 1) % 15 + (k : Int)) % 15).toNat =
            ((q.front + ((k + 1 : Nat) : Int)) % 15).toNat := by
          push_cast; omega
        rw [hidx, h.slots (k + 1) (by simp only [List.length_cons]; omega)]
        simp
  · intro hl
    subst hl
    simp only [List.length_nil] at hc
    unfold file_processor_dequeue
    rw [if_pos ⟨by exact_mod_cast hc, rfl⟩]

theorem run_ring_simulates (ops : List queue_op) :
    ∀ (q : file_queue_t) (l : List file_transfer_t), ring_holds q l →
      (run_ring q ops = none ∧ run_fifo l ops = none) ∨
      ∃ q1 l1 outs, run_ring q ops = some (q1, outs) ∧ run_fifo l ops = some (l1, outs) ∧
        ring_holds q1 l1 := by
  induction ops with
  | nil => intro q l h; exact Or.inr ⟨q, l, [], rfl, rfl, h⟩
  | cons op ops ih =>
    intro q l h
    cases op with
    | enq t =>
      obtain ⟨h1, h2⟩ := ring_enqueue q l t h
      by_cases hlt : l.length < 15
      · obtain ⟨q1, r, he, hq1⟩ := h1 hlt
        have hf : fifo_enqueue l t = some (l ++ [t]) := by
          unfold fifo_enqueue; rw [if_pos hlt]
        rcases ih q1 (l ++ [t]) hq1 with ⟨e1, e2⟩ | ⟨q2, l2, outs, e1, e2, hq2⟩
        · left
          simp only [run_ring, run_fifo, he, hf]
          exact ⟨e1, e2⟩
        · right
          refine ⟨q2, l2, outs, ?_, ?_, hq2⟩
          · simp only [run_ring, he]; exact e1
          · simp only [run_fifo, hf]; exact e2
      · left
        have hf : fifo_enqueue l t = none := by
          unfold fifo_enqueue; rw [if_neg hlt]
        simp only [run_ring, run_fifo, h2 hlt, hf, and_self]
    | deq =>
      obtain ⟨h1, h2⟩ := ring_dequeue q l h
      cases l with
      | nil =>
        left
        simp only [run_ring, run_fifo, h2 rfl, fifo_dequeue, and_self]
      | cons x xs =>
        obtain ⟨q1, he, hq1⟩ := h1 x xs rfl
        rcases ih q1 xs hq1 with ⟨e1, e2⟩ | ⟨q2, l2, outs, e1, e2, hq2⟩
        · left
          simp only [run_ring, run_fifo, he, fifo_dequeue, e1, e2, Option.map_none', and_self]
        · right
          refine ⟨q2, l2, x :: outs, ?_, ?_, hq2⟩
          · simp only [run_ring, he, e1, Option.map_some']
          · simp only [run_fifo, fifo_dequeue, e2, Option.map_some']

theorem run_fifo_order (ops : List queue_op) :
    ∀ (l l1 outs : List file_transfer_t), run_fifo l ops = some (l1, outs) →
      l ++ enqueued ops = outs ++ l1 := by
  induction ops with
  | nil =>
    intro l l1 outs h
    simp only [run_fifo, Option.some.injEq, Prod.mk.injEq] at h
    rw [← h.1, ← h.2]
    simp [enqueued]
  | cons op ops ih =>
    intro l l1 outs h
    cases op with
    | enq t =>
      by_cases hlt : l.length < 15
      · have hf : fifo_enqueue l t = some (l ++ [t]) := by
          unfold fifo_enqueue; rw [if_pos hlt]
        simp only [run_fifo, hf] at h
        have := ih _ _ _ h
        simp only [enqueued]
        rw [← this]
        simp
      · have hf : fifo_enqueue l t = none := by
          unfold fifo_enqueue; rw [if_neg hlt]
        simp only [run_fifo, hf] at h
        cases h
    | deq =>
      cases l with
      | nil =>
        simp only [run_fifo, fifo_dequeue] at h
        cases h
      | cons x xs =>
        simp only [run_fifo, fifo_dequeue] at h
        cases hr : run_fifo xs ops with
        | none => rw [hr] at h; cases h
        | some r =>
          rw [hr] at h
          simp only [Option.map_some', Option.some.injEq, Prod.mk.injEq] at h
          have := ih xs r.1 r.2 (by rw [hr])
          simp only [enqueued]
          rw [← h.1, ← h.2, List.cons_append, this]
          rfl

/-- C27: for every sequence of enqueues and dequeues applied to the empty upload queue
while the server runs, the ring buffer and the specification queue (a list of at most
15 requests) give the same result: they wait at the same operations, and otherwise they
return the same requests in the same order; the requests returned are the first ones
enqueued, in order of enqueueing (the k-th dequeue returns the k-th enqueued request),
and the ring buffer holds exactly the remaining ones. -/
theorem upload_queue_is_fifo (ops : List queue_op) :
    (run_ring init_file_transfer_system ops).map Prod.snd = (run_fifo [] ops).map Prod.snd ∧
    (∀ q outs, run_ring init_file_transfer_system ops = some (q, outs) →
      outs = (enqueued ops).take outs.length ∧
      ring_holds q ((enqueued ops).drop outs.length)) := by
  rcases run_ring_simulates ops init_file_transfer_system [] ring_holds_init with
    ⟨e1, e2⟩ | ⟨q1, l1, outs, e1, e2, hq1⟩
  · rw [e1, e2]
    exact ⟨rfl, fun q outs h => by cases h⟩
  · rw [e1, e2]
    refine ⟨rfl, ?_⟩
    intro q o h
    simp only [Option.some.injEq, Prod.mk.injEq] at h
    obtain ⟨hq, ho⟩ := h
    subst hq ho
    have hord := run_fifo_order ops [] l1 outs e2
    rw [List.nil_append] at hord
    rw [hord]
    simp only [List.take_left', List.drop_left']
    exact ⟨trivial, hq1⟩

/-! ## Round trip of the file notification -/

theorem has_pair_prefix (c1 c2 : Char) (u : CStr) :
    ∀ m : CStr, u <+: m → has_pair c1 c2 u = true → has_pair c1 c2 m = true := by
  induction u with
  | nil => intro m _ h; simp [has_pair] at h
  | cons x u ih =>
    intro m hp h
    cases u with
    | nil => simp [has_pair] at h
    | cons y r =>
      obtain ⟨t, rfl⟩ := hp
      simp only [List.cons_append, has_pair, Bool.or_eq_true] at h ⊢
      rcases h with h | h
      · exact Or.inl h
      · exact Or.inr (ih (y :: (r ++ t)) ⟨t, rfl⟩ h)

theorem has_pair_append_false (c1 c2 : Char) (x : CStr) :
    ∀ y : CStr, has_pair c1 c2 x = false → has_pair c1 c2 y = false →
      (∀ u v, x.getLast? = some u → y.head? = some v → ¬ (u = c1 ∧ v = c2)) →
      has_pair c1 c2 (x ++ y) = false := by
  induction x with
  | nil => intro y _ hy _; exact hy
  | cons u x ih =>
    intro y hx hy hb
    cases x with
    | nil =>
      cases y with
      | nil => rfl
      | cons v r =>
        simp only [List.cons_append, List.nil_append, has_pair, Bool.or_eq_false_iff]
        refine ⟨?_, hy⟩
        have := hb u v rfl rfl
        by_contra hc
        simp only [Bool.not_eq_false, Bool.and_eq_true, beq_iff_eq] at hc
        exact this hc
    | cons u' r =>
      simp only [has_pair, Bool.or_eq_false_iff] at hx
      simp only [List.cons_append, has_pair, Bool.or_eq_false_iff]
      refine ⟨hx.1, ?_⟩
      have := ih y hx.2 hy (fun a b ha hb' => hb a b (by rw [List.getLast?_cons_cons]; exact ha) hb')
      exact this

theorem has_pair_no_second (c1 c2 : Char) (w : CStr) (h : c2 ∉ w) : has_pair c1 c2 w = false := by
  induction w with
  | nil => rfl
  | cons x w ih =>
    cases w with
    | nil => rfl
    | cons y r =>
      simp only [has_pair, Bool.or_eq_false_iff]
      refine ⟨?_, ih (fun hm => h (List.mem_cons_of_mem _ hm))⟩
      have hy : ¬ y = c2 := fun e => h (by rw [← e]; simp)
      simp [hy]

theorem has_pair_no_first (c1 c2 : Char) (w : CStr) (h : c1 ∉ w) : has_pair c1 c2 w = false := by
  induction w with
  | nil => rfl
  | cons x w ih =>
    cases w with
    | nil => rfl
    | cons y r =>
      simp only [has_pair, Bool.or_eq_false_iff]
      refine ⟨?_, ih (fun hm => h (List.mem_cons_of_mem _ hm))⟩
      have hx : ¬ x = c1 := fun e => h (by rw [← e]; simp)
      simp [hx]

/-- An occurrence of `needle` cannot start inside `a` when no two adjacent characters of
`a` followed by the first `j + 1` characters of `b` are the pair that `needle` has at
the offsets `j`, `j + 1`. -/
theorem strstr_skip (needle : CStr) (j : Nat) (c1 c2 : Char)
    (hn : has_pair c1 c2 (needle.take (j + 2)) = true) :
    ∀ (a b : CStr), has_pair c1 c2 (a ++ b.take (j + 1)) = false →
      strstr (a ++ b) needle = strstr b needle := by
  intro a
  induction a with
  | nil => intro b _; rfl
  | cons x a ih =>
    intro b h
    have hne : needle.isPrefixOf (x :: (a ++ b)) = false := by
      by_contra hc
      simp only [Bool.not_eq_false] at hc
      rw [List.isPrefixOf_iff_prefix] at hc
      have h1 : needle.take (j + 2) <+: (x :: (a ++ b)).take (j + 2) :=
        List.IsPrefix.take hc (j + 2)
      have h2 : (x :: (a ++ b)).take (j + 2) <+: x :: (a ++ b.take (j + 1)) := by
        have e : x :: (a ++ b.take (j + 1)) = (x :: (a ++ b)).take ((x :: a).length + (j + 1)) := by
          show (x :: a) ++ b.take (j + 1) = ((x :: a) ++ b).take ((x :: a).length + (j + 1))
          rw [List.take_append]
        rw [e]
        apply List.take_prefix_take_left
        simp only [List.length_cons]
        omega
      have := has_pair_prefix c1 c2 _ _ (h1.trans h2) hn
      rw [List.cons_append] at h
      rw [h] at this
      cases this
    have htail : has_pair c1 c2 (a ++ b.take (j + 1)) = false := by
      cases hl : a ++ b.take (j + 1) with
      | nil => rfl
      | cons y r =>
        rw [List.cons_append, hl] at h
        simp only [has_pair, Bool.or_eq_false_iff] at h
        exact h.2
    show strstr (x :: (a ++ b)) needle = strstr b needle
    rw [strstr, if_neg (by rw [hne]; simp)]
    exact ih b htail

theorem strstr_self (needle rest : CStr) (h : needle ≠ []) :
    strstr (needle ++ rest) needle = some (needle ++ rest) := by
  cases needle with
  | nil => exact absurd rfl h
  | cons x xs =>
    have : (x :: xs).isPrefixOf (x :: (xs ++ rest)) = true := by
      rw [List.isPrefixOf_iff_prefix]
      exact ⟨rest, rfl⟩
    show strstr (x :: (xs ++ rest)) (x :: xs) = some (x :: (xs ++ rest))
    rw [strstr, if_pos this]

theorem takeWhile_digits_then (d rest : CStr) (x : Char) (hd : ∀ c ∈ d, c.isDigit = true)
    (hx : x.isDigit = false) : (d ++ x :: rest).takeWhile Char.isDigit = d := by
  induction d with
  | nil => simp [List.takeWhile, hx]
  | cons c d ih =>
    rw [List.cons_append, List.takeWhile_cons, hd c (List.mem_cons_self _ _)]
    simp only [if_true]
    rw [ih (fun y hy => hd y (List.mem_cons_of_mem _ hy))]

theorem atol_repr (n : Nat) (rest : CStr) (hn : n < 2 ^ 63) :
    atol ((Nat.repr n).toList ++ ' ' :: rest) = (n : Int) := by
  obtain ⟨hall, hne, hv⟩ := repr_digits n
  cases hl : (Nat.repr n).toList with
  | nil => exact absurd hl hne
  | cons c r =>
    rw [hl] at hall hv
    have hc := (isDigit_iff c).mp (hall c (List.mem_cons_self _ _))
    have hsp : isspace c = false := by
      unfold isspace
      have h32 : (c == Char.ofNat 32) = false := by
        rw [beq_eq_false_iff_ne]
        intro e; rw [e] at hc; revert hc; decide
      rw [h32]
      simp only [Bool.false_or, Bool.and_eq_false_iff, decide_eq_false_iff_not]
      right; omega
    have hminus : ¬ (some c = some (Char.ofNat 45)) := by
      intro e; cases e; revert hc; decide
    have hplus : ¬ (some c = some (Char.ofNat 43)) := by
      intro e; cases e; revert hc; decide
    have htake : ((c :: r) ++ ' ' :: rest).takeWhile Char.isDigit = c :: r :=
      takeWhile_digits_then (c :: r) rest ' ' hall (by decide)
    unfold atol
    simp only [List.cons_append, List.dropWhile_cons, hsp, Bool.false_eq_true, if_false,
      List.head?_cons, hminus, hplus, or_self, decide_False]
    rw [← List.cons_append, htake, hv]
    omega

theorem has_pair_append_no_second (c1 c2 : Char) (x y : CStr)
    (hx : has_pair c1 c2 x = false) (hy : c2 ∉ y) : has_pair c1 c2 (x ++ y) = false := by
  apply has_pair_append_false c1 c2 x y hx (has_pair_no_second c1 c2 y hy)
  intro u v _ hv hc
  exact hy (by rw [← hc.2]; exact List.mem_of_mem_head? hv)

theorem has_pair_append_no_first (c1 c2 : Char) (x y : CStr)
    (hx : c1 ∉ x) (hy : has_pair c1 c2 y = false) : has_pair c1 c2 (x ++ y) = false := by
  apply has_pair_append_false c1 c2 x y (has_pair_no_first c1 c2 x hx) hy
  intro u v hu _ hc
  exact hx (by rw [← hc.1]; exact List.mem_of_mem_getLast? hu)

theorem dropWhile_ne_append (c : Char) (w rest : CStr) (hw : c ∉ w) :
    (w ++ c :: rest).dropWhile (fun x => x != c) = c :: rest := by
  induction w with
  | nil => simp [List.dropWhile]
  | cons x w ih =>
    have hx : (x != c) = true := by
      rw [bne_iff_ne]
      intro e
      exact hw (by rw [e]; exact List.mem_cons_self _ _)
    rw [List.cons_append, List.dropWhile_cons, hx]
    exact ih (fun hm => hw (List.mem_cons_of_mem _ hm))

theorem not_mem_of_alnum (s : CStr) (c : Char) (hs : ∀ x ∈ s, ascii_letter_or_digit x)
    (hc : ¬ ascii_letter_or_digit c) : c ∉ s :=
  fun hm => hc (hs c hm)

theorem parse_file_notification_text (f s rest : CStr) (n : Nat)
    (hf2 : f.length ≤ 255) (hfs : ' ' ∉ f)
    (hsa : ∀ c ∈ s, ascii_letter_or_digit c) (hn : n < 2 ^ 63) :
    parse_file_notification
        ("You received file '".toList ++ (f ++ ("' from '".toList ++ (s ++ ("' (size: ".toList ++
          ((Nat.repr n).toList ++ ' ' :: rest)))))) =
      some (f, s.take (if s.length ≥ 16 then 15 else s.length), n) := by
  have hq : '\'' ∉ s := not_mem_of_alnum s _ hsa (by decide)
  have hcolon : ':' ∉ s := not_mem_of_alnum s _ hsa (by decide)
  -- the three searches
  have h1 : strstr ("You received file '".toList ++ (f ++ ("' from '".toList ++ (s ++
      ("' (size: ".toList ++ ((Nat.repr n).toList ++ ' ' :: rest)))))) "file '".toList =
      some ("file '".toList ++ (f ++ ("' from '".toList ++ (s ++
        ("' (size: ".toList ++ ((Nat.repr n).toList ++ ' ' :: rest)))))) := by
    have e : ∀ X : CStr, "You received file '".toList ++ X =
        "You received ".toList ++ ("file '".toList ++ X) := fun _ => rfl
    have t1 : ∀ X : CStr, List.take (0 + 1) ("file '".toList ++ X) = "f".toList := fun _ => rfl
    rw [e, strstr_skip "file '".toList 0 'f' 'i' (by decide) _ _ (by rw [t1]; decide)]
    exact strstr_self _ _ (by decide)
  have h2 : strstr ("You received file '".toList ++ (f ++ ("' from '".toList ++ (s ++
      ("' (size: ".toList ++ ((Nat.repr n).toList ++ ' ' :: rest)))))) "' from '".toList =
      some ("' from '".toList ++ (s ++
        ("' (size: ".toList ++ ((Nat.repr n).toList ++ ' ' :: rest)))) := by
    have t1 : ∀ X : CStr, List.take (0 + 1) ("' from '".toList ++ X) = "'".toList :=
      fun _ => rfl
    rw [← List.append_assoc,
      strstr_skip "' from '".toList 0 '\'' ' ' (by decide) _ _ (by
        rw [t1, List.append_assoc]
        apply has_pair_append_no_second _ _ _ _ (by decide)
        intro hm
        rcases List.mem_append.mp hm with hm | hm
        · exact hfs hm
        · revert hm; decide)]
    exact strstr_self _ _ (by decide)
  have h3 : strstr ("You received file '".toList ++ (f ++ ("' from '".toList ++ (s ++
      ("' (size: ".toList ++ ((Nat.repr n).toList ++ ' ' :: rest)))))) "(size: ".toList =
      some ("(size: ".toList ++ ((Nat.repr n).toList ++ ' ' :: rest)) := by
    have e : ∀ X : CStr, "You received file '".toList ++ (f ++ ("' from '".toList ++ (s ++
        ("' (size: ".toList ++ X)))) =
        ("You received file '".toList ++ (f ++ ("' from '".toList ++ (s ++ "' ".toList)))) ++
          ("(size: ".toList ++ X) := by
      intro X
      simp only [List.append_assoc]
      rfl
    have t1 : ∀ X : CStr, List.take (5 + 1) ("(size: ".toList ++ X) = "(size:".toList :=
      fun _ => rfl
    rw [e, strstr_skip "(size: ".toList 5 ':' ' ' (by decide) _ _ (by
        simp only [t1, List.append_assoc]
        apply has_pair_append_no_first _ _ _ _ (by decide)
        apply has_pair_append_false _ _ _ _ (has_pair_no_second _ _ _ hfs)
        · apply has_pair_append_no_first _ _ _ _ (by decide)
          apply has_pair_append_no_first _ _ _ _ hcolon
          decide
        · intro u v _ hv hc
          have : v = '\'' := by
            simp only [List.head?_append, String.toList] at hv
            simpa using hv.symm
          rw [this] at hc
          exact absurd hc.2 (by decide))]
    exact strstr_self _ _ (by decide)
  unfold parse_file_notification
  rw [h1, h2, h3]
  have e6 : ∀ X : CStr, ("file '".toList ++ X).drop 6 = X := fun _ => rfl
  have e8 : ∀ X : CStr, ("' from '".toList ++ X).drop 8 = X := fun _ => rfl
  have e7 : ∀ X : CStr, ("(size: ".toList ++ X).drop 7 = X := fun _ => rfl
  have eq : ∀ X : CStr, "' (size: ".toList ++ X = '\'' :: (" (size: ".toList ++ X) := fun _ => rfl
  simp only [e6, e8, e7]
  have hchr : strchr (s ++ ("' (size: ".toList ++ ((Nat.repr n).toList ++ ' ' :: rest)))
      (Char.ofNat 39) =
      some ("' (size: ".toList ++ ((Nat.repr n).toList ++ ' ' :: rest)) := by
    unfold strchr
    have h39 : Char.ofNat 39 = '\'' := rfl
    rw [h39, eq, dropWhile_ne_append '\'' s _ hq]
  rw [hchr]
  simp only
  have hdiff : ((f ++ ("' from '".toList ++ (s ++ ("' (size: ".toList ++
      ((Nat.repr n).toList ++ ' ' :: rest))))).length : Int) -
      (("' from '".toList ++ (s ++ ("' (size: ".toList ++
      ((Nat.repr n).toList ++ ' ' :: rest)))).length : Int) = (f.length : Int) := by
    rw [List.length_append]
    push_cast
    omega
  rw [hdiff]
  have hlen : ¬ ((f.length : Int) < 0 ∨ (f.length : Int) ≥ (MAX_FILENAME_LEN : Int)) := by
    simp only [MAX_FILENAME_LEN]; omega
  rw [if_neg hlen, Int.toNat_ofNat, List.take_left]
  have hsl : (s ++ ("' (size: ".toList ++ ((Nat.repr n).toList ++ ' ' :: rest))).length -
      ("' (size: ".toList ++ ((Nat.repr n).toList ++ ' ' :: rest)).length = s.length := by
    rw [List.length_append]
    omega
  rw [hsl, atol_repr n rest hn]
  have hmod : ((n : Int) % 2 ^ 64).toNat = n := by omega
  rw [hmod]
  have htake : ∀ k, k ≤ s.length →
      (s ++ ("' (size: ".toList ++ ((Nat.repr n).toList ++ ' ' :: rest))).take k = s.take k := by
    intro k hk
    rw [List.take_append_of_le_length hk]
  by_cases h16 : s.length ≥ MAX_USERNAME_LEN
  · have h16' : s.length ≥ 16 := h16
    rw [if_pos h16, if_pos h16', htake _ (by simp only [MAX_USERNAME_LEN] at h16 ⊢; omega)]
    rfl
  · have h16' : ¬ s.length ≥ 16 := h16
    rw [if_neg h16, if_neg h16', htake _ (le_refl _)]

/-- C30 fails for sender names of 16 characters.  For a file name `f` of at most 255
characters without blanks, a sender name `s` of at most 16 ASCII letters and digits and
a size `n ≤ 3145728`, the receiver notification of the server is "FILE_NOTIFY:" followed
by "You received file '<f>' from '<s>' (size: <n> bytes)", and on that text the client's
`parse_file_notification` returns 1 with `(f, first 15 characters of s, n)`: the round
trip is exact for names of up to 15 characters and loses the last character of a name
of 16. -/
theorem parse_file_notification_cuts_sender (f s : CStr) (n : Nat)
    (hf2 : f.length ≤ 255) (hfs : ' ' ∉ f)
    (hsa : ∀ c ∈ s, ascii_letter_or_digit c) (hs2 : s.length ≤ 16) (hn : n ≤ 3145728) :
    completion_receiver_msg
        { zero_transfer with filename := f, sender_username := s, file_size := n,
                             status := transfer_status_t.TRANSFER_COMPLETED } =
      "FILE_NOTIFY:".toList ++ ("You received file '".toList ++ f ++ "' from '".toList ++ s ++
        "' (size: ".toList ++ (Nat.repr n).toList ++ " bytes)".toList) ∧
    parse_file_notification
        ("You received file '".toList ++ f ++ "' from '".toList ++ s ++
          "' (size: ".toList ++ (Nat.repr n).toList ++ " bytes)".toList) =
      some (f, s.take 15, n) ∧
    (s.length ≤ 15 → s.take 15 = s) ∧
    (s.length = 16 → s.take 15 ≠ s) := by
  refine ⟨?_, ?_, fun h => List.take_of_length_le h, ?_⟩
  · unfold completion_receiver_msg
    rw [if_pos rfl]
    have hfmt : fmt_d ((n : Nat) : Int) = (Nat.repr n).toList := rfl
    have hd : (Nat.repr n).length ≤ 7 := Nat.repr_length n 7 (by decide) (by omega)
    have e : snprintf MAX_MSG_LEN
        (FILE_NOTIFICATION ++ "You received file '".toList ++ f ++ "' from '".toList ++ s ++
          "' (size: ".toList ++ fmt_d ((n : Nat) : Int) ++ " bytes)".toList) =
        FILE_NOTIFICATION ++ "You received file '".toList ++ f ++ "' from '".toList ++ s ++
          "' (size: ".toList ++ fmt_d ((n : Nat) : Int) ++ " bytes)".toList := by
      apply snprintf_of_length_le
      rw [hfmt]
      simp only [List.length_append, MAX_MSG_LEN]
      have e1 : FILE_NOTIFICATION.length = 12 := rfl
      have e2 : "You received file '".toList.length = 19 := rfl
      have e3 : "' from '".toList.length = 8 := rfl
      have e4 : "' (size: ".toList.length = 9 := rfl
      have e5 : " bytes)".toList.length = 7 := rfl
      have e6 : (Nat.repr n).toList.length = (Nat.repr n).length := rfl
      rw [e1, e2, e3, e4, e5, e6]
      omega
    rw [e, hfmt]
    simp only [List.append_assoc]
    rfl
  · have hb : " bytes)".toList = ' ' :: "bytes)".toList := rfl
    have := parse_file_notification_text f s "bytes)".toList n hf2 hfs hsa (by omega)
    simp only [List.append_assoc, hb]
    rw [this]
    by_cases h16 : s.length ≥ 16
    · rw [if_pos h16]
    · rw [if_neg h16, List.take_of_length_le (le_refl _), List.take_of_length_le (by omega)]
  · intro h e
    have := congrArg List.length e
    rw [List.length_take] at this
    omega

/-- Instance of `parse_file_notification_cuts_sender`: the sender "abcdefghijklmnop" (16
characters) comes out as "abcdefghijklmno". -/
theorem parse_file_notification_cuts_sender_witness :
    parse_file_notification
        "You received file 'a.txt' from 'abcdefghijklmnop' (size: 10 bytes)".toList =
      some ("a.txt".toList, "abcdefghijklmno".toList, 10) ∧
    parse_file_notification
        ("You received file '".toList ++ "a.txt".toList ++ "' from '".toList ++
          "abcdefghijklmnop".toList ++ "' (size: ".toList ++ (Nat.repr 10).toList ++
          " bytes)".toList) =
      some ("a.txt".toList, "abcdefghijklmnop".toList.take 15, 10) ∧
    "abcdefghijklmnop".toList.take 15 ≠ "abcdefghijklmnop".toList :=
  ⟨by decide,
    (parse_file_notification_cuts_sender "a.txt".toList "abcdefghijklmnop".toList 10
      (by decide) (by decide) (by decide) (by decide) (by decide)).2.1,
    (parse_file_notification_cuts_sender "a.txt".toList "abcdefghijklmnop".toList 10
      (by decide) (by decide) (by decide) (by decide) (by decide)).2.2.2 (by decide)⟩

/-! ## Invariants of the worker pool -/

theorem queue_kept_refl (q : file_queue_t) : queue_kept q q :=
  ⟨rfl, rfl, rfl, rfl, le_refl _⟩

theorem queue_kept_of_eq (q q1 : file_queue_t) (e : q1 = q) : queue_kept q q1 := by
  rw [e]; exact queue_kept_refl q

theorem queue_kept_enqueue (q q1 : file_queue_t) (running : Bool) (t : file_transfer_t)
    (r : Int) (h : enqueue_file_transfer q running t = some (q1, r)) : queue_kept q q1 := by
  unfold enqueue_file_transfer at h
  split_ifs at h
  · cases h; exact queue_kept_refl q
  · cases h
    exact ⟨rfl, rfl, rfl, rfl, by simp⟩

@[simp] theorem notify_queue_status_upload_queue (s : Server) (i : Nat) (filename : CStr)
    (p w : Int) : (notify_queue_status s i filename p w).upload_queue = s.upload_queue := by
  unfold notify_queue_status
  dsimp only
  split_ifs <;> simp

theorem handle_sendfile_command_queue (s : Server) (i : Nat) (args : CStr) (now : Int)
    (t : Server) (h : handle_sendfile_command s i args now = some t) :
    queue_kept s.upload_queue t.upload_queue := by
  unfold handle_sendfile_command at h
  dsimp only at h
  by_cases h1 : (parse_sendfile_args args).1.length = 0 ∨
      (parse_sendfile_args args).2.1.length = 0
  · rw [if_pos h1] at h; cases h; exact queue_kept_of_eq _ _ (by simp)
  rw [if_neg h1] at h
  by_cases h2 : (parse_sendfile_args args).2.2 = 0
  · rw [if_pos h2] at h; cases h; exact queue_kept_of_eq _ _ (by simp)
  rw [if_neg h2] at h
  cases hft : find_target_idx s.clients (parse_sendfile_args args).2.1 with
  | none =>
    rw [hft] at h
    simp only at h
    cases h; exact queue_kept_of_eq _ _ (by simp)
  | some j =>
    rw [hft] at h
    simp only at h
    by_cases h3 : j = i
    · rw [if_pos h3] at h; cases h; exact queue_kept_of_eq _ _ (by simp)
    rw [if_neg h3] at h
    by_cases h4 : is_valid_file_type (parse_sendfile_args args).1 = 0
    · rw [if_pos h4] at h; cases h; exact queue_kept_of_eq _ _ (by simp)
    rw [if_neg h4] at h
    by_cases h5 : (parse_sendfile_args args).2.2 > MAX_FILE_SIZE
    · rw [if_pos h5] at h; cases h; exact queue_kept_of_eq _ _ (by simp)
    rw [if_neg h5, if_neg h2] at h
    cases he : enqueue_file_transfer s.upload_queue s.server_running
        (sendfile_request s i args now j) with
    | none =>
      unfold sendfile_request at he
      rw [he] at h
      cases h
    | some r =>
      obtain ⟨q1, acc⟩ := r
      have hk := queue_kept_enqueue _ _ _ _ _ he
      unfold sendfile_request at he
      rw [he] at h
      simp only at h
      by_cases ha : acc ≠ 0
      · rw [if_pos ha] at h
        cases h
        simpa using hk
      · rw [if_neg ha] at h
        cases h
        simpa using hk

@[simp] theorem notify_queue_status_server_running (s : Server) (i : Nat) (filename : CStr)
    (p w : Int) : (notify_queue_status s i filename p w).server_running = s.server_running := by
  unfold notify_queue_status
  dsimp only
  split_ifs <;> simp

theorem handle_sendfile_command_running (s : Server) (i : Nat) (args : CStr) (now : Int) :
    (handle_sendfile_command s i args now).elim True
      (fun t => t.server_running = s.server_running) := by
  unfold handle_sendfile_command
  dsimp only
  repeat' split
  all_goals simp [Option.elim]

theorem handle_broadcast_message_queue (s : Server) (i : Nat) (message : CStr) :
    (handle_broadcast_message s i message).upload_queue = s.upload_queue := by
  unfold handle_broadcast_message
  dsimp only
  split_ifs
  · simp
  · simp
  · split <;> simp

theorem handle_whisper_message_queue (s : Server) (i : Nat) (target message : CStr) :
    (handle_whisper_message s i target message).upload_queue = s.upload_queue := by
  unfold handle_whisper_message
  dsimp only
  split_ifs
  · simp
  · simp
  · split
    · simp
    · split_ifs <;> simp

theorem dispatch_whisper_queue (s : Server) (i : Nat) (args : CStr) :
    (dispatch_whisper s i args).upload_queue = s.upload_queue := by
  unfold dispatch_whisper
  dsimp only
  split
  · simp
  · exact handle_whisper_message_queue _ _ _ _

theorem dispatch_queue (s : Server) (i : Nat) (buffer : CStr) (now : Int) (t : Server)
    (ex : Bool) (h : tables_ok s.clients s.rooms) (hi : i < MAX_CLIENTS_GLOBAL)
    (hact : (client_at s.clients i).active = true)
    (hd : dispatch s i buffer now = some (t, ex)) :
    queue_kept s.upload_queue t.upload_queue ∧ t.server_running = s.server_running := by
  unfold dispatch at hd
  split_ifs at hd
  · cases hd
    obtain ⟨-, h2, h3⟩ := handle_join_room_tables s i
      ((buffer.drop 6).dropWhile (fun c => c == Char.ofNat 32)) h hi hact
    exact ⟨queue_kept_of_eq _ _ h2, h3⟩
  · cases hd
    obtain ⟨-, -, h2, h3⟩ := handle_leave_room_tables s i true h hi
    exact ⟨queue_kept_of_eq _ _ h2, h3⟩
  · cases hd
    exact ⟨queue_kept_of_eq _ _ (handle_broadcast_message_queue _ _ _), by
      unfold handle_broadcast_message
      dsimp only
      split_ifs
      · simp
      · simp
      · split <;> simp⟩
  · cases hd
    exact ⟨queue_kept_of_eq _ _ (dispatch_whisper_queue _ _ _), by
      unfold dispatch_whisper handle_whisper_message
      dsimp only
      split
      · simp
      · split_ifs
        · simp
        · simp
        · split
          · simp
          · split_ifs <;> simp⟩
  · cases hs : handle_sendfile_command s i
        ((buffer.drop 10).dropWhile (fun c => c == Char.ofNat 32)) now with
    | none => rw [hs] at hd; cases hd
    | some t1 =>
      rw [hs] at hd
      cases hd
      refine ⟨handle_sendfile_command_queue _ _ _ _ _ hs, ?_⟩
      have := handle_sendfile_command_running s i
        ((buffer.drop 10).dropWhile (fun c => c == Char.ofNat 32)) now
      rw [hs] at this
      exact this
  · cases hd; exact ⟨queue_kept_of_eq _ _ (by simp [handle_status]), by simp [handle_status]⟩
  · cases hd; exact ⟨queue_kept_of_eq _ _ (by simp), by simp⟩
  · cases hd; exact ⟨queue_kept_of_eq _ _ (by simp), by simp⟩
  · cases hd; exact ⟨queue_kept_of_eq _ _ (by simp), by simp⟩

theorem queue_kept_trans (q q1 q2 : file_queue_t) (h1 : queue_kept q q1)
    (h2 : queue_kept q1 q2) : queue_kept q q2 :=
  ⟨h2.1.trans h1.1, h2.2.1.trans h1.2.1, h2.2.2.1.trans h1.2.2.1, h2.2.2.2.1.trans h1.2.2.2.1,
    le_trans h1.2.2.2.2 h2.2.2.2.2⟩

theorem session_exit_queue (s : Server) (i : Nat) (h : tables_ok s.clients s.rooms) :
    (session_exit s i).upload_queue = s.upload_queue := by
  unfold session_exit
  by_cases hr : s.server_running = false
  · simp only [hr, if_true]
    rw [(cleanup_client_tables _ i (by simpa using h)).2.1]
    simp
  · simp only [hr, if_false]
    exact (cleanup_client_tables _ i h).2.1

theorem session_step_queue (s t : Server) (h : tables_ok s.clients s.rooms)
    (hs : SessionStep s t) : queue_kept s.upload_queue t.upload_queue := by
  cases hs with
  | accept fd ip created hfd =>
    apply queue_kept_of_eq
    unfold accept_connection
    split
    · simp
    · split_ifs <;> rfl
  | login i data hi hact =>
    apply queue_kept_of_eq
    unfold login_attempt
    dsimp only
    split_ifs <;> simp
  | command i buffer now _ hi hact _ hd => exact (dispatch_queue s i buffer now t false h hi hact hd).1
  | exit i buffer now t1 hi hact _ hd =>
    have h1 := (dispatch_queue s i buffer now t1 true h hi hact hd).1
    have ht1 := dispatch_tables s i buffer now t1 true h hi hact hd
    exact queue_kept_trans _ _ _ h1 (queue_kept_of_eq _ _ (session_exit_queue t1 i ht1))
  | cleanup i => exact queue_kept_of_eq _ _ (session_exit_queue s i h)
  | shutdown => exact queue_kept_refl _

theorem countP_set (p : worker_pc → Bool) (l : List worker_pc) :
    ∀ (k : Nat) (old new : worker_pc), l[k]? = some old →
      ((l.set k new).countP p : Int) =
        (l.countP p : Int) - (if p old then 1 else 0) + (if p new then 1 else 0) := by
  induction l with
  | nil => intro k old new h; simp at h
  | cons x l ih =>
    intro k old new h
    cases k with
    | zero =>
      simp only [List.getElem?_cons_zero, Option.some.injEq] at h
      subst h
      simp only [List.set_cons_zero, List.countP_cons]
      push_cast
      split_ifs <;> simp
    | succ k =>
      simp only [List.getElem?_cons_succ] at h
      have := ih k old new h
      simp only [List.set_cons_succ, List.countP_cons]
      push_cast
      rw [this]
      ring

@[simp] theorem notify_transfer_completion_clients (s : Server) (t : file_transfer_t) :
    (notify_transfer_completion s t).clients = s.clients := by
  unfold notify_transfer_completion
  dsimp only
  split_ifs <;> simp

@[simp] theorem notify_transfer_completion_rooms (s : Server) (t : file_transfer_t) :
    (notify_transfer_completion s t).rooms = s.rooms := by
  unfold notify_transfer_completion
  dsimp only
  split_ifs <;> simp

@[simp] theorem notify_transfer_completion_upload_queue (s : Server) (t : file_transfer_t) :
    (notify_transfer_completion s t).upload_queue = s.upload_queue := by
  unfold notify_transfer_completion
  dsimp only
  split_ifs <;> simp

@[simp] theorem notify_transfer_completion_server_running (s : Server) (t : file_transfer_t) :
    (notify_transfer_completion s t).server_running = s.server_running := by
  unfold notify_transfer_completion
  dsimp only
  split_ifs <;> simp

@[simp] theorem log_file_wait_duration_clients (s : Server) (t : file_transfer_t) :
    (log_file_wait_duration s t).clients = s.clients := by
  unfold log_file_wait_duration
  dsimp only
  split_ifs <;> simp

@[simp] theorem log_file_wait_duration_rooms (s : Server) (t : file_transfer_t) :
    (log_file_wait_duration s t).rooms = s.rooms := by
  unfold log_file_wait_duration
  dsimp only
  split_ifs <;> simp

@[simp] theorem log_file_wait_duration_upload_queue (s : Server) (t : file_transfer_t) :
    (log_file_wait_duration s t).upload_queue = s.upload_queue := by
  unfold log_file_wait_duration
  dsimp only
  split_ifs <;> simp

@[simp] theorem log_file_wait_duration_server_running (s : Server) (t : file_transfer_t) :
    (log_file_wait_duration s t).server_running = s.server_running := by
  unfold log_file_wait_duration
  dsimp only
  split_ifs <;> simp

theorem pool_ok_initial (net : List Bool) : pool_ok (initial_pool net) :=
  ⟨tables_ok_initial, rfl, by show (0 : Int) ≤ 5; decide,
    by show (5 : Int) + ((List.replicate 5 worker_pc.at_loop).countP holds_permit : Nat) = 5
       decide,
    by show (0 : Int) + 0 + ((0 : Nat) : Int) +
         ((List.replicate 5 worker_pc.at_loop).countP in_flight : Nat) = ((0 : Nat) : Int)
       decide⟩

theorem pool_ok_session (c : Pool) (t : Server) (h : pool_ok c)
    (hs : SessionStep c.server t) : pool_ok { c with server := t } := by
  obtain ⟨k1, k2, k3, -, -⟩ := session_step_queue c.server t h.tables hs
  refine ⟨session_step_tables _ _ h.tables hs, h.wlen, ?_, ?_, ?_⟩
  · simp only; rw [k1]; exact h.sem_lo
  · simp only; rw [k1]; exact h.permits
  · simp only; rw [k2, k3]; exact h.counted

theorem file_processor_dequeue_stats (q q1 : file_queue_t) (running : Bool)
    (has : Option file_transfer_t) (h : file_processor_dequeue q running = some (q1, has)) :
    q1.queue_semaphore = q.queue_semaphore ∧ q1.total_processed = q.total_processed ∧
      q1.total_failed = q.total_failed := by
  unfold file_processor_dequeue at h
  split_ifs at h
  · cases h; exact ⟨rfl, rfl, rfl⟩
  · cases h; exact ⟨rfl, rfl, rfl⟩

theorem file_processor_update_stats_fields (q : file_queue_t) (status : transfer_status_t) :
    (file_processor_update_stats q status).queue_semaphore = q.queue_semaphore ∧
    (file_processor_update_stats q status).total_processed +
      (file_processor_update_stats q status).total_failed =
        q.total_processed + q.total_failed + 1 ∧
    q.total_processed ≤ (file_processor_update_stats q status).total_processed ∧
    q.total_failed ≤ (file_processor_update_stats q status).total_failed := by
  unfold file_processor_update_stats
  split_ifs
  · exact ⟨rfl, by simp only; omega, by simp, le_refl _⟩
  · exact ⟨rfl, by simp only; omega, le_refl _, by simp⟩

theorem pool_ok_worker (c : Pool) (k : Nat) (now : Int) (stat_ok : CStr → Bool)
    (fopen_ok : Bool) (err : CStr) (sem_fail : Option Bool) (c1 : Pool) (h : pool_ok c)
    (hs : worker_step c k now stat_ok fopen_ok err sem_fail = some c1) : pool_ok c1 := by
  unfold worker_step at hs
  dsimp only at hs
  have hperm := h.permits
  have hcnt := h.counted
  have hlo := h.sem_lo
  cases hk : c.workers[k]? with
  | none => rw [hk] at hs; cases hs
  | some pc =>
    rw [hk] at hs
    have hP := fun new => countP_set holds_permit c.workers k pc new hk
    have hF := fun new => countP_set in_flight c.workers k pc new hk
    cases pc with
    | at_loop =>
      simp only [Option.some.injEq] at hs
      subst hs
      refine ⟨h.tables, by simp [set_pc, h.wlen], hlo, ?_, ?_⟩
      · simp only [set_pc]
        rw [hP]
        split_ifs <;> simp [holds_permit] at * <;> omega
      · simp only [set_pc]
        rw [hF]
        split_ifs <;> simp [in_flight] at * <;> omega
    | at_sem_wait =>
      cases sem_fail with
      | some eintr =>
        simp only [Option.some.injEq] at hs
        subst hs
        refine ⟨h.tables, by simp [set_pc, h.wlen], hlo, ?_, ?_⟩
        · simp only [set_pc]
          rw [hP]
          split_ifs <;> simp [holds_permit] at * <;> omega
        · simp only [set_pc]
          rw [hF]
          split_ifs <;> simp [in_flight] at * <;> omega
      | none =>
        simp only at hs
        split_ifs at hs with hsem
        simp only [Option.some.injEq] at hs
        subst hs
        refine ⟨h.tables, by simp [set_pc, h.wlen], ?_, ?_, ?_⟩
        · simp only [set_pc, set_semaphore]; omega
        · simp only [set_pc, set_semaphore]
          rw [hP]
          simp [holds_permit] at *
          omega
        · simp only [set_pc, set_semaphore]
          rw [hF]
          simp [in_flight] at *
          omega
    | after_sem_wait =>
      simp only [Option.some.injEq] at hs
      subst hs
      refine ⟨h.tables, by simp [set_pc, h.wlen], hlo, ?_, ?_⟩
      · simp only [set_pc]
        rw [hP]
        split_ifs <;> simp [holds_permit] at * <;> omega
      · simp only [set_pc]
        rw [hF]
        split_ifs <;> simp [in_flight] at * <;> omega
    | at_dequeue =>
      simp only at hs
      cases hd : file_processor_dequeue c.server.upload_queue c.server.server_running with
      | none => rw [hd] at hs; cases hs
      | some r =>
        obtain ⟨q1, has⟩ := r
        rw [hd] at hs
        simp only [Option.some.injEq] at hs
        subst hs
        obtain ⟨e1, e2, e3⟩ := file_processor_dequeue_stats _ _ _ _ hd
        refine ⟨h.tables, by simp [set_pc, h.wlen], ?_, ?_, ?_⟩
        · simp only [set_pc]; rw [e1]; exact hlo
        · simp only [set_pc]
          rw [hP, e1]
          simp [holds_permit] at *
          omega
        · simp only [set_pc]
          rw [hF, e2, e3]
          cases has <;> simp [in_flight] at * <;> omega
    | after_dequeue has =>
      cases has with
      | none =>
        simp only [Option.some.injEq] at hs
        subst hs
        refine ⟨h.tables, by simp [set_pc, h.wlen], ?_, ?_, ?_⟩
        · simp only [set_pc, set_semaphore]; omega
        · simp only [set_pc, set_semaphore]
          rw [hP]
          simp [holds_permit] at *
          omega
        · simp only [set_pc, set_semaphore]
          rw [hF]
          simp [in_flight] at *
          omega
      | some tr =>
        simp only at hs
        split_ifs at hs with hrun
        · simp only [Option.some.injEq] at hs
          subst hs
          refine ⟨h.tables, by simp [set_pc, h.wlen], ?_, ?_, ?_⟩
          · simp only [set_pc, set_semaphore]; omega
          · simp only [set_pc, set_semaphore]
            rw [hP]
            simp [holds_permit] at *
            omega
          · simp only [set_pc, set_semaphore]
            rw [hF]
            simp [in_flight] at *
            omega
        · simp only [Option.some.injEq] at hs
          subst hs
          refine ⟨by simpa [set_pc] using h.tables, by simp [set_pc, h.wlen], ?_, ?_, ?_⟩
          · simpa [set_pc] using hlo
          · simp only [set_pc, log_file_wait_duration_upload_queue]
            rw [hP]
            simp [holds_permit] at *
            omega
          · simp only [set_pc, log_file_wait_duration_upload_queue]
            rw [hF]
            simp [in_flight] at *
            omega
    | processing tr =>
      simp only [Option.some.injEq] at hs
      subst hs
      refine ⟨h.tables, by simp [set_pc, h.wlen], hlo, ?_, ?_⟩
      · simp only [set_pc]
        rw [hP]
        simp [holds_permit] at *
        omega
      · simp only [set_pc]
        rw [hF]
        simp [in_flight] at *
        omega
    | at_stats tr =>
      simp only [Option.some.injEq] at hs
      subst hs
      obtain ⟨e1, e2, -, -⟩ := file_processor_update_stats_fields c.server.upload_queue tr.status
      refine ⟨h.tables, by simp [set_pc, h.wlen], ?_, ?_, ?_⟩
      · simp only [set_pc]; rw [e1]; exact hlo
      · simp only [set_pc]
        rw [hP, e1]
        simp [holds_permit] at *
        omega
      · simp only [set_pc]
        rw [hF, e2]
        simp [in_flight] at *
        omega
    | at_notify tr =>
      simp only [Option.some.injEq] at hs
      subst hs
      refine ⟨by simpa [set_pc] using h.tables, by simp [set_pc, h.wlen], ?_, ?_, ?_⟩
      · simpa [set_pc] using hlo
      · simp only [set_pc, notify_transfer_completion_upload_queue]
        rw [hP]
        simp [holds_permit] at *
        omega
      · simp only [set_pc, notify_transfer_completion_upload_queue]
        rw [hF]
        simp [in_flight] at *
        omega
    | at_post =>
      simp only [Option.some.injEq] at hs
      subst hs
      refine ⟨h.tables, by simp [set_pc, h.wlen], ?_, ?_, ?_⟩
      · simp only [set_pc, set_semaphore]; omega
      · simp only [set_pc, set_semaphore]
        rw [hP]
        simp [holds_permit] at *
        omega
      · simp only [set_pc, set_semaphore]
        rw [hF]
        simp [in_flight] at *
        omega
    | exited hp => cases hs

theorem pool_reachable_ok (c : Pool) (h : PoolReachable c) : pool_ok c := by
  induction h with
  | init net => exact pool_ok_initial net
  | step c c1 _ hstep ih =>
    cases hstep with
    | worker k now stat_ok fopen_ok err sem_fail _ hs =>
      exact pool_ok_worker c k now stat_ok fopen_ok err sem_fail c1 ih hs
    | session t hs => exact pool_ok_session c t ih hs

theorem pool_of_reachable (s : Server) (h : Reachable s) : PoolReachable (pool_of s) := by
  induction h with
  | init net => exact PoolReachable.init net
  | step s t _ hstep ih => exact PoolReachable.step _ _ ih (PoolStep.session (pool_of s) t hstep)

theorem demo_command_reachable (s : Server) (buffer : CStr) (h : Reachable s)
    (h1 : (client_at s.clients 0).active = true) (h2 : (client_at s.clients 0).username ≠ [])
    (h3 : ((dispatch s 0 buffer 0).map Prod.snd) = some false) :
    Reachable (demo_command s buffer) := by
  cases hd : dispatch s 0 buffer 0 with
  | none => rw [hd] at h3; cases h3
  | some r =>
    obtain ⟨t, ex⟩ := r
    rw [hd] at h3
    simp only [Option.map_some', Option.some.injEq] at h3
    subst h3
    have e : demo_command s buffer = t := by
      unfold demo_command
      rw [hd]
      rfl
    rw [e]
    exact Reachable.step _ _ h (SessionStep.command s 0 buffer 0 t (by decide) h1 h2 hd)

theorem pool_steps_reachable (c : Pool) (k : Nat) (h : PoolReachable c) :
    ∀ n : Nat, (∀ m, m < n →
      (worker_step (pool_steps c k m) k 0 (fun _ => false) true [] none).isSome = true) →
      PoolReachable (pool_steps c k n) := by
  intro n
  induction n with
  | zero => intro _; exact h
  | succ n ih =>
    intro hen
    have hprev := ih (fun m hm => hen m (by omega))
    have hsome := hen n (by omega)
    cases hw : worker_step (pool_steps c k n) k 0 (fun _ => false) true [] none with
    | none => rw [hw] at hsome; cases hsome
    | some c1 =>
      have e : pool_steps c k (n + 1) = c1 := by
        show (worker_step (pool_steps c k n) k 0 (fun _ => false) true [] none).getD _ = c1
        rw [hw]
        rfl
      rw [e]
      exact PoolReachable.step _ _ hprev (PoolStep.worker _ k 0 _ true [] none c1 hw)

theorem demo_six_sends_reachable : Reachable demo_six_sends := by
  unfold demo_six_sends
  simp only [List.foldl]
  refine demo_command_reachable _ _ (demo_command_reachable _ _ (demo_command_reachable _ _
    (demo_command_reachable _ _ (demo_command_reachable _ _ (demo_command_reachable _ _
      demo_two_sessions_reachable ?_ ?_ ?_) ?_ ?_ ?_) ?_ ?_ ?_) ?_ ?_ ?_) ?_ ?_ ?_) ?_ ?_ ?_
  all_goals decide

theorem demo_five_processing_reachable : PoolReachable demo_five_processing := by
  unfold demo_five_processing
  refine pool_steps_reachable _ 4 (pool_steps_reachable _ 3 (pool_steps_reachable _ 2
    (pool_steps_reachable _ 1 (pool_steps_reachable _ 0
      (pool_of_reachable _ demo_six_sends_reachable) 5 ?_) 5 ?_) 5 ?_) 5 ?_) 5 ?_
  all_goals decide

theorem worker_step_removes (c : Pool) (k : Nat) (now : Int) (stat_ok : CStr → Bool)
    (fopen_ok : Bool) (err : CStr) (sem_fail : Option Bool) (c1 : Pool)
    (hs : worker_step c k now stat_ok fopen_ok err sem_fail = some c1) :
    (c.workers[k]? = some worker_pc.at_dequeue ∧ c1.removed ≤ c.removed + 1 ∧
      c.removed ≤ c1.removed) ∨
    (c.workers[k]? ≠ some worker_pc.at_dequeue ∧ c1.removed = c.removed ∧
      c1.server.upload_queue.front = c.server.upload_queue.front ∧
      c1.server.upload_queue.count = c.server.upload_queue.count ∧
      c1.server.upload_queue.transfers = c.server.upload_queue.transfers) := by
  unfold worker_step at hs
  dsimp only at hs
  cases hk : c.workers[k]? with
  | none => rw [hk] at hs; cases hs
  | some pc =>
    rw [hk] at hs
    cases pc with
    | at_dequeue =>
      left
      refine ⟨rfl, ?_⟩
      simp only at hs
      cases hd : file_processor_dequeue c.server.upload_queue c.server.server_running with
      | none => rw [hd] at hs; cases hs
      | some r =>
        rw [hd] at hs
        simp only [Option.some.injEq] at hs
        subst hs
        simp only [set_pc]
        split_ifs <;> omega
    | at_loop =>
      right
      simp only [Option.some.injEq] at hs
      subst hs
      exact ⟨by simp, rfl, rfl, rfl, rfl⟩
    | at_sem_wait =>
      right
      cases sem_fail with
      | some eintr =>
        simp only [Option.some.injEq] at hs
        subst hs
        exact ⟨by simp, rfl, rfl, rfl, rfl⟩
      | none =>
        simp only at hs
        split_ifs at hs
        simp only [Option.some.injEq] at hs
        subst hs
        exact ⟨by simp, rfl, rfl, rfl, rfl⟩
    | after_sem_wait =>
      right
      simp only [Option.some.injEq] at hs
      subst hs
      exact ⟨by simp, rfl, rfl, rfl, rfl⟩
    | after_dequeue has =>
      right
      cases has with
      | none =>
        simp only [Option.some.injEq] at hs
        subst hs
        exact ⟨by simp, rfl, rfl, rfl, rfl⟩
      | some tr =>
        simp only at hs
        split_ifs at hs
        · simp only [Option.some.injEq] at hs
          subst hs
          exact ⟨by simp, rfl, rfl, rfl, rfl⟩
        · simp only [Option.some.injEq] at hs
          subst hs
          exact ⟨by simp, rfl, by simp [set_pc], by simp [set_pc], by simp [set_pc]⟩
    | processing tr =>
      right
      simp only [Option.some.injEq] at hs
      subst hs
      exact ⟨by simp, rfl, rfl, rfl, rfl⟩
    | at_stats tr =>
      right
      simp only [Option.some.injEq] at hs
      subst hs
      refine ⟨by simp, rfl, ?_, ?_, ?_⟩ <;>
        (simp only [set_pc, file_processor_update_stats]; split_ifs <;> rfl)
    | at_notify tr =>
      right
      simp only [Option.some.injEq] at hs
      subst hs
      exact ⟨by simp, rfl, by simp [set_pc], by simp [set_pc], by simp [set_pc]⟩
    | at_post =>
      right
      simp only [Option.some.injEq] at hs
      subst hs
      exact ⟨by simp, rfl, rfl, rfl, rfl⟩
    | exited hp => cases hs

theorem processing_holds_permit (l : List worker_pc) :
    l.countP is_processing ≤ l.countP holds_permit := by
  apply List.countP_mono_left
  intro pc _ h
  cases pc <;> simp [is_processing, holds_permit] at h ⊢

theorem countP_eq_length_all (p : worker_pc → Bool) (l : List worker_pc)
    (h : l.countP p = l.length) : ∀ x ∈ l, p x = true :=
  List.countP_eq_length.mp h

/-- C22: in every reachable state of the server with its worker pool, the semaphore
value is not negative and makes 5 together with the number of workers that hold a
permit; the workers whose transfer is in Processing state all hold a permit, so they
are at most `5 - value`, at most 5, whatever the queue holds.  A request leaves the
queue only through a worker that stands before the dequeue with a permit in hand; when
five transfers are in Processing no worker stands there, so no step of any worker takes
a request out of the queue or changes it: a sixth request stays queued until a worker
has finished and passed `sem_post` and `sem_wait` again. -/
theorem processing_at_most_five (c : Pool) (h : PoolReachable c) :
    c.workers.length = 5 ∧
    0 ≤ c.server.upload_queue.queue_semaphore ∧
    c.server.upload_queue.queue_semaphore + ((c.workers.countP holds_permit : Nat) : Int) = 5 ∧
    ((c.workers.countP is_processing : Nat) : Int) ≤
      5 - c.server.upload_queue.queue_semaphore ∧
    c.workers.countP is_processing ≤ 5 ∧
    (∀ (k : Nat) (now : Int) (stat_ok : CStr → Bool) (fopen_ok : Bool) (err : CStr)
        (sem_fail : Option Bool) (c1 : Pool),
      worker_step c k now stat_ok fopen_ok err sem_fail = some c1 →
      c1.removed ≠ c.removed →
      c.workers[k]? = some worker_pc.at_dequeue ∧ holds_permit worker_pc.at_dequeue = true ∧
        c1.removed = c.removed + 1) ∧
    (c.workers.countP is_processing = 5 →
      c.server.upload_queue.queue_semaphore = 0 ∧
      ∀ (k : Nat) (now : Int) (stat_ok : CStr → Bool) (fopen_ok : Bool) (err : CStr)
        (sem_fail : Option Bool) (c1 : Pool),
      worker_step c k now stat_ok fopen_ok err sem_fail = some c1 →
      c1.removed = c.removed ∧
      c1.server.upload_queue.front = c.server.upload_queue.front ∧
      c1.server.upload_queue.count = c.server.upload_queue.count ∧
      c1.server.upload_queue.transfers = c.server.upload_queue.transfers) := by
  have hok := pool_reachable_ok c h
  have hlen : c.workers.length = 5 := hok.wlen
  have hle := processing_holds_permit c.workers
  have hperm := hok.permits
  have hlo := hok.sem_lo
  have hcl : c.workers.countP is_processing ≤ c.workers.length := List.countP_le_length _
  refine ⟨hlen, hlo, hperm, by omega, by omega, ?_, ?_⟩
  · intro k now stat_ok fopen_ok err sem_fail c1 hs hne
    rcases worker_step_removes c k now stat_ok fopen_ok err sem_fail c1 hs with
      ⟨h1, h2, h3⟩ | ⟨-, h2, -⟩
    · exact ⟨h1, rfl, by omega⟩
    · exact absurd h2 hne
  · intro h5
    refine ⟨by omega, ?_⟩
    intro k now stat_ok fopen_ok err sem_fail c1 hs
    rcases worker_step_removes c k now stat_ok fopen_ok err sem_fail c1 hs with
      ⟨h1, -, -⟩ | ⟨-, h2⟩
    · exfalso
      have hall := countP_eq_length_all is_processing c.workers (by omega)
      have := hall _ (mem_of_getElem _ _ _ h1)
      simp [is_processing] at this
    · exact h2

/-- The theorem at `demo_five_processing`: six requests were queued, the five workers
each process one (semaphore 0), the sixth (`f6.txt`) is still in the queue in Pending
state and no step of a worker touches it; once worker 0 has finished (statistics,
notification, `sem_post`) and taken the permit again, it processes the sixth. -/
theorem processing_at_most_five_witness :
    PoolReachable demo_five_processing ∧
    demo_five_processing.workers.countP is_processing = 5 ∧
    demo_five_processing.server.upload_queue.queue_semaphore = 0 ∧
    demo_five_processing.server.upload_queue.count = 1 ∧
    ((demo_five_processing.server.upload_queue.transfers[
        demo_five_processing.server.upload_queue.front.toNat]?).map
      (fun t => (t.filename, t.status))) =
      some ("f6.txt".toList, transfer_status_t.TRANSFER_PENDING) ∧
    (∀ (k : Nat) (now : Int) (stat_ok : CStr → Bool) (fopen_ok : Bool) (err : CStr)
        (sem_fail : Option Bool) (c1 : Pool),
      worker_step demo_five_processing k now stat_ok fopen_ok err sem_fail = some c1 →
      c1.server.upload_queue.count = 1 ∧
      c1.server.upload_queue.transfers = demo_five_processing.server.upload_queue.transfers) ∧
    ((pool_steps demo_five_processing 0 4).workers[0]? = some worker_pc.at_loop ∧
      (pool_steps demo_five_processing 0 4).server.upload_queue.queue_semaphore = 1 ∧
      (pool_steps demo_five_processing 0 4).server.upload_queue.count = 1) ∧
    (((pool_steps demo_five_processing 0 9).workers[0]?).map
      (fun pc => match pc with
        | worker_pc.processing t => some (t.filename, t.status)
        | _ => none)) =
      some (some ("f6.txt".toList, transfer_status_t.TRANSFER_PROCESSING)) :=
  ⟨demo_five_processing_reachable, by decide, by decide, by decide, by decide,
    fun k now stat_ok fopen_ok err sem_fail c1 hs =>
      have h := ((processing_at_most_five demo_five_processing
        demo_five_processing_reachable).2.2.2.2.2.2 (by decide)).2
        k now stat_ok fopen_ok err sem_fail c1 hs
      ⟨h.2.2.1.trans (by decide), h.2.2.2⟩,
    by decide, by decide⟩

theorem session_exit_running (s : Server) (i : Nat) (h : tables_ok s.clients s.rooms) :
    (session_exit s i).server_running = s.server_running := by
  unfold session_exit
  by_cases hr : s.server_running = false
  · dsimp only
    rw [if_pos hr, (cleanup_client_tables _ i (by simpa using h)).2.2]
    rfl
  · dsimp only
    rw [if_neg hr]
    exact (cleanup_client_tables _ i h).2.2

theorem session_step_running (s t : Server) (h : tables_ok s.clients s.rooms)
    (hs : SessionStep s t) (ht : t.server_running = true) : s.server_running = true := by
  cases hs with
  | accept fd ip created hfd =>
    rw [← ht]
    unfold accept_connection
    split
    · simp
    · split_ifs <;> rfl
  | login i data hi hact =>
    rw [← ht]
    unfold login_attempt
    dsimp only
    split_ifs <;> simp
  | command i buffer now _ hi hact _ hd =>
    rw [← ht]
    exact ((dispatch_queue s i buffer now t false h hi hact hd).2).symm
  | exit i buffer now t1 hi hact _ hd =>
    have h1 := (dispatch_queue s i buffer now t1 true h hi hact hd).2
    have ht1 := dispatch_tables s i buffer now t1 true h hi hact hd
    rw [← h1, ← session_exit_running t1 i ht1]
    exact ht
  | cleanup i =>
    rw [← session_exit_running s i h]
    exact ht
  | shutdown => cases ht

/-- What one step of a worker does to the flag `server_running`, to the number of
dropped requests and to the list of workers. -/
theorem worker_step_frame (c : Pool) (k : Nat) (now : Int) (stat_ok : CStr → Bool)
    (fopen_ok : Bool) (err : CStr) (sem_fail : Option Bool) (c1 : Pool)
    (hs : worker_step c k now stat_ok fopen_ok err sem_fail = some c1) :
    c1.server.server_running = c.server.server_running ∧
    (c1.dropped = c.dropped ∨ (c.server.server_running = false ∧ c1.dropped = c.dropped + 1)) ∧
    ∃ pc, c1.workers = c.workers.set k pc ∧
      ((∀ tr, pc ≠ worker_pc.at_stats tr) ∨
        ∃ tr, c.workers[k]? = some (worker_pc.processing tr) ∧
          pc = worker_pc.at_stats
            (finish_transfer c.server.server_running stat_ok fopen_ok err now tr)) ∧
      ((∀ tr, pc ≠ worker_pc.at_notify tr) ∨
        ∃ tr, c.workers[k]? = some (worker_pc.at_stats tr) ∧ pc = worker_pc.at_notify tr) := by
  unfold worker_step at hs
  dsimp only at hs
  cases hk : c.workers[k]? with
  | none => rw [hk] at hs; cases hs
  | some pc =>
    rw [hk] at hs
    cases pc with
    | at_dequeue =>
      simp only at hs
      cases hd : file_processor_dequeue c.server.upload_queue c.server.server_running with
      | none => rw [hd] at hs; cases hs
      | some r =>
        rw [hd] at hs
        simp only [Option.some.injEq] at hs
        subst hs
        exact ⟨rfl, Or.inl rfl, _, rfl, Or.inl (fun tr hc => by cases hc),
          Or.inl (fun tr hc => by cases hc)⟩
    | at_loop =>
      simp only [Option.some.injEq] at hs
      subst hs
      refine ⟨rfl, Or.inl rfl, _, rfl, Or.inl ?_, Or.inl ?_⟩ <;>
        (intro tr hc; split_ifs at hc)
    | at_sem_wait =>
      cases sem_fail with
      | some eintr =>
        simp only [Option.some.injEq] at hs
        subst hs
        refine ⟨rfl, Or.inl rfl, _, rfl, Or.inl ?_, Or.inl ?_⟩ <;>
          (intro tr hc; split_ifs at hc)
      | none =>
        simp only at hs
        split_ifs at hs
        simp only [Option.some.injEq] at hs
        subst hs
        exact ⟨rfl, Or.inl rfl, _, rfl, Or.inl (fun tr hc => by cases hc),
          Or.inl (fun tr hc => by cases hc)⟩
    | after_sem_wait =>
      simp only [Option.some.injEq] at hs
      subst hs
      refine ⟨rfl, Or.inl rfl, _, rfl, Or.inl ?_, Or.inl ?_⟩ <;>
        (intro tr hc; split_ifs at hc)
    | after_dequeue has =>
      cases has with
      | none =>
        simp only [Option.some.injEq] at hs
        subst hs
        exact ⟨rfl, Or.inl rfl, _, rfl, Or.inl (fun tr hc => by cases hc),
          Or.inl (fun tr hc => by cases hc)⟩
      | some tr =>
        simp only at hs
        by_cases hr : c.server.server_running = false
        · rw [if_pos hr] at hs
          simp only [Option.some.injEq] at hs
          subst hs
          exact ⟨rfl, Or.inr ⟨hr, rfl⟩, _, rfl, Or.inl (fun tr hc => by cases hc),
            Or.inl (fun tr hc => by cases hc)⟩
        · rw [if_neg hr] at hs
          simp only [Option.some.injEq] at hs
          subst hs
          exact ⟨by simp [set_pc], Or.inl rfl, _, rfl, Or.inl (fun tr hc => by cases hc),
            Or.inl (fun tr hc => by cases hc)⟩
    | processing tr =>
      simp only [Option.some.injEq] at hs
      subst hs
      exact ⟨rfl, Or.inl rfl, _, rfl, Or.inr ⟨tr, rfl, rfl⟩,
        Or.inl (fun tr hc => by cases hc)⟩
    | at_stats tr =>
      simp only [Option.some.injEq] at hs
      subst hs
      refine ⟨?_, Or.inl rfl, _, rfl, Or.inl (fun tr hc => by cases hc),
        Or.inr ⟨tr, rfl, rfl⟩⟩
      simp only [set_pc]
    | at_notify tr =>
      simp only [Option.some.injEq] at hs
      subst hs
      exact ⟨by simp [set_pc], Or.inl rfl, _, rfl, Or.inl (fun tr hc => by cases hc),
        Or.inl (fun tr hc => by cases hc)⟩
    | at_post =>
      simp only [Option.some.injEq] at hs
      subst hs
      exact ⟨rfl, Or.inl rfl, _, rfl, Or.inl (fun tr hc => by cases hc),
        Or.inl (fun tr hc => by cases hc)⟩
    | exited hp => cases hs

theorem finish_transfer_status (running : Bool) (stat_ok : CStr → Bool) (fopen_ok : Bool)
    (err : CStr) (now : Int) (tr : file_transfer_t) :
    ((finish_transfer running stat_ok fopen_ok err now tr).status =
        transfer_status_t.TRANSFER_COMPLETED ↔ running = true ∧ fopen_ok = true) ∧
    ((finish_transfer running stat_ok fopen_ok err now tr).status =
        transfer_status_t.TRANSFER_FAILED ↔ ¬ (running = true ∧ fopen_ok = true)) := by
  cases running <;> cases fopen_ok <;> simp [finish_transfer]

/-- While the server runs no request has been dropped, and every transfer held at the
statistics update or at the notification is Completed or Failed. -/
theorem pool_reachable_terminal (c : Pool) (h : PoolReachable c) :
    (c.server.server_running = true → c.dropped = 0) ∧
    ∀ pc ∈ c.workers, terminal_pc pc = true := by
  induction h with
  | init net =>
    refine ⟨fun _ => rfl, ?_⟩
    intro pc hpc
    have : pc = worker_pc.at_loop := List.eq_of_mem_replicate hpc
    subst this
    rfl
  | step c c1 hreach hstep ih =>
    cases hstep with
    | session t hs =>
      refine ⟨fun hr => ?_, ih.2⟩
      exact ih.1 (session_step_running _ _ (pool_reachable_ok c hreach).tables hs hr)
    | worker k now stat_ok fopen_ok err sem_fail _ hs =>
      obtain ⟨hrun, hdrop, pc, hw, hst, hno⟩ :=
        worker_step_frame c k now stat_ok fopen_ok err sem_fail c1 hs
      refine ⟨fun hr => ?_, ?_⟩
      · rw [hrun] at hr
        rcases hdrop with hd | ⟨hf, _⟩
        · rw [hd]; exact ih.1 hr
        · rw [hf] at hr; cases hr
      · intro x hx
        rw [hw] at hx
        rcases List.mem_or_eq_of_mem_set hx with hx | hx
        · exact ih.2 x hx
        · subst hx
          cases hx : x with
          | at_stats tr =>
            rcases hst with hst | ⟨tr0, -, he⟩
            · exact absurd hx (hst tr)
            · rw [hx] at he
              cases he
              have := finish_transfer_status c.server.server_running stat_ok fopen_ok err now tr0
              unfold terminal_pc
              by_cases hc : c.server.server_running = true ∧ fopen_ok = true
              · simp [this.1.mpr hc]
              · simp [this.2.mpr hc]
          | at_notify tr =>
            rcases hno with hno | ⟨tr0, hk0, he⟩
            · exact absurd hx (hno tr)
            · rw [hx] at he
              cases he
              exact ih.2 (worker_pc.at_stats tr) (mem_of_getElem _ _ _ hk0)
          | _ => rfl

theorem worker_step_counters (c : Pool) (k : Nat) (now : Int) (stat_ok : CStr → Bool)
    (fopen_ok : Bool) (err : CStr) (sem_fail : Option Bool) (c1 : Pool)
    (hs : worker_step c k now stat_ok fopen_ok err sem_fail = some c1) :
    c.server.upload_queue.total_processed ≤ c1.server.upload_queue.total_processed ∧
    c.server.upload_queue.total_failed ≤ c1.server.upload_queue.total_failed := by
  unfold worker_step at hs
  dsimp only at hs
  cases hk : c.workers[k]? with
  | none => rw [hk] at hs; cases hs
  | some pc =>
    rw [hk] at hs
    cases pc with
    | at_dequeue =>
      simp only at hs
      cases hd : file_processor_dequeue c.server.upload_queue c.server.server_running with
      | none => rw [hd] at hs; cases hs
      | some r =>
        rw [hd] at hs
        simp only [Option.some.injEq] at hs
        subst hs
        have := file_processor_dequeue_stats _ _ _ _ hd
        simp only [set_pc]
        omega
    | at_loop =>
      simp only [Option.some.injEq] at hs
      subst hs
      exact ⟨le_refl _, le_refl _⟩
    | at_sem_wait =>
      cases sem_fail with
      | some eintr =>
        simp only [Option.some.injEq] at hs
        subst hs
        exact ⟨le_refl _, le_refl _⟩
      | none =>
        simp only at hs
        split_ifs at hs
        simp only [Option.some.injEq] at hs
        subst hs
        exact ⟨le_refl _, le_refl _⟩
    | after_sem_wait =>
      simp only [Option.some.injEq] at hs
      subst hs
      exact ⟨le_refl _, le_refl _⟩
    | after_dequeue has =>
      cases has with
      | none =>
        simp only [Option.some.injEq] at hs
        subst hs
        exact ⟨le_refl _, le_refl _⟩
      | some tr =>
        simp only at hs
        split_ifs at hs
        · simp only [Option.some.injEq] at hs
          subst hs
          exact ⟨le_refl _, le_refl _⟩
        · simp only [Option.some.injEq] at hs
          subst hs
          simp [set_pc]
    | processing tr =>
      simp only [Option.some.injEq] at hs
      subst hs
      exact ⟨le_refl _, le_refl _⟩
    | at_stats tr =>
      simp only [Option.some.injEq] at hs
      subst hs
      have := file_processor_update_stats_fields c.server.upload_queue tr.status
      exact ⟨this.2.2.1, this.2.2.2⟩
    | at_notify tr =>
      simp only [Option.some.injEq] at hs
      subst hs
      simp [set_pc]
    | at_post =>
      simp only [Option.some.injEq] at hs
      subst hs
      exact ⟨le_refl _, le_refl _⟩
    | exited hp => cases hs

theorem worker_step_processing (c : Pool) (k : Nat) (now : Int) (stat_ok : CStr → Bool)
    (fopen_ok : Bool) (err : CStr) (sem_fail : Option Bool) (tr : file_transfer_t)
    (hk : c.workers[k]? = some (worker_pc.processing tr)) :
    worker_step c k now stat_ok fopen_ok err sem_fail =
      some (set_pc c k (worker_pc.at_stats
        (finish_transfer c.server.server_running stat_ok fopen_ok err now tr))) := by
  unfold worker_step
  dsimp only
  rw [hk]

theorem worker_step_at_stats (c : Pool) (k : Nat) (now : Int) (stat_ok : CStr → Bool)
    (fopen_ok : Bool) (err : CStr) (sem_fail : Option Bool) (tr : file_transfer_t)
    (hk : c.workers[k]? = some (worker_pc.at_stats tr)) :
    worker_step c k now stat_ok fopen_ok err sem_fail =
      some (set_pc
        { c with server := { c.server with upload_queue := (file_processor_update_stats
            c.server.upload_queue tr.status) } } k (worker_pc.at_notify tr)) := by
  unfold worker_step
  dsimp only
  rw [hk]

theorem worker_step_at_notify (c : Pool) (k : Nat) (now : Int) (stat_ok : CStr → Bool)
    (fopen_ok : Bool) (err : CStr) (sem_fail : Option Bool) (tr : file_transfer_t)
    (hk : c.workers[k]? = some (worker_pc.at_notify tr)) :
    worker_step c k now stat_ok fopen_ok err sem_fail =
      some (set_pc { c with server := notify_transfer_completion c.server tr } k
        worker_pc.at_post) := by
  unfold worker_step
  dsimp only
  rw [hk]

theorem worker_step_at_post (c : Pool) (k : Nat) (now : Int) (stat_ok : CStr → Bool)
    (fopen_ok : Bool) (err : CStr) (sem_fail : Option Bool)
    (hk : c.workers[k]? = some worker_pc.at_post) :
    worker_step c k now stat_ok fopen_ok err sem_fail =
      some (set_pc
        { c with server := (set_semaphore c.server (c.server.upload_queue.queue_semaphore + 1)) }
        k worker_pc.at_loop) := by
  unfold worker_step
  dsimp only
  rw [hk]

theorem worker_step_at_loop (c : Pool) (k : Nat) (now : Int) (stat_ok : CStr → Bool)
    (fopen_ok : Bool) (err : CStr) (sem_fail : Option Bool)
    (hk : c.workers[k]? = some worker_pc.at_loop) :
    worker_step c k now stat_ok fopen_ok err sem_fail =
      some (set_pc c k (if c.server.server_running = true then worker_pc.at_sem_wait
        else worker_pc.exited false)) := by
  unfold worker_step
  dsimp only
  rw [hk]

theorem set_pc_at (c : Pool) (k : Nat) (pc pc0 : worker_pc) (hk : c.workers[k]? = some pc0) :
    (set_pc c k pc).workers[k]? = some pc := by
  have hlt : k < c.workers.length := by
    by_contra hn
    rw [List.getElem?_eq_none (by omega)] at hk
    cases hk
  simp only [set_pc]
  rw [List.getElem?_set_eq_of_lt _ hlt]

theorem demo_one_send_reachable : Reachable demo_one_send :=
  demo_command_reachable _ _ demo_two_sessions_reachable (by decide) (by decide) (by decide)

theorem demo_taken_reachable : PoolReachable demo_taken :=
  pool_steps_reachable _ 0 (pool_of_reachable _ demo_one_send_reachable) 4 (by decide)

theorem demo_dropped_reachable : PoolReachable demo_dropped :=
  pool_steps_reachable _ 0
    (PoolReachable.step _ _ demo_taken_reachable
      (PoolStep.session demo_taken _ (SessionStep.shutdown demo_taken.server))) 1 (by decide)

/-- C23, counterexample: in the reachable state `demo_dropped` one request was taken out
of the queue by worker 0, `server_running` was cleared before the test of line 483, and
the worker gave the request up: it is back at the head of its loop, no transfer is in
progress, one transfer was removed, both counters are 0 and nothing was sent. -/
theorem dropped_transfer_not_counted :
    PoolReachable demo_dropped ∧
    demo_taken.workers[0]? =
      some (worker_pc.after_dequeue
        ((demo_one_send.upload_queue.transfers[0]?).map (fun t => t))) ∧
    ((demo_one_send.upload_queue.transfers[0]?).map (fun t => t.filename)) =
      some "f1.txt".toList ∧
    demo_dropped.workers = List.replicate 5 worker_pc.at_loop ∧
    demo_dropped.removed = 1 ∧
    demo_dropped.workers.countP in_flight = 0 ∧
    demo_dropped.server.upload_queue.count = 0 ∧
    demo_dropped.server.upload_queue.total_processed = 0 ∧
    demo_dropped.server.upload_queue.total_failed = 0 ∧
    demo_dropped.server.sent = demo_one_send.sent :=
  ⟨demo_dropped_reachable, by decide, by decide, by decide, by decide, by decide, by decide,
    by decide, by decide, by decide⟩

/-- C23, amended: in every reachable state of the server with its worker pool,
`total_processed + total_failed`, plus the number of requests that a worker took out of
the queue and gave up at the test of line 483 because `server_running` had been cleared,
plus the number of transfers in progress, is the number of requests removed from the
queue; while `server_running` is set nothing has been given up.  The step of a worker
at the statistics update sends nothing, adds one to `total_processed` when its transfer
is Completed and one to `total_failed` when it is Failed (one of the two holds), leaves
the other counter as it is and brings the worker to the notification, which is the next
step of that worker and leaves the counters as they are.  No step of a worker or of a
session decreases a counter. -/
theorem transfer_counters (c : Pool) (h : PoolReachable c) :
    c.server.upload_queue.total_processed + c.server.upload_queue.total_failed +
        (c.dropped : Int) + ((c.workers.countP in_flight : Nat) : Int) = (c.removed : Int) ∧
    (c.server.server_running = true →
      c.server.upload_queue.total_processed + c.server.upload_queue.total_failed +
        ((c.workers.countP in_flight : Nat) : Int) = (c.removed : Int)) ∧
    (∀ (k : Nat) (now : Int) (stat_ok : CStr → Bool) (fopen_ok : Bool) (err : CStr)
        (sem_fail : Option Bool) (tr : file_transfer_t),
      c.workers[k]? = some (worker_pc.at_stats tr) →
      ∃ c1, worker_step c k now stat_ok fopen_ok err sem_fail = some c1 ∧
        c1.workers[k]? = some (worker_pc.at_notify tr) ∧
        c1.server.sent = c.server.sent ∧
        ((tr.status = transfer_status_t.TRANSFER_COMPLETED ∧
            c1.server.upload_queue.total_processed =
              c.server.upload_queue.total_processed + 1 ∧
            c1.server.upload_queue.total_failed = c.server.upload_queue.total_failed) ∨
          (tr.status = transfer_status_t.TRANSFER_FAILED ∧
            c1.server.upload_queue.total_failed = c.server.upload_queue.total_failed + 1 ∧
            c1.server.upload_queue.total_processed =
              c.server.upload_queue.total_processed))) ∧
    (∀ (k : Nat) (now : Int) (stat_ok : CStr → Bool) (fopen_ok : Bool) (err : CStr)
        (sem_fail : Option Bool) (tr : file_transfer_t),
      c.workers[k]? = some (worker_pc.at_notify tr) →
      ∃ c1, worker_step c k now stat_ok fopen_ok err sem_fail = some c1 ∧
        c1.workers[k]? = some worker_pc.at_post ∧
        c1.server = notify_transfer_completion c.server tr ∧
        c1.server.upload_queue = c.server.upload_queue) ∧
    (∀ c1, PoolStep c c1 →
      c.server.upload_queue.total_processed ≤ c1.server.upload_queue.total_processed ∧
      c.server.upload_queue.total_failed ≤ c1.server.upload_queue.total_failed) := by
  have hok := pool_reachable_ok c h
  have hterm := pool_reachable_terminal c h
  refine ⟨hok.counted, ?_, ?_, ?_, ?_⟩
  · intro hr
    have h0 := hterm.1 hr
    have hc := hok.counted
    rw [h0] at hc
    simpa using hc
  · intro k now stat_ok fopen_ok err sem_fail tr hk
    have hst := hterm.2 _ (mem_of_getElem _ _ _ hk)
    refine ⟨_, worker_step_at_stats c k now stat_ok fopen_ok err sem_fail tr hk,
      set_pc_at _ k _ _ hk, rfl, ?_⟩
    simp only [terminal_pc, decide_eq_true_eq] at hst
    simp only [set_pc, file_processor_update_stats]
    rcases hst with hst | hst
    · left
      rw [if_pos hst]
      exact ⟨hst, rfl, rfl⟩
    · right
      rw [if_neg (by rw [hst]; decide)]
      exact ⟨hst, rfl, rfl⟩
  · intro k now stat_ok fopen_ok err sem_fail tr hk
    refine ⟨_, worker_step_at_notify c k now stat_ok fopen_ok err sem_fail tr hk,
      set_pc_at _ k _ _ hk, rfl, ?_⟩
    simp only [set_pc, notify_transfer_completion_upload_queue]
  · intro c1 hstep
    cases hstep with
    | session t hs =>
      have hq := session_step_queue _ _ hok.tables hs
      exact ⟨le_of_eq hq.2.1.symm, le_of_eq hq.2.2.1.symm⟩
    | worker k now stat_ok fopen_ok err sem_fail _ hs =>
      have hq := worker_step_counters c k now stat_ok fopen_ok err sem_fail c1 hs
      exact hq

/-- The theorem at the state that follows `demo_five_processing` when worker 0 has
finished its transfer and updated the statistics: one transfer is counted as processed,
four are in progress, five were removed from the queue. -/
theorem transfer_counters_witness :
    PoolReachable (pool_steps demo_five_processing 0 2) ∧
    (pool_steps demo_five_processing 0 2).server.server_running = true ∧
    (pool_steps demo_five_processing 0 2).server.upload_queue.total_processed = 1 ∧
    (pool_steps demo_five_processing 0 2).server.upload_queue.total_failed = 0 ∧
    (pool_steps demo_five_processing 0 2).workers.countP in_flight = 4 ∧
    (pool_steps demo_five_processing 0 2).removed = 5 ∧
    (pool_steps demo_five_processing 0 2).server.upload_queue.total_processed +
        (pool_steps demo_five_processing 0 2).server.upload_queue.total_failed +
        (((pool_steps demo_five_processing 0 2).workers.countP in_flight : Nat) : Int) =
      ((pool_steps demo_five_processing 0 2).removed : Int) :=
  ⟨pool_steps_reachable _ 0 demo_five_processing_reachable 2 (by decide), by decide,
    by decide, by decide, by decide, by decide,
    (transfer_counters (pool_steps demo_five_processing 0 2)
      (pool_steps_reachable _ 0 demo_five_processing_reachable 2 (by decide))).2.1
      (by decide)⟩

theorem notify_failed_new_sends (s : Server) (t : file_transfer_t)
    (h : t.status ≠ transfer_status_t.TRANSFER_COMPLETED) :
    new_sends s (notify_transfer_completion s t) =
      if slot_active s t.sender_idx then
        [(some t.sender_idx.toNat,
          snprintf MAX_MSG_LEN
            (SERVER_RESPONSE_ERROR ++ "File transfer failed: ".toList ++ t.error_message))]
      else [] := by
  have hr : completion_receiver_msg t = [] := by
    unfold completion_receiver_msg
    rw [if_neg h]
  have hm : completion_sender_msg t = snprintf MAX_MSG_LEN
      (SERVER_RESPONSE_ERROR ++ "File transfer failed: ".toList ++ t.error_message) := by
    unfold completion_sender_msg
    rw [if_neg h]
  unfold notify_transfer_completion
  dsimp only
  rw [hr, hm, if_neg (fun hc => hc.1 rfl)]
  by_cases hs : slot_active s t.sender_idx
  · have hs1 := hs
    unfold slot_active at hs1
    rw [if_pos hs, if_pos hs1, new_sends_send _ _ _ _ _ (le_refl _), new_sends_self]
    rfl
  · have hs1 := hs
    unfold slot_active at hs1
    rw [if_neg hs, if_neg hs1, new_sends_self]

theorem finish_transfer_error (running : Bool) (stat_ok : CStr → Bool) (fopen_ok : Bool)
    (err : CStr) (now : Int) (tr : file_transfer_t) :
    (running = false →
      (finish_transfer running stat_ok fopen_ok err now tr).error_message =
        "Server shutdown during transfer".toList) ∧
    (running = true → fopen_ok = false →
      (finish_transfer running stat_ok fopen_ok err now tr).error_message =
        snprintf 256 ("Failed to create file: ".toList ++ err)) ∧
    (finish_transfer running stat_ok fopen_ok err now tr).sender_idx = tr.sender_idx := by
  cases running <;> cases fopen_ok <;> simp [finish_transfer] <;> decide

/-- C24: the step of a worker that processes `tr` ends the transfer in the state
`finish_transfer`: Completed exactly when `server_running` is still set after the delay
and `fopen` of the artifact succeeded, Failed otherwise, with the text "Server shutdown
during transfer" when the flag was cleared and "Failed to create file: " followed by the
text of the error (cut to 255 bytes) when `fopen` failed.  For a Failed transfer the
notification sends one message "ERROR:File transfer failed: ..." to the slot of the
sender when that slot is active, and no other message.  From the statistics update the
worker always goes on: to the notification, to `sem_post` and to the head of its loop,
where it takes the next turn when `server_running` is set and returns when it is not. -/
theorem transfer_outcome (c : Pool) (k : Nat) (tr : file_transfer_t) (now : Int)
    (stat_ok : CStr → Bool) (fopen_ok : Bool) (err : CStr) (sem_fail : Option Bool)
    (hk : c.workers[k]? = some (worker_pc.processing tr)) :
    (∃ c1, worker_step c k now stat_ok fopen_ok err sem_fail = some c1 ∧
      c1.workers[k]? = some (worker_pc.at_stats
        (finish_transfer c.server.server_running stat_ok fopen_ok err now tr)) ∧
      c1.server = c.server) ∧
    ((finish_transfer c.server.server_running stat_ok fopen_ok err now tr).status =
        transfer_status_t.TRANSFER_COMPLETED ↔
      c.server.server_running = true ∧ fopen_ok = true) ∧
    ((finish_transfer c.server.server_running stat_ok fopen_ok err now tr).status =
        transfer_status_t.TRANSFER_FAILED ↔
      ¬ (c.server.server_running = true ∧ fopen_ok = true)) ∧
    (c.server.server_running = false →
      (finish_transfer c.server.server_running stat_ok fopen_ok err now tr).error_message =
        "Server shutdown during transfer".toList) ∧
    (c.server.server_running = true → fopen_ok = false →
      (finish_transfer c.server.server_running stat_ok fopen_ok err now tr).error_message =
        snprintf 256 ("Failed to create file: ".toList ++ err)) ∧
    ((finish_transfer c.server.server_running stat_ok fopen_ok err now tr).status =
        transfer_status_t.TRANSFER_FAILED →
      ∀ s : Server,
        new_sends s (notify_transfer_completion s
          (finish_transfer c.server.server_running stat_ok fopen_ok err now tr)) =
        if slot_active s tr.sender_idx then
          [(some tr.sender_idx.toNat,
            snprintf MAX_MSG_LEN
              (SERVER_RESPONSE_ERROR ++ "File transfer failed: ".toList ++
                (finish_transfer c.server.server_running stat_ok fopen_ok err now
                  tr).error_message))]
        else []) ∧
    (∀ (d : Pool) (t : file_transfer_t) (now1 : Int) (stat_ok1 : CStr → Bool)
        (fopen_ok1 : Bool) (err1 : CStr) (sem_fail1 : Option Bool),
      (d.workers[k]? = some (worker_pc.at_stats t) →
        ∃ d1, worker_step d k now1 stat_ok1 fopen_ok1 err1 sem_fail1 = some d1 ∧
          d1.workers[k]? = some (worker_pc.at_notify t)) ∧
      (d.workers[k]? = some (worker_pc.at_notify t) →
        ∃ d1, worker_step d k now1 stat_ok1 fopen_ok1 err1 sem_fail1 = some d1 ∧
          d1.workers[k]? = some worker_pc.at_post ∧
          d1.server = notify_transfer_completion d.server t) ∧
      (d.workers[k]? = some worker_pc.at_post →
        ∃ d1, worker_step d k now1 stat_ok1 fopen_ok1 err1 sem_fail1 = some d1 ∧
          d1.workers[k]? = some worker_pc.at_loop) ∧
      (d.workers[k]? = some worker_pc.at_loop →
        ∃ d1, worker_step d k now1 stat_ok1 fopen_ok1 err1 sem_fail1 = some d1 ∧
          d1.workers[k]? = some (if d.server.server_running = true then worker_pc.at_sem_wait
            else worker_pc.exited false))) := by
  have hst := finish_transfer_status c.server.server_running stat_ok fopen_ok err now tr
  have her := finish_transfer_error c.server.server_running stat_ok fopen_ok err now tr
  refine ⟨⟨_, worker_step_processing c k now stat_ok fopen_ok err sem_fail tr hk,
    set_pc_at _ k _ _ hk, rfl⟩, hst.1, hst.2, her.1, her.2.1, ?_, ?_⟩
  · intro hf s
    have hne : (finish_transfer c.server.server_running stat_ok fopen_ok err now tr).status ≠
        transfer_status_t.TRANSFER_COMPLETED := by
      rw [hf]
      decide
    have h := notify_failed_new_sends s _ hne
    rw [her.2.2] at h
    exact h
  · intro d t now1 stat_ok1 fopen_ok1 err1 sem_fail1
    refine ⟨fun hd => ?_, fun hd => ?_, fun hd => ?_, fun hd => ?_⟩
    · exact ⟨_, worker_step_at_stats d k now1 stat_ok1 fopen_ok1 err1 sem_fail1 t hd,
        set_pc_at _ k _ _ hd⟩
    · exact ⟨_, worker_step_at_notify d k now1 stat_ok1 fopen_ok1 err1 sem_fail1 t hd,
        set_pc_at _ k _ _ hd, rfl⟩
    · exact ⟨_, worker_step_at_post d k now1 stat_ok1 fopen_ok1 err1 sem_fail1 hd,
        set_pc_at _ k _ _ hd⟩
    · exact ⟨_, worker_step_at_loop d k now1 stat_ok1 fopen_ok1 err1 sem_fail1 hd,
        set_pc_at _ k _ _ hd⟩

/-- The theorem at worker 0 of `demo_five_processing`, whose transfer is the file
`f1.txt` from "A" (slot 0) to "B", when `fopen` fails with "Permission denied": the
transfer ends Failed and the one message of the notification goes to slot 0. -/
theorem transfer_outcome_witness :
    demo_five_processing.workers[0]? = some (worker_pc.processing demo_first_transfer) ∧
    demo_first_transfer.filename = "f1.txt".toList ∧
    demo_first_transfer.sender_idx = 0 ∧
    (finish_transfer demo_five_processing.server.server_running (fun _ => false) false
      "Permission denied".toList 7 demo_first_transfer).status =
        transfer_status_t.TRANSFER_FAILED ∧
    new_sends demo_five_processing.server
      (notify_transfer_completion demo_five_processing.server
        (finish_transfer demo_five_processing.server.server_running (fun _ => false) false
          "Permission denied".toList 7 demo_first_transfer)) =
      [(some 0,
        "ERROR:File transfer failed: Failed to create file: Permission denied".toList)] :=
  ⟨by decide, by decide, by decide,
    (transfer_outcome demo_five_processing 0 demo_first_transfer 7 (fun _ => false) false
      "Permission denied".toList none (by decide)).2.2.1.mpr (by decide),
    ((transfer_outcome demo_five_processing 0 demo_first_transfer 7 (fun _ => false) false
      "Permission denied".toList none (by decide)).2.2.2.2.2.1 (by decide)
        demo_five_processing.server).trans (by decide)⟩

theorem demo_slot_reused_reachable : Reachable demo_slot_reused := by
  unfold demo_slot_reused
  exact Reachable.step _ _ (Reachable.step _ _ (Reachable.step _ _ demo_one_send_reachable
    (SessionStep.cleanup _ 1))
    (SessionStep.accept _ 9 _ true (by decide)))
    (SessionStep.login _ 1 _ (by decide) (by decide))

theorem demo_before_notify_reachable : PoolReachable demo_before_notify :=
  pool_steps_reachable _ 0 (pool_of_reachable _ demo_slot_reused_reachable) 7 (by decide)

/-- C29: the completion notification is addressed by the slot index recorded in the
request.  In the reachable state `demo_before_notify` the request of "A" for "B" was
queued while "B" held slot 1, then the session of "B" ended and a new session logged in
as "C" in slot 1; worker 0 holds the Completed transfer, whose `receiver_username` is
"B" and whose `receiver_idx` is 1, and its next step sends the FILE_NOTIFY message to
slot 1, the session of "C". -/
theorem notification_by_slot_index :
    PoolReachable demo_before_notify ∧
    (client_at demo_one_send.clients 1).username = "B".toList ∧
    ((demo_one_send.upload_queue.transfers[0]?).map
      (fun t => (t.receiver_username, t.receiver_idx))) = some ("B".toList, 1) ∧
    (client_at demo_before_notify.server.clients 1).active = true ∧
    (client_at demo_before_notify.server.clients 1).username = "C".toList ∧
    (client_at demo_before_notify.server.clients 1).sockfd = 9 ∧
    (∃ tr c1, demo_before_notify.workers[0]? = some (worker_pc.at_notify tr) ∧
      tr.status = transfer_status_t.TRANSFER_COMPLETED ∧
      tr.receiver_username = "B".toList ∧ tr.receiver_idx = 1 ∧
      tr.receiver_username ≠ (client_at demo_before_notify.server.clients 1).username ∧
      worker_step demo_before_notify 0 0 (fun _ => false) true [] none = some c1 ∧
      c1.server = notify_transfer_completion demo_before_notify.server tr ∧
      new_sends demo_before_notify.server c1.server =
        [(some 0,
          "OK:File 'f1.txt' sent successfully to 'B' (processed in 0.0 seconds).".toList),
         (some 1,
          "FILE_NOTIFY:You received file 'f1.txt' from 'A' (size: 10 bytes)".toList)] ∧
      (c1.server.sent.getLast?).map (fun m => (m.to_idx, m.sockfd, m.ok)) =
        some (some 1, 9, true)) := by
  refine ⟨demo_before_notify_reachable, by decide, by decide, by decide, by decide,
    by decide, ?_⟩
  refine ⟨(match demo_before_notify.workers[0]? with
      | some (worker_pc.at_notify transfer) => transfer
      | _ => zero_transfer),
    pool_steps demo_before_notify 0 1, by decide, by decide, by decide, by decide,
    by decide, by decide, by decide, by decide, by decide⟩

theorem login_attempt_split (s : Server) (i : Nat) (data : List Char) :
    login_attempt s i data =
      (login_reply (login_locked s i (cut_crlf (c_str data))).1 i
        (login_locked s i (cut_crlf (c_str data))).2,
       (login_locked s i (cut_crlf (c_str data))).2) := by
  unfold login_attempt login_locked login_reply
  dsimp only
  by_cases h : is_username_valid_and_unique s.clients (cut_crlf (c_str data)) ≠ 0
  · rw [if_pos h, if_pos h]
    rfl
  · rw [if_neg h, if_neg h]
    rfl

theorem username_check_taken (clients : List client_t) (u : CStr) (c : client_t)
    (hc : c ∈ clients) (hact : c.active = true) (hu : c.username = u) (hne : u ≠ []) :
    is_username_valid_and_unique clients u = 0 := by
  unfold is_username_valid_and_unique
  split_ifs with h1 h2 h3
  · rfl
  · rfl
  · rfl
  · exfalso
    apply h3
    rw [List.any_eq_true]
    exact ⟨c, hc, by simp [hact, hu, hne]⟩

theorem expected_login_reply_ok (u : CStr) (h : u.length ≤ MAX_USERNAME_LEN) :
    snprintf MAX_MSG_LEN (SERVER_RESPONSE_OK ++ "Welcome, ".toList ++ u ++ "!".toList) =
      expected_login_reply u true := by
  unfold snprintf expected_login_reply
  rw [if_pos rfl]
  apply List.take_of_length_le
  simp only [List.length_append]
  have : MAX_USERNAME_LEN = 16 := rfl
  have h1 : SERVER_RESPONSE_OK.length = 3 := rfl
  have h2 : "Welcome, ".toList.length = 9 := rfl
  have h3 : "!".toList.length = 1 := rfl
  have h4 : MAX_MSG_LEN = 1024 := rfl
  omega

theorem expected_login_reply_error (u : CStr) :
    snprintf MAX_MSG_LEN
      (SERVER_RESPONSE_ERROR ++ "Username invalid (max ".toList ++ fmt_d MAX_USERNAME_LEN ++
        " chars, alphanumeric) or already taken.".toList) =
      expected_login_reply u false := by
  unfold expected_login_reply
  rw [if_neg (by decide)]
  decide

theorem sends_to_send (s t : Server) (i k : Nat) (fd : Int) (text : CStr)
    (h : s.sent.length ≤ t.sent.length) :
    sends_to s (send t (some i) fd text).1 k =
      sends_to s t k ++ (if i = k then [(some i, text)] else []) := by
  unfold sends_to
  rw [new_sends_send s t (some i) fd text h, List.filter_append]
  congr 1
  by_cases hik : i = k
  · subst hik
    simp
  · simp [hik]

theorem sends_to_same_sent (s t t1 : Server) (i : Nat) (h : t1.sent = t.sent) :
    sends_to s t1 i = sends_to s t i := by
  unfold sends_to new_sends
  rw [h]

theorem thread_ok_sends (s t t1 : Server) (u : CStr) (w i : Nat) (pc : login_pc)
    (h : thread_ok s t u w i pc) (he : sends_to s t1 i = sends_to s t i) :
    thread_ok s t1 u w i pc := by
  unfold thread_ok at h ⊢
  rw [he]
  exact h

theorem nodup_index (slots : List Nat) (hn : slots.Nodup) (j k i : Nat)
    (hj : slots[j]? = some i) (hk : slots[k]? = some i) : j = k := by
  have hlt : j < slots.length := by
    by_contra hc
    rw [List.getElem?_eq_none (by omega)] at hj
    cases hj
  exact List.getElem?_inj hlt hn (hj.trans hk.symm)

theorem login_inv_start (s : Server) (slots : List Nat) (u : CStr) :
    login_inv s slots u (login_start s slots) where
  len := by simp [login_start]
  sent_le := le_refl _
  only := by
    intro m hm
    have : new_sends s (login_start s slots).server = [] := new_sends_self s
    rw [this] at hm
    cases hm
  state := by
    left
    refine ⟨rfl, ?_⟩
    intro pc hpc
    simp only [login_start, List.mem_map] at hpc
    obtain ⟨_, _, h⟩ := hpc
    exact h.symm

theorem login_locked_taken (s t : Server) (u : CStr) (w i : Nat)
    (hlen : s.clients.length = MAX_CLIENTS_GLOBAL) (hw : w < MAX_CLIENTS_GLOBAL)
    (hact : (client_at s.clients w).active = true) (hne : u ≠ [])
    (ht : t.clients = s.clients.set w { client_at s.clients w with username := u }) :
    login_locked t i u = (t, false) := by
  unfold login_locked
  have hmem : ({ client_at s.clients w with username := u } : client_t) ∈ t.clients := by
    rw [ht]
    apply mem_of_getElem _ w
    rw [List.getElem?_set_eq_of_lt _ (by omega)]
  have h0 := username_check_taken t.clients u _ hmem hact rfl hne
  rw [if_neg (by rw [h0]; decide)]

theorem login_reply_expected (s t : Server) (u : CStr) (w i : Nat)
    (hlen : s.clients.length = MAX_CLIENTS_GLOBAL) (hw : w < MAX_CLIENTS_GLOBAL)
    (hu : u.length ≤ MAX_USERNAME_LEN)
    (ht : t.clients = s.clients.set w { client_at s.clients w with username := u }) :
    login_reply t i (decide (i = w)) =
      (send t (some i) (client_at t.clients i).sockfd
        (expected_login_reply u (decide (i = w)))).1 := by
  unfold login_reply
  by_cases hiw : i = w
  · subst hiw
    have hname : (client_at t.clients i).username = u := by
      rw [ht, client_at_set_self _ _ _ (by omega)]
    rw [if_pos (by simp), hname, expected_login_reply_ok u hu]
    simp
  · rw [if_neg (by simp [hiw]), expected_login_reply_error u]
    simp [hiw]

theorem login_step_inv (s : Server) (slots : List Nat) (u : CStr)
    (hlen : s.clients.length = MAX_CLIENTS_GLOBAL) (hnodup : slots.Nodup)
    (hslots : ∀ i ∈ slots, i < MAX_CLIENTS_GLOBAL ∧ (client_at s.clients i).active = true)
    (hvalid : is_username_valid_and_unique s.clients u ≠ 0)
    (c c1 : Logins) (j : Nat) (hinv : login_inv s slots u c)
    (hs : login_step slots c u j = some c1) : login_inv s slots u c1 := by
  have hsound := username_check_sound s.clients u hvalid
  have hune : u ≠ [] := by
    intro h
    rw [h] at hsound
    simp at hsound
  unfold login_step at hs
  cases hi : slots[j]? with
  | none => rw [hi] at hs; cases hs
  | some i =>
    have himem : i ∈ slots := mem_of_getElem _ _ _ hi
    cases hp : c.pcs[j]? with
    | none => rw [hi, hp] at hs; cases hs
    | some pc =>
      rw [hi, hp] at hs
      cases pc with
      | at_lock =>
        simp only [Option.some.injEq] at hs
        rcases hinv.state with ⟨hsrv, hall⟩ | ⟨w, hw, hcl, hth⟩
        · -- the first thread to enter the critical section
          have hl : ∃ t : Server, login_locked c.server i u = (t, true) ∧ t.sent = s.sent ∧
              t.clients = s.clients.set i { client_at s.clients i with username := u } := by
            unfold login_locked
            rw [hsrv, if_pos hvalid]
            exact ⟨_, rfl, rfl, rfl⟩
          obtain ⟨t, hl, htsent, htcl⟩ := hl
          rw [hl] at hs
          subst hs
          have hnew : new_sends s t = [] := by
            unfold new_sends
            rw [htsent]
            simp
          have hsends : ∀ k, sends_to s t k = [] := by
            intro k
            unfold sends_to
            rw [hnew]
            rfl
          refine ⟨by simp [hinv.len], (by show s.sent.length ≤ t.sent.length; rw [htsent]), ?_,
            Or.inr ⟨i, himem, htcl, ?_⟩⟩
          · intro m hm
            simp only at hm
            rw [hnew] at hm
            cases hm
          · intro k i1 pc1 hk1 hk2
            by_cases hkj : k = j
            · subst hkj
              rw [hi] at hk1
              cases hk1
              have hlt : k < c.pcs.length := by
                by_contra hc
                rw [List.getElem?_eq_none (by omega)] at hp
                cases hp
              simp only at hk2
              rw [List.getElem?_set_eq_of_lt _ hlt] at hk2
              cases hk2
              right; left
              exact ⟨by simp, hsends i⟩
            · simp only at hk2
              rw [List.getElem?_set_ne (Ne.symm hkj)] at hk2
              have hpc := hall pc1 (mem_of_getElem _ _ _ hk2)
              left
              refine ⟨hpc, ?_, hsends i1⟩
              intro he
              subst he
              exact hkj (nodup_index slots hnodup k j i1 hk1 hi)
        · -- a later thread: the name is taken
          have hwlt := (hslots w hw).1
          have hl := login_locked_taken s c.server u w i hlen hwlt (hslots w hw).2 hune hcl
          rw [hl] at hs
          subst hs
          have hme := hth j i _ hi hp
          have hiw : i ≠ w := by
            rcases hme with ⟨_, h, _⟩ | ⟨h, _⟩ | ⟨h, _⟩
            · exact h
            · cases h
            · cases h
          have hsi : sends_to s c.server i = [] := by
            rcases hme with ⟨_, _, h⟩ | ⟨h, _⟩ | ⟨h, _⟩
            · exact h
            · cases h
            · cases h
          refine ⟨by simp [hinv.len], hinv.sent_le, hinv.only, Or.inr ⟨w, hw, hcl, ?_⟩⟩
          intro k i1 pc1 hk1 hk2
          by_cases hkj : k = j
          · subst hkj
            rw [hi] at hk1
            cases hk1
            have hlt : k < c.pcs.length := by
              by_contra hc
              rw [List.getElem?_eq_none (by omega)] at hp
              cases hp
            simp only at hk2
            rw [List.getElem?_set_eq_of_lt _ hlt] at hk2
            cases hk2
            right; left
            exact ⟨by simp [hiw], hsi⟩
          · simp only at hk2
            rw [List.getElem?_set_ne (Ne.symm hkj)] at hk2
            exact hth k i1 pc1 hk1 hk2
      | at_reply b =>
        simp only [Option.some.injEq] at hs
        rcases hinv.state with ⟨hsrv, hall⟩ | ⟨w, hw, hcl, hth⟩
        · have := hall _ (mem_of_getElem _ _ _ hp)
          cases this
        · have hwlt := (hslots w hw).1
          have hme := hth j i _ hi hp
          have hb : b = decide (i = w) := by
            rcases hme with ⟨h, _⟩ | ⟨h, _⟩ | ⟨h, _⟩
            · cases h
            · cases h; rfl
            · cases h
          have hsi : sends_to s c.server i = [] := by
            rcases hme with ⟨h, _⟩ | ⟨_, h⟩ | ⟨h, _⟩
            · cases h
            · exact h
            · cases h
          have hr := login_reply_expected s c.server u w i hlen hwlt hsound.2.1 hcl
          rw [hb, hr] at hs
          subst hs
          refine ⟨by simp [hinv.len], le_trans hinv.sent_le (send_sent_length _ _ _ _), ?_,
            Or.inr ⟨w, hw, by rw [send_clients]; exact hcl, ?_⟩⟩
          · intro m hm
            simp only at hm
            rw [new_sends_send _ _ _ _ _ hinv.sent_le, List.mem_append] at hm
            rcases hm with hm | hm
            · exact hinv.only m hm
            · simp only [List.mem_singleton] at hm
              subst hm
              exact ⟨i, himem, rfl⟩
          · intro k i1 pc1 hk1 hk2
            simp only at hk2 ⊢
            by_cases hkj : k = j
            · subst hkj
              rw [hi] at hk1
              cases hk1
              have hlt : k < c.pcs.length := by
                by_contra hc
                rw [List.getElem?_eq_none (by omega)] at hp
                cases hp
              rw [List.getElem?_set_eq_of_lt _ hlt] at hk2
              cases hk2
              right; right
              refine ⟨rfl, ?_⟩
              rw [sends_to_send _ _ _ _ _ _ hinv.sent_le, hsi, if_pos rfl]
              rfl
            · rw [List.getElem?_set_ne (Ne.symm hkj)] at hk2
              have hne : i ≠ i1 := by
                intro he
                subst he
                exact hkj (nodup_index slots hnodup k j i hk1 hi)
              apply thread_ok_sends _ _ _ _ _ _ _ (hth k i1 pc1 hk1 hk2)
              rw [sends_to_send _ _ _ _ _ _ hinv.sent_le, if_neg hne, List.append_nil]
      | finished b => cases hs

theorem login_run_inv (s : Server) (slots : List Nat) (u : CStr)
    (hlen : s.clients.length = MAX_CLIENTS_GLOBAL) (hnodup : slots.Nodup)
    (hslots : ∀ i ∈ slots, i < MAX_CLIENTS_GLOBAL ∧ (client_at s.clients i).active = true)
    (hvalid : is_username_valid_and_unique s.clients u ≠ 0) (schedule : List Nat) :
    ∀ c c1 : Logins, login_inv s slots u c → login_run slots c u schedule = some c1 →
      login_inv s slots u c1 := by
  induction schedule with
  | nil =>
    intro c c1 hinv hr
    cases hr
    exact hinv
  | cons j rest ih =>
    intro c c1 hinv hr
    unfold login_run at hr
    cases hs : login_step slots c u j with
    | none => rw [hs] at hr; cases hr
    | some c2 =>
      rw [hs] at hr
      exact ih c2 c1 (login_step_inv s slots u hlen hnodup hslots hvalid c c2 j hinv hs) hr

theorem login_step_enabled (slots : List Nat) (d : Logins) (u : CStr) (j : Nat)
    (hl : d.pcs.length = slots.length) (hj : j < slots.length)
    (hpc : ∀ b, d.pcs[j]? ≠ some (login_pc.finished b)) :
    (login_step slots d u j).isSome = true := by
  unfold login_step
  rw [List.getElem?_eq_getElem hj, List.getElem?_eq_getElem (by omega)]
  have h := hpc
  rw [List.getElem?_eq_getElem (by omega)] at h
  cases hp : d.pcs[j] with
  | at_lock => rfl
  | at_reply b => rfl
  | finished b => exact absurd (by rw [hp]) (h b)

theorem count_finished_one (slots : List Nat) (w : Nat) (hn : slots.Nodup) (hw : w ∈ slots) :
    (slots.map (fun i => login_pc.finished (decide (i = w)))).count (login_pc.finished true)
      = 1 := by
  rw [List.count, List.countP_map]
  have : (fun i => (login_pc.finished (decide (i = w)) == login_pc.finished true)) =
      (fun i => i == w) := by
    funext i
    by_cases h : i = w <;> simp [h]
  have h2 : ((fun x => x == login_pc.finished true) ∘
      fun i => login_pc.finished (decide (i = w))) = (fun i => i == w) := this
  rw [h2]
  have := List.count_eq_one_of_mem hn hw
  rw [List.count] at this
  exact this

/-- C21: let the sessions of the distinct active slots `slots` all attempt to log in
with the name `u`, which the check accepts in the state `s` (valid, held by no active
slot).  Every thread that has not sent its reply can make its next step.  For every
interleaving `schedule` of the steps of their threads (critical section and reply of
each thread) that brings all of them to the end of the attempt there is one slot `w`
among them whose attempt succeeds while every other attempt fails: slot `w` holds the
name `u`, no other slot is changed, the one message sent to `w` is the welcome, the one
message sent to each other slot of `slots` is the error text, and nothing else is
sent. -/
theorem concurrent_login_one_winner (s : Server) (slots : List Nat) (u : CStr)
    (schedule : List Nat) (c : Logins)
    (hlen : s.clients.length = MAX_CLIENTS_GLOBAL) (hne : slots ≠ [])
    (hnodup : slots.Nodup)
    (hslots : ∀ i ∈ slots, i < MAX_CLIENTS_GLOBAL ∧ (client_at s.clients i).active = true)
    (hvalid : is_username_valid_and_unique s.clients u ≠ 0)
    (hrun : login_run slots (login_start s slots) u schedule = some c)
    (hdone : ∀ pc ∈ c.pcs, ∃ b, pc = login_pc.finished b) :
    (∀ (d : Logins) (j : Nat), d.pcs.length = slots.length → j < slots.length →
      (∀ b, d.pcs[j]? ≠ some (login_pc.finished b)) →
      (login_step slots d u j).isSome = true) ∧
    ∃ w, w ∈ slots ∧
      c.pcs = slots.map (fun i => login_pc.finished (decide (i = w))) ∧
      c.pcs.count (login_pc.finished true) = 1 ∧
      (client_at c.server.clients w).username = u ∧
      (∀ i, i ≠ w → client_at c.server.clients i = client_at s.clients i) ∧
      (∀ i ∈ slots, sends_to s c.server i =
        [(some i, expected_login_reply u (decide (i = w)))]) ∧
      (∀ m ∈ new_sends s c.server, ∃ i ∈ slots, m.1 = some i) := by
  refine ⟨fun d j hl hj hpc => login_step_enabled slots d u j hl hj hpc, ?_⟩
  have hinv := login_run_inv s slots u hlen hnodup hslots hvalid schedule _ c
    (login_inv_start s slots u) hrun
  have hpos : 0 < slots.length := List.length_pos.mpr hne
  rcases hinv.state with ⟨_, hall⟩ | ⟨w, hw, hcl, hth⟩
  · exfalso
    have h0 : 0 < c.pcs.length := by rw [hinv.len]; exact hpos
    have hm : c.pcs[0] ∈ c.pcs := List.getElem_mem h0
    obtain ⟨b, hb⟩ := hdone _ hm
    have := hall _ hm
    rw [hb] at this
    cases this
  · have hfin : ∀ (j i : Nat) (pc : login_pc), slots[j]? = some i → c.pcs[j]? = some pc →
        pc = login_pc.finished (decide (i = w)) ∧
          sends_to s c.server i = [(some i, expected_login_reply u (decide (i = w)))] := by
      intro j i pc hj hp
      obtain ⟨b, hb⟩ := hdone pc (mem_of_getElem _ _ _ hp)
      rcases hth j i pc hj hp with ⟨h, _⟩ | ⟨h, _⟩ | h
      · rw [hb] at h; cases h
      · rw [hb] at h; cases h
      · exact h
    have hpcs : c.pcs = slots.map (fun i => login_pc.finished (decide (i = w))) := by
      apply List.ext_getElem?
      intro j
      by_cases hj : j < slots.length
      · rw [List.getElem?_map, List.getElem?_eq_getElem hj]
        have hj2 : j < c.pcs.length := by rw [hinv.len]; exact hj
        rw [List.getElem?_eq_getElem hj2]
        have := (hfin j slots[j] c.pcs[j] (List.getElem?_eq_getElem hj)
          (List.getElem?_eq_getElem hj2)).1
        rw [this]
        rfl
      · rw [List.getElem?_eq_none (by rw [hinv.len]; omega), List.getElem?_map,
          List.getElem?_eq_none (by omega)]
        rfl
    have hwlt := (hslots w hw).1
    refine ⟨w, hw, hpcs, ?_, ?_, ?_, ?_, hinv.only⟩
    · rw [hpcs]
      exact count_finished_one slots w hnodup hw
    · rw [hcl, client_at_set_self _ _ _ (by omega)]
    · intro i hi
      rw [hcl, client_at_set_ne _ _ _ _ (Ne.symm hi)]
    · intro i hi
      obtain ⟨j, hj, hji⟩ := List.getElem_of_mem hi
      have hj2 : j < c.pcs.length := by rw [hinv.len]; exact hj
      have hji2 : slots[j]? = some i := by rw [List.getElem?_eq_getElem hj, hji]
      exact (hfin j i c.pcs[j] hji2 (List.getElem?_eq_getElem hj2)).2

/-- The theorem at two fresh connections (slots 0 and 1) that both send the name "A",
with the interleaving in which the thread of slot 1 passes the critical section first,
then the thread of slot 0 passes it and replies, then the thread of slot 1 replies:
slot 1 gets the name and the welcome, slot 0 the error text. -/
theorem concurrent_login_one_winner_witness :
    login_run [0, 1] (login_start demo_two_connections [0, 1]) "A".toList [1, 0, 0, 1] =
      some demo_login_race ∧
    demo_login_race.pcs = [login_pc.finished false, login_pc.finished true] ∧
    new_sends demo_two_connections demo_login_race.server =
      [(some 0,
        "ERROR:Username invalid (max 16 chars, alphanumeric) or already taken.".toList),
       (some 1, "OK:Welcome, A!".toList)] ∧
    (client_at demo_login_race.server.clients 0).username = [] ∧
    ∃ w, w ∈ [0, 1] ∧
      demo_login_race.pcs = [0, 1].map (fun i => login_pc.finished (decide (i = w))) ∧
      (client_at demo_login_race.server.clients w).username = "A".toList :=
  ⟨by decide, by decide, by decide, by decide,
    match (concurrent_login_one_winner demo_two_connections [0, 1] "A".toList [1, 0, 0, 1]
      demo_login_race (by decide) (by decide) (by decide) (by decide) (by decide)
      (by decide) (by decide)).2 with
    | ⟨w, hw, hp, _, hu, _⟩ => ⟨w, hw, hp, hu⟩⟩

/-! ## The whole server: session steps and the shutdown loop of `main` -/

theorem tables_live.no_member {clients : List client_t} {rooms : List room_t}
    (h : tables_live clients rooms) (i : Nat)
    (hroom : (client_at clients i).current_room_name = []) (a : Nat) (ra : room_t)
    (ha : rooms[a]? = some ra) : ∀ m ∈ ra.member_client_indices, m ≠ (i : Int) := by
  intro m hm e
  subst e
  have hne : (i : Int) ≠ -1 := by omega
  have h1 := (h.member a ra ha _ hm hne).1
  simp only [Int.toNat_ofNat] at h1
  rw [hroom] at h1
  have hact := (h.room a ra ha).active_of_mem _ hm hne
  exact (room_name_valid_length _ ((h.room a ra ha).name_valid hact)).1 h1.symm

theorem tables_live_leave (clients : List client_t) (rooms : List room_t)
    (h : tables_live clients rooms) (i a j : Nat) (ra : room_t) (hi : i < MAX_CLIENTS_GLOBAL)
    (ha : rooms[a]? = some ra) (hact : ra.active = true)
    (hname : ra.name = (client_at clients i).current_room_name)
    (hj : ra.member_client_indices[j]? = some (i : Int)) :
    tables_live
      (clients.set i { client_at clients i with current_room_name := [] })
      (rooms.set a
        { name := if ra.num_users - 1 = 0 then [] else ra.name,
          member_client_indices := ra.member_client_indices.set j (-1),
          num_users := ra.num_users - 1,
          active := if ra.num_users - 1 = 0 then false else true }) := by
  have hicl : i < clients.length := by rw [h.clen]; exact hi
  have hok' := room_ok_remove ra (h.room a ra ha) hact j i hj
  have hraok := h.room a ra ha
  -- an occupied entry of the new member array is an old entry other than `i`
  have hmem' : ∀ m ∈ ra.member_client_indices.set j (-1), m ≠ -1 →
      m ∈ ra.member_client_indices ∧ m ≠ (i : Int) := by
    intro m hm hne
    obtain ⟨x, hx⟩ := getElem_of_mem _ _ hm
    rcases getElem_set_cases _ _ _ _ _ hx with ⟨_, e⟩ | ⟨nx, hx1⟩
    · exact absurd e hne
    · refine ⟨mem_of_getElem _ _ _ hx1, ?_⟩
      intro e
      subst e
      exact nx (hraok.nodup x j _ hx1 hj hne)
  have hcl : ∀ k, k ≠ i →
      client_at (clients.set i { client_at clients i with current_room_name := [] }) k =
        client_at clients k := fun k hk => client_at_set_ne _ _ _ _ (Ne.symm hk)
  have hcli : client_at (clients.set i { client_at clients i with current_room_name := [] }) i =
      { client_at clients i with current_room_name := [] } := client_at_set_self _ _ _ hicl
  constructor
  · simp [h.clen]
  · simp [h.rlen]
  · intro b rb hb
    rcases getElem_set_cases _ _ _ _ _ hb with ⟨_, e⟩ | ⟨_, hb1⟩
    · rw [e]; exact hok'
    · exact h.room b rb hb1
  · intro b c rb rc hb hc hab hac hbc
    rcases getElem_set_cases _ _ _ _ _ hb with ⟨eb, e⟩ | ⟨nb, hb1⟩ <;>
      rcases getElem_set_cases _ _ _ _ _ hc with ⟨ec, e2⟩ | ⟨nc, hc1⟩
    · rw [eb, ec]
    · exfalso
      apply nc
      rw [e] at hab hbc
      simp only at hab hbc
      split at hab
      · cases hab
      · rename_i hz
        rw [if_neg hz] at hbc
        exact (h.uniq a c ra rc ha hc1 hact hac hbc).symm
    · exfalso
      apply nb
      rw [e2] at hac hbc
      simp only at hac hbc
      split at hac
      · cases hac
      · rename_i hz
        rw [if_neg hz] at hbc
        exact (h.uniq a b ra rb ha hb1 hact hab hbc.symm).symm
    · exact h.uniq b c rb rc hb1 hc1 hab hac hbc
  · intro b rb hb m hm hne
    rcases getElem_set_cases _ _ _ _ _ hb with ⟨_, e⟩ | ⟨nb, hb1⟩
    · rw [e] at hm
      simp only at hm
      obtain ⟨hm1, hmi⟩ := hmem' m hm hne
      have hr := hraok.range m hm1 hne
      rw [hcl _ (toNat_ne_of_ne m i hr.1 hmi)]
      have hold := h.member a ra ha m hm1 hne
      have hact' := hok'.active_of_mem m hm hne
      simp only at hact'
      rw [e]
      simp only
      split at hact'
      · cases hact'
      · rename_i hz
        rw [if_neg hz]
        exact hold
    · have hmi : m ≠ (i : Int) := by
        intro e
        subst e
        have hold := h.member b rb hb1 _ hm hne
        simp only [Int.toNat_ofNat] at hold
        have hbact := (h.room b rb hb1).active_of_mem _ hm hne
        exact nb (h.uniq b a rb ra hb1 ha hbact hact (by rw [hname, hold.1]))
      have hr := (h.room b rb hb1).range m hm hne
      rw [hcl _ (toNat_ne_of_ne m i hr.1 hmi)]
      exact h.member b rb hb1 m hm hne
  · intro k hk hkroom
    have hki : k ≠ i := by
      intro e
      subst e
      rw [hcli] at hkroom
      exact hkroom rfl
    rw [hcl k hki] at hkroom ⊢
    obtain ⟨b, rb, hb, hbact, hbname, hkm⟩ := h.in_room k hk hkroom
    by_cases hba : b = a
    · subst hba
      have e : rb = ra := by rw [ha] at hb; exact (Option.some.inj hb).symm
      subst e
      have hal : b < rooms.length := by
        rw [List.getElem?_eq_some] at ha; exact ha.1
      obtain ⟨x, hx⟩ := getElem_of_mem _ _ hkm
      have hxj : x ≠ j := by
        intro e
        subst e
        rw [hj] at hx
        have := Option.some.inj hx
        omega
      have hkm' : (k : Int) ∈ rb.member_client_indices.set j (-1) :=
        mem_of_getElem _ x _ (by rw [List.getElem?_set_ne (Ne.symm hxj)]; exact hx)
      have hact' := hok'.active_of_mem _ hkm' (by omega)
      simp only at hact'
      refine ⟨b, _, List.getElem?_set_eq_of_lt _ hal, hact', ?_, hkm'⟩
      simp only
      split at hact'
      · cases hact'
      · rename_i hz
        rw [if_neg hz]
        exact hbname
    · exact ⟨b, rb, by rw [List.getElem?_set_ne (Ne.symm hba)]; exact hb, hbact, hbname, hkm⟩
  · intro x y hx hy hxa hya hxn hxy
    have e1 : ∀ k, (client_at (clients.set i
        { client_at clients i with current_room_name := [] }) k).username =
        (client_at clients k).username := by
      intro k
      by_cases hk : k = i
      · subst hk; rw [hcli]
      · rw [hcl k hk]
    have e2 : ∀ k, (client_at (clients.set i
        { client_at clients i with current_room_name := [] }) k).active =
        (client_at clients k).active := by
      intro k
      by_cases hk : k = i
      · subst hk; rw [hcli]
      · rw [hcl k hk]
    rw [e1] at hxn
    rw [e1, e1] at hxy
    rw [e2] at hxa hya
    exact h.names x y hx hy hxa hya hxn hxy
  · intro k hk hka
    by_cases hki : k = i
    · subst hki
      rw [hcli] at hka ⊢
      exact ⟨(h.idle k hk hka).1, rfl⟩
    · rw [hcl k hki] at hka ⊢
      exact h.idle k hk hka
  · intro k hk
    by_cases hki : k = i
    · subst hki
      rw [hcli]
      exact h.ulen k hk
    · rw [hcl k hki]
      exact h.ulen k hk

theorem tables_live_join (clients : List client_t) (rooms : List room_t)
    (h : tables_live clients rooms) (i a slot : Nat) (ra : room_t) (n : CStr)
    (hi : i < MAX_CLIENTS_GLOBAL) (hiact : (client_at clients i).active = true)
    (hroom : (client_at clients i).current_room_name = [])
    (ha : rooms[a]? = some ra) (hn : is_room_name_valid n = 1)
    (hcase : (ra.active = true ∧ ra.name = n) ∨
      (ra.active = false ∧ ∀ (b : Nat) (rb : room_t), rooms[b]? = some rb →
        rb.active = true → rb.name ≠ n))
    (hslot : ra.member_client_indices[slot]? = some (-1)) :
    tables_live
      (clients.set i { client_at clients i with current_room_name := n })
      (rooms.set a
        { name := n,
          member_client_indices := ra.member_client_indices.set slot (i : Int),
          num_users := ra.num_users + 1,
          active := true }) := by
  have hicl : i < clients.length := by rw [h.clen]; exact hi
  have hal : a < rooms.length := by
    rw [List.getElem?_eq_some] at ha; exact ha.1
  have hraok := h.room a ra ha
  have hfresh := h.no_member i hroom
  have hok' := room_ok_add ra hraok slot i n hslot (hfresh a ra ha) hi hn
  have hcl : ∀ k, k ≠ i →
      client_at (clients.set i { client_at clients i with current_room_name := n }) k =
        client_at clients k := fun k hk => client_at_set_ne _ _ _ _ (Ne.symm hk)
  have hcli : client_at (clients.set i { client_at clients i with current_room_name := n }) i =
      { client_at clients i with current_room_name := n } := client_at_set_self _ _ _ hicl
  have hmem' : ∀ m ∈ ra.member_client_indices.set slot (i : Int),
      m = (i : Int) ∨ (m ∈ ra.member_client_indices) := by
    intro m hm
    rcases List.mem_or_eq_of_mem_set hm with hm1 | e
    · exact Or.inr hm1
    · exact Or.inl e
  constructor
  · simp [h.clen]
  · simp [h.rlen]
  · intro b rb hb
    rcases getElem_set_cases _ _ _ _ _ hb with ⟨_, e⟩ | ⟨_, hb1⟩
    · rw [e]; exact hok'
    · exact h.room b rb hb1
  · intro b c rb rc hb hc hab hac hbc
    rcases getElem_set_cases _ _ _ _ _ hb with ⟨eb, e⟩ | ⟨nb, hb1⟩ <;>
      rcases getElem_set_cases _ _ _ _ _ hc with ⟨ec, e2⟩ | ⟨nc, hc1⟩
    · rw [eb, ec]
    · exfalso
      rw [e] at hbc
      simp only at hbc
      rcases hcase with ⟨h1, h2⟩ | ⟨_, h2⟩
      · exact nc (h.uniq a c ra rc ha hc1 h1 hac (by rw [h2, hbc])).symm
      · exact h2 c rc hc1 hac hbc.symm
    · exfalso
      rw [e2] at hbc
      simp only at hbc
      rcases hcase with ⟨h1, h2⟩ | ⟨_, h2⟩
      · exact nb (h.uniq a b ra rb ha hb1 h1 hab (by rw [h2, hbc])).symm
      · exact h2 b rb hb1 hab hbc
    · exact h.uniq b c rb rc hb1 hc1 hab hac hbc
  · intro b rb hb m hm hne
    rcases getElem_set_cases _ _ _ _ _ hb with ⟨_, e⟩ | ⟨nb, hb1⟩
    · rw [e] at hm ⊢
      simp only at hm ⊢
      rcases hmem' m hm with e1 | hm1
      · subst e1
        simp only [Int.toNat_ofNat]
        rw [hcli]
        exact ⟨rfl, hiact⟩
      · have hmi := hfresh a ra ha m hm1
        have hr := hraok.range m hm1 hne
        rw [hcl _ (toNat_ne_of_ne m i hr.1 hmi)]
        have hold := h.member a ra ha m hm1 hne
        rcases hcase with ⟨_, h2⟩ | ⟨h1, _⟩
        · rw [← h2]; exact hold
        · exact absurd (hraok.free_of_inactive h1 m hm1) hne
    · have hmi := hfresh b rb hb1 m hm
      have hr := (h.room b rb hb1).range m hm hne
      rw [hcl _ (toNat_ne_of_ne m i hr.1 hmi)]
      exact h.member b rb hb1 m hm hne
  · intro k hk hkroom
    by_cases hki : k = i
    · subst hki
      rw [hcli]
      exact ⟨a, _, List.getElem?_set_eq_of_lt _ hal, rfl, rfl,
        mem_of_getElem _ slot _ (List.getElem?_set_eq_of_lt _ (by
          rw [List.getElem?_eq_some] at hslot; exact hslot.1))⟩
    · rw [hcl k hki] at hkroom ⊢
      obtain ⟨b, rb, hb, hbact, hbname, hkm⟩ := h.in_room k hk hkroom
      by_cases hba : b = a
      · subst hba
        have e : rb = ra := by rw [ha] at hb; exact (Option.some.inj hb).symm
        subst e
        obtain ⟨x, hx⟩ := getElem_of_mem _ _ hkm
        have hxs : x ≠ slot := by
          intro e
          subst e
          rw [hslot] at hx
          have := Option.some.inj hx
          omega
        refine ⟨b, _, List.getElem?_set_eq_of_lt _ hal, rfl, ?_,
          mem_of_getElem _ x _ (by rw [List.getElem?_set_ne (Ne.symm hxs)]; exact hx)⟩
        simp only
        rcases hcase with ⟨_, h2⟩ | ⟨h1, _⟩
        · rw [← h2]; exact hbname
        · rw [h1] at hbact; cases hbact
      · exact ⟨b, rb, by rw [List.getElem?_set_ne (Ne.symm hba)]; exact hb, hbact, hbname, hkm⟩
  · intro x y hx hy hxa hya hxn hxy
    have e1 : ∀ k, (client_at (clients.set i
        { client_at clients i with current_room_name := n }) k).username =
        (client_at clients k).username := by
      intro k
      by_cases hk : k = i
      · subst hk; rw [hcli]
      · rw [hcl k hk]
    have e2 : ∀ k, (client_at (clients.set i
        { client_at clients i with current_room_name := n }) k).active =
        (client_at clients k).active := by
      intro k
      by_cases hk : k = i
      · subst hk; rw [hcli]
      · rw [hcl k hk]
    rw [e1] at hxn
    rw [e1, e1] at hxy
    rw [e2] at hxa hya
    exact h.names x y hx hy hxa hya hxn hxy
  · intro k hk hka
    by_cases hki : k = i
    · subst hki
      rw [hcli] at hka
      simp only at hka
      rw [hiact] at hka
      cases hka
    · rw [hcl k hki] at hka ⊢
      exact h.idle k hk hka
  · intro k hk
    by_cases hki : k = i
    · subst hki
      rw [hcli]
      exact h.ulen k hk
    · rw [hcl k hki]
      exact h.ulen k hk

/-- A write to slot `i` that keeps `current_room_name` keeps the tables consistent when
the new username is empty, unchanged on an active slot, or used by no other active
slot, and when the slot stays active unless it is in no room. -/
theorem tables_live_set_client (clients : List client_t) (rooms : List room_t)
    (h : tables_live clients rooms) (i : Nat) (c : client_t) (hi : i < MAX_CLIENTS_GLOBAL)
    (hroom : c.current_room_name = (client_at clients i).current_room_name)
    (hidle : c.active = false → c.username = [] ∧ c.current_room_name = [])
    (hstay : c.active = true ∨ (client_at clients i).current_room_name = [])
    (hlen : c.username.length ≤ MAX_USERNAME_LEN)
    (huniq : c.username = [] ∨
      (c.username = (client_at clients i).username ∧ (client_at clients i).active = true) ∨
      (∀ j, j < MAX_CLIENTS_GLOBAL → j ≠ i → (client_at clients j).active = true →
        (client_at clients j).username ≠ c.username)) :
    tables_live (clients.set i c) rooms := by
  have hicl : i < clients.length := by rw [h.clen]; exact hi
  have hcl : ∀ k, k ≠ i → client_at (clients.set i c) k = client_at clients k :=
    fun k hk => client_at_set_ne _ _ _ _ (Ne.symm hk)
  have hcli : client_at (clients.set i c) i = c := client_at_set_self _ _ _ hicl
  constructor
  · simp [h.clen]
  · exact h.rlen
  · exact h.room
  · exact h.uniq
  · intro b rb hb m hm hne
    have hold := h.member b rb hb m hm hne
    by_cases hmi : m.toNat = i
    · rw [hmi] at hold ⊢
      rw [hcli, hroom]
      refine ⟨hold.1, ?_⟩
      rcases hstay with h1 | h1
      · exact h1
      · exfalso
        have hr := (h.room b rb hb).range m hm hne
        have : m = (i : Int) := by omega
        exact h.no_member i h1 b rb hb m hm this
    · rw [hcl _ hmi]; exact hold
  · intro k hk hkroom
    by_cases hki : k = i
    · subst hki
      rw [hcli, hroom] at hkroom ⊢
      exact h.in_room k hk hkroom
    · rw [hcl k hki] at hkroom ⊢
      exact h.in_room k hk hkroom
  · intro x y hx hy hxa hya hxn hxy
    by_cases hxi : x = i <;> by_cases hyi : y = i
    · rw [hxi, hyi]
    · subst hxi
      rw [hcli] at hxa hxn hxy
      rw [hcl y hyi] at hya hxy
      rcases huniq with h1 | ⟨h1, h2⟩ | h1
      · exact absurd h1 hxn
      · rw [h1] at hxn hxy
        exact h.names x y hx hy h2 hya hxn hxy
      · exact absurd hxy.symm (h1 y hy hyi hya)
    · subst hyi
      rw [hcli] at hya hxy
      rw [hcl x hxi] at hxa hxn hxy
      rcases huniq with h1 | ⟨h1, h2⟩ | h1
      · rw [h1] at hxy; exact absurd hxy hxn
      · rw [h1] at hxy
        exact h.names x y hx hy hxa h2 hxn hxy
      · exact absurd hxy (h1 x hx hxi hxa)
    · rw [hcl x hxi] at hxa hxn hxy
      rw [hcl y hyi] at hya hxy
      exact h.names x y hx hy hxa hya hxn hxy
  · intro k hk hka
    by_cases hki : k = i
    · subst hki
      rw [hcli] at hka ⊢
      exact hidle hka
    · rw [hcl k hki] at hka ⊢
      exact h.idle k hk hka
  · intro k hk
    by_cases hki : k = i
    · subst hki
      rw [hcli]
      exact hlen
    · rw [hcl k hki]
      exact h.ulen k hk

theorem find_room_of_in_room_live (clients : List client_t) (rooms : List room_t)
    (h : tables_live clients rooms) (i : Nat) (hi : i < MAX_CLIENTS_GLOBAL)
    (hroom : (client_at clients i).current_room_name ≠ []) :
    ∃ (a j : Nat) (ra : room_t),
      find_room_idx_by_name rooms (client_at clients i).current_room_name = some a ∧
      rooms[a]? = some ra ∧ ra.active = true ∧
      ra.name = (client_at clients i).current_room_name ∧
      firstIdx (fun m => m == (i : Int)) ra.member_client_indices = some j ∧
      ra.member_client_indices[j]? = some (i : Int) := by
  obtain ⟨b, rb, hb, hbact, hbname, hmem⟩ := h.in_room i hi hroom
  obtain ⟨a, ha⟩ := firstIdx_of_mem (fun r => r.active && r.name ==
    (client_at clients i).current_room_name) rooms rb (mem_of_getElem _ _ _ hb)
    (by simp [hbact, hbname])
  obtain ⟨ra, hra, hp, _⟩ := firstIdx_some _ _ _ ha
  simp at hp
  have hab : a = b := h.uniq a b ra rb hra hb hp.1 hbact (by rw [hp.2, hbname])
  subst hab
  have e : ra = rb := by rw [hb] at hra; exact (Option.some.inj hra).symm
  subst e
  obtain ⟨j, hj⟩ := firstIdx_of_mem (fun m => m == (i : Int)) _ _ hmem (by simp)
  obtain ⟨m, hm, hpm, _⟩ := firstIdx_some _ _ _ hj
  simp at hpm
  subst hpm
  exact ⟨a, j, ra, ha, hra, hp.1, hp.2, hj, hm⟩

theorem tables_live.name_take {clients : List client_t} {rooms : List room_t}
    (h : tables_live clients rooms) (i : Nat) (hi : i < MAX_CLIENTS_GLOBAL) :
    (client_at clients i).current_room_name.take MAX_ROOM_NAME_LEN =
      (client_at clients i).current_room_name := by
  by_cases hroom : (client_at clients i).current_room_name = []
  · rw [hroom]; rfl
  · obtain ⟨a, ra, ha, hact, hname, _⟩ := h.in_room i hi hroom
    rw [← hname]
    exact room_name_valid_take _ ((h.room a ra ha).name_valid hact)

theorem handle_leave_room_live (s : Server) (i : Nat) (notify : Bool)
    (h : tables_live s.clients s.rooms) (hi : i < MAX_CLIENTS_GLOBAL) :
    tables_live (handle_leave_room s i notify).clients (handle_leave_room s i notify).rooms ∧
    (handle_leave_room s i notify).clients =
      s.clients.set i { client_at s.clients i with current_room_name := [] } ∧
    (handle_leave_room s i notify).upload_queue = s.upload_queue ∧
    (handle_leave_room s i notify).server_running = s.server_running := by
  have hicl : i < s.clients.length := by rw [h.clen]; exact hi
  by_cases hroom : (client_at s.clients i).current_room_name = []
  · have hself : s.clients.set i { client_at s.clients i with current_room_name := [] } =
        s.clients := by
      have e : ({ client_at s.clients i with current_room_name := [] } : client_t) =
          client_at s.clients i := by
        cases hc : client_at s.clients i
        rw [hc] at hroom
        simp only at hroom
        simp [hroom]
      rw [e]
      apply List.ext_getElem?
      intro k
      by_cases hk : i = k
      · subst hk
        rw [List.getElem?_set_eq_of_lt _ hicl, getElem_client_at _ _ hicl]
      · rw [List.getElem?_set_ne hk]
    unfold handle_leave_room
    simp only [hroom, if_true]
    rw [hself]
    cases notify <;> simp [h]
  · obtain ⟨a, j, ra, hfind, hra, hact, hname, hj, hjm⟩ :=
      find_room_of_in_room_live _ _ h i hi hroom
    have hal : a < s.rooms.length := by
      rw [List.getElem?_eq_some] at hra; exact hra.1
    have htake := h.name_take i hi
    have hrm : room_remove_member ra i =
        ({ ra with member_client_indices := ra.member_client_indices.set j (-1),
                   num_users := ra.num_users - 1 }, true) := by
      unfold room_remove_member
      rw [hj]
    have key := tables_live_leave _ _ h i a j ra hi hra hact hname hjm
    unfold handle_leave_room
    simp only [hroom, if_false, htake, hfind, room_at_of_getElem _ _ _ hra, hrm, if_true,
      fan_out_clients, fan_out_rooms, fan_out_upload_queue, fan_out_server_running]
    cases notify <;>
      simp only [if_true, if_false, send_clients, send_rooms, send_upload_queue,
        send_server_running, room_at_set_self _ _ _ hal, hact, and_true, true_and,
        Bool.false_eq_true, List.set_set]
    all_goals
      by_cases hz : ra.num_users - 1 = 0
      all_goals
        simp only [hz, if_true, if_false, hname, and_self] at key ⊢
        simp only [set_current_room_name, room_deactivate, List.take_nil]
        first | exact ⟨key, trivial, trivial⟩ | exact ⟨key, trivial⟩ | exact key | exact ⟨key, rfl, rfl, rfl⟩

theorem join_enter_live (s0 : Server) (rooms1 : List room_t) (i a : Nat) (n : CStr)
    (created : Bool) (ra : room_t) (h : tables_live s0.clients s0.rooms)
    (hi : i < MAX_CLIENTS_GLOBAL) (hiact : (client_at s0.clients i).active = true)
    (hroom : (client_at s0.clients i).current_room_name = [])
    (hn : is_room_name_valid n = 1) (hra : s0.rooms[a]? = some ra)
    (hcase : (created = false ∧ rooms1 = s0.rooms ∧ ra.active = true ∧ ra.name = n) ∨
      (created = true ∧
        rooms1 = s0.rooms.set a
          { name := n.take MAX_ROOM_NAME_LEN,
            member_client_indices := List.replicate MAX_ROOM_USERS (-1),
            num_users := 0, active := true } ∧
        ra.active = false ∧
        ∀ (b : Nat) (rb : room_t), s0.rooms[b]? = some rb → rb.active = true → rb.name ≠ n)) :
    tables_live (join_enter { s0 with rooms := rooms1 } i n a created).clients
      (join_enter { s0 with rooms := rooms1 } i n a created).rooms ∧
    (join_enter { s0 with rooms := rooms1 } i n a created).upload_queue = s0.upload_queue ∧
    (join_enter { s0 with rooms := rooms1 } i n a created).server_running =
      s0.server_running := by
  have hal : a < s0.rooms.length := by
    rw [List.getElem?_eq_some] at hra; exact hra.1
  have hraok := h.room a ra hra
  have hntake := room_name_valid_take n hn
  rcases hcase with ⟨hc, hr1, hact, hname⟩ | ⟨hc, hr1, hinact, hnone⟩
  · subst hc hr1
    unfold join_enter
    simp only [room_at_of_getElem _ _ _ hra]
    by_cases hfull : ra.num_users ≥ (MAX_ROOM_USERS : Int)
    · simp only [hfull, if_true, Bool.false_eq_true, if_false, send_clients, send_rooms,
        send_upload_queue, send_server_running]
      exact ⟨h, trivial, trivial⟩
    · simp only [hfull, if_false]
      obtain ⟨slot, hslot⟩ := hraok.free_slot (by omega)
      obtain ⟨m, hm, hpm, _⟩ := firstIdx_some _ _ _ hslot
      simp at hpm
      subst hpm
      have key := tables_live_join _ _ h i a slot ra n hi hiact hroom hra hn
        (Or.inl ⟨hact, hname⟩) hm
      simp only [hslot, send_clients, send_rooms, send_upload_queue, send_server_running,
        fan_out_clients, fan_out_rooms, fan_out_upload_queue, fan_out_server_running,
        set_current_room_name, hname, hntake, hact]
      exact ⟨key, trivial, trivial⟩
  · subst hc hr1
    obtain ⟨hmem, hnum⟩ := hraok.members_of_inactive hinact
    have hslot0 : ra.member_client_indices[0]? = some (-1) := by
      rw [hmem]; rfl
    have key := tables_live_join _ _ h i a 0 ra n hi hiact hroom hra hn
      (Or.inr ⟨hinact, hnone⟩) hslot0
    rw [hmem, hnum] at key
    have hfirst : firstIdx (fun m => m == -1) (List.replicate MAX_ROOM_USERS (-1 : Int)) =
        some 0 := by decide
    unfold join_enter
    simp only [room_at_set_self _ _ _ hal, hntake]
    have hnf : ¬ ((0 : Int) ≥ (MAX_ROOM_USERS : Int)) := by decide
    simp only [hnf, if_false, hfirst, send_clients, send_rooms, send_upload_queue,
      send_server_running, fan_out_clients, fan_out_rooms, fan_out_upload_queue,
      fan_out_server_running, set_current_room_name, hntake, List.set_set]
    exact ⟨key, trivial, trivial⟩

theorem handle_join_room_live (s : Server) (i : Nat) (n : CStr)
    (h : tables_live s.clients s.rooms) (hi : i < MAX_CLIENTS_GLOBAL)
    (hiact : (client_at s.clients i).active = true) :
    tables_live (handle_join_room s i n).clients (handle_join_room s i n).rooms ∧
    (handle_join_room s i n).upload_queue = s.upload_queue ∧
    (handle_join_room s i n).server_running = s.server_running := by
  have hicl : i < s.clients.length := by rw [h.clen]; exact hi
  unfold handle_join_room
  by_cases hv : is_room_name_valid n = 0
  · simp only [hv, if_true, send_clients, send_rooms, send_upload_queue, send_server_running]
    exact ⟨h, trivial, trivial⟩
  · have hn : is_room_name_valid n = 1 := by
      unfold is_room_name_valid at hv ⊢
      split
      · rename_i hc; rw [if_pos hc] at hv; exact absurd rfl hv
      · rename_i hc
        rw [if_neg hc] at hv
        split
        · rename_i hc2; rw [if_pos hc2] at hv; exact absurd rfl hv
        · rfl
    simp only [hv, if_false]
    by_cases hal : (client_at s.clients i).current_room_name ≠ [] ∧
        (client_at s.clients i).current_room_name = n
    · rw [if_pos hal]
      simp only [send_clients, send_rooms, send_upload_queue, send_server_running]
      exact ⟨h, trivial, trivial⟩
    · rw [if_neg hal]
      have hs0 : ∃ s0, (if (client_at s.clients i).current_room_name ≠ [] then
            handle_leave_room s i false else s) = s0 ∧
          tables_live s0.clients s0.rooms ∧ (client_at s0.clients i).active = true ∧
          (client_at s0.clients i).current_room_name = [] ∧
          s0.upload_queue = s.upload_queue ∧ s0.server_running = s.server_running := by
        by_cases hroom : (client_at s.clients i).current_room_name ≠ []
        · rw [if_pos hroom]
          obtain ⟨h1, h2, h3, h4⟩ := handle_leave_room_live s i false h hi
          refine ⟨_, rfl, h1, ?_, ?_, h3, h4⟩
          · rw [h2, client_at_set_self _ _ _ hicl]; exact hiact
          · rw [h2, client_at_set_self _ _ _ hicl]
        · rw [if_neg hroom]
          exact ⟨s, rfl, h, hiact, not_not.mp hroom, rfl, rfl⟩
      obtain ⟨s0, e0, h0, hact0, hroom0, hq0, hr0⟩ := hs0
      simp only [e0]
      cases hl : join_locate s0.rooms n with
      | none =>
        simp only [send_clients, send_rooms, send_upload_queue, send_server_running]
        exact ⟨h0, hq0, hr0⟩
      | some res =>
        obtain ⟨rooms1, a, created⟩ := res
        obtain ⟨ra, hra, hcase⟩ := join_locate_cases _ _ _ _ _ hl
        obtain ⟨k1, k2, k3⟩ := join_enter_live s0 rooms1 i a n created ra h0 hi hact0 hroom0
          hn hra hcase
        simp only
        exact ⟨k1, k2.trans hq0, k3.trans hr0⟩

theorem cleanup_client_live (s : Server) (i : Nat) (h : tables_live s.clients s.rooms) :
    tables_live (cleanup_client s i).clients (cleanup_client s i).rooms ∧
    (cleanup_client s i).upload_queue = s.upload_queue ∧
    (cleanup_client s i).server_running = s.server_running := by
  unfold cleanup_client
  by_cases hi : i ≥ MAX_CLIENTS_GLOBAL
  · rw [if_pos hi]; exact ⟨h, rfl, rfl⟩
  · rw [if_neg hi]
    have hi' : i < MAX_CLIENTS_GLOBAL := by omega
    have hicl : i < s.clients.length := by rw [h.clen]; exact hi'
    have hs1 : ∃ s1, (if ((client_at s.clients i).active &&
          (client_at s.clients i).current_room_name != []) = true then
          handle_leave_room s i false else s) = s1 ∧
        tables_live s1.clients s1.rooms ∧
        ((client_at s1.clients i).active = true →
          (client_at s1.clients i).current_room_name = []) ∧
        s1.upload_queue = s.upload_queue ∧ s1.server_running = s.server_running := by
      by_cases hc : ((client_at s.clients i).active &&
          (client_at s.clients i).current_room_name != []) = true
      · rw [if_pos hc]
        obtain ⟨h1, h2, h3, h4⟩ := handle_leave_room_live s i false h hi'
        refine ⟨_, rfl, h1, ?_, h3, h4⟩
        intro _
        rw [h2, client_at_set_self _ _ _ hicl]
      · rw [if_neg hc]
        refine ⟨s, rfl, h, ?_, rfl, rfl⟩
        intro ha
        simp [ha] at hc
        exact hc
    obtain ⟨s1, e1, h1, hroom1, hq1, hr1⟩ := hs1
    simp only [e1]
    by_cases ha : (client_at s1.clients i).active = true
    · rw [if_pos ha]
      simp only
      refine ⟨?_, hq1, hr1⟩
      apply tables_live_set_client _ _ h1 i _ hi'
      · exact (hroom1 ha).symm
      · intro _; exact ⟨rfl, rfl⟩
      · exact Or.inr (hroom1 ha)
      · simp
      · exact Or.inl rfl
    · rw [if_neg ha]
      exact ⟨h1, hq1, hr1⟩

theorem session_exit_live (s : Server) (i : Nat) (h : tables_live s.clients s.rooms) :
    tables_live (session_exit s i).clients (session_exit s i).rooms := by
  unfold session_exit
  by_cases hr : s.server_running = false
  · simp only [hr, if_true]
    exact (cleanup_client_live _ i (by simpa using h)).1
  · simp only [hr, if_false]
    exact (cleanup_client_live _ i h).1

theorem accept_connection_live (s : Server) (fd : Int) (ip : CStr) (created : Bool)
    (h : tables_live s.clients s.rooms) :
    tables_live (accept_connection s fd ip created).clients
      (accept_connection s fd ip created).rooms := by
  unfold accept_connection
  cases hf : find_free_client_slot s.clients with
  | none => simpa using h
  | some f =>
    obtain ⟨c, hc, hp, _⟩ := firstIdx_some _ _ _ hf
    simp at hp
    have hfl : f < s.clients.length := by
      rw [List.getElem?_eq_some] at hc; exact hc.1
    have hf50 : f < MAX_CLIENTS_GLOBAL := by rw [← h.clen]; exact hfl
    have hcf : client_at s.clients f = c := client_at_of_getElem _ _ _ hc
    have hinact : (client_at s.clients f).active = false := by rw [hcf]; exact hp
    have hidle := h.idle f hf50 hinact
    cases created
    · simp only [Bool.false_eq_true, if_false]
      apply tables_live_set_client _ _ h f _ hf50
      · rfl
      · intro _; exact hidle
      · exact Or.inr hidle.2
      · exact h.ulen f hf50
      · exact Or.inl hidle.1
    · simp only [if_true]
      apply tables_live_set_client _ _ h f _ hf50
      · rfl
      · intro hh; cases hh
      · exact Or.inl rfl
      · exact h.ulen f hf50
      · exact Or.inl hidle.1

theorem login_attempt_live (s : Server) (i : Nat) (data : List Char)
    (h : tables_live s.clients s.rooms) (hi : i < MAX_CLIENTS_GLOBAL)
    (hact : (client_at s.clients i).active = true) :
    tables_live (login_attempt s i data).1.clients (login_attempt s i data).1.rooms := by
  unfold login_attempt
  by_cases hv : is_username_valid_and_unique s.clients (cut_crlf (c_str data)) ≠ 0
  · rw [if_pos hv]
    simp only [send_clients, send_rooms]
    obtain ⟨_, hl2, huniq⟩ := username_check_sound _ _ hv
    apply tables_live_set_client _ _ h i _ hi
    · rfl
    · intro hh; simp only at hh; rw [hact] at hh; cases hh
    · exact Or.inl hact
    · exact hl2
    · right; right
      intro j hj hji hja hju
      have hjl : j < s.clients.length := by rw [h.clen]; exact hj
      have hmem : client_at s.clients j ∈ s.clients :=
        mem_of_getElem _ j _ (getElem_client_at _ _ hjl)
      exact huniq _ hmem hja hju
  · rw [if_neg hv]
    simpa using h

theorem handle_broadcast_message_frame_live (s : Server) (i : Nat) (message : CStr)
    (h : tables_live s.clients s.rooms) (hi : i < MAX_CLIENTS_GLOBAL) :
    (handle_broadcast_message s i message).clients = s.clients ∧
    (handle_broadcast_message s i message).rooms = s.rooms := by
  unfold handle_broadcast_message
  dsimp only
  by_cases hroom : (client_at s.clients i).current_room_name = []
  · rw [if_pos hroom]; simp
  · rw [if_neg hroom]
    by_cases hm : message.length = 0
    · rw [if_pos hm]; simp
    · rw [if_neg hm]
      obtain ⟨a, j, ra, hfind, _⟩ := find_room_of_in_room_live _ _ h i hi hroom
      rw [hfind]
      simp

theorem dispatch_live (s : Server) (i : Nat) (buffer : CStr) (now : Int) (t : Server)
    (ex : Bool) (h : tables_live s.clients s.rooms) (hi : i < MAX_CLIENTS_GLOBAL)
    (hact : (client_at s.clients i).active = true)
    (hd : dispatch s i buffer now = some (t, ex)) : tables_live t.clients t.rooms := by
  unfold dispatch at hd
  split_ifs at hd
  · cases hd; exact (handle_join_room_live s i _ h hi hact).1
  · cases hd; exact (handle_leave_room_live s i true h hi).1
  · cases hd
    obtain ⟨h1, h2⟩ := handle_broadcast_message_frame_live s i
      ((buffer.drop 11).dropWhile (fun c => c == Char.ofNat 32)) h hi
    rw [h1, h2]; exact h
  · cases hd
    obtain ⟨h1, h2⟩ := dispatch_whisper_frame s i (buffer.drop 9)
    rw [h1, h2]; exact h
  · cases hs : handle_sendfile_command s i
        ((buffer.drop 10).dropWhile (fun c => c == Char.ofNat 32)) now with
    | none => rw [hs] at hd; cases hd
    | some t1 =>
      rw [hs] at hd
      cases hd
      obtain ⟨h1, h2⟩ := handle_sendfile_command_frame _ _ _ _ _ hs
      rw [h1, h2]; exact h
  · cases hd
    obtain ⟨h1, h2⟩ := handle_status_frame s i
    rw [h1, h2]; exact h
  · cases hd; simpa using h
  · cases hd; simpa using h
  · cases hd; simpa using h

theorem session_step_live (s t : Server) (h : tables_live s.clients s.rooms)
    (hs : SessionStep s t) : tables_live t.clients t.rooms := by
  cases hs with
  | accept fd ip created hfd => exact accept_connection_live s fd ip created h
  | login i data hi hact => exact login_attempt_live s i data h hi hact
  | command i buffer now _ hi hact _ hd => exact dispatch_live s i buffer now t false h hi hact hd
  | exit i buffer now t1 hi hact _ hd =>
    exact session_exit_live t1 i (dispatch_live s i buffer now t1 true h hi hact hd)
  | cleanup i => exact session_exit_live s i h
  | shutdown => exact h

theorem has_name_unique_live (clients : List client_t) (rooms : List room_t)
    (h : tables_live clients rooms) (j k : Nat) (name : CStr) (hj : has_name clients j name)
    (hk : has_name clients k name) : j = k :=
  h.names j k hj.1 hk.1 hj.2.1 hk.2.1 (by rw [hj.2.2.2]; exact hj.2.2.1)
    (hj.2.2.2.trans hk.2.2.2.symm)

theorem find_target_none_live (clients : List client_t) (rooms : List room_t)
    (h : tables_live clients rooms) (name : CStr) (hf : find_target_idx clients name = none) :
    ∀ j, ¬ has_name clients j name := by
  intro j hj
  have hjl : j < clients.length := by rw [h.clen]; exact hj.1
  have hmem : client_at clients j ∈ clients :=
    mem_of_getElem _ _ _ (getElem_client_at clients j hjl)
  have := firstIdx_none _ _ hf _ hmem
  simp [hj.2.1, hj.2.2.2] at this

theorem find_target_some_live (clients : List client_t) (rooms : List room_t)
    (h : tables_live clients rooms) (name : CStr) (hn : name ≠ []) (k : Nat)
    (hf : find_target_idx clients name = some k) : has_name clients k name := by
  obtain ⟨x, hx, hp, -⟩ := firstIdx_some _ _ _ hf
  have hkl : k < clients.length := by
    by_contra hge
    rw [List.getElem?_eq_none_iff.mpr (by omega)] at hx
    cases hx
  have hc := client_at_of_getElem _ _ _ hx
  simp only [Bool.and_eq_true, beq_iff_eq] at hp
  refine ⟨by rw [← h.clen]; exact hkl, ?_, hn, ?_⟩
  · rw [hc]; exact hp.1
  · rw [hc]; exact hp.2

theorem username_length_le_live (clients : List client_t) (rooms : List room_t)
    (h : tables_live clients rooms) (i : Nat) :
    (client_at clients i).username.length ≤ MAX_USERNAME_LEN := by
  by_cases hi : i < MAX_CLIENTS_GLOBAL
  · exact h.ulen i hi
  · have : clients[i]? = none := by
      rw [List.getElem?_eq_none_iff, h.clen]; omega
    simp [client_at, this, zero_client]

theorem tables_ok.to_live {clients : List client_t} {rooms : List room_t}
    (h : tables_ok clients rooms) : tables_live clients rooms :=
  ⟨h.clen, h.rlen, h.room, h.uniq, h.member, h.in_room, h.names, h.idle, h.ulen⟩

theorem shutdown_close_live (s : Server) (i : Nat) (h : tables_live s.clients s.rooms)
    (hi : i < MAX_CLIENTS_GLOBAL) :
    tables_live (shutdown_close s i).clients (shutdown_close s i).rooms := by
  unfold shutdown_close
  dsimp only
  by_cases hc : (client_at s.clients i).active = true ∧ (client_at s.clients i).sockfd ≠ -1
  · rw [if_pos hc]
    simp only [send_clients, send_rooms]
    apply tables_live_set_client _ _ h i _ hi
    · rfl
    · intro hh
      simp only at hh
      rw [hc.1] at hh
      cases hh
    · exact Or.inl hc.1
    · exact h.ulen i hi
    · right; left
      exact ⟨rfl, hc.1⟩
  · rw [if_neg hc]
    exact h

theorem server_step_live (s t : Server) (h : tables_live s.clients s.rooms)
    (hs : ServerStep s t) : tables_live t.clients t.rooms := by
  cases hs with
  | session _ hs1 => exact session_step_live s t h hs1
  | close i _ hi => exact shutdown_close_live s i h hi

theorem server_reachable_live (s : Server) (h : ServerReachable s) :
    tables_live s.clients s.rooms := by
  induction h with
  | init net => exact tables_ok_initial.to_live
  | step s t _ hs ih => exact server_step_live s t ih hs

theorem server_reachable_of_reachable (s : Server) (h : Reachable s) : ServerReachable s := by
  induction h with
  | init net => exact ServerReachable.init net
  | step s t _ hs ih => exact ServerReachable.step s t ih (ServerStep.session s t hs)

theorem server_reachable_closed (s : Server) (h : Reachable s) (i : Nat)
    (hi : i < MAX_CLIENTS_GLOBAL) :
    ServerReachable (shutdown_close { s with server_running := false } i) :=
  ServerReachable.step _ _
    (ServerReachable.step _ _ (server_reachable_of_reachable s h)
      (ServerStep.session _ _ (SessionStep.shutdown s)))
    (ServerStep.close _ i rfl hi)

theorem demo_lobby_three_reachable : Reachable demo_lobby_three := by
  unfold demo_lobby_three
  exact Reachable.step _ _ (Reachable.step _ _ (Reachable.step _ _ demo_lobby_two_reachable
    (SessionStep.accept _ 6 "10.0.0.3".toList true (by decide)))
    (SessionStep.login (accept_connection demo_lobby_two 6 "10.0.0.3".toList true) 2
      "C\n".toList (by decide) (by decide)))
    (SessionStep.command
      (login_attempt (accept_connection demo_lobby_two 6 "10.0.0.3".toList true) 2
        "C\n".toList).1 2 "/join lobby".toList 0 _ (by decide) (by decide) (by decide)
      (by rfl))

theorem demo_lobby_closed_reachable : ServerReachable demo_lobby_closed :=
  server_reachable_closed demo_lobby_two demo_lobby_two_reachable 0 (by decide)

theorem demo_lobby_three_closed_reachable : ServerReachable demo_lobby_three_closed :=
  server_reachable_closed demo_lobby_three demo_lobby_three_reachable 0 (by decide)

/-- C6, counterexample: in `demo_lobby_closed`, a state reached by the steps of the
server, "A" (slot 0) and "B" (slot 1) are the members of the room "lobby", both slots
are active, and the shutdown loop of `main` has closed the socket of slot 0.  The
broadcast of "hi" by "B", whose command line was received before the server stopped,
makes one send only, the reply to "B": no send to the other member "A" is attempted. -/
theorem broadcast_skips_closed_socket :
    ServerReachable demo_lobby_closed ∧
    (client_at demo_lobby_closed.clients 1).current_room_name = "lobby".toList ∧
    find_room_idx_by_name demo_lobby_closed.rooms "lobby".toList = some 0 ∧
    (room_at demo_lobby_closed.rooms 0).member_client_indices.filter
      (fun m => m != -1 && m != 1) = [0] ∧
    (client_at demo_lobby_closed.clients 0).active = true ∧
    (client_at demo_lobby_closed.clients 0).current_room_name = "lobby".toList ∧
    (client_at demo_lobby_closed.clients 0).sockfd = -1 ∧
    new_sends demo_lobby_closed (handle_broadcast_message demo_lobby_closed 1 "hi".toList) =
      [(some 1, "OK:Message broadcast to 0 other user(s) in 'lobby'.".toList)] :=
  ⟨demo_lobby_closed_reachable, by decide, by decide, by decide, by decide, by decide,
    by decide, by decide⟩

/-- C6, amended: in every state reachable by the steps of the server, the turns of the
shutdown loop of `main` included, and whatever outcomes `net` the network gives to the
sends, a broadcast of a non-empty text by a session that is in a room sends the text
"[room] sender: text" once to each other member of that room whose socket is not closed
(`sockfd` other than -1), in the order of the member entries, never to the slot of the
sender, and then sends the sender one reply, which begins "OK:".  The other members are
all active sessions.  In a state reached without a turn of the shutdown loop no socket
of a member is closed and the text is sent to every other member. -/
theorem broadcast_fan_out (s : Server) (h : ServerReachable s) (net : List Bool) (i : Nat)
    (message : CStr) (hi : i < MAX_CLIENTS_GLOBAL)
    (hroom : (client_at s.clients i).current_room_name ≠ []) (hmsg : message ≠ [])
    (hlen : message.length ≤ MAX_MSG_LEN - 1) :
    ∃ (a : Nat) (ra : room_t) (reply : CStr),
      find_room_idx_by_name s.rooms (client_at s.clients i).current_room_name = some a ∧
      s.rooms[a]? = some ra ∧ (i : Int) ∈ ra.member_client_indices ∧
      begins_with "OK:".toList reply ∧
      (∀ m ∈ ra.member_client_indices.filter (fun m => m != -1 && m != (i : Int)),
        m.toNat ≠ i ∧ (client_at s.clients m.toNat).active = true) ∧
      new_sends { s with net := net } (handle_broadcast_message { s with net := net } i message) =
        (ra.member_client_indices.filter (fun m => (m != -1 && m != (i : Int)) &&
            decide ((client_at s.clients m.toNat).sockfd ≠ -1))).map
          (fun m => (some m.toNat,
            "[".toList ++ ra.name ++ "] ".toList ++ (client_at s.clients i).username ++
              ": ".toList ++ message)) ++ [(some i, reply)] ∧
      (Reachable s →
        new_sends { s with net := net }
            (handle_broadcast_message { s with net := net } i message) =
          (ra.member_client_indices.filter (fun m => m != -1 && m != (i : Int))).map
            (fun m => (some m.toNat,
              "[".toList ++ ra.name ++ "] ".toList ++ (client_at s.clients i).username ++
                ": ".toList ++ message)) ++ [(some i, reply)]) := by
  have ht := server_reachable_live s h
  obtain ⟨a, j, ra, hfind, hra, hact, hname, _, hjm⟩ :=
    find_room_of_in_room_live _ _ ht i hi hroom
  have hraok := ht.room a ra hra
  have hml : message.length ≠ 0 := by
    intro e; exact hmsg (List.length_eq_zero.mp e)
  have hnl := (room_name_valid_length _ (hraok.name_valid hact)).2
  have hul := ht.ulen i hi
  have htext : snprintf (MAX_MSG_LEN + MAX_USERNAME_LEN + MAX_ROOM_NAME_LEN + 50)
      ("[".toList ++ ra.name ++ "] ".toList ++ (client_at s.clients i).username ++
        ": ".toList ++ message) =
      "[".toList ++ ra.name ++ "] ".toList ++ (client_at s.clients i).username ++
        ": ".toList ++ message := by
    apply snprintf_of_length_le
    simp only [List.length_append]
    have e1 : "[".toList.length = 1 := rfl
    have e2 : "] ".toList.length = 2 := rfl
    have e3 : ": ".toList.length = 2 := rfl
    rw [e1, e2, e3]
    simp only [MAX_MSG_LEN, MAX_USERNAME_LEN, MAX_ROOM_NAME_LEN] at hlen hnl hul ⊢
    omega
  have hfilter : ra.member_client_indices.filter (fun m => (m != -1 && m != (i : Int)) &&
        (client_at s.clients m.toNat).active &&
        decide ((client_at s.clients m.toNat).sockfd ≠ -1)) =
      ra.member_client_indices.filter (fun m => (m != -1 && m != (i : Int)) &&
        decide ((client_at s.clients m.toNat).sockfd ≠ -1)) := by
    apply List.filter_congr
    intro m hm
    by_cases hsel : (m != -1 && m != (i : Int)) = true
    · have hne : m ≠ -1 := by
        simp at hsel; exact hsel.1
      have hma := (ht.member a ra hra m hm hne).2
      simp [hsel, hma]
    · simp [hsel]
  have hnot : ∀ m ∈ ra.member_client_indices.filter (fun m => m != -1 && m != (i : Int)),
      m.toNat ≠ i ∧ (client_at s.clients m.toNat).active = true := by
    intro m hm
    rw [List.mem_filter] at hm
    obtain ⟨hm1, hsel⟩ := hm
    simp at hsel
    have hr := hraok.range m hm1 hsel.1
    exact ⟨toNat_ne_of_ne m i hr.1 hsel.2, (ht.member a ra hra m hm1 hsel.1).2⟩
  have hsends : ∃ reply, begins_with "OK:".toList reply ∧
      sends_after { s with net := net } (handle_broadcast_message { s with net := net } i message)
        ((ra.member_client_indices.filter (fun m => (m != -1 && m != (i : Int)) &&
            decide ((client_at s.clients m.toNat).sockfd ≠ -1))).map
          (fun m => (some m.toNat,
            "[".toList ++ ra.name ++ "] ".toList ++ (client_at s.clients i).username ++
              ": ".toList ++ message)) ++ [(some i, reply)]) := by
    have h1 := fan_out_sends (fun m => m != -1 && m != (i : Int))
      ("[".toList ++ ra.name ++ "] ".toList ++ (client_at s.clients i).username ++
        ": ".toList ++ message) ra.member_client_indices { s with net := net }
    dsimp only at h1
    rw [hfilter] at h1
    unfold handle_broadcast_message
    simp only [hroom, if_false, hml, hfind, room_at_of_getElem _ _ _ hra, htext,
      fan_out_rooms, fan_out_clients]
    refine ⟨broadcast_response_msg ra.name ra.num_users
      (fan_out (fun m => m != -1 && m != (i : Int))
        ("[".toList ++ ra.name ++ "] ".toList ++ (client_at s.clients i).username ++
          ": ".toList ++ message) { s with net := net } ra.member_client_indices).2, ?_, ?_⟩
    · unfold broadcast_response_msg
      split_ifs
      · simp only [List.append_assoc]
        exact begins_with_snprintf _ _ _ (by decide)
      · simp only [List.append_assoc]
        exact begins_with_snprintf _ _ _ (by decide)
    · exact sends_after_trans _ _ _ _ _ h1 (sends_after_send _ _ _ _)
  obtain ⟨reply, hreply, hs⟩ := hsends
  have hnew := new_sends_of_sends_after _ _ _ hs
  refine ⟨a, ra, reply, hfind, hra, mem_of_getElem _ _ _ hjm, hreply, hnot, hnew, ?_⟩
  intro hreach
  have hok := reachable_tables s hreach
  have hall : ra.member_client_indices.filter (fun m => (m != -1 && m != (i : Int)) &&
        decide ((client_at s.clients m.toNat).sockfd ≠ -1)) =
      ra.member_client_indices.filter (fun m => m != -1 && m != (i : Int)) := by
    apply List.filter_congr
    intro m hm
    by_cases hsel : (m != -1 && m != (i : Int)) = true
    · have hne : m ≠ -1 := by
        simp at hsel; exact hsel.1
      have hma := (ht.member a ra hra m hm hne).2
      have hr := hraok.range m hm hne
      have hsk := hok.sock m.toNat (by omega) hma
      have hfd : (client_at s.clients m.toNat).sockfd ≠ -1 := by omega
      simp [hsel, hfd]
    · simp [hsel]
  rw [hnew, hall]

/-- The theorem at `demo_lobby_three_closed`: "A", "B" and "C" are in the room "lobby"
and the shutdown loop has closed the socket of "A"; the broadcast of "hi" by "B" is
sent to "C" only, then "B" gets its reply. -/
theorem broadcast_fan_out_witness :
    new_sends { demo_lobby_three_closed with net := [] }
        (handle_broadcast_message { demo_lobby_three_closed with net := [] } 1 "hi".toList) =
      [(some 2, "[lobby] B: hi".toList),
       (some 1, "OK:Message broadcast to 1 other user(s) in 'lobby'.".toList)] ∧
    ∃ (a : Nat) (ra : room_t) (reply : CStr),
      find_room_idx_by_name demo_lobby_three_closed.rooms
        (client_at demo_lobby_three_closed.clients 1).current_room_name = some a ∧
      demo_lobby_three_closed.rooms[a]? = some ra ∧
      ((1 : Nat) : Int) ∈ ra.member_client_indices ∧
      begins_with "OK:".toList reply ∧
      (∀ m ∈ ra.member_client_indices.filter (fun m => m != -1 && m != ((1 : Nat) : Int)),
        m.toNat ≠ 1 ∧ (client_at demo_lobby_three_closed.clients m.toNat).active = true) ∧
      new_sends { demo_lobby_three_closed with net := [] }
          (handle_broadcast_message { demo_lobby_three_closed with net := [] } 1
            "hi".toList) =
        (ra.member_client_indices.filter (fun m => (m != -1 && m != ((1 : Nat) : Int)) &&
            decide ((client_at demo_lobby_three_closed.clients m.toNat).sockfd ≠ -1))).map
          (fun m => (some m.toNat,
            "[".toList ++ ra.name ++ "] ".toList ++
              (client_at demo_lobby_three_closed.clients 1).username ++ ": ".toList ++
              "hi".toList)) ++ [(some 1, reply)] ∧
      (Reachable demo_lobby_three_closed →
        new_sends { demo_lobby_three_closed with net := [] }
            (handle_broadcast_message { demo_lobby_three_closed with net := [] } 1
              "hi".toList) =
          (ra.member_client_indices.filter (fun m => m != -1 && m != ((1 : Nat) : Int))).map
            (fun m => (some m.toNat,
              "[".toList ++ ra.name ++ "] ".toList ++
                (client_at demo_lobby_three_closed.clients 1).username ++ ": ".toList ++
                "hi".toList)) ++ [(some 1, reply)]) :=
  ⟨by decide,
   broadcast_fan_out demo_lobby_three_closed demo_lobby_three_closed_reachable [] 1
    "hi".toList (by decide) (by decide) (by decide) (by decide)⟩

/-- The three outcomes of `handle_whisper_message` in a consistent state: one refusal
sent to the caller; the refusal "no longer connected" when the socket of the named
session is closed; or the whisper sent to the named session followed by the reply. -/
theorem handle_whisper_message_live_cases (s : Server) (h : tables_live s.clients s.rooms)
    (i : Nat) (target message : CStr) (hlen : message.length ≤ MAX_MSG_LEN - 1) :
    ((message = [] ∨ (∀ j, ¬ has_name s.clients j target) ∨ has_name s.clients i target) ∧
      ∃ rest, handle_whisper_message s i target message =
        (send s (some i) (client_at s.clients i).sockfd
          (snprintf MAX_MSG_LEN (SERVER_RESPONSE_ERROR ++ rest))).1) ∨
    (message ≠ [] ∧ ∃ j, has_name s.clients j target ∧ j ≠ i ∧
      (client_at s.clients j).sockfd = -1 ∧
      handle_whisper_message s i target message =
        (send s (some i) (client_at s.clients i).sockfd
          (snprintf MAX_MSG_LEN (SERVER_RESPONSE_ERROR ++ "User '".toList ++ target ++
            "' is no longer connected.".toList))).1) ∨
    (message ≠ [] ∧ ∃ j, has_name s.clients j target ∧ j ≠ i ∧
      (client_at s.clients j).sockfd ≠ -1 ∧
      ∃ reply, handle_whisper_message s i target message =
        (send (send s (some j) (client_at s.clients j).sockfd
            ("[WHISPER from ".toList ++ (client_at s.clients i).username ++ "]: ".toList ++
              message)).1
          (some i) (client_at s.clients i).sockfd reply).1 ∧
        (s.net.headD true = true → begins_with "OK:".toList reply) ∧
        (s.net.headD true = false → begins_with "ERROR:".toList reply)) := by
  unfold handle_whisper_message
  dsimp only
  by_cases h1 : target.length = 0
  · rw [if_pos h1]
    have ht : target = [] := List.length_eq_zero.mp h1
    exact Or.inl ⟨Or.inr (Or.inl (fun j hj => hj.2.2.1 ht)), _, rfl⟩
  rw [if_neg h1]
  have htn : target ≠ [] := fun e => h1 (by rw [e]; rfl)
  by_cases h2 : message.length = 0
  · rw [if_pos h2]
    exact Or.inl ⟨Or.inl (List.length_eq_zero.mp h2), _, rfl⟩
  rw [if_neg h2]
  have hmn : message ≠ [] := fun e => h2 (by rw [e]; rfl)
  cases hft : find_target_idx s.clients target with
  | none =>
    simp only [List.append_assoc]
    exact Or.inl ⟨Or.inr (Or.inl (find_target_none_live _ _ h _ hft)), _, rfl⟩
  | some j =>
    have hj := find_target_some_live _ _ h _ htn _ hft
    simp only
    by_cases h3 : j = i
    · rw [if_pos h3]
      exact Or.inl ⟨Or.inr (Or.inr (h3 ▸ hj)), _, rfl⟩
    rw [if_neg h3, if_pos hj.2.1]
    by_cases h4 : (client_at s.clients j).sockfd ≠ -1
    · rw [if_pos h4]
      have hul := username_length_le_live _ _ h i
      have hw : snprintf (MAX_MSG_LEN + MAX_USERNAME_LEN + 20)
          ("[WHISPER from ".toList ++ (client_at s.clients i).username ++ "]: ".toList ++
            message) =
          "[WHISPER from ".toList ++ (client_at s.clients i).username ++ "]: ".toList ++
            message := by
        apply snprintf_of_length_le
        simp only [List.length_append]
        have e1 : "[WHISPER from ".toList.length = 14 := rfl
        have e2 : "]: ".toList.length = 3 := rfl
        rw [e1, e2]
        simp only [MAX_MSG_LEN, MAX_USERNAME_LEN] at hlen hul ⊢
        omega
      rw [hw]
      refine Or.inr (Or.inr ⟨hmn, j, hj, h3, h4, ?_⟩)
      have hpos : (0 : Int) < (("[WHISPER from ".toList ++ (client_at s.clients i).username ++
          "]: ".toList ++ message).length : Int) := by
        simp only [List.length_append]
        have e1 : "[WHISPER from ".toList.length = 14 := rfl
        rw [e1]
        push_cast
        omega
      cases hb : s.net.headD true with
      | true =>
        rw [if_pos (by rw [send_result, hb, if_pos rfl]; exact hpos)]
        refine ⟨snprintf MAX_MSG_LEN (SERVER_RESPONSE_OK ++ "Whisper sent to '".toList ++
          target ++ "'.".toList), ?_, fun _ => ?_, fun hc => by cases hc⟩
        · rw [send_clients]
        · simp only [List.append_assoc]
          exact begins_with_ok _
      | false =>
        rw [if_neg (by rw [send_result, hb, if_neg (by decide)]; decide)]
        refine ⟨snprintf MAX_MSG_LEN (SERVER_RESPONSE_ERROR ++
          "Failed to deliver whisper to '".toList ++ target ++ "'.".toList), ?_,
          fun hc => (by cases hc), fun _ => ?_⟩
        · rw [send_clients]
        · simp only [List.append_assoc]
          exact begins_with_error _
    · rw [if_neg h4]
      exact Or.inr (Or.inl ⟨hmn, j, hj, h3, not_not.mp h4, by simp only [List.append_assoc]⟩)

theorem demo_two_closed_reachable : ServerReachable demo_two_closed :=
  server_reachable_closed demo_two_sessions demo_two_sessions_reachable 0 (by decide)

/-- C13, counterexample: in `demo_two_closed`, a state reached by the steps of the
server, "A" (slot 0) and "B" (slot 1) are logged in, both slots are active, and the
shutdown loop of `main` has closed the socket of slot 0.  The whisper "psst" of "B" to
"A" is not empty, an active session has the target name and it is not the sender, yet
nothing is sent to "A" and the one reply to "B" is an error. -/
theorem whisper_to_closed_socket :
    ServerReachable demo_two_closed ∧
    has_name demo_two_closed.clients 0 "A".toList ∧
    ¬ has_name demo_two_closed.clients 1 "A".toList ∧
    (client_at demo_two_closed.clients 0).sockfd = -1 ∧
    new_sends demo_two_closed
        (handle_whisper_message demo_two_closed 1 "A".toList "psst".toList) =
      [(some 1, "ERROR:User 'A' is no longer connected.".toList)] :=
  ⟨demo_two_closed_reachable, by decide, by decide, by decide, by decide⟩

/-- C13, amended: in every state reachable by the steps of the server, the turns of the
shutdown loop of `main` included, for every caller `i`, target name and message that
fits the receive buffer, `handle_whisper_message` sends exactly one reply to the caller.
When the message is empty, or no active session is logged in under the target name, or
the caller itself is, that reply is the only send and begins "ERROR:".  In every other
case there is one session `j` that has the target name: when its socket is closed
(`sockfd = -1`) the only send is the reply "ERROR:User '<name>' is no longer connected."
to the caller; when it is not, there are exactly two sends, first the text
"[WHISPER from <caller>]: <message>" to `j`, then the reply to the caller, which begins
"OK:" when the first send succeeded and "ERROR:" when it failed.  In a state reached
without a turn of the shutdown loop the socket of a session that has a name is never
closed. -/
theorem whisper_delivery (s : Server) (hs : ServerReachable s) (i : Nat)
    (target message : CStr) (hlen : message.length ≤ MAX_MSG_LEN - 1) :
    ((message = [] ∨ (∀ j, ¬ has_name s.clients j target) ∨ has_name s.clients i target) →
      ∃ reply : Sent, (handle_whisper_message s i target message).sent = s.sent ++ [reply] ∧
        reply.to_idx = some i ∧ begins_with "ERROR:".toList reply.text) ∧
    (¬ (message = [] ∨ (∀ j, ¬ has_name s.clients j target) ∨ has_name s.clients i target) →
      ∃ j : Nat, has_name s.clients j target ∧ j ≠ i ∧
        ((client_at s.clients j).sockfd = -1 →
          ∃ reply : Sent,
            (handle_whisper_message s i target message).sent = s.sent ++ [reply] ∧
            reply.to_idx = some i ∧ reply.sockfd = (client_at s.clients i).sockfd ∧
            reply.text = snprintf MAX_MSG_LEN ("ERROR:User '".toList ++ target ++
              "' is no longer connected.".toList)) ∧
        ((client_at s.clients j).sockfd ≠ -1 →
          ∃ whisper reply : Sent,
            (handle_whisper_message s i target message).sent = s.sent ++ [whisper, reply] ∧
            whisper.to_idx = some j ∧ whisper.sockfd = (client_at s.clients j).sockfd ∧
            whisper.text = "[WHISPER from ".toList ++ (client_at s.clients i).username ++
              "]: ".toList ++ message ∧
            reply.to_idx = some i ∧ reply.sockfd = (client_at s.clients i).sockfd ∧
            (whisper.ok = true → begins_with "OK:".toList reply.text) ∧
            (whisper.ok = false → begins_with "ERROR:".toList reply.text))) ∧
    (Reachable s → ∀ j, has_name s.clients j target → (client_at s.clients j).sockfd ≠ -1) := by
  have h := server_reachable_live s hs
  have hlast : Reachable s → ∀ j, has_name s.clients j target →
      (client_at s.clients j).sockfd ≠ -1 := by
    intro hr j hj
    have := (reachable_tables s hr).sock j hj.1 hj.2.1
    omega
  have hexcl : ∀ j, has_name s.clients j target → j ≠ i → message ≠ [] →
      ¬ (message = [] ∨ (∀ j, ¬ has_name s.clients j target) ∨ has_name s.clients i target) := by
    intro j hj hji hmn hc
    rcases hc with hc | hc | hc
    · exact hmn hc
    · exact hc j hj
    · exact hji (has_name_unique_live _ _ h _ _ _ hj hc)
  rcases handle_whisper_message_live_cases s h i target message hlen with
    ⟨hc, rest, e⟩ | ⟨hmn, j, hj, hji, hfd, e⟩ | ⟨hmn, j, hj, hji, hfd, reply, e, hok, herr⟩
  · refine ⟨fun _ => ?_, fun hn => absurd hc hn, hlast⟩
    rw [e]
    exact ⟨_, send_sent _ _ _ _, rfl, begins_with_error _⟩
  · refine ⟨fun hc => absurd hc (hexcl j hj hji hmn), fun _ => ?_, hlast⟩
    refine ⟨j, hj, hji, fun _ => ?_, fun hn => absurd hfd hn⟩
    rw [e]
    exact ⟨_, send_sent _ _ _ _, rfl, rfl, rfl⟩
  · refine ⟨fun hc => absurd hc (hexcl j hj hji hmn), fun _ => ?_, hlast⟩
    refine ⟨j, hj, hji, fun hn => absurd hn hfd, fun _ => ?_⟩
    rw [e]
    refine ⟨
        { to_idx := some j, sockfd := (client_at s.clients j).sockfd,
          text := "[WHISPER from ".toList ++ (client_at s.clients i).username ++
            "]: ".toList ++ message, ok := s.net.headD true },
        { to_idx := some i, sockfd := (client_at s.clients i).sockfd, text := reply,
          ok := (send s (some j) (client_at s.clients j).sockfd
            ("[WHISPER from ".toList ++ (client_at s.clients i).username ++
              "]: ".toList ++ message)).1.net.headD true },
        ?_, rfl, rfl, rfl, rfl, rfl, hok, herr⟩
    rw [send_sent, send_sent, List.append_assoc]
    rfl

/-- The theorem at `demo_two_closed`, where the shutdown loop has closed the socket of
"A": the whisper "psst" of "A" to "B" is sent to "B" and acknowledged, and the whisper
of "B" to "A" gets the reply "no longer connected". -/
theorem whisper_delivery_witness :
    "psst".toList.length ≤ MAX_MSG_LEN - 1 ∧
    new_sends demo_two_closed
        (handle_whisper_message demo_two_closed 0 "B".toList "psst".toList) =
      [(some 1, "[WHISPER from A]: psst".toList), (some 0, "OK:Whisper sent to 'B'.".toList)] ∧
    ∃ j : Nat, has_name demo_two_closed.clients j "A".toList ∧ j ≠ 1 ∧
      ((client_at demo_two_closed.clients j).sockfd = -1 →
        ∃ reply : Sent,
          (handle_whisper_message demo_two_closed 1 "A".toList "psst".toList).sent =
            demo_two_closed.sent ++ [reply] ∧
          reply.to_idx = some 1 ∧ reply.sockfd = (client_at demo_two_closed.clients 1).sockfd ∧
          reply.text = snprintf MAX_MSG_LEN ("ERROR:User '".toList ++ "A".toList ++
            "' is no longer connected.".toList)) ∧
      ((client_at demo_two_closed.clients j).sockfd ≠ -1 →
        ∃ whisper reply : Sent,
          (handle_whisper_message demo_two_closed 1 "A".toList "psst".toList).sent =
            demo_two_closed.sent ++ [whisper, reply] ∧
          whisper.to_idx = some j ∧
          whisper.sockfd = (client_at demo_two_closed.clients j).sockfd ∧
          whisper.text = "[WHISPER from ".toList ++
            (client_at demo_two_closed.clients 1).username ++ "]: ".toList ++ "psst".toList ∧
          reply.to_idx = some 1 ∧ reply.sockfd = (client_at demo_two_closed.clients 1).sockfd ∧
          (whisper.ok = true → begins_with "OK:".toList reply.text) ∧
          (whisper.ok = false → begins_with "ERROR:".toList reply.text)) :=
  ⟨by decide, by decide,
    (whisper_delivery demo_two_closed demo_two_closed_reachable 1 "A".toList
      "psst".toList (by decide)).2.1
      (fun hc => hc.elim (fun e => absurd e (by decide))
        (fun hc => hc.elim
          (fun e => e 0 ⟨by decide, by decide, by decide, by decide⟩)
          (fun e => absurd e.2.2.2 (by decide))))⟩

end ChatServer
